import Mathlib

/-!
# exabgp_exporter: the JSON event decoder and the text RIB decoder

A shallow embedding of `pkg/exabgp/events.go` (package `exabgp`):
`GetStatus`, `GetStatusReason`, `safeUnmarshal`, `ParseEvent`,
`makeAnnouncements` and `parseUpdateMessage`, and of
`pkg/exabgp/messages/text/rib.go` (package `text`): `parseRIBLine`,
`RibEntryFromString`, `Family`, `parseAttributes`, `parseUnicastLine`, the
projections `IPv4Unicast`, `IPv6Unicast`, `IPv4Flow`, `IPv6Flow` and
`RibFromBytes`, and of the loop over the RIB entries of
`StandaloneExporter.Collect` in `pkg/exporter/standalone_exporter.go`,
followed by the theorems that relate them to the specification.

Conventions of the embedding.

* A Go slice is a `List`; a nil slice and an empty slice are both `[]`.
* A Go `map[string]V` is the list of its entries in the order in which a
  `range` loop visits them (`GoMap`); Go leaves that order unspecified, so
  a theorem about a map holds for every order.  A Go map has no repeated
  key (`mapWF`).
* A pointer that may be nil is an `Option`; a pointer that is written
  through (`ra.IPV4Unicast[nexthop].NLRI = ...`) is modelled by reading the
  pointee, updating it and storing it back under the same key.
* The package variable `lastStatus` is passed in and out explicitly.
* `json.Unmarshal` belongs to the Go standard library; it is a parameter of
  `safeUnmarshal` and `ParseEvent`.
* The `sync.RWMutex` of `Event` is not modelled (single-threaded semantics).
* A Go string is a `String` (a sequence of characters); a pattern of package
  `regexp` is its syntax tree, searched by backtracking.
* A function that can panic (an index out of range) returns an `Option`,
  `none` being the panic.
* Of the Go standard library, `strconv.ParseInt`, `strconv.Itoa`,
  `strings.Split`, `strings.Join` and the line reader
  `bufio.Reader.ReadLine` are modelled as far as the code uses them; in a
  buffer one character stands for one byte.
-/

namespace exabgp

/-! ## Go values -/

/-- One byte of a `[]byte`. -/
abbrev Byte := Nat

/-- A Go `map[string]V`: its entries, in `range` order. -/
abbrev GoMap (V : Type) := List (String × V)

/-- The keys of a map, in `range` order. -/
def mapKeys {V : Type} (m : GoMap V) : List String := m.map Prod.fst

/-- Well-formedness of a Go map: no key occurs twice. -/
def mapWF {V : Type} (m : GoMap V) : Prop := (mapKeys m).Nodup

instance mapWF.decidable {V : Type} (m : GoMap V) : Decidable (mapWF m) :=
  inferInstanceAs (Decidable (mapKeys m).Nodup)

/-- The lookup `v, ok := m[k]`. -/
def mapGet {V : Type} : GoMap V → String → Option V
  | [], _ => none
  | (k', v) :: rest, k => if k' = k then some v else mapGet rest k

/-- The assignment `m[k] = v`: overwrites the entry of `k`, or adds one. -/
def mapSet {V : Type} : GoMap V → String → V → GoMap V
  | [], k, v => [(k, v)]
  | (k', v') :: rest, k, v =>
    if k' = k then (k, v) :: rest else (k', v') :: mapSet rest k v

/-- A value of type `interface{}` as `encoding/json` produces it: `nil`,
`bool`, `float64`, `string`, `[]interface{}` or `map[string]interface{}`.
A finite `float64` is kept as the pair `(m, e)` denoting `m * 2 ^ e`. -/
inductive JSONValue where
  | null
  | bool (b : Bool)
  | number (m : Int) (e : Int)
  | string (s : String)
  | array (xs : List JSONValue)
  | object (kvs : List (String × JSONValue))

/-! ## Package `messages` (decoded JSON schema) -/

/-- Modelled from the spec: `messages.Attribute`, the shared attribute block
of an update; the declaration is not among the sources.  Fields as in §3 of
the specification, with the Go types the exporter reads them at
(`Community` is a `[][]int`, `ASPath` a `[]int`). -/
structure messages.Attribute where
  Origin : String := ""
  Med : Int := 0
  LocalPreference : Int := 0
  ASPath : List Int := []
  Community : List (List Int) := []
  ExtendedCommunity : List String := []
  ClusterList : List String := []
  OriginatorID : String := ""
  deriving DecidableEq, Repr

/-- Modelled from the spec: an element of an `ipv4 flow` payload; the
declaration is not among the sources.  The three fields are the ones
`parseUpdateMessage` reads. -/
structure messages.IPv4Flow where
  DestinationIPv4 : List String := []
  SourceIPv4 : List String := []
  String : String := ""
  deriving DecidableEq, Repr

/-- Modelled from the spec: an element of an `ipv6 flow` payload; the
declaration is not among the sources.  The three fields are the ones
`parseUpdateMessage` reads. -/
structure messages.IPv6Flow where
  DestinationIPv6 : List String := []
  SourceIPv6 : List String := []
  String : String := ""
  deriving DecidableEq, Repr

/-- Modelled from the spec: the `announce` object of an update, keyed by
family and then by next-hop; the declaration is not among the sources. -/
structure messages.Announce where
  IPv4Unicast : GoMap (List JSONValue) := []
  IPv4Flow : GoMap (List messages.IPv4Flow) := []
  IPv6Unicast : GoMap (List JSONValue) := []
  IPv6Flow : GoMap (List messages.IPv6Flow) := []

/-- Modelled from the spec: the `withdraw` object of an update, keyed by
family; the declaration is not among the sources. -/
structure messages.Withdraw where
  IPv4Unicast : List JSONValue := []
  IPv4Flow : List messages.IPv4Flow := []
  IPv6Unicast : List JSONValue := []
  IPv6Flow : List messages.IPv6Flow := []

/-- Modelled from the spec: `messages.UpdateMessageFull`, the body of an
update message; the declaration is not among the sources. -/
structure messages.UpdateMessageFull where
  Attribute : messages.Attribute := {}
  Announce : messages.Announce := {}
  Withdraw : messages.Withdraw := {}

/-- Modelled from the spec: `messages.BaseEvent`, the fields common to all
events; the declaration is not among the sources.  Only the protocol version
(`exabgp`) and the event type (`type`) are read by the code. -/
structure messages.BaseEvent where
  Version : String := ""
  Type_ : String := ""
  deriving DecidableEq, Repr

/-- Modelled from the spec: the `address` object of the neighbor envelope. -/
structure messages.Address where
  Local : String := ""
  Peer : String := ""
  deriving DecidableEq, Repr

/-- Modelled from the spec: the `asn` object of the neighbor envelope. -/
structure messages.ASN where
  Local : Int := 0
  Peer : Int := 0
  deriving DecidableEq, Repr

/-- Modelled from the spec: the `message` object of the neighbor envelope. -/
structure messages.Message where
  Update : messages.UpdateMessageFull := {}

/-- Modelled from the spec: the `neighbor` envelope of an event; the
declaration is not among the sources. -/
structure messages.Neighbor where
  Address : messages.Address := {}
  ASN : messages.ASN := {}
  Direction : String := ""
  State : String := ""
  Reason : String := ""
  Message : messages.Message := {}

/-- Modelled from the spec: `messages.JSONEvent`, one decoded line of the
feed; the declaration is not among the sources. -/
structure messages.JSONEvent where
  BaseEvent : messages.BaseEvent := {}
  Neighbor : messages.Neighbor := {}

/-- The promoted field `jsonEvent.Type` (`Type` is reserved in Lean). -/
def messages.JSONEvent.Type_ (j : messages.JSONEvent) : String := j.BaseEvent.Type_

/-! ## Package `exabgp`: data model -/

/-- The pointee of `lastStatus`. -/
structure status where
  state : String
  reason : String
  deriving DecidableEq, Repr

/-- Peer represents a neighbor and its state. -/
structure Peer where
  IP : String := ""
  ASN : Int := 0
  State : String := ""
  Reason : String := ""
  deriving DecidableEq, Repr

/-- Self represents the local bgp instance. -/
structure Self where
  IP : String := ""
  ASN : Int := 0
  deriving DecidableEq, Repr

/-- An `ipv4 unicast` family announce. -/
structure IPv4UnicastAnnouncement where
  Attributes : messages.Attribute := {}
  NLRI : List String := []
  deriving DecidableEq, Repr

/-- An `ipv4 unicast` family route withdraw. -/
structure IPv4UnicastWithdrawal where
  Attributes : messages.Attribute := {}
  NLRI : List String := []
  deriving DecidableEq, Repr

/-- An `ipv4 flow`. -/
structure IPv4Flow where
  Attributes : messages.Attribute := {}
  Destination : List String := []
  Source : List String := []
  String : String := ""
  deriving DecidableEq, Repr

/-- An `ipv4 flow` announce. -/
structure IPv4FlowAnnouncement where
  Attributes : messages.Attribute := {}
  Flows : List IPv4Flow := []
  deriving DecidableEq, Repr

/-- An `ipv6 unicast` family announce. -/
structure IPv6UnicastAnnouncement where
  Attributes : messages.Attribute := {}
  NLRI : List String := []
  deriving DecidableEq, Repr

/-- An `ipv6 unicast` family route withdraw. -/
structure IPv6UnicastWithdrawal where
  Attributes : messages.Attribute := {}
  NLRI : List String := []
  deriving DecidableEq, Repr

/-- An `ipv6 flow`. -/
structure IPv6Flow where
  Attributes : messages.Attribute := {}
  Destination : List String := []
  Source : List String := []
  String : String := ""
  deriving DecidableEq, Repr

/-- An `ipv6 flow` announce. -/
structure IPv6FlowAnnouncement where
  Attributes : messages.Attribute := {}
  Flows : List IPv6Flow := []
  deriving DecidableEq, Repr

/-- Announcements represents all the bgp `announce` messages. -/
structure Announcements where
  IPV4Unicast : GoMap IPv4UnicastAnnouncement
  IPV4Flow : GoMap IPv4FlowAnnouncement
  IPV6Unicast : GoMap IPv6UnicastAnnouncement
  IPV6Flow : GoMap IPv6FlowAnnouncement
  deriving DecidableEq, Repr

/-- Withdrawals represents all the bgp `withdraw` messages. -/
structure Withdrawals where
  IPv4Unicast : List IPv4UnicastWithdrawal := []
  IPv4Flow : List IPv4Flow := []
  IPv6Unicast : List IPv6UnicastWithdrawal := []
  IPv6Flow : List IPv6Flow := []
  deriving DecidableEq, Repr

/-- Event represents a fully parsed event. -/
structure Event where
  BaseEvent : messages.BaseEvent := {}
  Peer : Peer := {}
  Self : Self := {}
  Direction : String := ""
  announcements : Option Announcements := none
  withdrawals : Option Withdrawals := none
  deriving DecidableEq, Repr

/-- The Go `error` values the package produces. -/
inductive Error where
  /-- An error returned by `json.Unmarshal`, with its message. -/
  | json (msg : String)
  /-- The error "got a non-string value for k: v". -/
  | nonStringValue (k : String) (v : JSONValue)
  /-- The error "unable to parse route: rs". -/
  | unableToParseRoute (rs : JSONValue)
  /-- The error "Cannot handle event type: t [data: data]". -/
  | cannotHandleEventType (t : String) (data : List Byte)

/-! ## Peer status tracker -/

/-- GetStatus returns the last known status of the exabgp instance.  It takes
the package variable `lastStatus` and returns it as the call leaves it. -/
def GetStatus (lastStatus : Option status) : String × Option status :=
  match lastStatus with
  | none => ("unknown", some { state := "unknown", reason := "no known last status" })
  | some s => (s.state, some s)

/-- GetStatusReason returns any reason we may have for the current status:
`lastStatus.reason`.  The result is `none` when `lastStatus` is nil (the
dereference panics). -/
def GetStatusReason (lastStatus : Option status) : Option String :=
  match lastStatus with
  | none => none
  | some s => some s.reason

/-! ## `safeUnmarshal` -/

/-- The call `bytes.Replace(data, []byte{old}, []byte{}, n)` for a one-byte
`old` and an empty replacement: the first `n` occurrences of `old` are
removed, all of them when `n < 0`. -/
def bytesRemove : List Byte → Byte → Int → List Byte
  | [], _, _ => []
  | b :: rest, old, n =>
    if n = 0 then b :: rest
    else if b = old then bytesRemove rest old (n - 1)
    else b :: bytesRemove rest old n

/-- The repair pass of `safeUnmarshal`: the loop over the sequences
`"\x01"`, `"\x00"`, `"\x04"`, each removed with count `-2`. -/
def repair (data : List Byte) : List Byte :=
  [1, 0, 4].foldl (fun data seq => bytesRemove data seq (-2)) data

/-- This tries to fix any non-utf8 json generated by exabgp.  `unmarshal` is
`json.Unmarshal` into a fresh `messages.JSONEvent`. -/
def safeUnmarshal (unmarshal : List Byte → Except String messages.JSONEvent)
    (data : List Byte) : Except String messages.JSONEvent :=
  match unmarshal data with
  | .ok t => .ok t
  | .error _ => unmarshal (repair data)

/-! ## `parseUpdateMessage` -/

/-- The function `makeAnnouncements`: four empty maps. -/
def makeAnnouncements : Announcements :=
  { IPV4Unicast := [], IPV4Flow := [], IPV6Unicast := [], IPV6Flow := [] }

/-- The loop `for k, v := range r` of the `map[string]interface{}` case of
the route type switch, appending to the slice `nlri`. -/
def appendMapValues (nlri : List String) : List (String × JSONValue) → Except Error (List String)
  | [] => .ok nlri
  | (k, v) :: rest =>
    match v with
    | .string s => appendMapValues (nlri ++ [s]) rest
    | _ => .error (.nonStringValue k v)

/-- The route type switch `switch r := rs.(type)`, appending to the slice
`nlri`.  The switch occurs four times in `parseUpdateMessage` (announce and
withdraw, ipv4 and ipv6), identical up to the slice it appends to. -/
def appendRoute (nlri : List String) (rs : JSONValue) : Except Error (List String) :=
  match rs with
  | .string r => .ok (nlri ++ [r])
  | .object r => appendMapValues nlri r
  | _ => .error (.unableToParseRoute rs)

/-- The loop `for _, rs := range routes` around the route type switch. -/
def appendRoutes (nlri : List String) : List JSONValue → Except Error (List String)
  | [] => .ok nlri
  | rs :: rest =>
    match appendRoute nlri rs with
    | .error err => .error err
    | .ok nlri => appendRoutes nlri rest

/-- The statement `if _, ok := ra[nexthop]; !ok { ra[nexthop] = zero }`, where
`zero` is a fresh zero-valued announcement. -/
def mapEnsure {A : Type} (ra : GoMap A) (nexthop : String) (zero : A) : GoMap A :=
  match mapGet ra nexthop with
  | some _ => ra
  | none => mapSet ra nexthop zero

/-- The shape shared by the four announce loops,
`for nexthop, xs := range payload`: the entry of `nexthop` is created from
the zero value when `ra` has none, then `body` updates the pointee with the
payload `xs` of that next-hop, or returns an error which ends the function. -/
def announceLoop {X A : Type} (zero : A) (body : A → X → Except Error A) :
    GoMap X → GoMap A → Except Error (GoMap A)
  | [], ra => .ok ra
  | (nexthop, xs) :: rest, ra =>
    let ra := mapEnsure ra nexthop zero
    match body ((mapGet ra nexthop).getD zero) xs with
    | .error err => .error err
    | .ok a => announceLoop zero body rest (mapSet ra nexthop a)

/-- The body of the `ipv4 unicast` announce loop. -/
def bodyIPv4Unicast (attr : messages.Attribute) (a : IPv4UnicastAnnouncement)
    (routes : List JSONValue) : Except Error IPv4UnicastAnnouncement :=
  match appendRoutes a.NLRI routes with
  | .error err => .error err
  | .ok nlri => .ok { a with NLRI := nlri, Attributes := attr }

/-- The body of the `ipv6 unicast` announce loop. -/
def bodyIPv6Unicast (attr : messages.Attribute) (a : IPv6UnicastAnnouncement)
    (routes : List JSONValue) : Except Error IPv6UnicastAnnouncement :=
  match appendRoutes a.NLRI routes with
  | .error err => .error err
  | .ok nlri => .ok { a with NLRI := nlri, Attributes := attr }

/-- The body of the `ipv4 flow` announce loop; the flows it builds carry no
attributes of their own. -/
def bodyIPv4Flow (attr : messages.Attribute) (a : IPv4FlowAnnouncement)
    (flows : List messages.IPv4Flow) : Except Error IPv4FlowAnnouncement :=
  let fs := flows.foldl (fun fs flow =>
    let f : IPv4Flow :=
      { Destination := flow.DestinationIPv4, Source := flow.SourceIPv4, String := flow.String }
    fs ++ [f]) a.Flows
  .ok { a with Flows := fs, Attributes := attr }

/-- The body of the `ipv6 flow` announce loop; the flows it builds carry no
attributes of their own. -/
def bodyIPv6Flow (attr : messages.Attribute) (a : IPv6FlowAnnouncement)
    (flows : List messages.IPv6Flow) : Except Error IPv6FlowAnnouncement :=
  let fs := flows.foldl (fun fs flow =>
    let f : IPv6Flow :=
      { Destination := flow.DestinationIPv6, Source := flow.SourceIPv6, String := flow.String }
    fs ++ [f]) a.Flows
  .ok { a with Flows := fs, Attributes := attr }

/-- The loop `for _, flow := range u.Withdraw.IPv4Flow`. -/
def withdrawIPv4Flow (attr : messages.Attribute) (flows : List messages.IPv4Flow)
    (acc : List IPv4Flow) : List IPv4Flow :=
  flows.foldl (fun acc flow =>
    let f : IPv4Flow :=
      { Attributes := attr, Destination := flow.DestinationIPv4, Source := flow.SourceIPv4,
        String := flow.String }
    acc ++ [f]) acc

/-- The loop `for _, flow := range u.Withdraw.IPv6Flow`. -/
def withdrawIPv6Flow (attr : messages.Attribute) (flows : List messages.IPv6Flow)
    (acc : List IPv6Flow) : List IPv6Flow :=
  flows.foldl (fun acc flow =>
    let f : IPv6Flow :=
      { Attributes := attr, Destination := flow.DestinationIPv6, Source := flow.SourceIPv6,
        String := flow.String }
    acc ++ [f]) acc

/-- The function `parseUpdateMessage`.  The result is the Go triple
`(*Announcements, *Withdrawals, error)`. -/
def parseUpdateMessage (u : messages.UpdateMessageFull) :
    Option Announcements × Option Withdrawals × Option Error :=
  let ra := makeAnnouncements
  let rw : Withdrawals := {}
  -- ipv4-unicast announce
  match announceLoop {} (bodyIPv4Unicast u.Attribute) u.Announce.IPv4Unicast ra.IPV4Unicast with
  | .error err => (none, none, some err)
  | .ok a4 =>
  let ra := { ra with IPV4Unicast := a4 }
  -- ipv4-unicast withdraws
  match appendRoutes [] u.Withdraw.IPv4Unicast with
  | .error err => (none, none, some err)
  | .ok ws4 =>
  let w4 : IPv4UnicastWithdrawal := { Attributes := u.Attribute, NLRI := ws4 }
  let rw := { rw with IPv4Unicast := rw.IPv4Unicast ++ [w4] }
  -- ipv4-flow announce
  match announceLoop {} (bodyIPv4Flow u.Attribute) u.Announce.IPv4Flow ra.IPV4Flow with
  | .error err => (none, none, some err)
  | .ok f4 =>
  let ra := { ra with IPV4Flow := f4 }
  let rw := { rw with IPv4Flow := withdrawIPv4Flow u.Attribute u.Withdraw.IPv4Flow rw.IPv4Flow }
  -- ipv6-unicast announce
  match announceLoop {} (bodyIPv6Unicast u.Attribute) u.Announce.IPv6Unicast ra.IPV6Unicast with
  | .error err => (none, none, some err)
  | .ok a6 =>
  let ra := { ra with IPV6Unicast := a6 }
  -- ipv6-unicast withdraws
  match appendRoutes [] u.Withdraw.IPv6Unicast with
  | .error err => (none, none, some err)
  | .ok ws6 =>
  let w6 : IPv6UnicastWithdrawal := { Attributes := u.Attribute, NLRI := ws6 }
  let rw := { rw with IPv6Unicast := rw.IPv6Unicast ++ [w6] }
  -- ipv6-flow announce
  match announceLoop {} (bodyIPv6Flow u.Attribute) u.Announce.IPv6Flow ra.IPV6Flow with
  | .error err => (none, none, some err)
  | .ok f6 =>
  let ra := { ra with IPV6Flow := f6 }
  let rw := { rw with IPv6Flow := withdrawIPv6Flow u.Attribute u.Withdraw.IPv6Flow rw.IPv6Flow }
  (some ra, some rw, none)

/-! ## `ParseEvent` -/

/-- The method `GetAnnouncements`. -/
def Event.GetAnnouncements (e : Event) : Option Announcements := e.announcements

/-- The method `GetWithdrawals`. -/
def Event.GetWithdrawals (e : Event) : Option Withdrawals := e.withdrawals

/-- The method `GetVersion`. -/
def Event.GetVersion (e : Event) : String := e.BaseEvent.Version

/-- The method `setAnnouncements`. -/
def Event.setAnnouncements (e : Event) (ra : Option Announcements) : Event :=
  { e with announcements := ra }

/-- The method `setWithdrawals`. -/
def Event.setWithdrawals (e : Event) (rw : Option Withdrawals) : Event :=
  { e with withdrawals := rw }

/-- ParseEvent parses an exabgp json message.  It returns the Go pair
`(*Event, error)` and the package variable `lastStatus` as the call leaves
it. -/
def ParseEvent (unmarshal : List Byte → Except String messages.JSONEvent)
    (data : List Byte) (lastStatus : Option status) :
    (Option Event × Option Error) × Option status :=
  match safeUnmarshal unmarshal data with
  | .error msg => ((none, some (.json msg)), lastStatus)
  | .ok jsonEvent =>
    let event : Event :=
      { BaseEvent := jsonEvent.BaseEvent
        Peer := { IP := jsonEvent.Neighbor.Address.Peer, ASN := jsonEvent.Neighbor.ASN.Peer }
        Self := { IP := jsonEvent.Neighbor.Address.Local, ASN := jsonEvent.Neighbor.ASN.Local }
        Direction := jsonEvent.Neighbor.Direction }
    if jsonEvent.Type_ = "update" then
      match parseUpdateMessage jsonEvent.Neighbor.Message.Update with
      | (_, _, some err) => ((some event, some err), lastStatus)
      | (ra, rw, none) =>
        ((some ((event.setAnnouncements ra).setWithdrawals rw), none), lastStatus)
    else if jsonEvent.Type_ = "state" then
      let event := { event with Peer := { event.Peer with Reason := jsonEvent.Neighbor.Reason } }
      let event := { event with Peer := { event.Peer with State := jsonEvent.Neighbor.State } }
      ((some event, none), some { state := event.Peer.State, reason := event.Peer.Reason })
    else if jsonEvent.Type_ = "notification" ∨ jsonEvent.Type_ = "open"
        ∨ jsonEvent.Type_ = "keepalive" ∨ jsonEvent.Type_ = "signal" then
      ((some event, none), lastStatus)
    else
      ((none, some (.cannotHandleEventType jsonEvent.Type_ data)), lastStatus)

/-! ## Vocabulary of the specification -/

/-- The route string of an element that is a bare string or a single-entry
mapping with a string value; `none` for any other element. -/
def routeString : JSONValue → Option String
  | .string s => some s
  | .object [(_, .string s)] => some s
  | _ => none

/-- Whether a JSON value is a string. -/
def isString : JSONValue → Bool
  | .string _ => true
  | _ => false

/-- Whether a route element is a string or a mapping all of whose values
are strings. -/
def okRoute : JSONValue → Bool
  | .string _ => true
  | .object kvs => kvs.all (fun kv => isString kv.2)
  | _ => false

/-- Some element of an ipv4/ipv6 unicast announce route list or withdraw
list is neither a string nor a mapping all of whose values are strings. -/
def hasBadRoute (u : messages.UpdateMessageFull) : Prop :=
  (∃ kv ∈ u.Announce.IPv4Unicast, ∃ rs ∈ kv.2, okRoute rs = false)
  ∨ (∃ rs ∈ u.Withdraw.IPv4Unicast, okRoute rs = false)
  ∨ (∃ kv ∈ u.Announce.IPv6Unicast, ∃ rs ∈ kv.2, okRoute rs = false)
  ∨ (∃ rs ∈ u.Withdraw.IPv6Unicast, okRoute rs = false)

/-- The event types `ParseEvent` recognises. -/
def knownTypes : List String :=
  ["update", "state", "notification", "open", "keepalive", "signal"]

/-! ## Sample inputs -/

/-- The envelope of the lines of `events_test.go`. -/
def sampleNeighbor : messages.Neighbor :=
  { Address := { Local := "192.168.1.184", Peer := "192.168.1.2" }
    ASN := { Local := 64496, Peer := 64496 }
    Direction := "send" }

/-- The `down` event of `TestPeerState`. -/
def sampleDown : messages.JSONEvent :=
  { BaseEvent := { Version := "4.0.1", Type_ := "state" }
    Neighbor := { sampleNeighbor with
      Direction := "", State := "down", Reason := "peer reset, message () error()" } }

/-- An event of a type the decoder does not know. -/
def sampleBogus : messages.JSONEvent :=
  { BaseEvent := { Version := "4.0.1", Type_ := "bogus" }, Neighbor := sampleNeighbor }

/-- A keepalive event. -/
def sampleKeepalive : messages.JSONEvent :=
  { BaseEvent := { Version := "4.0.1", Type_ := "keepalive" }, Neighbor := sampleNeighbor }

/-- An update whose `ipv4 unicast` route list holds a number. -/
def sampleBadUpdate : messages.UpdateMessageFull :=
  { Attribute := { Origin := "igp", LocalPreference := 100 }
    Announce := { IPv4Unicast := [("192.168.1.184", [.string "0.0.0.0/0", .number 1 0])] } }

/-- An update event carrying `sampleBadUpdate`. -/
def sampleBadUpdateEvent : messages.JSONEvent :=
  { BaseEvent := { Version := "4.0.1", Type_ := "update" }
    Neighbor := { sampleNeighbor with Message := { Update := sampleBadUpdate } } }

/-- A stand-in for `json.Unmarshal` that decodes four one-byte lines into the
sample events above and rejects every other line. -/
def sampleUnmarshal (data : List Byte) : Except String messages.JSONEvent :=
  if data = [100] then .ok sampleDown
  else if data = [98] then .ok sampleBogus
  else if data = [107] then .ok sampleKeepalive
  else if data = [117] then .ok sampleBadUpdateEvent
  else .error "invalid character"

/-- An update in the shape of the lines of `events_test.go`: one next-hop per
family; the `ipv4 unicast` route list mixes bare strings with a single-entry
mapping, the `ipv4 unicast` withdraw list is the one of
`TestIPv4WithdrawMulti`. -/
def sampleUpdate : messages.UpdateMessageFull :=
  { Attribute := { Origin := "igp", LocalPreference := 100 }
    Announce :=
      { IPv4Unicast := [("192.168.1.184",
          [.string "0.0.0.0/0", .object [("nlri", .string "0.0.0.0/0")],
            .string "192.168.88.0/24"])]
        IPv4Flow := [("no-nexthop",
          [{ DestinationIPv4 := ["170.170.170.170/32"], SourceIPv4 := ["170.170.170.171/32"],
             String := "flow destination-ipv4 170.170.170.170/32" },
           { DestinationIPv4 := ["10.0.0.0/8"], SourceIPv4 := [], String := "flow 2" }])]
        IPv6Unicast := [("2001:db8::1", [.string "2001:db8:1::/48"])]
        IPv6Flow := [("no-nexthop",
          [{ DestinationIPv6 := ["2001:db8::/32"], SourceIPv6 := ["::/0"], String := "flow 6" }])] }
    Withdraw :=
      { IPv4Unicast := [.string "0.0.0.0/0", .string "0.0.0.0/0", .string "0.0.0.0/0",
          .string "0.0.0.0/0", .string "192.168.88.0/24"]
        IPv4Flow := [{ DestinationIPv4 := ["10.1.0.0/16"], SourceIPv4 := [], String := "w1" },
          { DestinationIPv4 := [], SourceIPv4 := ["10.2.0.0/16"], String := "w2" }]
        IPv6Unicast := [.string "::/0", .string "::/0"]
        IPv6Flow := [{ DestinationIPv6 := ["2001:db8:2::/48"], SourceIPv6 := [], String := "w6" }] } }

/-- The announcements `parseUpdateMessage` builds from `sampleUpdate`. -/
def sampleAnnouncements : Announcements :=
  { IPV4Unicast := [("192.168.1.184",
      { Attributes := sampleUpdate.Attribute
        NLRI := ["0.0.0.0/0", "0.0.0.0/0", "192.168.88.0/24"] })]
    IPV4Flow := [("no-nexthop",
      { Attributes := sampleUpdate.Attribute
        Flows := [{ Destination := ["170.170.170.170/32"], Source := ["170.170.170.171/32"],
                    String := "flow destination-ipv4 170.170.170.170/32" },
                  { Destination := ["10.0.0.0/8"], Source := [], String := "flow 2" }] })]
    IPV6Unicast := [("2001:db8::1",
      { Attributes := sampleUpdate.Attribute, NLRI := ["2001:db8:1::/48"] })]
    IPV6Flow := [("no-nexthop",
      { Attributes := sampleUpdate.Attribute
        Flows := [{ Destination := ["2001:db8::/32"], Source := ["::/0"], String := "flow 6" }] })] }

/-- The withdrawals `parseUpdateMessage` builds from `sampleUpdate`. -/
def sampleWithdrawals : Withdrawals :=
  { IPv4Unicast := [{ Attributes := sampleUpdate.Attribute
                      NLRI := ["0.0.0.0/0", "0.0.0.0/0", "0.0.0.0/0", "0.0.0.0/0",
                        "192.168.88.0/24"] }]
    IPv4Flow := [{ Attributes := sampleUpdate.Attribute, Destination := ["10.1.0.0/16"],
                   Source := [], String := "w1" },
                 { Attributes := sampleUpdate.Attribute, Destination := [],
                   Source := ["10.2.0.0/16"], String := "w2" }]
    IPv6Unicast := [{ Attributes := sampleUpdate.Attribute, NLRI := ["::/0", "::/0"] }]
    IPv6Flow := [{ Attributes := sampleUpdate.Attribute, Destination := ["2001:db8:2::/48"],
                   Source := [], String := "w6" }] }

/-! ## Further vocabulary and sample inputs -/

/-- A tracker that has never been published to: `lastStatus` is still nil, or
holds what a read by `GetStatus` stored in it. -/
def unpublished (lastStatus : Option status) : Prop :=
  lastStatus = none
  ∨ lastStatus = some { state := "unknown", reason := "no known last status" }

/-- Whether a byte is one of 0x01, 0x00, 0x04. -/
def isControl (b : Byte) : Bool := b = 1 || b = 0 || b = 4

/-- The relation `Inserted l m`: the line `m` is the line `l` with bytes 0x00,
0x01 or 0x04 inserted at arbitrary positions. -/
inductive Inserted : List Byte → List Byte → Prop where
  | done : Inserted [] []
  | keep (b : Byte) {l m : List Byte} : Inserted l m → Inserted (b :: l) (b :: m)
  | insert (c : Byte) {l m : List Byte} : isControl c = true → Inserted l m → Inserted l (c :: m)

/-- A property of `json.Unmarshal`: a raw byte 0x00, 0x01 or 0x04 is not
allowed anywhere in a JSON text, inside a string literal or outside, so the
strict decode of a line that holds one fails. -/
def rejectsControlBytes (unmarshal : List Byte → Except String messages.JSONEvent) : Prop :=
  ∀ data : List Byte, (∃ b ∈ data, isControl b = true) → ∃ msg, unmarshal data = .error msg

/-- The `up` event of `TestPeerState`; it has no reason field. -/
def sampleUp : messages.JSONEvent :=
  { BaseEvent := { Version := "4.0.1", Type_ := "state" }
    Neighbor := { sampleNeighbor with Direction := "", State := "up" } }

/-- A stand-in for `json.Unmarshal` that decodes two one-byte lines into the
`down` and the `up` event and rejects every other line. -/
def sampleStatusUnmarshal (data : List Byte) : Except String messages.JSONEvent :=
  if data = [100] then .ok sampleDown
  else if data = [112] then .ok sampleUp
  else .error "invalid character"

/-- A stand-in for `json.Unmarshal` that rejects every line, an opening brace
alone with the message for a truncated text and any other line with the
message for a stray character. -/
def sampleStrictUnmarshal (data : List Byte) : Except String messages.JSONEvent :=
  if data = [123] then .error "unexpected end of JSON input"
  else .error "invalid character looking for beginning of value"

/-! ## Two runs on one update -/

/-- How two runs see one route element: the same value, or the same Go map
with its entries visited by `range` in another order. -/
inductive sameRoute : JSONValue → JSONValue → Prop where
  | same (x : JSONValue) : sameRoute x x
  | reordered (kvs kvs1 : List (String × JSONValue)) :
      kvs.Perm kvs1 → sameRoute (.object kvs) (.object kvs1)

/-- How two runs see one unicast announce payload: the same next-hops with the
same route lists, the next-hops visited by `range` in another order. -/
def sameRouteMap (m m1 : GoMap (List JSONValue)) : Prop :=
  ∃ mid : GoMap (List JSONValue),
    List.Forall₂ (fun a b => a.1 = b.1 ∧ List.Forall₂ sameRoute a.2 b.2) m mid ∧ mid.Perm m1

/-- How two runs of `parseUpdateMessage` see one decoded update: every slice
in the same order, every map with the same entries in a possibly different
`range` order. -/
structure SameUpdate (u u1 : messages.UpdateMessageFull) : Prop where
  attrs : u1.Attribute = u.Attribute
  announce4 : sameRouteMap u.Announce.IPv4Unicast u1.Announce.IPv4Unicast
  announceFlow4 : u.Announce.IPv4Flow.Perm u1.Announce.IPv4Flow
  announce6 : sameRouteMap u.Announce.IPv6Unicast u1.Announce.IPv6Unicast
  announceFlow6 : u.Announce.IPv6Flow.Perm u1.Announce.IPv6Flow
  withdraw4 : List.Forall₂ sameRoute u.Withdraw.IPv4Unicast u1.Withdraw.IPv4Unicast
  withdrawFlow4 : u1.Withdraw.IPv4Flow = u.Withdraw.IPv4Flow
  withdraw6 : List.Forall₂ sameRoute u.Withdraw.IPv6Unicast u1.Withdraw.IPv6Unicast
  withdrawFlow6 : u1.Withdraw.IPv6Flow = u.Withdraw.IPv6Flow

/-- A route element that is not a mapping with more than one key. -/
def atMostOneKey : JSONValue → Prop
  | .object kvs => kvs.length ≤ 1
  | _ => True

/-- No route element of the four unicast payloads is a mapping with more than
one key. -/
def noMultiKeyRoute (u : messages.UpdateMessageFull) : Prop :=
  (∀ kv ∈ u.Announce.IPv4Unicast, ∀ rs ∈ kv.2, atMostOneKey rs)
  ∧ (∀ rs ∈ u.Withdraw.IPv4Unicast, atMostOneKey rs)
  ∧ (∀ kv ∈ u.Announce.IPv6Unicast, ∀ rs ∈ kv.2, atMostOneKey rs)
  ∧ (∀ rs ∈ u.Withdraw.IPv6Unicast, atMostOneKey rs)

/-- An update whose only route element is a mapping with two keys, as one run
ranges over it. -/
def sampleTwoKeys : messages.UpdateMessageFull :=
  { Announce := { IPv4Unicast := [("192.168.1.184",
      [.object [("a", .string "10.0.0.0/8"), ("b", .string "10.1.0.0/16")]])] } }

/-- The update `sampleTwoKeys` as another run ranges over it: the two keys of
the mapping come in the other order. -/
def sampleTwoKeysAgain : messages.UpdateMessageFull :=
  { Announce := { IPv4Unicast := [("192.168.1.184",
      [.object [("b", .string "10.1.0.0/16"), ("a", .string "10.0.0.0/8")]])] } }

/-- An update with two next-hops in each of three announce payloads (one route
element a single-entry mapping), as one run ranges over its maps. -/
def sampleTwoNextHops : messages.UpdateMessageFull :=
  { Attribute := { Origin := "igp", LocalPreference := 100 }
    Announce :=
      { IPv4Unicast :=
          [("192.168.1.184", [.string "0.0.0.0/0", .object [("nlri", .string "10.0.0.0/8")]]),
           ("192.168.1.185", [.string "192.168.88.0/24"])]
        IPv4Flow :=
          [("no-nexthop", [{ DestinationIPv4 := ["10.0.0.0/8"], SourceIPv4 := [],
                             String := "flow 1" }]),
           ("192.168.1.186", [{ DestinationIPv4 := [], SourceIPv4 := ["10.2.0.0/16"],
                                String := "flow 2" }])]
        IPv6Unicast :=
          [("2001:db8::1", [.string "2001:db8:1::/48"]),
           ("2001:db8::2", [.string "2001:db8:2::/48"])] }
    Withdraw :=
      { IPv4Unicast := [.string "0.0.0.0/0", .object [("nlri", .string "10.3.0.0/16")]] } }

/-- The update `sampleTwoNextHops` as another run ranges over it: in each of
the three announce payloads the two next-hops come in the other order. -/
def sampleTwoNextHopsAgain : messages.UpdateMessageFull :=
  { Attribute := { Origin := "igp", LocalPreference := 100 }
    Announce :=
      { IPv4Unicast :=
          [("192.168.1.185", [.string "192.168.88.0/24"]),
           ("192.168.1.184", [.string "0.0.0.0/0", .object [("nlri", .string "10.0.0.0/8")]])]
        IPv4Flow :=
          [("192.168.1.186", [{ DestinationIPv4 := [], SourceIPv4 := ["10.2.0.0/16"],
                                String := "flow 2" }]),
           ("no-nexthop", [{ DestinationIPv4 := ["10.0.0.0/8"], SourceIPv4 := [],
                             String := "flow 1" }])]
        IPv6Unicast :=
          [("2001:db8::2", [.string "2001:db8:2::/48"]),
           ("2001:db8::1", [.string "2001:db8:1::/48"])] }
    Withdraw :=
      { IPv4Unicast := [.string "0.0.0.0/0", .object [("nlri", .string "10.3.0.0/16")]] } }

/-- The announcements `parseUpdateMessage` builds from `sampleTwoNextHops`. -/
def sampleTwoNextHopsAnnouncements : Announcements :=
  { IPV4Unicast :=
      [("192.168.1.184", { Attributes := sampleTwoNextHops.Attribute
                           NLRI := ["0.0.0.0/0", "10.0.0.0/8"] }),
       ("192.168.1.185", { Attributes := sampleTwoNextHops.Attribute
                           NLRI := ["192.168.88.0/24"] })]
    IPV4Flow :=
      [("no-nexthop", { Attributes := sampleTwoNextHops.Attribute
                        Flows := [{ Destination := ["10.0.0.0/8"], Source := [],
                                    String := "flow 1" }] }),
       ("192.168.1.186", { Attributes := sampleTwoNextHops.Attribute
                           Flows := [{ Destination := [], Source := ["10.2.0.0/16"],
                                       String := "flow 2" }] })]
    IPV6Unicast :=
      [("2001:db8::1", { Attributes := sampleTwoNextHops.Attribute
                         NLRI := ["2001:db8:1::/48"] }),
       ("2001:db8::2", { Attributes := sampleTwoNextHops.Attribute
                         NLRI := ["2001:db8:2::/48"] })]
    IPV6Flow := [] }

/-- The withdrawals `parseUpdateMessage` builds from `sampleTwoNextHops`. -/
def sampleTwoNextHopsWithdrawals : Withdrawals :=
  { IPv4Unicast := [{ Attributes := sampleTwoNextHops.Attribute
                      NLRI := ["0.0.0.0/0", "10.3.0.0/16"] }]
    IPv6Unicast := [{ Attributes := sampleTwoNextHops.Attribute, NLRI := [] }] }

/-! ## Package `regexp` (Go standard library), as far as the patterns of
`rib.go` use it

A pattern is kept as its syntax tree; `FindStringSubmatch` is the leftmost
match a backtracking search finds first (greedy repetition, alternatives tried
left to right), which is the match Go's `regexp` returns. -/

/-- The character classes of the patterns in `rib.go`. -/
inductive regexp.Class where
  /-- The class `\s`, which is `[\t\n\f\r ]`. -/
  | space
  /-- The class `\S`. -/
  | notSpace
  /-- The class `\d`, which is `[0-9]`. -/
  | digit
  /-- The class `.`: any character but a newline. -/
  | dot
  /-- The class `[^\]]`: any character but a closing bracket. -/
  | notRBracket
  deriving DecidableEq, Repr

/-- Whether a character is in `[\t\n\f\r ]`. -/
def regexp.isSpace (c : Char) : Bool :=
  c.toNat = 9 || c.toNat = 10 || c.toNat = 12 || c.toNat = 13 || c.toNat = 32

/-- Whether a character is in `[0-9]`. -/
def regexp.isDigit (c : Char) : Bool := 48 ≤ c.toNat && c.toNat ≤ 57

/-- Membership of a character in a class. -/
def regexp.Class.mem : regexp.Class → Char → Bool
  | .space, c => regexp.isSpace c
  | .notSpace, c => !regexp.isSpace c
  | .digit, c => regexp.isDigit c
  | .dot, c => !(c.toNat = 10)
  | .notRBracket, c => !(c.toNat = 93)

/-- The syntax of the patterns in `rib.go`.  A capturing group carries its
number (groups are numbered by their opening parenthesis, from 1) and its
name (empty for an unnamed group); `(?:r)` is `r` itself. -/
inductive regexp.Regexp where
  /-- The empty pattern. -/
  | empty
  /-- A string of literal characters. -/
  | str (s : String)
  /-- One character of a class. -/
  | cls (c : regexp.Class)
  /-- The greedy repetition `c+` of a class. -/
  | plus (c : regexp.Class)
  /-- The greedy repetition `c*` of a class. -/
  | star (c : regexp.Class)
  /-- The anchor `^` (beginning of text). -/
  | bol
  /-- The anchor `$` (end of text). -/
  | eol
  /-- The concatenation `ab`. -/
  | cat (a b : regexp.Regexp)
  /-- The alternation `a|b`, which prefers `a`. -/
  | alt (a b : regexp.Regexp)
  /-- The capturing group `(r)` or `(?P<name>r)`. -/
  | group (index : Nat) (name : String) (r : regexp.Regexp)

/-- The concatenation of a list of patterns. -/
def regexp.seq (rs : List regexp.Regexp) : regexp.Regexp :=
  rs.foldr regexp.Regexp.cat regexp.Regexp.empty

/-- A state of the search: the number of characters before the current
position, the characters from it on, and the text of the groups closed so
far (latest first). -/
structure regexp.MState where
  pos : Nat
  rest : List Char
  caps : List (Nat × String)

/-- The state after `n` more characters. -/
def regexp.MState.advance (s : regexp.MState) (n : Nat) : regexp.MState :=
  { s with pos := s.pos + n, rest := s.rest.drop n }

/-- A greedy repetition that may take up to `n` characters and must take at
least `min`: the longest is tried first, and one character is given back each
time the rest of the pattern (`k`) fails. -/
def regexp.tryLen (min : Nat) (s : regexp.MState)
    (k : regexp.MState → Option regexp.MState) : Nat → Option regexp.MState
  | 0 => if min = 0 then k s else none
  | n + 1 =>
    if n + 1 < min then none
    else
      match k (s.advance (n + 1)) with
      | some m => some m
      | none => regexp.tryLen min s k n

/-- The backtracking search for a match of a pattern at a state, `k` being
the rest of the search. -/
def regexp.Regexp.run :
    regexp.Regexp → regexp.MState → (regexp.MState → Option regexp.MState) →
      Option regexp.MState
  | .empty, s, k => k s
  | .str w, s, k =>
    if w.data.isPrefixOf s.rest then k (s.advance w.data.length) else none
  | .cls c, s, k =>
    match s.rest with
    | [] => none
    | x :: _ => if c.mem x then k (s.advance 1) else none
  | .plus c, s, k => regexp.tryLen 1 s k (s.rest.takeWhile c.mem).length
  | .star c, s, k => regexp.tryLen 0 s k (s.rest.takeWhile c.mem).length
  | .bol, s, k => if s.pos = 0 then k s else none
  | .eol, s, k => if s.rest.isEmpty then k s else none
  | .cat a b, s, k => a.run s (fun s1 => b.run s1 k)
  | .alt a b, s, k =>
    match a.run s k with
    | some m => some m
    | none => b.run s k
  | .group index _ r, s, k =>
    r.run s (fun s1 =>
      k { s1 with caps := (index, String.mk (s.rest.take (s1.pos - s.pos))) :: s1.caps })

/-- The leftmost match: the search is started at each position in turn. -/
def regexp.searchFrom (re : regexp.Regexp) : Nat → List Char → Option (Nat × regexp.MState)
  | i, [] =>
    match re.run { pos := i, rest := [], caps := [] } some with
    | some m => some (i, m)
    | none => none
  | i, c :: cs =>
    match re.run { pos := i, rest := c :: cs, caps := [] } some with
    | some m => some (i, m)
    | none => regexp.searchFrom re (i + 1) cs

/-- The names of the capturing groups, in the order of their opening
parentheses. -/
def regexp.groupNames : regexp.Regexp → List String
  | .cat a b => regexp.groupNames a ++ regexp.groupNames b
  | .alt a b => regexp.groupNames a ++ regexp.groupNames b
  | .group _ name r => name :: regexp.groupNames r
  | _ => []

/-- The method `SubexpNames`: the empty name for the whole match, then the
names of the groups. -/
def regexp.SubexpNames (re : regexp.Regexp) : List String :=
  "" :: regexp.groupNames re

/-- The text of group `g` in a list of closed groups; the empty string when
the group took no part in the match. -/
def regexp.capture (caps : List (Nat × String)) (g : Nat) : String :=
  match caps.find? (fun p => p.1 = g) with
  | some p => p.2
  | none => ""

/-- The method `FindStringSubmatch`: `none` is the nil slice of a text without
a match; otherwise the matched text, then the text of each group. -/
def regexp.FindStringSubmatch (re : regexp.Regexp) (s : String) : Option (List String) :=
  match regexp.searchFrom re 0 s.data with
  | none => none
  | some (i, m) =>
    some (String.mk ((s.data.drop i).take (m.pos - i))
      :: (List.range (regexp.groupNames re).length).map (fun g => regexp.capture m.caps (g + 1)))

/-! ## Package `text`: the RIB line decoder -/

/-- The errors of package `text`. -/
inductive text.Error where
  /-- The error "unable to parse line". -/
  | unableToParseLine
  /-- The error "wrong entry family: f". -/
  | wrongEntryFamily (family : String)
  deriving DecidableEq, Repr

/-- RIBMessage represents the common elements in a text-based encoding exabgp
message. -/
structure text.RIBMessage where
  PeerIP : String := ""
  PeerAS : String := ""
  LocalIP : String := ""
  LocalAS : String := ""
  AFI : String := ""
  SAFI : String := ""
  RouterID : String := ""
  Details : String := ""
  deriving DecidableEq, Repr

/-- Family returns the family of the rib entry. -/
def text.RIBMessage.Family (m : text.RIBMessage) : String := m.AFI ++ " " ++ m.SAFI

/-- The pattern `rxParseRIBLine`:
`^neighbor (?P<neighbor>\S+) local-ip (?P<local_ip>\S+) local-as (?P<local_as>\d+)
peer-as (?P<peer_as>\d+) router-id (?P<router_id>\S+) family-allowed in-open
(?P<afi>\S+) (?P<safi>\S+) (?P<details>.*)$` (one line, single spaces). -/
def text.rxParseRIBLine : regexp.Regexp :=
  regexp.seq
    [ .bol, .str "neighbor ", .group 1 "neighbor" (.plus .notSpace),
      .str " local-ip ", .group 2 "local_ip" (.plus .notSpace),
      .str " local-as ", .group 3 "local_as" (.plus .digit),
      .str " peer-as ", .group 4 "peer_as" (.plus .digit),
      .str " router-id ", .group 5 "router_id" (.plus .notSpace),
      .str " family-allowed in-open ", .group 6 "afi" (.plus .notSpace),
      .str " ", .group 7 "safi" (.plus .notSpace),
      .str " ", .group 8 "details" (.star .dot), .eol ]

/-- The loop `for i, name := range keys` of `parseRIBLine` and
`parseUnicastLine`, which stores `matches[i]` under `name` for every `i` but
0.  The result is `none` when `matches[i]` is out of range (the index
expression panics). -/
def text.fillNames (subs : List String) : List String → Nat → GoMap String →
    Option (GoMap String)
  | [], _, md => some md
  | name :: keys, i, md =>
    if i ≠ 0 then
      match subs[i]? with
      | none => none
      | some v => text.fillNames subs keys (i + 1) (mapSet md name v)
    else text.fillNames subs keys (i + 1) md

/-- The function `parseRIBLine`.  The result is the Go pair
`(map[string]string, error)`, or `none` when the function panics. -/
def text.parseRIBLine (s : String) : Option (GoMap String × Option text.Error) :=
  let md : GoMap String := []
  match regexp.FindStringSubmatch text.rxParseRIBLine s with
  | none => some (md, some .unableToParseLine)
  | some subs =>
    let keys := regexp.SubexpNames text.rxParseRIBLine
    match text.fillNames subs keys 0 md with
    | none => none
    | some md => some (md, none)

/-- The index expression `md[key]` on a `map[string]string`: the empty string
for a missing key. -/
def text.index (md : GoMap String) (key : String) : String := (mapGet md key).getD ""

/-- RibEntryFromString takes a text string and returns a RIBMessage.  The
result is the Go pair `(*RIBMessage, error)`, or `none` when the function
panics. -/
def text.RibEntryFromString (s : String) :
    Option (Option text.RIBMessage × Option text.Error) :=
  match text.parseRIBLine s with
  | none => none
  | some (_, some err) => some (none, some err)
  | some (md, none) =>
    some (some
      { PeerIP := text.index md "neighbor"
        LocalIP := text.index md "local_ip"
        PeerAS := text.index md "peer_as"
        LocalAS := text.index md "local_as"
        AFI := text.index md "afi"
        SAFI := text.index md "safi"
        RouterID := text.index md "router_id"
        Details := text.index md "details" }, none)

/-- A token of the header grammar: not empty and without a character of
`[\t\n\f\r ]`. -/
def text.isToken (s : String) : Prop := s ≠ "" ∧ ∀ c ∈ s.data, regexp.isSpace c = false

instance text.isToken.decidable (s : String) : Decidable (text.isToken s) :=
  inferInstanceAs (Decidable (s ≠ "" ∧ ∀ c ∈ s.data, regexp.isSpace c = false))

/-- A non-empty string of decimal digits. -/
def text.isDigits (s : String) : Prop := s ≠ "" ∧ ∀ c ∈ s.data, regexp.isDigit c = true

instance text.isDigits.decidable (s : String) : Decidable (text.isDigits s) :=
  inferInstanceAs (Decidable (s ≠ "" ∧ ∀ c ∈ s.data, regexp.isDigit c = true))

/-- A string without a newline. -/
def text.isNewlineFree (s : String) : Prop := ∀ c ∈ s.data, ¬ c.toNat = 10

instance text.isNewlineFree.decidable (s : String) : Decidable (text.isNewlineFree s) :=
  inferInstanceAs (Decidable (∀ c ∈ s.data, ¬ c.toNat = 10))

/-- The header line of the text grammar built from its eight parts. -/
def text.headerLine (p l la pa r afi safi d : String) : String :=
  "neighbor " ++ p ++ " local-ip " ++ l ++ " local-as " ++ la ++ " peer-as " ++ pa
    ++ " router-id " ++ r ++ " family-allowed in-open " ++ afi ++ " " ++ safi ++ " " ++ d

/-! ## Packages `strconv`, `strings` and `bufio` (Go standard library), as
far as `rib.go` uses them -/

/-- The value of a string of decimal digits. -/
def strconv.digitsValue (ds : List Char) : Nat :=
  ds.foldl (fun n c => 10 * n + (c.toNat - 48)) 0

/-- The call `strconv.ParseInt(s, 10, 64)`: an optional sign, then at least
one decimal digit and nothing else, the value within the range of `int64`;
`none` is a returned error (syntax or range). -/
def strconv.ParseInt (s : String) : Option Int :=
  match s.data with
  | [] => none
  | c :: cs =>
    let neg := decide (c.toNat = 45)
    let ds := if c.toNat = 43 ∨ c.toNat = 45 then cs else c :: cs
    if ds.isEmpty then none
    else if ds.all regexp.isDigit then
      let un := strconv.digitsValue ds
      if neg then (if un ≤ 2 ^ 63 then some (-(un : Int)) else none)
      else (if un < 2 ^ 63 then some (un : Int) else none)
    else none

/-- The pieces of a text around each space. -/
def strings.splitSpace : List Char → List (List Char)
  | [] => [[]]
  | c :: cs =>
    if c.toNat = 32 then [] :: strings.splitSpace cs
    else
      match strings.splitSpace cs with
      | [] => [[c]]
      | p :: ps => (c :: p) :: ps

/-- The call `strings.Split(s, " ")`. -/
def strings.Split (s : String) : List String :=
  (strings.splitSpace s.data).map String.mk

/-- The lines that successive calls of `ReadLine` return until `io.EOF`, for
a `bufio.Reader` with a buffer of `size` bytes over the bytes `data` (one
character stands for one byte); `cur` holds the bytes of the current line read
so far.  A line ends at a newline, which is dropped together with a carriage
return before it; when the buffer fills up before a newline the buffer is
returned as a line of its own (a carriage return at its end is put back); the
bytes after the last newline are a last line when there are any. -/
def bufio.readLines (size : Nat) : List Char → List Char → List (List Char)
  | [], cur => if cur.isEmpty then [] else [cur]
  | c :: cs, cur =>
    if c.toNat = 10 then
      (if cur.getLast?.map Char.toNat = some 13 then cur.dropLast else cur)
        :: bufio.readLines size cs []
    else if cur.length + 1 = size then
      if c.toNat = 13 then cur :: bufio.readLines size cs [c]
      else (cur ++ [c]) :: bufio.readLines size cs []
    else bufio.readLines size cs (cur ++ [c])

/-! ## Package `text`: attributes, unicast entries and the RIB buffer -/

/-- The common start `(?:^|\s+)` of the attribute patterns. -/
def text.boundary : regexp.Regexp := .alt .bol (.plus .space)

/-- The pattern `(?:^|\s+)kw (?P<name>c+)` of a scalar attribute. -/
def text.rxValue (kw name : String) (c : regexp.Class) : regexp.Regexp :=
  regexp.seq [text.boundary, .str (kw ++ " "), .group 1 name (.plus c)]

/-- The pattern `(?:^|\s+)kw \[ (?P<name>[^\]]+) \]` of a list attribute. -/
def text.rxBracketed (kw name : String) : regexp.Regexp :=
  regexp.seq [text.boundary, .str (kw ++ " [ "), .group 1 name (.plus .notRBracket), .str " ]"]

/-- The pattern `rxParseUnicast`:
`^(?P<nlri>\S+) next-hop (?P<next_hop>\S+)(| (?P<attributes>.*))$`. -/
def text.rxParseUnicast : regexp.Regexp :=
  regexp.seq
    [ .bol, .group 1 "nlri" (.plus .notSpace), .str " next-hop ",
      .group 2 "next_hop" (.plus .notSpace),
      .group 3 "" (.alt .empty (.cat (.str " ") (.group 4 "attributes" (.star .dot)))),
      .eol ]

/-- The pattern `(?:^|\s+)med (?P<med>\d+)`. -/
def text.rxParseAttributeMed : regexp.Regexp := text.rxValue "med" "med" .digit

/-- The pattern `(?:^|\s+)origin (?P<origin>\S+)`. -/
def text.rxParseAttributeOrigin : regexp.Regexp := text.rxValue "origin" "origin" .notSpace

/-- The pattern `(?:^|\s+)as-path \[ (?P<aspath>[^\]]+) \]`. -/
def text.rxParseAttributeASPath : regexp.Regexp := text.rxBracketed "as-path" "aspath"

/-- The pattern `(?:^|\s+)cluster-list \[ (?P<clusterlist>[^\]]+) \]`. -/
def text.rxParseAttributeClusterList : regexp.Regexp :=
  text.rxBracketed "cluster-list" "clusterlist"

/-- The pattern `(?:^|\s+)community \[ (?P<communities>[^\]]+) \]`. -/
def text.rxParseAttributeCommunities : regexp.Regexp :=
  text.rxBracketed "community" "communities"

/-- The pattern `(?:^|\s+)community (?P<community>\S+)`. -/
def text.rxParseAttributeCommunity : regexp.Regexp :=
  text.rxValue "community" "community" .notSpace

/-- The pattern `(?:^|\s+)extended-community \[ (?P<extendedcommunities>[^\]]+) \]`. -/
def text.rxParseAttributeExtendedCommunities : regexp.Regexp :=
  text.rxBracketed "extended-community" "extendedcommunities"

/-- The pattern `(?:^|\s+)extended-community (?P<extendedcommunity>\S+)`. -/
def text.rxParseAttributeExtendedCommunity : regexp.Regexp :=
  text.rxValue "extended-community" "extendedcommunity" .notSpace

/-- The pattern `(?:^|\s+)originator-id (?P<originatorid>\S+)`. -/
def text.rxParseAttributeOriginatorID : regexp.Regexp :=
  text.rxValue "originator-id" "originatorid" .notSpace

/-- The pattern `(?:^|\s+)local-preference (?P<localpreference>\d+)`. -/
def text.rxParseAttributeLocalPref : regexp.Regexp :=
  text.rxValue "local-preference" "localpreference" .digit

/-- Attribute represent BGP attributes for a message. -/
structure text.Attribute where
  Med : Int := 0
  ExtendedCommunity : List String := []
  Community : List String := []
  ASPath : List Int := []
  OriginatorID : String := ""
  LocalPreference : Int := 0
  Origin : String := ""
  ClusterList : List String := []
  deriving DecidableEq, Repr

/-- The statements `match := re.FindStringSubmatch(a); if len(match) >= 1
{ ... match[1] ... }`: `f` is what the body does with `match[1]`, `old` the
value the field keeps when there is no match.  The result is `none` when
`match[1]` is out of range (the index expression panics). -/
def text.withSubmatch {α : Type} (re : regexp.Regexp) (a : String) (old : α)
    (f : String → α) : Option α :=
  match regexp.FindStringSubmatch re a with
  | none => some old
  | some sub =>
    match sub[1]? with
    | none => none
    | some v => some (f v)

/-- The loop over `strings.Split(match[1], " ")` of the AS-path block, which
appends the numbers that parse and skips the rest. -/
def text.parseASPath (v : String) : List Int :=
  (strings.Split v).foldl (fun aspath asn =>
    match strconv.ParseInt asn with
    | some x => aspath ++ [x]
    | none => aspath) []

/-- The community blocks (`community` and `extended-community`): the list
pattern is tried first, the single-value pattern when it has no match. -/
def text.parseCommunity (rxList rxOne : regexp.Regexp) (a : String) : Option (List String) :=
  match regexp.FindStringSubmatch rxList a with
  | some sub =>
    match sub[1]? with
    | none => none
    | some v => some (strings.Split v)
  | none => text.withSubmatch rxOne a [] (fun v => [v])

/-- The function `parseAttributes`.  The result is `none` when an index
expression panics. -/
def text.parseAttributes (a : String) : Option text.Attribute :=
  -- parse MED
  match text.withSubmatch text.rxParseAttributeMed a (0 : Int)
      (fun v => match strconv.ParseInt v with
        | some x => x
        | none => 0) with
  | none => none
  | some med =>
  -- parse Origin
  match text.withSubmatch text.rxParseAttributeOrigin a "" (fun v => v) with
  | none => none
  | some origin =>
  -- parse AS-Path
  match text.withSubmatch text.rxParseAttributeASPath a [] text.parseASPath with
  | none => none
  | some aspath =>
  -- parse Cluster List
  match text.withSubmatch text.rxParseAttributeClusterList a [] strings.Split with
  | none => none
  | some clusterList =>
  -- parse Communities
  match text.parseCommunity text.rxParseAttributeCommunities text.rxParseAttributeCommunity a with
  | none => none
  | some community =>
  -- parse Extended Communities
  match text.parseCommunity text.rxParseAttributeExtendedCommunities
      text.rxParseAttributeExtendedCommunity a with
  | none => none
  | some extendedCommunity =>
  -- parse Originator ID
  match text.withSubmatch text.rxParseAttributeOriginatorID a "" (fun v => v) with
  | none => none
  | some originatorID =>
  -- parse Local Preference
  match text.withSubmatch text.rxParseAttributeLocalPref a (0 : Int)
      (fun v => match strconv.ParseInt v with
        | some x => x
        | none => 0) with
  | none => none
  | some localPreference =>
  some
    { Med := med, Origin := origin, ASPath := aspath, ClusterList := clusterList,
      Community := community, ExtendedCommunity := extendedCommunity,
      OriginatorID := originatorID, LocalPreference := localPreference }

/-- The function `parseUnicastLine`.  The result is the Go pair
`(map[string]string, error)`, or `none` when the function panics. -/
def text.parseUnicastLine (s : String) : Option (GoMap String × Option text.Error) :=
  let md : GoMap String := []
  match regexp.FindStringSubmatch text.rxParseUnicast s with
  | none => some (md, some .unableToParseLine)
  | some subs =>
    let keys := regexp.SubexpNames text.rxParseUnicast
    match text.fillNames subs keys 0 md with
    | none => none
    | some md => some (md, none)

/-- IPv4UnicastAnnounceTextMessage represents an ipv4-unicast announce in a
text-based encoded exabgp message. -/
structure text.IPv4UnicastAnnounceTextMessage where
  NLRI : String := ""
  NextHop : String := ""
  Attributes : text.Attribute := {}
  deriving DecidableEq, Repr

/-- IPv6UnicastAnnounceTextMessage represents an ipv6-unicast announce in a
text-based encoded exabgp message. -/
structure text.IPv6UnicastAnnounceTextMessage where
  NLRI : String := ""
  NextHop : String := ""
  Attributes : text.Attribute := {}
  deriving DecidableEq, Repr

/-- IPv4FlowAnnounceTextMessage represents an ipv4-flow announce in a
text-based encoded exabgp message. -/
structure text.IPv4FlowAnnounceTextMessage where
  DestinationIPv4 : String := ""
  SourceIPv4 : String := ""
  Protocol : String := ""
  SourcePort : String := ""
  DestinationPort : String := ""
  ExtendedCommunity : String := ""
  deriving DecidableEq, Repr

/-- IPv6FlowAnnounceTextMessage represents an ipv6-flow announce in a
text-based encoded exabgp message. -/
structure text.IPv6FlowAnnounceTextMessage where
  DestinationIPv6 : String := ""
  SourceIPv6 : String := ""
  Protocol : String := ""
  SourcePort : String := ""
  DestinationPort : String := ""
  ExtendedCommunity : String := ""
  deriving DecidableEq, Repr

/-- IPv4Unicast returns an ipv4 unicast from a rib line.  The result is the Go
pair `(*IPv4UnicastAnnounceTextMessage, error)`, or `none` on a panic. -/
def text.RIBMessage.IPv4Unicast (m : text.RIBMessage) :
    Option (Option text.IPv4UnicastAnnounceTextMessage × Option text.Error) :=
  if m.Family ≠ "ipv4 unicast" then some (none, some (.wrongEntryFamily m.Family))
  else
    match text.parseUnicastLine m.Details with
    | none => none
    | some (_, some err) => some (none, some err)
    | some (res, none) =>
      match text.parseAttributes (text.index res "attributes") with
      | none => none
      | some attributes =>
        some (some { NLRI := text.index res "nlri", NextHop := text.index res "next_hop",
                     Attributes := attributes }, none)

/-- IPv4Flow returns an ipv4 flow from a rib line. -/
def text.RIBMessage.IPv4Flow (_ : text.RIBMessage) :
    Option text.IPv4FlowAnnounceTextMessage × Option text.Error :=
  (none, none)

/-- IPv6Unicast returns an ipv6 unicast from a rib line.  The result is the Go
pair `(*IPv6UnicastAnnounceTextMessage, error)`, or `none` on a panic. -/
def text.RIBMessage.IPv6Unicast (m : text.RIBMessage) :
    Option (Option text.IPv6UnicastAnnounceTextMessage × Option text.Error) :=
  if m.Family ≠ "ipv6 unicast" then some (none, some (.wrongEntryFamily m.Family))
  else
    match text.parseUnicastLine m.Details with
    | none => none
    | some (_, some err) => some (none, some err)
    | some (res, none) =>
      match text.parseAttributes (text.index res "attributes") with
      | none => none
      | some attributes =>
        some (some { NLRI := text.index res "nlri", NextHop := text.index res "next_hop",
                     Attributes := attributes }, none)

/-- IPv6Flow returns an ipv6 flow from a rib line. -/
def text.RIBMessage.IPv6Flow (_ : text.RIBMessage) :
    Option text.IPv6FlowAnnounceTextMessage × Option text.Error :=
  (none, none)

/-- The loop of `RibFromBytes` over the lines that `ReadLine` returns; `ribs`
is the slice of `*RIBMessage` built so far.  The result is the Go pair
`([]*RIBMessage, error)`, or `none` on a panic. -/
def text.ribLoop : List (List Char) → List (Option text.RIBMessage) →
    Option (List (Option text.RIBMessage) × Option text.Error)
  | [], ribs => some (ribs, none)
  | l :: ls, ribs =>
    match text.RibEntryFromString (String.mk l) with
    | none => none
    | some (_, some err) => some (ribs, some err)
    | some (r, none) => text.ribLoop ls (ribs ++ [r])

/-- RibFromBytes takes a byte slice and returns a collection of RIBMessage.
The reader is a `bufio.NewReader`, whose buffer has 4096 bytes. -/
def text.RibFromBytes (b : String) :
    Option (List (Option text.RIBMessage) × Option text.Error) :=
  text.ribLoop (bufio.readLines 4096 b.data []) []

/-! ## What a pattern matches

The relation `re.Matches pos w after`: the pattern `re` matches the characters
`w` when `pos` characters of the text come before them and the characters
`after` come after them. -/

/-- The texts a pattern matches, by the structure of the pattern. -/
def regexp.Regexp.Matches : regexp.Regexp → Nat → List Char → List Char → Prop
  | .empty, _, w, _ => w = []
  | .str s, _, w, _ => w = s.data
  | .cls c, _, w, _ => ∃ x, w = [x] ∧ c.mem x = true
  | .plus c, _, w, _ => w ≠ [] ∧ ∀ x ∈ w, c.mem x = true
  | .star c, _, w, _ => ∀ x ∈ w, c.mem x = true
  | .bol, pos, w, _ => w = [] ∧ pos = 0
  | .eol, _, w, after => w = [] ∧ after = []
  | .cat a b, pos, w, after =>
    ∃ w1 w2, w = w1 ++ w2 ∧ a.Matches pos w1 (w2 ++ after)
      ∧ b.Matches (pos + w1.length) w2 after
  | .alt a b, pos, w, after => a.Matches pos w after ∨ b.Matches pos w after
  | .group _ _ r, pos, w, after => r.Matches pos w after

/-- The header grammar of a RIB line: "neighbor p local-ip l local-as la
peer-as pa router-id r family-allowed in-open afi safi d" with non-empty
whitespace-free tokens `p`, `l`, `r`, `afi`, `safi`, non-empty digit strings
`la`, `pa` and a newline-free detail string `d`. -/
def text.isHeaderLine (line : String) : Prop :=
  ∃ p l la pa r afi safi d : String,
    text.isToken p ∧ text.isToken l ∧ text.isDigits la ∧ text.isDigits pa ∧ text.isToken r
    ∧ text.isToken afi ∧ text.isToken safi ∧ text.isNewlineFree d
    ∧ line = text.headerLine p l la pa r afi safi d

/-- The buffer made of the given lines, separated by newlines. -/
def text.bufferOf : List String → String
  | [] => ""
  | [l] => l
  | l :: ls => l ++ "\n" ++ text.bufferOf ls

/-- Whether a line ends in a carriage return. -/
def text.endsInCR (l : String) : Prop := l.data.getLast?.map Char.toNat = some 13

instance text.endsInCR.decidable (l : String) : Decidable (text.endsInCR l) :=
  inferInstanceAs (Decidable (l.data.getLast?.map Char.toNat = some 13))

/-- Whether `RibEntryFromString` accepts a line: a message and no error. -/
def text.accepted (l : String) : Prop :=
  ∃ m : text.RIBMessage, text.RibEntryFromString l = some (some m, none)

/-- A line that `RibEntryFromString` accepts, and the same line with a
carriage return at its end. -/
def text.sampleLine (d : String) : String :=
  "neighbor a local-ip b local-as 1 peer-as 2 router-id c family-allowed in-open ipv4 unicast "
    ++ d

/-- The message of `text.sampleLine d`. -/
def text.sampleMessage (d : String) : text.RIBMessage :=
  { PeerIP := "a", LocalIP := "b", LocalAS := "1", PeerAS := "2", RouterID := "c",
    AFI := "ipv4", SAFI := "unicast", Details := d }

/-! ## Vocabulary of the attribute claims -/

/-- Whether a keyword may start after the text `pre`: `pre` is empty (the
start of the fragment) or ends in whitespace. -/
def text.atBoundary (pre : List Char) : Bool :=
  match pre.getLast? with
  | none => true
  | some s => regexp.isSpace s

/-- The keyword `kw` occurs at index `i` of the text `t`, at the start or
after whitespace, followed by a space and by a character of the class `c` (the
start of a value). -/
def text.valueAt (kw : String) (c : regexp.Class) (t : List Char) (i : Nat) : Prop :=
  text.atBoundary (t.take i) = true
  ∧ (kw ++ " ").data.isPrefixOf (t.drop i) = true
  ∧ ((t.drop (i + (kw ++ " ").data.length)).head?.map c.mem) = some true

instance text.valueAt.decidable (kw : String) (c : regexp.Class) (t : List Char) (i : Nat) :
    Decidable (text.valueAt kw c t i) :=
  inferInstanceAs (Decidable (text.atBoundary (t.take i) = true
    ∧ (kw ++ " ").data.isPrefixOf (t.drop i) = true
    ∧ ((t.drop (i + (kw ++ " ").data.length)).head?.map c.mem) = some true))

/-- The keyword `kw` occurs at index `i` of the text `t`, at the start or
after whitespace, followed by " [ ", by `n > 0` characters other than the
closing bracket and by " ]" (a bracketed list). -/
def text.listAt (kw : String) (t : List Char) (i : Nat) : Prop :=
  text.atBoundary (t.take i) = true
  ∧ (kw ++ " [ ").data.isPrefixOf (t.drop i) = true
  ∧ ∃ n, n < t.length ∧ 0 < n
      ∧ (∀ x ∈ (t.drop (i + (kw ++ " [ ").data.length)).take n,
          regexp.Class.notRBracket.mem x = true)
      ∧ " ]".data.isPrefixOf ((t.drop (i + (kw ++ " [ ").data.length)).drop n) = true

instance text.listAt.decidable (kw : String) (t : List Char) (i : Nat) :
    Decidable (text.listAt kw t i) :=
  inferInstanceAs (Decidable (text.atBoundary (t.take i) = true
    ∧ (kw ++ " [ ").data.isPrefixOf (t.drop i) = true
    ∧ ∃ n, n < t.length ∧ 0 < n
        ∧ (∀ x ∈ (t.drop (i + (kw ++ " [ ").data.length)).take n,
            regexp.Class.notRBracket.mem x = true)
        ∧ " ]".data.isPrefixOf ((t.drop (i + (kw ++ " [ ").data.length)).drop n) = true))

/-- The fragment holds no value of the keyword `kw`. -/
def text.noValue (kw : String) (c : regexp.Class) (a : String) : Prop :=
  ∀ i, i < a.data.length → ¬ text.valueAt kw c a.data i

instance text.noValue.decidable (kw : String) (c : regexp.Class) (a : String) :
    Decidable (text.noValue kw c a) :=
  inferInstanceAs (Decidable (∀ i, i < a.data.length → ¬ text.valueAt kw c a.data i))

/-- The fragment holds no bracketed list of the keyword `kw`. -/
def text.noList (kw : String) (a : String) : Prop :=
  ∀ i, i < a.data.length → ¬ text.listAt kw a.data i

instance text.noList.decidable (kw : String) (a : String) : Decidable (text.noList kw a) :=
  inferInstanceAs (Decidable (∀ i, i < a.data.length → ¬ text.listAt kw a.data i))

/-- The tokens joined by single spaces. -/
def text.joinTokens : List String → String
  | [] => ""
  | [t] => t
  | t :: ts => t ++ " " ++ text.joinTokens ts

/-- Whether a token ends in front of the text `post`: `post` is empty (the end
of the fragment) or starts with whitespace. -/
def text.endsToken (post : List Char) : Bool :=
  match post with
  | [] => true
  | x :: _ => regexp.isSpace x

/-- A token of a bracketed list: not empty, without whitespace and without a
closing bracket. -/
def text.isListToken (t : String) : Prop :=
  t ≠ "" ∧ ∀ c ∈ t.data, regexp.isSpace c = false ∧ ¬ c.toNat = 93

instance text.isListToken.decidable (t : String) : Decidable (text.isListToken t) :=
  inferInstanceAs (Decidable (t ≠ "" ∧ ∀ c ∈ t.data, regexp.isSpace c = false ∧ ¬ c.toNat = 93))

/-! ## Well-formed attribute fragments -/

/-- A keyword/value pair of an attribute fragment: the eight keywords, with a
bare and a bracketed form for `community` and `extended-community`. -/
inductive text.Pair where
  /-- The pair "origin t". -/
  | origin (t : String)
  /-- The pair "med ds". -/
  | med (ds : String)
  /-- The pair "local-preference ds". -/
  | localPreference (ds : String)
  /-- The pair "as-path [ n1 ... nk ]". -/
  | asPath (ns : List String)
  /-- The pair "community t". -/
  | community (t : String)
  /-- The pair "community [ t1 ... tk ]". -/
  | communities (ts : List String)
  /-- The pair "extended-community t". -/
  | extendedCommunity (t : String)
  /-- The pair "extended-community [ t1 ... tk ]". -/
  | extendedCommunities (ts : List String)
  /-- The pair "cluster-list [ t1 ... tk ]". -/
  | clusterList (ts : List String)
  /-- The pair "originator-id t". -/
  | originatorID (t : String)
  deriving DecidableEq, Repr

/-- The keywords of the attribute patterns. -/
def text.keywords : List String :=
  ["origin", "med", "local-preference", "as-path", "community", "extended-community",
    "cluster-list", "originator-id"]

/-- The keyword of a pair. -/
def text.Pair.keyword : text.Pair → String
  | .origin _ => "origin"
  | .med _ => "med"
  | .localPreference _ => "local-preference"
  | .asPath _ => "as-path"
  | .community _ => "community"
  | .communities _ => "community"
  | .extendedCommunity _ => "extended-community"
  | .extendedCommunities _ => "extended-community"
  | .clusterList _ => "cluster-list"
  | .originatorID _ => "originator-id"

/-- The tokens of the value of a pair: one token, or a list between the
tokens "[" and "]". -/
def text.Pair.value : text.Pair → List String
  | .origin t => [t]
  | .med ds => [ds]
  | .localPreference ds => [ds]
  | .asPath ns => "[" :: (ns ++ ["]"])
  | .community t => [t]
  | .communities ts => "[" :: (ts ++ ["]"])
  | .extendedCommunity t => [t]
  | .extendedCommunities ts => "[" :: (ts ++ ["]"])
  | .clusterList ts => "[" :: (ts ++ ["]"])
  | .originatorID t => [t]

/-- The tokens of a pair: the keyword, then the value. -/
def text.Pair.tokens (p : text.Pair) : List String := p.keyword :: p.value

/-- The tokens of a list of pairs. -/
def text.tokensOf : List text.Pair → List String
  | [] => []
  | p :: ps => p.tokens ++ text.tokensOf ps

/-- The attribute fragment built from a list of pairs: the tokens of the
pairs, separated by single spaces. -/
def text.fragmentOf (pairs : List text.Pair) : String := text.joinTokens (text.tokensOf pairs)

/-- A number of a fragment: decimal digits whose value fits in 64 bits. -/
def text.isNumber (ds : String) : Prop :=
  text.isDigits ds ∧ strconv.digitsValue ds.data < 2 ^ 63

instance text.isNumber.decidable (ds : String) : Decidable (text.isNumber ds) :=
  inferInstanceAs (Decidable (text.isDigits ds ∧ strconv.digitsValue ds.data < 2 ^ 63))

/-- A well-formed pair: a bare value is a non-empty whitespace-free token that
is no keyword (and not the opening bracket for the community keywords), a
number is a number, and a list is not empty and holds non-empty tokens without
whitespace or closing bracket, none of them a keyword. -/
def text.Pair.wellFormed : text.Pair → Prop
  | .origin t => text.isToken t ∧ t ∉ text.keywords
  | .med ds => text.isNumber ds
  | .localPreference ds => text.isNumber ds
  | .asPath ns => ns ≠ [] ∧ ∀ n ∈ ns, text.isNumber n
  | .community t => text.isToken t ∧ t ∉ text.keywords ∧ t ≠ "["
  | .communities ts => ts ≠ [] ∧ ∀ t ∈ ts, text.isListToken t ∧ t ∉ text.keywords
  | .extendedCommunity t => text.isToken t ∧ t ∉ text.keywords ∧ t ≠ "["
  | .extendedCommunities ts => ts ≠ [] ∧ ∀ t ∈ ts, text.isListToken t ∧ t ∉ text.keywords
  | .clusterList ts => ts ≠ [] ∧ ∀ t ∈ ts, text.isListToken t ∧ t ∉ text.keywords
  | .originatorID t => text.isToken t ∧ t ∉ text.keywords

instance text.Pair.wellFormed.decidable (p : text.Pair) : Decidable p.wellFormed := by
  cases p <;> unfold text.Pair.wellFormed <;> infer_instance

/-- The field of an Attribute that a pair fills holds the value of the pair. -/
def text.Pair.sets (attrs : text.Attribute) : text.Pair → Prop
  | .origin t => attrs.Origin = t
  | .med ds => attrs.Med = (strconv.digitsValue ds.data : Int)
  | .localPreference ds => attrs.LocalPreference = (strconv.digitsValue ds.data : Int)
  | .asPath ns => attrs.ASPath = ns.map (fun n => (strconv.digitsValue n.data : Int))
  | .community t => attrs.Community = [t]
  | .communities ts => attrs.Community = ts
  | .extendedCommunity t => attrs.ExtendedCommunity = [t]
  | .extendedCommunities ts => attrs.ExtendedCommunity = ts
  | .clusterList ts => attrs.ClusterList = ts
  | .originatorID t => attrs.OriginatorID = t

/-- The fields of an Attribute whose keyword is not among `keys` hold their
zero value. -/
def text.zeroOutside (keys : List String) (attrs : text.Attribute) : Prop :=
  ("origin" ∉ keys → attrs.Origin = "")
  ∧ ("med" ∉ keys → attrs.Med = 0)
  ∧ ("local-preference" ∉ keys → attrs.LocalPreference = 0)
  ∧ ("as-path" ∉ keys → attrs.ASPath = [])
  ∧ ("community" ∉ keys → attrs.Community = [])
  ∧ ("extended-community" ∉ keys → attrs.ExtendedCommunity = [])
  ∧ ("cluster-list" ∉ keys → attrs.ClusterList = [])
  ∧ ("originator-id" ∉ keys → attrs.OriginatorID = "")

/-- The text of tokens, each followed by a space. -/
def text.spaced : List String → List Char
  | [] => []
  | t :: ts => t.data ++ Char.ofNat 32 :: text.spaced ts

/-- The text that follows a token when the tokens `r` come after it: nothing,
or a space and the tokens. -/
def text.afterToken (r : List String) : List Char :=
  match r with
  | [] => []
  | _ :: _ => Char.ofNat 32 :: (text.joinTokens r).data

/-! ## An announce-only update -/

/-- The update `sampleUpdate` without its `withdraw` object: an announce-only
update. -/
def announceOnlyUpdate : messages.UpdateMessageFull := { sampleUpdate with Withdraw := {} }

/-- The withdrawals `parseUpdateMessage` builds from `announceOnlyUpdate`. -/
def announceOnlyWithdrawals : Withdrawals :=
  { IPv4Unicast := [{ Attributes := sampleUpdate.Attribute, NLRI := [] }]
    IPv6Unicast := [{ Attributes := sampleUpdate.Attribute, NLRI := [] }] }

/-! ## Package `exporter`: the standalone collector -/

/-- The function `strconv.Itoa`: the decimal text of an integer. -/
def strconv.Itoa (i : Int) : String := toString i

/-- The function `strings.Join`. -/
def strings.Join (elems : List String) (sep : String) : String := sep.intercalate elems

/-- The label values of the `route` metric that `StandaloneExporter.Collect`
builds from an entry and its unicast projection (the arguments of
`MustNewConstMetric` after the value). -/
def exporter.routeLabels (r : text.RIBMessage) (nlri : String) (attributes : text.Attribute) :
    List String :=
  let asPathLines := attributes.ASPath.map strconv.Itoa
  [r.PeerIP, r.PeerAS, r.LocalIP, r.LocalAS, nlri, r.Family, strconv.Itoa attributes.Med,
    strconv.Itoa attributes.LocalPreference, strings.Join asPathLines " ",
    strings.Join attributes.Community " "]

/-- The body of the loop `for _, r := range ribs` of
`StandaloneExporter.Collect`: the label values of the metric sent for the entry
`r`, or no metric in the default branch (which logs "unable to handle
family").  The error of the projection is discarded (`v4u, _ :=
r.IPv4Unicast()`) and the entry is dereferenced (`v4u.Attributes.ASPath`), so
the result is `none`, a panic, when the entry is nil. -/
def exporter.collectRib (r : text.RIBMessage) : Option (Option (List String)) :=
  if r.Family = "ipv4 unicast" then
    match r.IPv4Unicast with
    | none => none
    | some (none, _) => none
    | some (some v4u, _) => some (some (exporter.routeLabels r v4u.NLRI v4u.Attributes))
  else if r.Family = "ipv6 unicast" then
    match r.IPv6Unicast with
    | none => none
    | some (none, _) => none
    | some (some v6u, _) => some (some (exporter.routeLabels r v6u.NLRI v6u.Attributes))
  else some none

/-- A line of the RIB dump for the family `ipv6 unicast` with the details `d`. -/
def text.sampleLine6 (d : String) : String :=
  "neighbor a local-ip b local-as 1 peer-as 2 router-id c family-allowed in-open ipv6 unicast "
    ++ d

/-- The message of `text.sampleLine6 d`. -/
def text.sampleMessage6 (d : String) : text.RIBMessage :=
  { PeerIP := "a", LocalIP := "b", LocalAS := "1", PeerAS := "2", RouterID := "c",
    AFI := "ipv6", SAFI := "unicast", Details := d }

/-! ## Lemmas on maps -/

theorem mapGet_mapSet_same {V : Type} (m : GoMap V) (k : String) (v : V) :
    mapGet (mapSet m k v) k = some v := by
  induction m with
  | nil => simp [mapSet, mapGet]
  | cons p rest ih =>
    obtain ⟨k0, v0⟩ := p
    by_cases h : k0 = k
    · simp [mapSet, mapGet, h]
    · simp [mapSet, mapGet, h, ih]

theorem mapGet_mapSet_ne {V : Type} (m : GoMap V) (k k1 : String) (v : V) (h : k1 ≠ k) :
    mapGet (mapSet m k v) k1 = mapGet m k1 := by
  induction m with
  | nil => simp [mapSet, mapGet, Ne.symm h]
  | cons p rest ih =>
    obtain ⟨k0, v0⟩ := p
    by_cases h0 : k0 = k
    · subst h0
      simp [mapSet, mapGet, Ne.symm h]
    · by_cases h1 : k0 = k1
      · subst h1
        simp [mapSet, mapGet, h0]
      · simp [mapSet, mapGet, h0, h1, ih]

theorem mapGet_mapEnsure_ne {V : Type} (m : GoMap V) (k k1 : String) (z : V) (h : k1 ≠ k) :
    mapGet (mapEnsure m k z) k1 = mapGet m k1 := by
  unfold mapEnsure
  cases hg : mapGet m k with
  | none => simp [mapGet_mapSet_ne m k k1 z h]
  | some a => simp

theorem mapGet_mapEnsure_same {V : Type} (m : GoMap V) (k : String) (z : V) :
    (mapGet (mapEnsure m k z) k).getD z = (mapGet m k).getD z := by
  unfold mapEnsure
  cases hg : mapGet m k with
  | none => simp [mapGet_mapSet_same]
  | some a => simp [hg]

theorem mapGet_eq_none_iff {V : Type} (m : GoMap V) (k : String) :
    mapGet m k = none ↔ k ∉ mapKeys m := by
  induction m with
  | nil => simp [mapGet, mapKeys]
  | cons p rest ih =>
    obtain ⟨k0, v0⟩ := p
    by_cases h : k0 = k
    · simp [mapGet, mapKeys, h]
    · have h1 : ¬ k = k0 := fun e => h e.symm
      simp only [mapKeys] at ih
      simp [mapGet, mapKeys, h, h1, ih]

theorem mem_mapSet {V : Type} (m : GoMap V) (k : String) (v : V) (kv : String × V)
    (h : kv ∈ mapSet m k v) : kv = (k, v) ∨ kv ∈ m := by
  induction m with
  | nil => simpa [mapSet] using h
  | cons p rest ih =>
    obtain ⟨k0, v0⟩ := p
    by_cases h0 : k0 = k
    · simp only [mapSet, h0, if_true, List.mem_cons] at h
      rcases h with h | h
      · exact Or.inl h
      · exact Or.inr (List.mem_cons_of_mem _ h)
    · simp only [mapSet, h0, if_false, List.mem_cons] at h
      rcases h with h | h
      · exact Or.inr (by rw [h]; exact List.mem_cons_self _ _)
      · rcases ih h with h1 | h1
        · exact Or.inl h1
        · exact Or.inr (List.mem_cons_of_mem _ h1)

theorem mapSet_mapSet {V : Type} (m : GoMap V) (k : String) (z v : V) :
    mapSet (mapSet m k z) k v = mapSet m k v := by
  induction m with
  | nil => simp [mapSet]
  | cons p rest ih =>
    obtain ⟨k0, v0⟩ := p
    by_cases h0 : k0 = k
    · simp [mapSet, h0]
    · simp [mapSet, h0, ih]

theorem mem_mapSet_mapEnsure {V : Type} (m : GoMap V) (k : String) (z v : V)
    (kv : String × V) (h : kv ∈ mapSet (mapEnsure m k z) k v) : kv = (k, v) ∨ kv ∈ m := by
  unfold mapEnsure at h
  cases hg : mapGet m k with
  | none =>
    rw [hg] at h
    simp only [mapSet_mapSet] at h
    exact mem_mapSet m k v kv h
  | some a =>
    rw [hg] at h
    exact mem_mapSet m k v kv h

/-! ## Lemmas on the route loops -/

theorem appendMapValues_ok_iff (kvs : List (String × JSONValue)) :
    ∀ nlri : List String,
      (∃ r, appendMapValues nlri kvs = .ok r) ↔ kvs.all (fun kv => isString kv.2) = true := by
  induction kvs with
  | nil => intro nlri; simp [appendMapValues]
  | cons p rest ih =>
    obtain ⟨k, v⟩ := p
    intro nlri
    cases v <;> simp [appendMapValues, isString, ih]

theorem appendRoute_ok_iff (nlri : List String) (rs : JSONValue) :
    (∃ r, appendRoute nlri rs = .ok r) ↔ okRoute rs = true := by
  cases rs with
  | object kvs => simpa [appendRoute, okRoute] using appendMapValues_ok_iff kvs nlri
  | _ => simp [appendRoute, okRoute]

theorem appendRoutes_ok_iff (routes : List JSONValue) :
    ∀ nlri : List String,
      (∃ r, appendRoutes nlri routes = .ok r) ↔ ∀ rs ∈ routes, okRoute rs = true := by
  induction routes with
  | nil => intro nlri; simp [appendRoutes]
  | cons rs rest ih =>
    intro nlri
    have h1 := appendRoute_ok_iff nlri rs
    cases h : appendRoute nlri rs with
    | error e =>
      have h2 : ¬ okRoute rs = true := fun hok => by
        obtain ⟨r, hr⟩ := h1.mpr hok
        rw [h] at hr
        cases hr
      simp [appendRoutes, h, h2]
    | ok n =>
      have h2 : okRoute rs = true := h1.mp ⟨n, h⟩
      simp [appendRoutes, h, h2, ih]

theorem appendRoute_plain (nlri : List String) (rs : JSONValue) (s : String)
    (h : routeString rs = some s) : appendRoute nlri rs = .ok (nlri ++ [s]) := by
  unfold routeString at h
  split at h
  · cases h
    simp [appendRoute]
  · cases h
    simp [appendRoute, appendMapValues]
  · cases h

theorem appendRoutes_plain (routes : List JSONValue) :
    ∀ nlri : List String, (∀ rs ∈ routes, (routeString rs).isSome = true) →
      appendRoutes nlri routes = .ok (nlri ++ routes.filterMap routeString) := by
  induction routes with
  | nil => intro nlri _; simp [appendRoutes]
  | cons rs rest ih =>
    intro nlri h
    have h0 := h rs (List.mem_cons_self _ _)
    obtain ⟨s, hs⟩ := Option.isSome_iff_exists.mp h0
    have hrest : ∀ r ∈ rest, (routeString r).isSome = true :=
      fun r hr => h r (List.mem_cons_of_mem _ hr)
    simp [appendRoutes, appendRoute_plain nlri rs s hs, ih _ hrest, List.filterMap_cons, hs]

theorem filterMap_routeString_length (routes : List JSONValue)
    (h : ∀ rs ∈ routes, (routeString rs).isSome = true) :
    (routes.filterMap routeString).length = routes.length := by
  induction routes with
  | nil => rfl
  | cons rs rest ih =>
    have h0 := h rs (List.mem_cons_self _ _)
    obtain ⟨s, hs⟩ := Option.isSome_iff_exists.mp h0
    have hrest : ∀ r ∈ rest, (routeString r).isSome = true :=
      fun r hr => h r (List.mem_cons_of_mem _ hr)
    simp [List.filterMap_cons, hs, ih hrest]

/-! ## Lemmas on the announce loops -/

theorem announceLoop_ok_iff {X A : Type} (zero : A) (body : A → X → Except Error A)
    (good : X → Prop) (hbody : ∀ a x, (∃ b, body a x = .ok b) ↔ good x) (m : GoMap X) :
    ∀ ra : GoMap A,
      (∃ r, announceLoop zero body m ra = .ok r) ↔ ∀ kv ∈ m, good kv.2 := by
  induction m with
  | nil => intro ra; simp [announceLoop]
  | cons p rest ih =>
    obtain ⟨k, x⟩ := p
    intro ra
    have h1 := hbody ((mapGet (mapEnsure ra k zero) k).getD zero) x
    cases h : body ((mapGet (mapEnsure ra k zero) k).getD zero) x with
    | error e =>
      have h2 : ¬ good x := fun hg => by
        obtain ⟨b, hb⟩ := h1.mpr hg
        rw [h] at hb
        cases hb
      simp [announceLoop, h, h2]
    | ok b =>
      have h2 : good x := h1.mp ⟨b, h⟩
      simp [announceLoop, h, h2, ih]

theorem announceLoop_get_of_not_mem {X A : Type} (zero : A) (body : A → X → Except Error A)
    (m : GoMap X) :
    ∀ (ra r : GoMap A) (k : String), announceLoop zero body m ra = .ok r →
      k ∉ mapKeys m → mapGet r k = mapGet ra k := by
  induction m with
  | nil =>
    intro ra r k h _
    simp [announceLoop] at h
    rw [h]
  | cons p rest ih =>
    obtain ⟨k0, x0⟩ := p
    intro ra r k h hk
    have hne : k ≠ k0 := fun e => hk (by simp [mapKeys, e])
    have hrest : k ∉ mapKeys rest := fun e => hk (by
      simp only [mapKeys] at e
      simp [mapKeys, e])
    cases hb : body ((mapGet (mapEnsure ra k0 zero) k0).getD zero) x0 with
    | error e => simp [announceLoop, hb] at h
    | ok b =>
      simp only [announceLoop, hb] at h
      rw [ih _ _ k h hrest, mapGet_mapSet_ne _ _ _ _ hne, mapGet_mapEnsure_ne _ _ _ _ hne]

theorem announceLoop_get_of_mem {X A : Type} (zero : A) (body : A → X → Except Error A)
    (m : GoMap X) :
    ∀ (ra r : GoMap A) (k : String) (x : X), announceLoop zero body m ra = .ok r →
      mapWF m → (k, x) ∈ m →
      ∃ b, body ((mapGet ra k).getD zero) x = .ok b ∧ mapGet r k = some b := by
  induction m with
  | nil => intro ra r k x _ _ hmem; cases hmem
  | cons p rest ih =>
    obtain ⟨k0, x0⟩ := p
    intro ra r k x h hwf hmem
    have hwf0 : k0 ∉ mapKeys rest ∧ mapWF rest := by
      simpa [mapWF, mapKeys] using hwf
    cases hb : body ((mapGet (mapEnsure ra k0 zero) k0).getD zero) x0 with
    | error e => simp [announceLoop, hb] at h
    | ok b =>
      simp only [announceLoop, hb] at h
      rcases List.mem_cons.mp hmem with heq | hin
      · have hk : k = k0 := congrArg Prod.fst heq
        have hx : x = x0 := congrArg Prod.snd heq
        subst hk hx
        refine ⟨b, ?_, ?_⟩
        · rw [← mapGet_mapEnsure_same ra k zero]
          exact hb
        · rw [announceLoop_get_of_not_mem zero body rest _ r k h hwf0.1, mapGet_mapSet_same]
      · have hne : k ≠ k0 := fun e => hwf0.1 (by
          subst e
          exact List.mem_map_of_mem Prod.fst hin)
        obtain ⟨c, hc1, hc2⟩ := ih _ r k x h hwf0.2 hin
        rw [mapGet_mapSet_ne _ _ _ _ hne, mapGet_mapEnsure_ne _ _ _ _ hne] at hc1
        exact ⟨c, hc1, hc2⟩

theorem announceLoop_forall {X A : Type} (zero : A) (body : A → X → Except Error A)
    (P : A → Prop) (hbody : ∀ a x b, body a x = .ok b → P b) (m : GoMap X) :
    ∀ (ra r : GoMap A), announceLoop zero body m ra = .ok r →
      (∀ kv ∈ ra, P kv.2) → ∀ kv ∈ r, P kv.2 := by
  induction m with
  | nil =>
    intro ra r h hra
    simp [announceLoop] at h
    rw [← h]
    exact hra
  | cons p rest ih =>
    obtain ⟨k0, x0⟩ := p
    intro ra r h hra
    cases hb : body ((mapGet (mapEnsure ra k0 zero) k0).getD zero) x0 with
    | error e => simp [announceLoop, hb] at h
    | ok b =>
      simp only [announceLoop, hb] at h
      refine ih _ r h ?_
      intro kv hkv
      rcases mem_mapSet_mapEnsure ra k0 zero b kv hkv with heq | hin
      · rw [heq]
        exact hbody _ _ _ hb
      · exact hra kv hin

/-! ## Lemmas on `parseUpdateMessage` -/

theorem foldl_append_singleton {X Y : Type} (f : X → Y) (xs : List X) :
    ∀ acc : List Y, xs.foldl (fun acc x => acc ++ [f x]) acc = acc ++ xs.map f := by
  induction xs with
  | nil => intro acc; simp
  | cons x rest ih => intro acc; simp [ih]

/-- Every run of `parseUpdateMessage` either returns `(nil, nil, err)`, where
`err` is the error of one of its loops, or all six fallible loops succeed and
it returns the announcements and withdrawals they built. -/
theorem parseUpdateMessage_cases (u : messages.UpdateMessageFull) :
    (∃ e, parseUpdateMessage u = (none, none, some e)
      ∧ (((∃ e1, announceLoop {} (bodyIPv4Unicast u.Attribute) u.Announce.IPv4Unicast [] = .error e1)
        ∨ (∃ e1, appendRoutes [] u.Withdraw.IPv4Unicast = .error e1))
        ∨ ((∃ e1, announceLoop {} (bodyIPv4Flow u.Attribute) u.Announce.IPv4Flow [] = .error e1)
        ∨ (∃ e1, announceLoop {} (bodyIPv6Unicast u.Attribute) u.Announce.IPv6Unicast [] = .error e1))
        ∨ ((∃ e1, appendRoutes [] u.Withdraw.IPv6Unicast = .error e1)
        ∨ (∃ e1, announceLoop {} (bodyIPv6Flow u.Attribute) u.Announce.IPv6Flow [] = .error e1))))
    ∨ (∃ a4 ws4 f4 a6 ws6 f6,
        announceLoop {} (bodyIPv4Unicast u.Attribute) u.Announce.IPv4Unicast [] = .ok a4
        ∧ appendRoutes [] u.Withdraw.IPv4Unicast = .ok ws4
        ∧ announceLoop {} (bodyIPv4Flow u.Attribute) u.Announce.IPv4Flow [] = .ok f4
        ∧ announceLoop {} (bodyIPv6Unicast u.Attribute) u.Announce.IPv6Unicast [] = .ok a6
        ∧ appendRoutes [] u.Withdraw.IPv6Unicast = .ok ws6
        ∧ announceLoop {} (bodyIPv6Flow u.Attribute) u.Announce.IPv6Flow [] = .ok f6
        ∧ parseUpdateMessage u =
          (some { IPV4Unicast := a4, IPV4Flow := f4, IPV6Unicast := a6, IPV6Flow := f6 },
           some { IPv4Unicast := [{ Attributes := u.Attribute, NLRI := ws4 }]
                  IPv4Flow := withdrawIPv4Flow u.Attribute u.Withdraw.IPv4Flow []
                  IPv6Unicast := [{ Attributes := u.Attribute, NLRI := ws6 }]
                  IPv6Flow := withdrawIPv6Flow u.Attribute u.Withdraw.IPv6Flow [] },
           none)) := by
  unfold parseUpdateMessage
  simp only [makeAnnouncements]
  cases h1 : announceLoop {} (bodyIPv4Unicast u.Attribute) u.Announce.IPv4Unicast [] with
  | error e => exact Or.inl ⟨e, rfl, Or.inl (Or.inl ⟨e, rfl⟩)⟩
  | ok a4 =>
  cases h2 : appendRoutes [] u.Withdraw.IPv4Unicast with
  | error e => exact Or.inl ⟨e, rfl, Or.inl (Or.inr ⟨e, rfl⟩)⟩
  | ok ws4 =>
  cases h3 : announceLoop {} (bodyIPv4Flow u.Attribute) u.Announce.IPv4Flow [] with
  | error e => exact Or.inl ⟨e, rfl, Or.inr (Or.inl (Or.inl ⟨e, rfl⟩))⟩
  | ok f4 =>
  cases h4 : announceLoop {} (bodyIPv6Unicast u.Attribute) u.Announce.IPv6Unicast [] with
  | error e => exact Or.inl ⟨e, rfl, Or.inr (Or.inl (Or.inr ⟨e, rfl⟩))⟩
  | ok a6 =>
  cases h5 : appendRoutes [] u.Withdraw.IPv6Unicast with
  | error e => exact Or.inl ⟨e, rfl, Or.inr (Or.inr (Or.inl ⟨e, rfl⟩))⟩
  | ok ws6 =>
  cases h6 : announceLoop {} (bodyIPv6Flow u.Attribute) u.Announce.IPv6Flow [] with
  | error e => exact Or.inl ⟨e, rfl, Or.inr (Or.inr (Or.inr ⟨e, rfl⟩))⟩
  | ok f6 =>
  exact Or.inr ⟨a4, ws4, f4, a6, ws6, f6, rfl, rfl, rfl, rfl, rfl, rfl, rfl⟩

/-! ## `ParseEvent`: dispatch on the event type -/

/-- Claim C1: for every line that decodes to an event of type "state" with
neighbor state `s` and reason `r`, `ParseEvent` succeeds (an event, no error),
the event has `Peer.State = s` and `Peer.Reason = r`, and right afterwards
`GetStatus()` returns `s` and `GetStatusReason()` returns `r` (whether or not
`GetStatus` was called in between). -/
theorem state_event_publishes_status
    (unmarshal : List Byte → Except String messages.JSONEvent) (data : List Byte)
    (lastStatus : Option status) (jsonEvent : messages.JSONEvent)
    (hdecode : safeUnmarshal unmarshal data = .ok jsonEvent)
    (htype : jsonEvent.Type_ = "state") :
    ∃ event : Event,
      (ParseEvent unmarshal data lastStatus).1 = (some event, none)
      ∧ event.Peer.State = jsonEvent.Neighbor.State
      ∧ event.Peer.Reason = jsonEvent.Neighbor.Reason
      ∧ (GetStatus (ParseEvent unmarshal data lastStatus).2).1 = jsonEvent.Neighbor.State
      ∧ GetStatusReason (ParseEvent unmarshal data lastStatus).2
          = some jsonEvent.Neighbor.Reason
      ∧ GetStatusReason (GetStatus (ParseEvent unmarshal data lastStatus).2).2
          = some jsonEvent.Neighbor.Reason := by
  simp [ParseEvent, hdecode, htype, GetStatus, GetStatusReason]

theorem state_event_publishes_status_witness :
    safeUnmarshal sampleUnmarshal [100] = .ok sampleDown
    ∧ sampleDown.Type_ = "state"
    ∧ ∃ event : Event,
      (ParseEvent sampleUnmarshal [100] none).1 = (some event, none)
      ∧ event.Peer.State = sampleDown.Neighbor.State
      ∧ event.Peer.Reason = sampleDown.Neighbor.Reason
      ∧ (GetStatus (ParseEvent sampleUnmarshal [100] none).2).1 = sampleDown.Neighbor.State
      ∧ GetStatusReason (ParseEvent sampleUnmarshal [100] none).2
          = some sampleDown.Neighbor.Reason
      ∧ GetStatusReason (GetStatus (ParseEvent sampleUnmarshal [100] none).2).2
          = some sampleDown.Neighbor.Reason :=
  ⟨rfl, rfl, state_event_publishes_status sampleUnmarshal [100] none sampleDown rfl rfl⟩

/-- Claim C2: for every line that decodes but whose type is none of update,
state, notification, open, keepalive, signal, `ParseEvent` returns a nil
event together with a non-nil error (the error naming the type and the line),
and leaves `lastStatus` alone. -/
theorem unknown_type_rejected
    (unmarshal : List Byte → Except String messages.JSONEvent) (data : List Byte)
    (lastStatus : Option status) (jsonEvent : messages.JSONEvent)
    (hdecode : safeUnmarshal unmarshal data = .ok jsonEvent)
    (htype : jsonEvent.Type_ ∉ knownTypes) :
    ParseEvent unmarshal data lastStatus
      = ((none, some (.cannotHandleEventType jsonEvent.Type_ data)), lastStatus) := by
  simp only [knownTypes, List.mem_cons, List.mem_singleton, List.not_mem_nil, or_false,
    not_or] at htype
  obtain ⟨h1, h2, h3, h4, h5, h6⟩ := htype
  simp [ParseEvent, hdecode, h1, h2, h3, h4, h5, h6]

theorem unknown_type_rejected_witness :
    safeUnmarshal sampleUnmarshal [98] = .ok sampleBogus
    ∧ sampleBogus.Type_ ∉ knownTypes
    ∧ ParseEvent sampleUnmarshal [98] none
      = ((none, some (.cannotHandleEventType "bogus" [98])), none) :=
  ⟨rfl, by decide, unknown_type_rejected sampleUnmarshal [98] none sampleBogus rfl (by decide)⟩

/-- Claim C3: for every update line whose body `parseUpdateMessage` rejects
with error `err`, `ParseEvent` returns `err` together with a non-nil event
whose `Peer.IP`, `Peer.ASN`, `Self.IP`, `Self.ASN` and `Direction` are those of
the neighbor envelope and whose `GetAnnouncements()` and `GetWithdrawals()`
are both nil. -/
theorem rejected_update_keeps_identity
    (unmarshal : List Byte → Except String messages.JSONEvent) (data : List Byte)
    (lastStatus : Option status) (jsonEvent : messages.JSONEvent) (err : Error)
    (hdecode : safeUnmarshal unmarshal data = .ok jsonEvent)
    (htype : jsonEvent.Type_ = "update")
    (hreject : (parseUpdateMessage jsonEvent.Neighbor.Message.Update).2.2 = some err) :
    ∃ event : Event,
      (ParseEvent unmarshal data lastStatus).1 = (some event, some err)
      ∧ event.Peer.IP = jsonEvent.Neighbor.Address.Peer
      ∧ event.Peer.ASN = jsonEvent.Neighbor.ASN.Peer
      ∧ event.Self.IP = jsonEvent.Neighbor.Address.Local
      ∧ event.Self.ASN = jsonEvent.Neighbor.ASN.Local
      ∧ event.Direction = jsonEvent.Neighbor.Direction
      ∧ event.GetAnnouncements = none
      ∧ event.GetWithdrawals = none := by
  rcases hp : parseUpdateMessage jsonEvent.Neighbor.Message.Update with ⟨ra, rw, e⟩
  rw [hp] at hreject
  simp only at hreject
  subst hreject
  simp [ParseEvent, hdecode, htype, hp, Event.GetAnnouncements, Event.GetWithdrawals]

theorem rejected_update_keeps_identity_witness :
    safeUnmarshal sampleUnmarshal [117] = .ok sampleBadUpdateEvent
    ∧ sampleBadUpdateEvent.Type_ = "update"
    ∧ (parseUpdateMessage sampleBadUpdateEvent.Neighbor.Message.Update).2.2
        = some (.unableToParseRoute (.number 1 0))
    ∧ ∃ event : Event,
      (ParseEvent sampleUnmarshal [117] none).1
        = (some event, some (.unableToParseRoute (.number 1 0)))
      ∧ event.Peer.IP = "192.168.1.2"
      ∧ event.Peer.ASN = 64496
      ∧ event.Self.IP = "192.168.1.184"
      ∧ event.Self.ASN = 64496
      ∧ event.Direction = "send"
      ∧ event.GetAnnouncements = none
      ∧ event.GetWithdrawals = none :=
  ⟨rfl, rfl, rfl, rejected_update_keeps_identity sampleUnmarshal [117] none
    sampleBadUpdateEvent (.unableToParseRoute (.number 1 0)) rfl rfl rfl⟩

/-- Claim C10: for every line that decodes to an event of type notification,
open, keepalive or signal, `ParseEvent` returns no error and a non-nil event
whose `GetAnnouncements()` and `GetWithdrawals()` are both nil and whose
`Peer.State` and `Peer.Reason` are empty. -/
theorem noop_types_yield_bare_event
    (unmarshal : List Byte → Except String messages.JSONEvent) (data : List Byte)
    (lastStatus : Option status) (jsonEvent : messages.JSONEvent)
    (hdecode : safeUnmarshal unmarshal data = .ok jsonEvent)
    (htype : jsonEvent.Type_ ∈ ["notification", "open", "keepalive", "signal"]) :
    ∃ event : Event,
      (ParseEvent unmarshal data lastStatus).1 = (some event, none)
      ∧ event.GetAnnouncements = none
      ∧ event.GetWithdrawals = none
      ∧ event.Peer.State = ""
      ∧ event.Peer.Reason = "" := by
  simp only [List.mem_cons, List.mem_singleton, List.not_mem_nil, or_false] at htype
  rcases htype with h | h | h | h <;>
    simp [ParseEvent, hdecode, h, Event.GetAnnouncements, Event.GetWithdrawals]

theorem noop_types_yield_bare_event_witness :
    safeUnmarshal sampleUnmarshal [107] = .ok sampleKeepalive
    ∧ sampleKeepalive.Type_ ∈ ["notification", "open", "keepalive", "signal"]
    ∧ ∃ event : Event,
      (ParseEvent sampleUnmarshal [107] none).1 = (some event, none)
      ∧ event.GetAnnouncements = none
      ∧ event.GetWithdrawals = none
      ∧ event.Peer.State = ""
      ∧ event.Peer.Reason = "" :=
  ⟨rfl, by decide, noop_types_yield_bare_event sampleUnmarshal [107] none sampleKeepalive rfl
    (by decide)⟩

/-! ## `parseUpdateMessage`: what an accepted update yields -/

theorem parseUpdateMessage_sample :
    parseUpdateMessage sampleUpdate = (some sampleAnnouncements, some sampleWithdrawals, none) := by
  rfl

theorem parseUpdateMessage_accepted (u : messages.UpdateMessageFull) (ra : Announcements)
    (rw : Withdrawals) (h : parseUpdateMessage u = (some ra, some rw, none)) :
    announceLoop {} (bodyIPv4Unicast u.Attribute) u.Announce.IPv4Unicast [] = .ok ra.IPV4Unicast
    ∧ announceLoop {} (bodyIPv4Flow u.Attribute) u.Announce.IPv4Flow [] = .ok ra.IPV4Flow
    ∧ announceLoop {} (bodyIPv6Unicast u.Attribute) u.Announce.IPv6Unicast [] = .ok ra.IPV6Unicast
    ∧ announceLoop {} (bodyIPv6Flow u.Attribute) u.Announce.IPv6Flow [] = .ok ra.IPV6Flow
    ∧ (∃ ws4, appendRoutes [] u.Withdraw.IPv4Unicast = .ok ws4
        ∧ rw.IPv4Unicast = [{ Attributes := u.Attribute, NLRI := ws4 }])
    ∧ (∃ ws6, appendRoutes [] u.Withdraw.IPv6Unicast = .ok ws6
        ∧ rw.IPv6Unicast = [{ Attributes := u.Attribute, NLRI := ws6 }])
    ∧ rw.IPv4Flow = withdrawIPv4Flow u.Attribute u.Withdraw.IPv4Flow []
    ∧ rw.IPv6Flow = withdrawIPv6Flow u.Attribute u.Withdraw.IPv6Flow [] := by
  rcases parseUpdateMessage_cases u with
    ⟨e, he, _⟩ | ⟨a4, ws4, f4, a6, ws6, f6, h1, h2, h3, h4, h5, h6, hp⟩
  · rw [he] at h
    simp at h
  · rw [hp] at h
    simp only [Prod.mk.injEq, Option.some.injEq, and_true] at h
    obtain ⟨hra, hrw⟩ := h
    subst hra hrw
    exact ⟨h1, h3, h4, h6, ⟨ws4, h2, rfl⟩, ⟨ws6, h5, rfl⟩, rfl, rfl⟩

theorem map_some_filterMap {X Y : Type} (f : X → Option Y) (xs : List X)
    (h : ∀ x ∈ xs, (f x).isSome = true) : (xs.filterMap f).map some = xs.map f := by
  induction xs with
  | nil => rfl
  | cons x rest ih =>
    obtain ⟨y, hy⟩ := Option.isSome_iff_exists.mp (h x (List.mem_cons_self _ _))
    have hrest : ∀ r ∈ rest, (f r).isSome = true := fun r hr => h r (List.mem_cons_of_mem _ hr)
    simp [List.filterMap_cons, hy, ih hrest]

theorem bodyIPv4Unicast_plain (attr : messages.Attribute) (routes : List JSONValue)
    (b : IPv4UnicastAnnouncement) (hplain : ∀ rs ∈ routes, (routeString rs).isSome = true)
    (h : bodyIPv4Unicast attr {} routes = .ok b) : b.NLRI = routes.filterMap routeString := by
  simp only [bodyIPv4Unicast, appendRoutes_plain routes [] hplain] at h
  cases h
  simp

theorem bodyIPv6Unicast_plain (attr : messages.Attribute) (routes : List JSONValue)
    (b : IPv6UnicastAnnouncement) (hplain : ∀ rs ∈ routes, (routeString rs).isSome = true)
    (h : bodyIPv6Unicast attr {} routes = .ok b) : b.NLRI = routes.filterMap routeString := by
  simp only [bodyIPv6Unicast, appendRoutes_plain routes [] hplain] at h
  cases h
  simp

/-- Claim C4: for every update accepted by `parseUpdateMessage` and every
next-hop of its ipv4 unicast (resp. ipv6 unicast) announce payload whose route
list consists of bare strings and single-entry mappings with a string value,
the NLRI sequence stored under that next-hop is exactly the sequence of those
route strings in arrival order, duplicates included; its length is the length
of the route list.  The payloads are Go maps (`mapWF`). -/
theorem unicast_announce_nlri_in_order (u : messages.UpdateMessageFull) (ra : Announcements)
    (rw : Withdrawals) (haccept : parseUpdateMessage u = (some ra, some rw, none))
    (hwf4 : mapWF u.Announce.IPv4Unicast) (hwf6 : mapWF u.Announce.IPv6Unicast) :
    (∀ nexthop routes, (nexthop, routes) ∈ u.Announce.IPv4Unicast →
        (∀ rs ∈ routes, (routeString rs).isSome = true) →
        ∃ a, mapGet ra.IPV4Unicast nexthop = some a
          ∧ a.NLRI.map some = routes.map routeString
          ∧ a.NLRI.length = routes.length)
    ∧ (∀ nexthop routes, (nexthop, routes) ∈ u.Announce.IPv6Unicast →
        (∀ rs ∈ routes, (routeString rs).isSome = true) →
        ∃ a, mapGet ra.IPV6Unicast nexthop = some a
          ∧ a.NLRI.map some = routes.map routeString
          ∧ a.NLRI.length = routes.length) := by
  obtain ⟨h4, _, h6, _⟩ := parseUpdateMessage_accepted u ra rw haccept
  constructor
  · intro nexthop routes hmem hplain
    obtain ⟨b, hb, hget⟩ := announceLoop_get_of_mem _ _ _ _ _ nexthop routes h4 hwf4 hmem
    have hn := bodyIPv4Unicast_plain u.Attribute routes b hplain hb
    exact ⟨b, hget, by rw [hn]; exact map_some_filterMap routeString routes hplain,
      by rw [hn]; exact filterMap_routeString_length routes hplain⟩
  · intro nexthop routes hmem hplain
    obtain ⟨b, hb, hget⟩ := announceLoop_get_of_mem _ _ _ _ _ nexthop routes h6 hwf6 hmem
    have hn := bodyIPv6Unicast_plain u.Attribute routes b hplain hb
    exact ⟨b, hget, by rw [hn]; exact map_some_filterMap routeString routes hplain,
      by rw [hn]; exact filterMap_routeString_length routes hplain⟩

theorem unicast_announce_nlri_in_order_witness :
    parseUpdateMessage sampleUpdate = (some sampleAnnouncements, some sampleWithdrawals, none)
    ∧ mapWF sampleUpdate.Announce.IPv4Unicast ∧ mapWF sampleUpdate.Announce.IPv6Unicast
    ∧ ((∀ nexthop routes, (nexthop, routes) ∈ sampleUpdate.Announce.IPv4Unicast →
        (∀ rs ∈ routes, (routeString rs).isSome = true) →
        ∃ a, mapGet sampleAnnouncements.IPV4Unicast nexthop = some a
          ∧ a.NLRI.map some = routes.map routeString
          ∧ a.NLRI.length = routes.length)
      ∧ (∀ nexthop routes, (nexthop, routes) ∈ sampleUpdate.Announce.IPv6Unicast →
        (∀ rs ∈ routes, (routeString rs).isSome = true) →
        ∃ a, mapGet sampleAnnouncements.IPV6Unicast nexthop = some a
          ∧ a.NLRI.map some = routes.map routeString
          ∧ a.NLRI.length = routes.length)) :=
  ⟨parseUpdateMessage_sample, by decide, by decide,
    unicast_announce_nlri_in_order sampleUpdate sampleAnnouncements sampleWithdrawals
      parseUpdateMessage_sample (by decide) (by decide)⟩

theorem filterMap_routeString_strings (strs : List String) :
    (strs.map JSONValue.string).filterMap routeString = strs := by
  induction strs with
  | nil => rfl
  | cons x rest ih => simp [List.filterMap_cons, routeString, ih]

theorem appendRoutes_strings (strs : List String) :
    appendRoutes [] (strs.map JSONValue.string) = .ok strs := by
  have h : ∀ rs ∈ strs.map JSONValue.string, (routeString rs).isSome = true := by
    intro rs hrs
    obtain ⟨x, _, hx⟩ := List.mem_map.mp hrs
    rw [← hx]
    rfl
  rw [appendRoutes_plain _ [] h, filterMap_routeString_strings]
  rfl

theorem parseUpdateMessage_of_withdrawals (u : messages.UpdateMessageFull) (rw : Withdrawals)
    (h : (parseUpdateMessage u).2.1 = some rw) :
    ∃ ra, parseUpdateMessage u = (some ra, some rw, none) := by
  rcases parseUpdateMessage_cases u with
    ⟨e, he, _⟩ | ⟨a4, ws4, f4, a6, ws6, f6, _, _, _, _, _, _, hp⟩
  · rw [he] at h
    cases h
  · rw [hp] at h
    simp only [Option.some.injEq] at h
    rw [hp, h]
    exact ⟨_, rfl⟩

/-- Claim C5: for every update whose ipv4 unicast (resp. ipv6 unicast)
withdraw list consists of `n` route strings, the resulting Withdrawals `rw`
holds exactly one block for that family, and the block's NLRI list is the same
`n` strings in the same order, repeated addresses kept. -/
theorem unicast_withdraw_one_block (u : messages.UpdateMessageFull) (rw : Withdrawals)
    (hresult : (parseUpdateMessage u).2.1 = some rw) :
    (∀ strs : List String, u.Withdraw.IPv4Unicast = strs.map JSONValue.string →
        ∃ block, rw.IPv4Unicast = [block] ∧ block.NLRI = strs
          ∧ block.NLRI.length = strs.length)
    ∧ (∀ strs : List String, u.Withdraw.IPv6Unicast = strs.map JSONValue.string →
        ∃ block, rw.IPv6Unicast = [block] ∧ block.NLRI = strs
          ∧ block.NLRI.length = strs.length) := by
  obtain ⟨ra, haccept⟩ := parseUpdateMessage_of_withdrawals u rw hresult
  obtain ⟨_, _, _, _, ⟨ws4, h4, hb4⟩, ⟨ws6, h6, hb6⟩, _, _⟩ :=
    parseUpdateMessage_accepted u ra rw haccept
  constructor
  · intro strs hstrs
    rw [hstrs, appendRoutes_strings] at h4
    cases h4
    exact ⟨_, hb4, rfl, rfl⟩
  · intro strs hstrs
    rw [hstrs, appendRoutes_strings] at h6
    cases h6
    exact ⟨_, hb6, rfl, rfl⟩

theorem unicast_withdraw_one_block_witness :
    (parseUpdateMessage sampleUpdate).2.1 = some sampleWithdrawals
    ∧ sampleUpdate.Withdraw.IPv4Unicast
        = ["0.0.0.0/0", "0.0.0.0/0", "0.0.0.0/0", "0.0.0.0/0", "192.168.88.0/24"].map
            JSONValue.string
    ∧ ((∀ strs : List String, sampleUpdate.Withdraw.IPv4Unicast = strs.map JSONValue.string →
        ∃ block, sampleWithdrawals.IPv4Unicast = [block] ∧ block.NLRI = strs
          ∧ block.NLRI.length = strs.length)
      ∧ (∀ strs : List String, sampleUpdate.Withdraw.IPv6Unicast = strs.map JSONValue.string →
        ∃ block, sampleWithdrawals.IPv6Unicast = [block] ∧ block.NLRI = strs
          ∧ block.NLRI.length = strs.length)) :=
  ⟨rfl, rfl, unicast_withdraw_one_block sampleUpdate sampleWithdrawals rfl⟩

/-! ## `parseUpdateMessage`: when it fails -/

theorem bodyIPv4Unicast_ok_iff (attr : messages.Attribute) (a : IPv4UnicastAnnouncement)
    (routes : List JSONValue) :
    (∃ b, bodyIPv4Unicast attr a routes = .ok b) ↔ ∀ rs ∈ routes, okRoute rs = true := by
  rw [← appendRoutes_ok_iff routes a.NLRI]
  unfold bodyIPv4Unicast
  cases appendRoutes a.NLRI routes <;> simp

theorem bodyIPv6Unicast_ok_iff (attr : messages.Attribute) (a : IPv6UnicastAnnouncement)
    (routes : List JSONValue) :
    (∃ b, bodyIPv6Unicast attr a routes = .ok b) ↔ ∀ rs ∈ routes, okRoute rs = true := by
  rw [← appendRoutes_ok_iff routes a.NLRI]
  unfold bodyIPv6Unicast
  cases appendRoutes a.NLRI routes <;> simp

theorem flow4_loop_ok (attr : messages.Attribute) (m : GoMap (List messages.IPv4Flow)) :
    ∃ r, announceLoop {} (bodyIPv4Flow attr) m [] = .ok r :=
  (announceLoop_ok_iff {} (bodyIPv4Flow attr) (fun _ => True)
    (fun _ _ => by simp [bodyIPv4Flow]) m []).mpr (fun _ _ => trivial)

theorem flow6_loop_ok (attr : messages.Attribute) (m : GoMap (List messages.IPv6Flow)) :
    ∃ r, announceLoop {} (bodyIPv6Flow attr) m [] = .ok r :=
  (announceLoop_ok_iff {} (bodyIPv6Flow attr) (fun _ => True)
    (fun _ _ => by simp [bodyIPv6Flow]) m []).mpr (fun _ _ => trivial)

theorem not_ok_of_error {X : Type} (x : Except Error X) (e : Error) (h : x = .error e) :
    ¬ ∃ r, x = .ok r := by
  rintro ⟨r, hr⟩
  rw [h] at hr
  cases hr

theorem exists_bad_of_not_all (routes : List JSONValue)
    (h : ¬ ∀ rs ∈ routes, okRoute rs = true) : ∃ rs ∈ routes, okRoute rs = false := by
  by_contra hc
  apply h
  intro rs hrs
  cases hok : okRoute rs with
  | true => rfl
  | false => exact absurd ⟨rs, hrs, hok⟩ hc

theorem exists_bad_of_not_all_map (m : GoMap (List JSONValue))
    (h : ¬ ∀ kv ∈ m, ∀ rs ∈ kv.2, okRoute rs = true) :
    ∃ kv ∈ m, ∃ rs ∈ kv.2, okRoute rs = false := by
  by_contra hc
  apply h
  intro kv hkv rs hrs
  cases hok : okRoute rs with
  | true => rfl
  | false => exact absurd ⟨kv, hkv, rs, hrs, hok⟩ hc

/-- Claim C6: `parseUpdateMessage` fails exactly when some element of an
ipv4/ipv6 unicast announce route list or withdraw list is neither a string nor
a mapping all of whose values are strings; when it fails it returns neither
Announcements nor Withdrawals (both nil), whatever the other families
contain; when it does not fail it returns both. -/
theorem parseUpdateMessage_fails_iff_bad_route (u : messages.UpdateMessageFull) :
    ((parseUpdateMessage u).2.2 ≠ none ↔ hasBadRoute u)
    ∧ ((parseUpdateMessage u).2.2 ≠ none →
        (parseUpdateMessage u).1 = none ∧ (parseUpdateMessage u).2.1 = none)
    ∧ ((parseUpdateMessage u).2.2 = none →
        (parseUpdateMessage u).1 ≠ none ∧ (parseUpdateMessage u).2.1 ≠ none) := by
  rcases parseUpdateMessage_cases u with
    ⟨e, he, hwhich⟩ | ⟨a4, ws4, f4, a6, ws6, f6, h1, h2, h3, h4, h5, h6, hp⟩
  · have hbad : hasBadRoute u := by
      rcases hwhich with (⟨e1, h⟩ | ⟨e1, h⟩) | (⟨e1, h⟩ | ⟨e1, h⟩) | (⟨e1, h⟩ | ⟨e1, h⟩)
      · have hn := not_ok_of_error _ e1 h
        rw [announceLoop_ok_iff {} (bodyIPv4Unicast u.Attribute) _
          (bodyIPv4Unicast_ok_iff u.Attribute)] at hn
        exact Or.inl (exists_bad_of_not_all_map _ hn)
      · have hn := not_ok_of_error _ e1 h
        rw [appendRoutes_ok_iff] at hn
        exact Or.inr (Or.inl (exists_bad_of_not_all _ hn))
      · exact absurd (flow4_loop_ok u.Attribute u.Announce.IPv4Flow) (not_ok_of_error _ e1 h)
      · have hn := not_ok_of_error _ e1 h
        rw [announceLoop_ok_iff {} (bodyIPv6Unicast u.Attribute) _
          (bodyIPv6Unicast_ok_iff u.Attribute)] at hn
        exact Or.inr (Or.inr (Or.inl (exists_bad_of_not_all_map _ hn)))
      · have hn := not_ok_of_error _ e1 h
        rw [appendRoutes_ok_iff] at hn
        exact Or.inr (Or.inr (Or.inr (exists_bad_of_not_all _ hn)))
      · exact absurd (flow6_loop_ok u.Attribute u.Announce.IPv6Flow) (not_ok_of_error _ e1 h)
    rw [he]
    simp [hbad]
  · have hgood : ¬ hasBadRoute u := by
      have g1 := (announceLoop_ok_iff {} (bodyIPv4Unicast u.Attribute) _
        (bodyIPv4Unicast_ok_iff u.Attribute) _ _).mp ⟨a4, h1⟩
      have g2 := (appendRoutes_ok_iff _ _).mp ⟨ws4, h2⟩
      have g4 := (announceLoop_ok_iff {} (bodyIPv6Unicast u.Attribute) _
        (bodyIPv6Unicast_ok_iff u.Attribute) _ _).mp ⟨a6, h4⟩
      have g5 := (appendRoutes_ok_iff _ _).mp ⟨ws6, h5⟩
      rintro (⟨kv, hkv, rs, hrs, hb⟩ | ⟨rs, hrs, hb⟩ | ⟨kv, hkv, rs, hrs, hb⟩ | ⟨rs, hrs, hb⟩)
      · rw [g1 kv hkv rs hrs] at hb
        cases hb
      · rw [g2 rs hrs] at hb
        cases hb
      · rw [g4 kv hkv rs hrs] at hb
        cases hb
      · rw [g5 rs hrs] at hb
        cases hb
    rw [hp]
    simp [hgood]

/-! ## `parseUpdateMessage`: attributes and flows -/

theorem bodyIPv4Flow_eq (attr : messages.Attribute) (a : IPv4FlowAnnouncement)
    (flows : List messages.IPv4Flow) :
    bodyIPv4Flow attr a flows = .ok
      { Attributes := attr
        Flows := a.Flows ++ flows.map (fun flow =>
          { Destination := flow.DestinationIPv4, Source := flow.SourceIPv4,
            String := flow.String }) } := by
  unfold bodyIPv4Flow
  have h := foldl_append_singleton (fun flow : messages.IPv4Flow =>
    ({ Destination := flow.DestinationIPv4, Source := flow.SourceIPv4,
       String := flow.String } : IPv4Flow)) flows a.Flows
  simp only [] at h ⊢
  rw [h]

theorem bodyIPv6Flow_eq (attr : messages.Attribute) (a : IPv6FlowAnnouncement)
    (flows : List messages.IPv6Flow) :
    bodyIPv6Flow attr a flows = .ok
      { Attributes := attr
        Flows := a.Flows ++ flows.map (fun flow =>
          { Destination := flow.DestinationIPv6, Source := flow.SourceIPv6,
            String := flow.String }) } := by
  unfold bodyIPv6Flow
  have h := foldl_append_singleton (fun flow : messages.IPv6Flow =>
    ({ Destination := flow.DestinationIPv6, Source := flow.SourceIPv6,
       String := flow.String } : IPv6Flow)) flows a.Flows
  simp only [] at h ⊢
  rw [h]

theorem withdrawIPv4Flow_eq (attr : messages.Attribute) (flows : List messages.IPv4Flow) :
    withdrawIPv4Flow attr flows [] = flows.map (fun flow =>
      { Attributes := attr, Destination := flow.DestinationIPv4, Source := flow.SourceIPv4,
        String := flow.String }) := by
  unfold withdrawIPv4Flow
  have h := foldl_append_singleton (fun flow : messages.IPv4Flow =>
    ({ Attributes := attr, Destination := flow.DestinationIPv4, Source := flow.SourceIPv4,
       String := flow.String } : IPv4Flow)) flows []
  simp only [List.nil_append] at h ⊢
  rw [h]

theorem withdrawIPv6Flow_eq (attr : messages.Attribute) (flows : List messages.IPv6Flow) :
    withdrawIPv6Flow attr flows [] = flows.map (fun flow =>
      { Attributes := attr, Destination := flow.DestinationIPv6, Source := flow.SourceIPv6,
        String := flow.String }) := by
  unfold withdrawIPv6Flow
  have h := foldl_append_singleton (fun flow : messages.IPv6Flow =>
    ({ Attributes := attr, Destination := flow.DestinationIPv6, Source := flow.SourceIPv6,
       String := flow.String } : IPv6Flow)) flows []
  simp only [List.nil_append] at h ⊢
  rw [h]

theorem bodyIPv4Unicast_attr (attr : messages.Attribute) (a b : IPv4UnicastAnnouncement)
    (routes : List JSONValue) (h : bodyIPv4Unicast attr a routes = .ok b) :
    b.Attributes = attr := by
  unfold bodyIPv4Unicast at h
  cases hr : appendRoutes a.NLRI routes with
  | error e => simp [hr] at h
  | ok n =>
    simp only [hr, Except.ok.injEq] at h
    rw [← h]

theorem bodyIPv6Unicast_attr (attr : messages.Attribute) (a b : IPv6UnicastAnnouncement)
    (routes : List JSONValue) (h : bodyIPv6Unicast attr a routes = .ok b) :
    b.Attributes = attr := by
  unfold bodyIPv6Unicast at h
  cases hr : appendRoutes a.NLRI routes with
  | error e => simp [hr] at h
  | ok n =>
    simp only [hr, Except.ok.injEq] at h
    rw [← h]

theorem bodyIPv4Flow_attr (attr : messages.Attribute) (a b : IPv4FlowAnnouncement)
    (flows : List messages.IPv4Flow) (h : bodyIPv4Flow attr a flows = .ok b) :
    b.Attributes = attr := by
  rw [bodyIPv4Flow_eq] at h
  cases h
  rfl

theorem bodyIPv6Flow_attr (attr : messages.Attribute) (a b : IPv6FlowAnnouncement)
    (flows : List messages.IPv6Flow) (h : bodyIPv6Flow attr a flows = .ok b) :
    b.Attributes = attr := by
  rw [bodyIPv6Flow_eq] at h
  cases h
  rfl

/-- Claim C7: for every update accepted by `parseUpdateMessage`, the
Attributes of every announcement entry (under every next-hop, in all four
families) and of every withdrawal block (unicast and flow) equal the update's
shared attribute block. -/
theorem attributes_are_the_shared_block (u : messages.UpdateMessageFull) (ra : Announcements)
    (rw : Withdrawals) (haccept : parseUpdateMessage u = (some ra, some rw, none)) :
    (∀ nexthop a, (nexthop, a) ∈ ra.IPV4Unicast → a.Attributes = u.Attribute)
    ∧ (∀ nexthop a, (nexthop, a) ∈ ra.IPV4Flow → a.Attributes = u.Attribute)
    ∧ (∀ nexthop a, (nexthop, a) ∈ ra.IPV6Unicast → a.Attributes = u.Attribute)
    ∧ (∀ nexthop a, (nexthop, a) ∈ ra.IPV6Flow → a.Attributes = u.Attribute)
    ∧ (∀ block ∈ rw.IPv4Unicast, block.Attributes = u.Attribute)
    ∧ (∀ block ∈ rw.IPv4Flow, block.Attributes = u.Attribute)
    ∧ (∀ block ∈ rw.IPv6Unicast, block.Attributes = u.Attribute)
    ∧ (∀ block ∈ rw.IPv6Flow, block.Attributes = u.Attribute) := by
  obtain ⟨h1, h2, h3, h4, ⟨ws4, _, hb4⟩, ⟨ws6, _, hb6⟩, hf4, hf6⟩ :=
    parseUpdateMessage_accepted u ra rw haccept
  refine ⟨?_, ?_, ?_, ?_, ?_, ?_, ?_, ?_⟩
  · intro nexthop a hmem
    exact announceLoop_forall _ _ (fun a => a.Attributes = u.Attribute)
      (fun a x b hb => bodyIPv4Unicast_attr _ a b x hb) _ _ _ h1
      (fun kv hkv => by cases hkv) (nexthop, a) hmem
  · intro nexthop a hmem
    exact announceLoop_forall _ _ (fun a => a.Attributes = u.Attribute)
      (fun a x b hb => bodyIPv4Flow_attr _ a b x hb) _ _ _ h2
      (fun kv hkv => by cases hkv) (nexthop, a) hmem
  · intro nexthop a hmem
    exact announceLoop_forall _ _ (fun a => a.Attributes = u.Attribute)
      (fun a x b hb => bodyIPv6Unicast_attr _ a b x hb) _ _ _ h3
      (fun kv hkv => by cases hkv) (nexthop, a) hmem
  · intro nexthop a hmem
    exact announceLoop_forall _ _ (fun a => a.Attributes = u.Attribute)
      (fun a x b hb => bodyIPv6Flow_attr _ a b x hb) _ _ _ h4
      (fun kv hkv => by cases hkv) (nexthop, a) hmem
  · intro block hmem
    rw [hb4, List.mem_singleton] at hmem
    rw [hmem]
  · intro block hmem
    rw [hf4, withdrawIPv4Flow_eq] at hmem
    obtain ⟨f, _, hf⟩ := List.mem_map.mp hmem
    rw [← hf]
  · intro block hmem
    rw [hb6, List.mem_singleton] at hmem
    rw [hmem]
  · intro block hmem
    rw [hf6, withdrawIPv6Flow_eq] at hmem
    obtain ⟨f, _, hf⟩ := List.mem_map.mp hmem
    rw [← hf]

theorem attributes_are_the_shared_block_witness :
    parseUpdateMessage sampleUpdate = (some sampleAnnouncements, some sampleWithdrawals, none)
    ∧ (∀ nexthop a, (nexthop, a) ∈ sampleAnnouncements.IPV4Unicast →
        a.Attributes = sampleUpdate.Attribute)
    ∧ (∀ nexthop a, (nexthop, a) ∈ sampleAnnouncements.IPV4Flow →
        a.Attributes = sampleUpdate.Attribute)
    ∧ (∀ nexthop a, (nexthop, a) ∈ sampleAnnouncements.IPV6Unicast →
        a.Attributes = sampleUpdate.Attribute)
    ∧ (∀ nexthop a, (nexthop, a) ∈ sampleAnnouncements.IPV6Flow →
        a.Attributes = sampleUpdate.Attribute)
    ∧ (∀ block ∈ sampleWithdrawals.IPv4Unicast, block.Attributes = sampleUpdate.Attribute)
    ∧ (∀ block ∈ sampleWithdrawals.IPv4Flow, block.Attributes = sampleUpdate.Attribute)
    ∧ (∀ block ∈ sampleWithdrawals.IPv6Unicast, block.Attributes = sampleUpdate.Attribute)
    ∧ (∀ block ∈ sampleWithdrawals.IPv6Flow, block.Attributes = sampleUpdate.Attribute) :=
  ⟨parseUpdateMessage_sample,
    attributes_are_the_shared_block sampleUpdate sampleAnnouncements sampleWithdrawals
      parseUpdateMessage_sample⟩

theorem announceLoop_keys {X A : Type} (zero : A) (body : A → X → Except Error A)
    (m : GoMap X) (r : GoMap A) (h : announceLoop zero body m [] = .ok r) :
    ∀ k ∈ mapKeys r, k ∈ mapKeys m := by
  intro k hk
  by_contra hn
  have hget := announceLoop_get_of_not_mem zero body m [] r k h hn
  have hnone : mapGet r k = none := by rw [hget]; rfl
  exact (mapGet_eq_none_iff r k).mp hnone hk

/-- Claim C8: for every update accepted by `parseUpdateMessage` and every
next-hop key of its ipv4 flow (resp. ipv6 flow) announce payload, the
announcement stored under that key has a Flows list of the same length and
order as the payload list, the i-th flow carrying the i-th element's
destination list, source list and rendered string unchanged; the result has no
flow next-hop keys other than the payload's.  The payloads are Go maps
(`mapWF`). -/
theorem flow_announce_preserved (u : messages.UpdateMessageFull) (ra : Announcements)
    (rw : Withdrawals) (haccept : parseUpdateMessage u = (some ra, some rw, none))
    (hwf4 : mapWF u.Announce.IPv4Flow) (hwf6 : mapWF u.Announce.IPv6Flow) :
    ((∀ nexthop flows, (nexthop, flows) ∈ u.Announce.IPv4Flow →
        ∃ a, mapGet ra.IPV4Flow nexthop = some a
          ∧ a.Flows.length = flows.length
          ∧ ∀ (i : Nat) (f : messages.IPv4Flow), flows[i]? = some f →
              ∃ g : IPv4Flow, a.Flows[i]? = some g ∧ g.Destination = f.DestinationIPv4
                ∧ g.Source = f.SourceIPv4 ∧ g.String = f.String)
      ∧ ∀ nexthop ∈ mapKeys ra.IPV4Flow, nexthop ∈ mapKeys u.Announce.IPv4Flow)
    ∧ ((∀ nexthop flows, (nexthop, flows) ∈ u.Announce.IPv6Flow →
        ∃ a, mapGet ra.IPV6Flow nexthop = some a
          ∧ a.Flows.length = flows.length
          ∧ ∀ (i : Nat) (f : messages.IPv6Flow), flows[i]? = some f →
              ∃ g : IPv6Flow, a.Flows[i]? = some g ∧ g.Destination = f.DestinationIPv6
                ∧ g.Source = f.SourceIPv6 ∧ g.String = f.String)
      ∧ ∀ nexthop ∈ mapKeys ra.IPV6Flow, nexthop ∈ mapKeys u.Announce.IPv6Flow) := by
  obtain ⟨_, h4, _, h6, _⟩ := parseUpdateMessage_accepted u ra rw haccept
  refine ⟨⟨?_, announceLoop_keys _ _ _ _ h4⟩, ⟨?_, announceLoop_keys _ _ _ _ h6⟩⟩
  · intro nexthop flows hmem
    obtain ⟨b, hb, hget⟩ := announceLoop_get_of_mem _ _ _ _ _ nexthop flows h4 hwf4 hmem
    rw [bodyIPv4Flow_eq] at hb
    cases hb
    refine ⟨_, hget, by simp [mapGet], ?_⟩
    intro i f hf
    simp [mapGet, hf]
  · intro nexthop flows hmem
    obtain ⟨b, hb, hget⟩ := announceLoop_get_of_mem _ _ _ _ _ nexthop flows h6 hwf6 hmem
    rw [bodyIPv6Flow_eq] at hb
    cases hb
    refine ⟨_, hget, by simp [mapGet], ?_⟩
    intro i f hf
    simp [mapGet, hf]

theorem flow_announce_preserved_witness :
    parseUpdateMessage sampleUpdate = (some sampleAnnouncements, some sampleWithdrawals, none)
    ∧ mapWF sampleUpdate.Announce.IPv4Flow ∧ mapWF sampleUpdate.Announce.IPv6Flow
    ∧ ((∀ nexthop flows, (nexthop, flows) ∈ sampleUpdate.Announce.IPv4Flow →
        ∃ a, mapGet sampleAnnouncements.IPV4Flow nexthop = some a
          ∧ a.Flows.length = flows.length
          ∧ ∀ (i : Nat) (f : messages.IPv4Flow), flows[i]? = some f →
              ∃ g : IPv4Flow, a.Flows[i]? = some g ∧ g.Destination = f.DestinationIPv4
                ∧ g.Source = f.SourceIPv4 ∧ g.String = f.String)
      ∧ ∀ nexthop ∈ mapKeys sampleAnnouncements.IPV4Flow,
          nexthop ∈ mapKeys sampleUpdate.Announce.IPv4Flow)
    ∧ ((∀ nexthop flows, (nexthop, flows) ∈ sampleUpdate.Announce.IPv6Flow →
        ∃ a, mapGet sampleAnnouncements.IPV6Flow nexthop = some a
          ∧ a.Flows.length = flows.length
          ∧ ∀ (i : Nat) (f : messages.IPv6Flow), flows[i]? = some f →
              ∃ g : IPv6Flow, a.Flows[i]? = some g ∧ g.Destination = f.DestinationIPv6
                ∧ g.Source = f.SourceIPv6 ∧ g.String = f.String)
      ∧ ∀ nexthop ∈ mapKeys sampleAnnouncements.IPV6Flow,
          nexthop ∈ mapKeys sampleUpdate.Announce.IPv6Flow) :=
  ⟨parseUpdateMessage_sample, by decide, by decide,
    flow_announce_preserved sampleUpdate sampleAnnouncements sampleWithdrawals
      parseUpdateMessage_sample (by decide) (by decide)⟩

/-- Claim C9: for every update accepted by `parseUpdateMessage`, the number
of ipv4 flow (resp. ipv6 flow) withdrawal blocks equals the number of entries
in that family's withdraw payload, and the i-th block carries the i-th entry's
destination list, source list and string, in payload order. -/
theorem flow_withdraw_one_block_per_entry (u : messages.UpdateMessageFull)
    (ra : Announcements) (rw : Withdrawals)
    (haccept : parseUpdateMessage u = (some ra, some rw, none)) :
    (rw.IPv4Flow.length = u.Withdraw.IPv4Flow.length
      ∧ ∀ (i : Nat) (f : messages.IPv4Flow), u.Withdraw.IPv4Flow[i]? = some f →
          ∃ g : IPv4Flow, rw.IPv4Flow[i]? = some g ∧ g.Destination = f.DestinationIPv4
            ∧ g.Source = f.SourceIPv4 ∧ g.String = f.String)
    ∧ (rw.IPv6Flow.length = u.Withdraw.IPv6Flow.length
      ∧ ∀ (i : Nat) (f : messages.IPv6Flow), u.Withdraw.IPv6Flow[i]? = some f →
          ∃ g : IPv6Flow, rw.IPv6Flow[i]? = some g ∧ g.Destination = f.DestinationIPv6
            ∧ g.Source = f.SourceIPv6 ∧ g.String = f.String) := by
  obtain ⟨_, _, _, _, _, _, hf4, hf6⟩ := parseUpdateMessage_accepted u ra rw haccept
  rw [hf4, hf6, withdrawIPv4Flow_eq, withdrawIPv6Flow_eq]
  refine ⟨⟨by simp, ?_⟩, ⟨by simp, ?_⟩⟩
  · intro i f hf
    simp [hf]
  · intro i f hf
    simp [hf]

theorem flow_withdraw_one_block_per_entry_witness :
    parseUpdateMessage sampleUpdate = (some sampleAnnouncements, some sampleWithdrawals, none)
    ∧ (sampleWithdrawals.IPv4Flow.length = sampleUpdate.Withdraw.IPv4Flow.length
      ∧ ∀ (i : Nat) (f : messages.IPv4Flow), sampleUpdate.Withdraw.IPv4Flow[i]? = some f →
          ∃ g : IPv4Flow, sampleWithdrawals.IPv4Flow[i]? = some g ∧ g.Destination = f.DestinationIPv4
            ∧ g.Source = f.SourceIPv4 ∧ g.String = f.String)
    ∧ (sampleWithdrawals.IPv6Flow.length = sampleUpdate.Withdraw.IPv6Flow.length
      ∧ ∀ (i : Nat) (f : messages.IPv6Flow), sampleUpdate.Withdraw.IPv6Flow[i]? = some f →
          ∃ g : IPv6Flow, sampleWithdrawals.IPv6Flow[i]? = some g ∧ g.Destination = f.DestinationIPv6
            ∧ g.Source = f.SourceIPv6 ∧ g.String = f.String) :=
  ⟨parseUpdateMessage_sample,
    flow_withdraw_one_block_per_entry sampleUpdate sampleAnnouncements sampleWithdrawals
      parseUpdateMessage_sample⟩

/-! ## `ParseEvent`: identity fields and the status tracker -/

/-- Claim C11: for every line on which `ParseEvent` returns a non-nil event
(with or without an error), the line decoded to an event of one of the six
recognised types, and `Peer.IP`, `Peer.ASN`, `Self.IP`, `Self.ASN` and
`Direction` of the returned event are `address.peer`, `asn.peer`,
`address.local`, `asn.local` and `direction` of its envelope. -/
theorem returned_event_carries_envelope
    (unmarshal : List Byte → Except String messages.JSONEvent) (data : List Byte)
    (lastStatus : Option status) (event : Event) (err : Option Error)
    (hreturn : (ParseEvent unmarshal data lastStatus).1 = (some event, err)) :
    ∃ jsonEvent : messages.JSONEvent,
      safeUnmarshal unmarshal data = .ok jsonEvent
      ∧ jsonEvent.Type_ ∈ knownTypes
      ∧ event.Peer.IP = jsonEvent.Neighbor.Address.Peer
      ∧ event.Peer.ASN = jsonEvent.Neighbor.ASN.Peer
      ∧ event.Self.IP = jsonEvent.Neighbor.Address.Local
      ∧ event.Self.ASN = jsonEvent.Neighbor.ASN.Local
      ∧ event.Direction = jsonEvent.Neighbor.Direction := by
  unfold ParseEvent at hreturn
  cases hd : safeUnmarshal unmarshal data with
  | error msg => simp [hd] at hreturn
  | ok jsonEvent =>
    refine ⟨jsonEvent, rfl, ?_⟩
    simp only [hd] at hreturn
    by_cases h1 : jsonEvent.Type_ = "update"
    · rcases hp : parseUpdateMessage jsonEvent.Neighbor.Message.Update with ⟨ra, rw, e⟩
      cases e with
      | some e =>
        simp only [h1, hp, if_true, Prod.mk.injEq, Option.some.injEq] at hreturn
        obtain ⟨hev, _⟩ := hreturn
        subst hev
        simp [knownTypes, h1]
      | none =>
        simp only [h1, hp, if_true, Prod.mk.injEq, Option.some.injEq] at hreturn
        obtain ⟨hev, _⟩ := hreturn
        subst hev
        simp [knownTypes, h1, Event.setAnnouncements, Event.setWithdrawals]
    · by_cases h2 : jsonEvent.Type_ = "state"
      · rw [if_neg h1, if_pos h2] at hreturn
        simp only [Prod.mk.injEq, Option.some.injEq] at hreturn
        obtain ⟨hev, _⟩ := hreturn
        subst hev
        simp [knownTypes, h2]
      · by_cases h3 : jsonEvent.Type_ = "notification" ∨ jsonEvent.Type_ = "open"
            ∨ jsonEvent.Type_ = "keepalive" ∨ jsonEvent.Type_ = "signal"
        · simp only [h1, h2, h3, if_true, if_false, Prod.mk.injEq, Option.some.injEq] at hreturn
          obtain ⟨hev, _⟩ := hreturn
          subst hev
          refine ⟨?_, rfl, rfl, rfl, rfl, rfl⟩
          simp only [knownTypes, List.mem_cons, List.mem_singleton, List.not_mem_nil, or_false]
          exact Or.inr (Or.inr h3)
        · simp [h1, h2, h3] at hreturn

theorem returned_event_carries_envelope_witness :
    (ParseEvent sampleUnmarshal [117] none).1
      = (some { BaseEvent := { Version := "4.0.1", Type_ := "update" }
                Peer := { IP := "192.168.1.2", ASN := 64496 }
                Self := { IP := "192.168.1.184", ASN := 64496 }
                Direction := "send" },
         some (.unableToParseRoute (.number 1 0)))
    ∧ ∃ jsonEvent : messages.JSONEvent,
      safeUnmarshal sampleUnmarshal [117] = .ok jsonEvent
      ∧ jsonEvent.Type_ ∈ knownTypes
      ∧ "192.168.1.2" = jsonEvent.Neighbor.Address.Peer
      ∧ (64496 : Int) = jsonEvent.Neighbor.ASN.Peer
      ∧ "192.168.1.184" = jsonEvent.Neighbor.Address.Local
      ∧ (64496 : Int) = jsonEvent.Neighbor.ASN.Local
      ∧ "send" = jsonEvent.Neighbor.Direction :=
  ⟨rfl, returned_event_carries_envelope sampleUnmarshal [117] none _ _ rfl⟩

/-- Claim C12: for every input line whose event type is not "state" (a line
that fails to decode has none; lines of an unknown type and updates that fail
to normalise are included), `ParseEvent` leaves `lastStatus`, hence the
tracker's state and reason, unchanged. -/
theorem non_state_line_keeps_status
    (unmarshal : List Byte → Except String messages.JSONEvent) (data : List Byte)
    (lastStatus : Option status)
    (htype : ∀ jsonEvent, safeUnmarshal unmarshal data = .ok jsonEvent →
      jsonEvent.Type_ ≠ "state") :
    (ParseEvent unmarshal data lastStatus).2 = lastStatus := by
  unfold ParseEvent
  cases hd : safeUnmarshal unmarshal data with
  | error msg => rfl
  | ok jsonEvent =>
    have h2 : ¬ jsonEvent.Type_ = "state" := htype jsonEvent hd
    simp only []
    by_cases h1 : jsonEvent.Type_ = "update"
    · rcases hp : parseUpdateMessage jsonEvent.Neighbor.Message.Update with ⟨ra, rw, e⟩
      cases e <;> simp [h1, hp]
    · by_cases h3 : jsonEvent.Type_ = "notification" ∨ jsonEvent.Type_ = "open"
          ∨ jsonEvent.Type_ = "keepalive" ∨ jsonEvent.Type_ = "signal"
      · simp [h1, h2, h3]
      · simp [h1, h2, h3]

theorem non_state_line_keeps_status_witness :
    (∀ jsonEvent, safeUnmarshal sampleUnmarshal [117] = .ok jsonEvent →
      jsonEvent.Type_ ≠ "state")
    ∧ (ParseEvent sampleUnmarshal [117] (some { state := "down", reason := "r" })).2
        = some { state := "down", reason := "r" } :=
  ⟨fun jsonEvent h => by cases h; decide,
    non_state_line_keeps_status sampleUnmarshal [117] (some { state := "down", reason := "r" })
      (fun jsonEvent h => by cases h; decide)⟩

/-- Claim C13: on a tracker that has never been published to, `GetStatus()`
returns "unknown" and leaves the tracker holding state "unknown" with reason
"no known last status". -/
theorem GetStatus_of_unpublished (lastStatus : Option status)
    (hnever : unpublished lastStatus) :
    GetStatus lastStatus
      = ("unknown", some { state := "unknown", reason := "no known last status" }) := by
  rcases hnever with h | h <;> rw [h] <;> rfl

theorem GetStatus_of_unpublished_witness :
    unpublished none
    ∧ GetStatus none
      = ("unknown", some { state := "unknown", reason := "no known last status" }) :=
  ⟨Or.inl rfl, GetStatus_of_unpublished none (Or.inl rfl)⟩

/-- Claim C14, evaluated on the code: on a tracker that has never been
published to and never been read, `lastStatus` is nil and `GetStatusReason()`
dereferences it, which fails; the reason "no known last status" is only there
once `GetStatus()` has run. -/
theorem GetStatusReason_before_first_read :
    GetStatusReason none = none
    ∧ GetStatusReason (GetStatus none).2 = some "no known last status" := by
  constructor <;> rfl

/-- Claim C15, refuted as stated: after the `down` event of `TestPeerState`
(reason "peer reset, message () error()") and then its `up` event, which has
no reason field, `GetStatus()` returns "up" but `GetStatusReason()` returns the
empty string, not the reason of the `down` event. -/
theorem up_event_keeps_reason_counterexample :
    safeUnmarshal sampleStatusUnmarshal [100] = .ok sampleDown
    ∧ sampleDown.Type_ = "state" ∧ sampleDown.Neighbor.State = "down"
    ∧ sampleDown.Neighbor.Reason = "peer reset, message () error()"
    ∧ safeUnmarshal sampleStatusUnmarshal [112] = .ok sampleUp
    ∧ sampleUp.Type_ = "state" ∧ sampleUp.Neighbor.State = "up"
    ∧ sampleUp.Neighbor.Reason = ""
    ∧ (GetStatus (ParseEvent sampleStatusUnmarshal [112]
        (ParseEvent sampleStatusUnmarshal [100] none).2).2).1 = "up"
    ∧ ¬ (GetStatusReason (ParseEvent sampleStatusUnmarshal [112]
        (ParseEvent sampleStatusUnmarshal [100] none).2).2
          = some "peer reset, message () error()") :=
  ⟨rfl, rfl, rfl, rfl, rfl, rfl, rfl, rfl, by decide, by decide⟩

/-- Claim C15, as amended: after a state event with state "down" and a reason
`r`, followed by a state event with state "up" that carries no reason field
(its decoded reason is the empty string), `GetStatus()` returns "up" and
`GetStatusReason()` returns the empty string: each state event replaces the
whole status, reason included. -/
theorem up_event_replaces_reason
    (unmarshal : List Byte → Except String messages.JSONEvent) (down up : List Byte)
    (lastStatus : Option status) (jsonDown jsonUp : messages.JSONEvent)
    (hdown : safeUnmarshal unmarshal down = .ok jsonDown)
    (hdownType : jsonDown.Type_ = "state") (hdownState : jsonDown.Neighbor.State = "down")
    (hup : safeUnmarshal unmarshal up = .ok jsonUp)
    (hupType : jsonUp.Type_ = "state") (hupState : jsonUp.Neighbor.State = "up")
    (hupReason : jsonUp.Neighbor.Reason = "") :
    (ParseEvent unmarshal down lastStatus).2
        = some { state := "down", reason := jsonDown.Neighbor.Reason }
    ∧ (GetStatus (ParseEvent unmarshal up (ParseEvent unmarshal down lastStatus).2).2).1 = "up"
    ∧ GetStatusReason (ParseEvent unmarshal up (ParseEvent unmarshal down lastStatus).2).2
        = some ""
    ∧ GetStatusReason
        (GetStatus (ParseEvent unmarshal up (ParseEvent unmarshal down lastStatus).2).2).2
        = some "" := by
  simp [ParseEvent, hdown, hdownType, hdownState, hup, hupType, hupState, hupReason, GetStatus,
    GetStatusReason]

theorem up_event_replaces_reason_witness :
    safeUnmarshal sampleStatusUnmarshal [100] = .ok sampleDown
    ∧ sampleDown.Type_ = "state" ∧ sampleDown.Neighbor.State = "down"
    ∧ safeUnmarshal sampleStatusUnmarshal [112] = .ok sampleUp
    ∧ sampleUp.Type_ = "state" ∧ sampleUp.Neighbor.State = "up"
    ∧ sampleUp.Neighbor.Reason = ""
    ∧ (ParseEvent sampleStatusUnmarshal [100] none).2
        = some { state := "down", reason := sampleDown.Neighbor.Reason }
    ∧ (GetStatus (ParseEvent sampleStatusUnmarshal [112]
        (ParseEvent sampleStatusUnmarshal [100] none).2).2).1 = "up"
    ∧ GetStatusReason (ParseEvent sampleStatusUnmarshal [112]
        (ParseEvent sampleStatusUnmarshal [100] none).2).2 = some ""
    ∧ GetStatusReason (GetStatus (ParseEvent sampleStatusUnmarshal [112]
        (ParseEvent sampleStatusUnmarshal [100] none).2).2).2 = some "" :=
  ⟨rfl, rfl, rfl, rfl, rfl, rfl, rfl,
    up_event_replaces_reason sampleStatusUnmarshal [100] [112] none sampleDown sampleUp
      rfl rfl rfl rfl rfl rfl rfl⟩

/-! ## `safeUnmarshal`: the repair pass -/

theorem bytesRemove_of_neg (old : Byte) (data : List Byte) :
    ∀ n : Int, n < 0 → bytesRemove data old n = data.filter (fun b => decide (b ≠ old)) := by
  induction data with
  | nil => intro n _; rfl
  | cons b rest ih =>
    intro n hn
    have h0 : ¬ n = 0 := by omega
    by_cases hb : b = old
    · simp [bytesRemove, h0, hb, ih (n - 1) (by omega)]
    · simp [bytesRemove, h0, hb, ih n hn]

theorem repair_eq_filter (data : List Byte) :
    repair data = data.filter (fun b => !isControl b) := by
  simp only [repair, List.foldl_cons, List.foldl_nil]
  rw [bytesRemove_of_neg 4 _ (-2) (by decide), bytesRemove_of_neg 0 _ (-2) (by decide),
    bytesRemove_of_neg 1 _ (-2) (by decide), List.filter_filter, List.filter_filter]
  congr 1
  funext b
  by_cases h1 : b = 1 <;> by_cases h0 : b = 0 <;> by_cases h4 : b = 4 <;>
    simp [isControl, h1, h0, h4]

theorem repair_of_inserted (l m : List Byte) (h : Inserted l m) : repair m = repair l := by
  rw [repair_eq_filter, repair_eq_filter]
  induction h with
  | done => rfl
  | keep b _ ih => simp [List.filter_cons, ih]
  | insert c hc _ ih => simp [List.filter_cons, hc, ih]

theorem repair_of_clean (data : List Byte) (h : ¬ ∃ b ∈ data, isControl b = true) :
    repair data = data := by
  rw [repair_eq_filter, List.filter_eq_self]
  intro b hb
  cases hc : isControl b with
  | false => rfl
  | true => exact absurd ⟨b, hb, hc⟩ h

theorem safeUnmarshal_of_rejects (unmarshal : List Byte → Except String messages.JSONEvent)
    (hjson : rejectsControlBytes unmarshal) (data : List Byte) :
    safeUnmarshal unmarshal data = unmarshal (repair data) := by
  unfold safeUnmarshal
  cases hd : unmarshal data with
  | error msg => rfl
  | ok t =>
    have hclean : ¬ ∃ b ∈ data, isControl b = true := by
      intro hex
      obtain ⟨msg, hmsg⟩ := hjson data hex
      rw [hd] at hmsg
      cases hmsg
    rw [repair_of_clean data hclean, hd]

theorem sampleUnmarshal_rejects : rejectsControlBytes sampleUnmarshal := by
  intro data hex
  obtain ⟨b, hb, hc⟩ := hex
  have h1 : data ≠ [100] := by
    intro h
    rw [h, List.mem_singleton] at hb
    rw [hb] at hc
    revert hc
    decide
  have h2 : data ≠ [98] := by
    intro h
    rw [h, List.mem_singleton] at hb
    rw [hb] at hc
    revert hc
    decide
  have h3 : data ≠ [107] := by
    intro h
    rw [h, List.mem_singleton] at hb
    rw [hb] at hc
    revert hc
    decide
  have h4 : data ≠ [117] := by
    intro h
    rw [h, List.mem_singleton] at hb
    rw [hb] at hc
    revert hc
    decide
  exact ⟨"invalid character", by simp [sampleUnmarshal, h1, h2, h3, h4]⟩

/-- Claim C16: for every input line whose strict decode fails, the bytes
handed to the single retry decode are the input with every occurrence of the
bytes 0x01, 0x00 and 0x04 removed and all other bytes kept in their original
order; a line whose strict decode succeeds is decoded once, unaltered. -/
theorem retry_decodes_line_without_control_bytes
    (unmarshal : List Byte → Except String messages.JSONEvent) (data : List Byte) :
    repair data = data.filter (fun b => decide (b ≠ 1 ∧ b ≠ 0 ∧ b ≠ 4))
    ∧ (∀ msg, unmarshal data = .error msg →
        safeUnmarshal unmarshal data
          = unmarshal (data.filter (fun b => decide (b ≠ 1 ∧ b ≠ 0 ∧ b ≠ 4))))
    ∧ (∀ t, unmarshal data = .ok t → safeUnmarshal unmarshal data = .ok t) := by
  have hrep : repair data = data.filter (fun b => decide (b ≠ 1 ∧ b ≠ 0 ∧ b ≠ 4)) := by
    rw [repair_eq_filter]
    congr 1
    funext b
    by_cases h1 : b = 1 <;> by_cases h0 : b = 0 <;> by_cases h4 : b = 4 <;>
      simp [isControl, h1, h0, h4]
  refine ⟨hrep, ?_, ?_⟩
  · intro msg hmsg
    rw [← hrep]
    simp [safeUnmarshal, hmsg]
  · intro t ht
    simp [safeUnmarshal, ht]

/-- Claim C17, refuted as stated: the line made of the byte 0x01 and an
opening brace fails the strict decode with one error and the retry (on the
brace alone) with another; `safeUnmarshal` returns the error of the retry,
not the error of the strict decode. -/
theorem first_error_returned_counterexample :
    sampleStrictUnmarshal [1, 123]
      = .error "invalid character looking for beginning of value"
    ∧ sampleStrictUnmarshal (repair [1, 123]) = .error "unexpected end of JSON input"
    ∧ safeUnmarshal sampleStrictUnmarshal [1, 123] = .error "unexpected end of JSON input"
    ∧ ¬ (safeUnmarshal sampleStrictUnmarshal [1, 123]
          = .error "invalid character looking for beginning of value") := by
  refine ⟨rfl, rfl, rfl, ?_⟩
  intro h
  have h2 : safeUnmarshal sampleStrictUnmarshal [1, 123]
      = .error "unexpected end of JSON input" := rfl
  rw [h2] at h
  injection h with h
  revert h
  decide

/-- Claim C17, as amended: for every line that fails both the strict decode
and the decode after the repair pass, the error returned by `safeUnmarshal`
(and hence by `ParseEvent`, with a nil event) is the error of the retry; the
error of the strict decode is discarded. -/
theorem double_failure_returns_retry_error
    (unmarshal : List Byte → Except String messages.JSONEvent) (data : List Byte)
    (lastStatus : Option status) (first retry : String)
    (hfirst : unmarshal data = .error first)
    (hretry : unmarshal (repair data) = .error retry) :
    safeUnmarshal unmarshal data = .error retry
    ∧ ParseEvent unmarshal data lastStatus = ((none, some (.json retry)), lastStatus) := by
  have h : safeUnmarshal unmarshal data = .error retry := by
    simp [safeUnmarshal, hfirst, hretry]
  exact ⟨h, by simp [ParseEvent, h]⟩

theorem double_failure_returns_retry_error_witness :
    sampleStrictUnmarshal [1, 123]
      = .error "invalid character looking for beginning of value"
    ∧ sampleStrictUnmarshal (repair [1, 123]) = .error "unexpected end of JSON input"
    ∧ safeUnmarshal sampleStrictUnmarshal [1, 123] = .error "unexpected end of JSON input"
    ∧ ParseEvent sampleStrictUnmarshal [1, 123] none
        = ((none, some (.json "unexpected end of JSON input")), none) :=
  ⟨rfl, rfl,
    double_failure_returns_retry_error sampleStrictUnmarshal [1, 123] none
      "invalid character looking for beginning of value" "unexpected end of JSON input"
      rfl rfl⟩

/-- Claim C18: for every line `L` on which `ParseEvent` succeeds and every
line `L'` obtained from `L` by inserting bytes 0x00, 0x01 or 0x04 at arbitrary
positions, `ParseEvent(L')` succeeds and yields the same event (and leaves the
same `lastStatus`).  `json.Unmarshal` enters as a decoder that rejects every
text holding one of these raw bytes, as a JSON decoder does. -/
theorem inserted_control_bytes_are_harmless
    (unmarshal : List Byte → Except String messages.JSONEvent)
    (hjson : rejectsControlBytes unmarshal) (L L' : List Byte) (hinserted : Inserted L L')
    (lastStatus : Option status) (event : Event)
    (hsuccess : (ParseEvent unmarshal L lastStatus).1 = (some event, none)) :
    (ParseEvent unmarshal L' lastStatus).1 = (some event, none)
    ∧ (ParseEvent unmarshal L' lastStatus).2 = (ParseEvent unmarshal L lastStatus).2 := by
  have hsame : safeUnmarshal unmarshal L' = safeUnmarshal unmarshal L := by
    rw [safeUnmarshal_of_rejects unmarshal hjson L', safeUnmarshal_of_rejects unmarshal hjson L,
      repair_of_inserted L L' hinserted]
  have hall : ParseEvent unmarshal L' lastStatus = ParseEvent unmarshal L lastStatus := by
    unfold ParseEvent at hsuccess ⊢
    rw [hsame]
    cases hd : safeUnmarshal unmarshal L with
    | error msg => rfl
    | ok jsonEvent =>
      simp only [hd] at hsuccess
      simp only []
      by_cases h1 : jsonEvent.Type_ = "update"
      · rw [if_pos h1, if_pos h1]
      · by_cases h2 : jsonEvent.Type_ = "state"
        · rw [if_neg h1, if_pos h2, if_neg h1, if_pos h2]
        · by_cases h3 : jsonEvent.Type_ = "notification" ∨ jsonEvent.Type_ = "open"
              ∨ jsonEvent.Type_ = "keepalive" ∨ jsonEvent.Type_ = "signal"
          · rw [if_neg h1, if_neg h2, if_pos h3, if_neg h1, if_neg h2, if_pos h3]
          · rw [if_neg h1, if_neg h2, if_neg h3] at hsuccess
            simp at hsuccess
  rw [hall]
  exact ⟨hsuccess, rfl⟩

theorem inserted_control_bytes_are_harmless_witness :
    rejectsControlBytes sampleUnmarshal
    ∧ Inserted [107] [1, 107, 0, 4]
    ∧ (ParseEvent sampleUnmarshal [107] none).1
        = (some { BaseEvent := { Version := "4.0.1", Type_ := "keepalive" }
                  Peer := { IP := "192.168.1.2", ASN := 64496 }
                  Self := { IP := "192.168.1.184", ASN := 64496 }
                  Direction := "send" }, none)
    ∧ (ParseEvent sampleUnmarshal [1, 107, 0, 4] none).1
        = (some { BaseEvent := { Version := "4.0.1", Type_ := "keepalive" }
                  Peer := { IP := "192.168.1.2", ASN := 64496 }
                  Self := { IP := "192.168.1.184", ASN := 64496 }
                  Direction := "send" }, none)
    ∧ (ParseEvent sampleUnmarshal [1, 107, 0, 4] none).2
        = (ParseEvent sampleUnmarshal [107] none).2 :=
  ⟨sampleUnmarshal_rejects,
    .insert 1 rfl (.keep 107 (.insert 0 rfl (.insert 4 rfl .done))),
    rfl,
    inserted_control_bytes_are_harmless sampleUnmarshal sampleUnmarshal_rejects [107]
      [1, 107, 0, 4] (.insert 1 rfl (.keep 107 (.insert 0 rfl (.insert 4 rfl .done))))
      none _ rfl⟩

/-! ## `parseUpdateMessage`: two runs on one update -/

theorem sameRoute_eq (x y : JSONValue) (h : sameRoute x y) (hone : atMostOneKey x) : x = y := by
  cases h with
  | same => rfl
  | reordered kvs kvs1 hperm =>
    simp only [atMostOneKey] at hone
    match kvs, hone, hperm with
    | [], _, hperm => rw [List.nil_perm.mp hperm]
    | [a], _, hperm => rw [List.singleton_perm.mp hperm]

theorem sameRoutes_eq (xs ys : List JSONValue) (h : List.Forall₂ sameRoute xs ys)
    (hone : ∀ x ∈ xs, atMostOneKey x) : xs = ys := by
  induction h with
  | nil => rfl
  | cons hxy _ ih =>
    rw [sameRoute_eq _ _ hxy (hone _ (List.mem_cons_self _ _)),
      ih (fun x hx => hone x (List.mem_cons_of_mem _ hx))]

theorem sameRouteMap_perm (m m1 : GoMap (List JSONValue)) (h : sameRouteMap m m1)
    (hone : ∀ kv ∈ m, ∀ rs ∈ kv.2, atMostOneKey rs) : m.Perm m1 := by
  obtain ⟨mid, hmid, hperm⟩ := h
  have heq : m = mid := by
    clear hperm
    induction hmid with
    | nil => rfl
    | @cons a b l1 l2 hab _ ih =>
      have h1 : a = b := by
        obtain ⟨ak, av⟩ := a
        obtain ⟨bk, bv⟩ := b
        obtain ⟨hk, hv⟩ := hab
        simp only at hk hv
        rw [hk, sameRoutes_eq av bv hv (hone (ak, av) (List.mem_cons_self _ _))]
      rw [h1, ih (fun kv hkv => hone kv (List.mem_cons_of_mem _ hkv))]
  rw [heq]
  exact hperm

theorem mapWF_of_perm {V : Type} (m m1 : GoMap V) (h : m.Perm m1) (hwf : mapWF m) :
    mapWF m1 :=
  ((h.map Prod.fst).nodup_iff).mp hwf

theorem announceLoop_of_perm {X A : Type} (zero : A) (body : A → X → Except Error A)
    (good : X → Prop) (hbody : ∀ a x, (∃ b, body a x = .ok b) ↔ good x)
    (m m1 : GoMap X) (hperm : m.Perm m1) (hwf : mapWF m) (r : GoMap A)
    (h : announceLoop zero body m [] = .ok r) :
    ∃ r1, announceLoop zero body m1 [] = .ok r1 ∧ ∀ k, mapGet r1 k = mapGet r k := by
  have hgood : ∀ kv ∈ m1, good kv.2 := fun kv hkv =>
    (announceLoop_ok_iff zero body good hbody m []).mp ⟨r, h⟩ kv (hperm.mem_iff.mpr hkv)
  obtain ⟨r1, h1⟩ := (announceLoop_ok_iff zero body good hbody m1 []).mpr hgood
  refine ⟨r1, h1, ?_⟩
  intro k
  by_cases hk : k ∈ mapKeys m
  · obtain ⟨kv, hkv, hfst⟩ := List.mem_map.mp hk
    obtain ⟨k0, x⟩ := kv
    simp only at hfst
    subst hfst
    obtain ⟨b, hb, hget⟩ := announceLoop_get_of_mem zero body m [] r k0 x h hwf hkv
    obtain ⟨b1, hb1, hget1⟩ := announceLoop_get_of_mem zero body m1 [] r1 k0 x h1
      (mapWF_of_perm m m1 hperm hwf) (hperm.mem_iff.mp hkv)
    rw [hb] at hb1
    cases hb1
    rw [hget, hget1]
  · have hk1 : k ∉ mapKeys m1 := fun hin => hk (((hperm.map Prod.fst).mem_iff).mpr hin)
    rw [announceLoop_get_of_not_mem zero body m [] r k h hk,
      announceLoop_get_of_not_mem zero body m1 [] r1 k h1 hk1]

theorem parseUpdateMessage_of_loops (u : messages.UpdateMessageFull)
    (a4 : GoMap IPv4UnicastAnnouncement) (ws4 : List String) (f4 : GoMap IPv4FlowAnnouncement)
    (a6 : GoMap IPv6UnicastAnnouncement) (ws6 : List String) (f6 : GoMap IPv6FlowAnnouncement)
    (h1 : announceLoop {} (bodyIPv4Unicast u.Attribute) u.Announce.IPv4Unicast [] = .ok a4)
    (h2 : appendRoutes [] u.Withdraw.IPv4Unicast = .ok ws4)
    (h3 : announceLoop {} (bodyIPv4Flow u.Attribute) u.Announce.IPv4Flow [] = .ok f4)
    (h4 : announceLoop {} (bodyIPv6Unicast u.Attribute) u.Announce.IPv6Unicast [] = .ok a6)
    (h5 : appendRoutes [] u.Withdraw.IPv6Unicast = .ok ws6)
    (h6 : announceLoop {} (bodyIPv6Flow u.Attribute) u.Announce.IPv6Flow [] = .ok f6) :
    parseUpdateMessage u =
      (some { IPV4Unicast := a4, IPV4Flow := f4, IPV6Unicast := a6, IPV6Flow := f6 },
       some { IPv4Unicast := [{ Attributes := u.Attribute, NLRI := ws4 }]
              IPv4Flow := withdrawIPv4Flow u.Attribute u.Withdraw.IPv4Flow []
              IPv6Unicast := [{ Attributes := u.Attribute, NLRI := ws6 }]
              IPv6Flow := withdrawIPv6Flow u.Attribute u.Withdraw.IPv6Flow [] },
       none) := by
  unfold parseUpdateMessage
  simp only [makeAnnouncements, h1, h2, h3, h4, h5, h6]
  rfl

/-- Claim C19, refuted as stated: an update whose route element is a mapping
with two keys is accepted on both of two runs that range over that mapping in
opposite orders, and the NLRI stored under its next-hop differs between the
runs. -/
theorem two_runs_equal_counterexample :
    SameUpdate sampleTwoKeys sampleTwoKeysAgain
    ∧ (parseUpdateMessage sampleTwoKeys).2.2 = none
    ∧ (parseUpdateMessage sampleTwoKeysAgain).2.2 = none
    ∧ (parseUpdateMessage sampleTwoKeys).1
        = some { IPV4Unicast := [("192.168.1.184", { NLRI := ["10.0.0.0/8", "10.1.0.0/16"] })]
                 IPV4Flow := [], IPV6Unicast := [], IPV6Flow := [] }
    ∧ (parseUpdateMessage sampleTwoKeysAgain).1
        = some { IPV4Unicast := [("192.168.1.184", { NLRI := ["10.1.0.0/16", "10.0.0.0/8"] })]
                 IPV4Flow := [], IPV6Unicast := [], IPV6Flow := [] }
    ∧ ¬ ((parseUpdateMessage sampleTwoKeys).1 = (parseUpdateMessage sampleTwoKeysAgain).1) := by
  refine ⟨?_, rfl, rfl, by decide, by decide, by decide⟩
  exact
    { attrs := rfl
      announce4 := ⟨sampleTwoKeysAgain.Announce.IPv4Unicast,
        List.Forall₂.cons ⟨rfl, List.Forall₂.cons
          (sameRoute.reordered _ _ (List.Perm.swap _ _ [])) List.Forall₂.nil⟩ List.Forall₂.nil,
        List.Perm.refl _⟩
      announceFlow4 := List.Perm.refl _
      announce6 := ⟨[], List.Forall₂.nil, List.Perm.refl _⟩
      announceFlow6 := List.Perm.refl _
      withdraw4 := List.Forall₂.nil
      withdrawFlow4 := rfl
      withdraw6 := List.Forall₂.nil
      withdrawFlow6 := rfl }

/-- Claim C19, as amended: for every valid update line none of whose route
elements is a mapping with more than one key, two runs of the decoder on the
same line (each ranging over the maps of the decoded update in its own order)
yield equal Withdrawals and Announcements that hold the same entry under
every next-hop of every family. -/
theorem two_runs_agree_without_multi_key_routes (u u1 : messages.UpdateMessageFull)
    (ra : Announcements) (rw : Withdrawals)
    (hsame : SameUpdate u u1)
    (hwf4 : mapWF u.Announce.IPv4Unicast) (hwfFlow4 : mapWF u.Announce.IPv4Flow)
    (hwf6 : mapWF u.Announce.IPv6Unicast) (hwfFlow6 : mapWF u.Announce.IPv6Flow)
    (hone : noMultiKeyRoute u)
    (haccept : parseUpdateMessage u = (some ra, some rw, none)) :
    ∃ ra1 : Announcements,
      parseUpdateMessage u1 = (some ra1, some rw, none)
      ∧ (∀ nexthop, mapGet ra1.IPV4Unicast nexthop = mapGet ra.IPV4Unicast nexthop)
      ∧ (∀ nexthop, mapGet ra1.IPV4Flow nexthop = mapGet ra.IPV4Flow nexthop)
      ∧ (∀ nexthop, mapGet ra1.IPV6Unicast nexthop = mapGet ra.IPV6Unicast nexthop)
      ∧ (∀ nexthop, mapGet ra1.IPV6Flow nexthop = mapGet ra.IPV6Flow nexthop) := by
  obtain ⟨h1, h3, h4, h6, ⟨ws4, h2, hb4⟩, ⟨ws6, h5, hb6⟩, hf4, hf6⟩ :=
    parseUpdateMessage_accepted u ra rw haccept
  obtain ⟨hone4, honew4, hone6, honew6⟩ := hone
  have hattr := hsame.attrs
  have hw4 := sameRoutes_eq _ _ hsame.withdraw4 honew4
  have hw6 := sameRoutes_eq _ _ hsame.withdraw6 honew6
  obtain ⟨a4, g1, e1⟩ := announceLoop_of_perm {} (bodyIPv4Unicast u.Attribute) _
    (bodyIPv4Unicast_ok_iff u.Attribute) _ _
    (sameRouteMap_perm _ _ hsame.announce4 hone4) hwf4 _ h1
  obtain ⟨f4, g3, e3⟩ := announceLoop_of_perm {} (bodyIPv4Flow u.Attribute) (fun _ => True)
    (fun _ _ => by simp [bodyIPv4Flow]) _ _ hsame.announceFlow4 hwfFlow4 _ h3
  obtain ⟨a6, g4, e4⟩ := announceLoop_of_perm {} (bodyIPv6Unicast u.Attribute) _
    (bodyIPv6Unicast_ok_iff u.Attribute) _ _
    (sameRouteMap_perm _ _ hsame.announce6 hone6) hwf6 _ h4
  obtain ⟨f6, g6, e6⟩ := announceLoop_of_perm {} (bodyIPv6Flow u.Attribute) (fun _ => True)
    (fun _ _ => by simp [bodyIPv6Flow]) _ _ hsame.announceFlow6 hwfFlow6 _ h6
  rw [← hattr] at g1 g3 g4 g6
  rw [hw4] at h2
  rw [hw6] at h5
  have hp := parseUpdateMessage_of_loops u1 a4 ws4 f4 a6 ws6 f6 g1 h2 g3 g4 h5 g6
  refine ⟨{ IPV4Unicast := a4, IPV4Flow := f4, IPV6Unicast := a6, IPV6Flow := f6 },
    ?_, e1, e3, e4, e6⟩
  rw [hp]
  have hrw : rw = { IPv4Unicast := [{ Attributes := u1.Attribute, NLRI := ws4 }]
                    IPv4Flow := withdrawIPv4Flow u1.Attribute u1.Withdraw.IPv4Flow []
                    IPv6Unicast := [{ Attributes := u1.Attribute, NLRI := ws6 }]
                    IPv6Flow := withdrawIPv6Flow u1.Attribute u1.Withdraw.IPv6Flow [] } := by
    rw [hattr, hsame.withdrawFlow4, hsame.withdrawFlow6, ← hb4, ← hb6, ← hf4, ← hf6]
  rw [← hrw]

theorem sampleUpdate_noMultiKeyRoute : noMultiKeyRoute sampleUpdate := by
  simp [noMultiKeyRoute, sampleUpdate, atMostOneKey]

theorem sampleTwoNextHops_sameUpdate : SameUpdate sampleTwoNextHops sampleTwoNextHopsAgain :=
  { attrs := rfl
    announce4 := ⟨sampleTwoNextHops.Announce.IPv4Unicast,
      List.Forall₂.cons ⟨rfl, List.Forall₂.cons (sameRoute.same _)
          (List.Forall₂.cons (sameRoute.same _) List.Forall₂.nil)⟩
        (List.Forall₂.cons ⟨rfl, List.Forall₂.cons (sameRoute.same _) List.Forall₂.nil⟩
          List.Forall₂.nil),
      List.Perm.swap _ _ []⟩
    announceFlow4 := List.Perm.swap _ _ []
    announce6 := ⟨sampleTwoNextHops.Announce.IPv6Unicast,
      List.Forall₂.cons ⟨rfl, List.Forall₂.cons (sameRoute.same _) List.Forall₂.nil⟩
        (List.Forall₂.cons ⟨rfl, List.Forall₂.cons (sameRoute.same _) List.Forall₂.nil⟩
          List.Forall₂.nil),
      List.Perm.swap _ _ []⟩
    announceFlow6 := List.Perm.refl _
    withdraw4 := List.Forall₂.cons (sameRoute.same _)
      (List.Forall₂.cons (sameRoute.same _) List.Forall₂.nil)
    withdrawFlow4 := rfl
    withdraw6 := List.Forall₂.nil
    withdrawFlow6 := rfl }

theorem sampleTwoNextHops_noMultiKeyRoute : noMultiKeyRoute sampleTwoNextHops := by
  simp [noMultiKeyRoute, sampleTwoNextHops, atMostOneKey]

theorem parseUpdateMessage_sampleTwoNextHops :
    parseUpdateMessage sampleTwoNextHops
      = (some sampleTwoNextHopsAnnouncements, some sampleTwoNextHopsWithdrawals, none) := by
  rfl

theorem two_runs_agree_without_multi_key_routes_witness :
    SameUpdate sampleTwoNextHops sampleTwoNextHopsAgain
    ∧ sampleTwoNextHopsAgain.Announce.IPv4Unicast
        = sampleTwoNextHops.Announce.IPv4Unicast.reverse
    ∧ sampleTwoNextHopsAgain.Announce.IPv4Flow = sampleTwoNextHops.Announce.IPv4Flow.reverse
    ∧ sampleTwoNextHopsAgain.Announce.IPv6Unicast
        = sampleTwoNextHops.Announce.IPv6Unicast.reverse
    ∧ mapWF sampleTwoNextHops.Announce.IPv4Unicast ∧ mapWF sampleTwoNextHops.Announce.IPv4Flow
    ∧ mapWF sampleTwoNextHops.Announce.IPv6Unicast ∧ mapWF sampleTwoNextHops.Announce.IPv6Flow
    ∧ noMultiKeyRoute sampleTwoNextHops
    ∧ parseUpdateMessage sampleTwoNextHops
        = (some sampleTwoNextHopsAnnouncements, some sampleTwoNextHopsWithdrawals, none)
    ∧ parseUpdateMessage sampleTwoNextHopsAgain
        = (some { IPV4Unicast := sampleTwoNextHopsAnnouncements.IPV4Unicast.reverse
                  IPV4Flow := sampleTwoNextHopsAnnouncements.IPV4Flow.reverse
                  IPV6Unicast := sampleTwoNextHopsAnnouncements.IPV6Unicast.reverse
                  IPV6Flow := [] },
           some sampleTwoNextHopsWithdrawals, none)
    ∧ ∃ ra1 : Announcements,
      parseUpdateMessage sampleTwoNextHopsAgain
        = (some ra1, some sampleTwoNextHopsWithdrawals, none)
      ∧ (∀ nexthop, mapGet ra1.IPV4Unicast nexthop
          = mapGet sampleTwoNextHopsAnnouncements.IPV4Unicast nexthop)
      ∧ (∀ nexthop, mapGet ra1.IPV4Flow nexthop
          = mapGet sampleTwoNextHopsAnnouncements.IPV4Flow nexthop)
      ∧ (∀ nexthop, mapGet ra1.IPV6Unicast nexthop
          = mapGet sampleTwoNextHopsAnnouncements.IPV6Unicast nexthop)
      ∧ (∀ nexthop, mapGet ra1.IPV6Flow nexthop
          = mapGet sampleTwoNextHopsAnnouncements.IPV6Flow nexthop) :=
  ⟨sampleTwoNextHops_sameUpdate, rfl, rfl, rfl, by decide, by decide, by decide, by decide,
    sampleTwoNextHops_noMultiKeyRoute, parseUpdateMessage_sampleTwoNextHops, rfl,
    two_runs_agree_without_multi_key_routes sampleTwoNextHops sampleTwoNextHopsAgain
      sampleTwoNextHopsAnnouncements sampleTwoNextHopsWithdrawals sampleTwoNextHops_sameUpdate
      (by decide) (by decide) (by decide) (by decide) sampleTwoNextHops_noMultiKeyRoute
      parseUpdateMessage_sampleTwoNextHops⟩

/-! ## Package `regexp`: lemmas on the search -/

theorem regexp.run_cat (a b : regexp.Regexp) (s : regexp.MState)
    (k : regexp.MState → Option regexp.MState) :
    (regexp.Regexp.cat a b).run s k = a.run s (fun s1 => b.run s1 k) := rfl

theorem regexp.run_empty (s : regexp.MState) (k : regexp.MState → Option regexp.MState) :
    regexp.Regexp.empty.run s k = k s := rfl

theorem regexp.run_bol_zero (rest : List Char) (caps : List (Nat × String))
    (k : regexp.MState → Option regexp.MState) :
    regexp.Regexp.bol.run { pos := 0, rest := rest, caps := caps } k
      = k { pos := 0, rest := rest, caps := caps } := by
  simp [regexp.Regexp.run]

theorem regexp.run_eol_nil (i : Nat) (caps : List (Nat × String))
    (k : regexp.MState → Option regexp.MState) :
    regexp.Regexp.eol.run { pos := i, rest := [], caps := caps } k
      = k { pos := i, rest := [], caps := caps } := by
  simp [regexp.Regexp.run]

theorem regexp.run_str (w : String) (i : Nat) (rest : List Char) (caps : List (Nat × String))
    (k : regexp.MState → Option regexp.MState) :
    (regexp.Regexp.str w).run { pos := i, rest := w.data ++ rest, caps := caps } k
      = k { pos := i + w.data.length, rest := rest, caps := caps } := by
  have h : w.data.isPrefixOf (w.data ++ rest) = true :=
    List.isPrefixOf_iff_prefix.mpr (List.prefix_append _ _)
  simp [regexp.Regexp.run, regexp.MState.advance, h]

theorem regexp.tryLen_longest (min n : Nat) (s m : regexp.MState)
    (k : regexp.MState → Option regexp.MState) (hmin : min ≤ n)
    (hk : k (s.advance n) = some m) : regexp.tryLen min s k n = some m := by
  cases n with
  | zero =>
    have h0 : min = 0 := by omega
    have hs : s.advance 0 = s := rfl
    rw [hs] at hk
    simp [regexp.tryLen, h0, hk]
  | succ n =>
    have h1 : ¬ n + 1 < min := by omega
    simp [regexp.tryLen, h1, hk]

theorem regexp.takeWhile_token (p : Char → Bool) (tok rest : List Char)
    (hall : ∀ x ∈ tok, p x = true) (hstop : rest.takeWhile p = []) :
    (tok ++ rest).takeWhile p = tok := by
  induction tok with
  | nil => simpa using hstop
  | cons x xs ih =>
    have hx : p x = true := hall x (List.mem_cons_self _ _)
    have hxs : ∀ y ∈ xs, p y = true := fun y hy => hall y (List.mem_cons_of_mem _ hy)
    simp [List.takeWhile_cons, hx, ih hxs]

theorem regexp.takeWhile_stop (p : Char → Bool) (w rest : List Char)
    (hw : w ≠ []) (hstop : w.takeWhile p = []) : (w ++ rest).takeWhile p = [] := by
  cases w with
  | nil => exact absurd rfl hw
  | cons x xs =>
    by_cases hx : p x = true
    · simp [List.takeWhile_cons, hx] at hstop
    · simp [List.takeWhile_cons, hx]

/-- A group around a greedy repetition of a class takes the whole token in
front of it when the rest of the search succeeds from there. -/
theorem regexp.run_group_rep (g : Nat) (name : String) (c : regexp.Class) (min : Nat)
    (rep : regexp.Regexp)
    (hrep : ∀ s k, rep.run s k = regexp.tryLen min s k (s.rest.takeWhile c.mem).length)
    (i : Nat) (tok rest : List Char) (caps : List (Nat × String))
    (k : regexp.MState → Option regexp.MState) (m : regexp.MState)
    (hmin : min ≤ tok.length) (hall : ∀ x ∈ tok, c.mem x = true)
    (hstop : rest.takeWhile c.mem = [])
    (hk : k { pos := i + tok.length, rest := rest, caps := (g, String.mk tok) :: caps }
      = some m) :
    (regexp.Regexp.group g name rep).run { pos := i, rest := tok ++ rest, caps := caps } k
      = some m := by
  simp only [regexp.Regexp.run, hrep, regexp.takeWhile_token c.mem tok rest hall hstop]
  apply regexp.tryLen_longest _ _ _ _ _ hmin
  simpa [regexp.MState.advance] using hk

theorem regexp.run_group_plus (g : Nat) (name : String) (c : regexp.Class)
    (i : Nat) (tok rest : List Char) (caps : List (Nat × String))
    (k : regexp.MState → Option regexp.MState) (m : regexp.MState)
    (hne : tok ≠ []) (hall : ∀ x ∈ tok, c.mem x = true)
    (hstop : rest.takeWhile c.mem = [])
    (hk : k { pos := i + tok.length, rest := rest, caps := (g, String.mk tok) :: caps }
      = some m) :
    (regexp.Regexp.group g name (.plus c)).run { pos := i, rest := tok ++ rest, caps := caps } k
      = some m :=
  regexp.run_group_rep g name c 1 (.plus c) (fun _ _ => rfl) i tok rest caps k m
    (List.length_pos.mpr hne) hall hstop hk

theorem regexp.run_group_star (g : Nat) (name : String) (c : regexp.Class)
    (i : Nat) (tok rest : List Char) (caps : List (Nat × String))
    (k : regexp.MState → Option regexp.MState) (m : regexp.MState)
    (hall : ∀ x ∈ tok, c.mem x = true) (hstop : rest.takeWhile c.mem = [])
    (hk : k { pos := i + tok.length, rest := rest, caps := (g, String.mk tok) :: caps }
      = some m) :
    (regexp.Regexp.group g name (.star c)).run { pos := i, rest := tok ++ rest, caps := caps } k
      = some m :=
  regexp.run_group_rep g name c 0 (.star c) (fun _ _ => rfl) i tok rest caps k m
    (Nat.zero_le _) hall hstop hk

theorem regexp.searchFrom_first (re : regexp.Regexp) (i : Nat) (text : List Char)
    (m : regexp.MState)
    (h : re.run { pos := i, rest := text, caps := [] } some = some m) :
    regexp.searchFrom re i text = some (i, m) := by
  cases text with
  | nil => simp [regexp.searchFrom, h]
  | cons c cs => simp [regexp.searchFrom, h]

/-! ## Package `text`: the header of a RIB line -/

theorem text.notSpace_of_token (tok : List Char)
    (h : ∀ c ∈ tok, regexp.isSpace c = false) :
    ∀ x ∈ tok, regexp.Class.notSpace.mem x = true := by
  intro x hx
  simp [regexp.Class.mem, h x hx]

theorem text.dot_of_newlineFree (tok : List Char) (h : ∀ c ∈ tok, ¬ c.toNat = 10) :
    ∀ x ∈ tok, regexp.Class.dot.mem x = true := by
  intro x hx
  simp [regexp.Class.mem, h x hx]

/-- The search for `rxParseRIBLine` at the start of a well-formed header line
succeeds at the first attempt, each group taking its part of the line. -/
theorem text.rxParseRIBLine_run (p l la pa r afi safi d : List Char)
    (hp : p ≠ []) (hps : ∀ c ∈ p, regexp.isSpace c = false)
    (hl : l ≠ []) (hls : ∀ c ∈ l, regexp.isSpace c = false)
    (hla : la ≠ []) (hlas : ∀ c ∈ la, regexp.isDigit c = true)
    (hpa : pa ≠ []) (hpas : ∀ c ∈ pa, regexp.isDigit c = true)
    (hr : r ≠ []) (hrs : ∀ c ∈ r, regexp.isSpace c = false)
    (hafi : afi ≠ []) (hafis : ∀ c ∈ afi, regexp.isSpace c = false)
    (hsafi : safi ≠ []) (hsafis : ∀ c ∈ safi, regexp.isSpace c = false)
    (hd : ∀ c ∈ d, ¬ c.toNat = 10) :
    text.rxParseRIBLine.run
      { pos := 0
        rest := "neighbor ".data ++ (p ++ (" local-ip ".data ++ (l ++ (" local-as ".data ++
          (la ++ (" peer-as ".data ++ (pa ++ (" router-id ".data ++ (r ++
          (" family-allowed in-open ".data ++ (afi ++ (" ".data ++ (safi ++ (" ".data ++
          (d ++ [])))))))))))))))
        caps := [] } some
      = some
        { pos := ("neighbor ".data ++ (p ++ (" local-ip ".data ++ (l ++ (" local-as ".data ++
            (la ++ (" peer-as ".data ++ (pa ++ (" router-id ".data ++ (r ++
            (" family-allowed in-open ".data ++ (afi ++ (" ".data ++ (safi ++ (" ".data ++
            (d ++ [])))))))))))))))).length
          rest := []
          caps := [(8, String.mk d), (7, String.mk safi), (6, String.mk afi), (5, String.mk r),
            (4, String.mk pa), (3, String.mk la), (2, String.mk l), (1, String.mk p)] } := by
  simp only [text.rxParseRIBLine, regexp.seq, List.foldr, regexp.run_cat, regexp.run_empty]
  rw [regexp.run_bol_zero, regexp.run_str "neighbor "]
  refine regexp.run_group_plus _ _ _ _ p _ _ _ _ hp (text.notSpace_of_token p hps)
    (regexp.takeWhile_stop _ " local-ip ".data _ (by decide) (by decide)) ?_
  rw [regexp.run_str " local-ip "]
  refine regexp.run_group_plus _ _ _ _ l _ _ _ _ hl (text.notSpace_of_token l hls)
    (regexp.takeWhile_stop _ " local-as ".data _ (by decide) (by decide)) ?_
  rw [regexp.run_str " local-as "]
  refine regexp.run_group_plus _ _ _ _ la _ _ _ _ hla hlas
    (regexp.takeWhile_stop _ " peer-as ".data _ (by decide) (by decide)) ?_
  rw [regexp.run_str " peer-as "]
  refine regexp.run_group_plus _ _ _ _ pa _ _ _ _ hpa hpas
    (regexp.takeWhile_stop _ " router-id ".data _ (by decide) (by decide)) ?_
  rw [regexp.run_str " router-id "]
  refine regexp.run_group_plus _ _ _ _ r _ _ _ _ hr (text.notSpace_of_token r hrs)
    (regexp.takeWhile_stop _ " family-allowed in-open ".data _ (by decide) (by decide)) ?_
  rw [regexp.run_str " family-allowed in-open "]
  refine regexp.run_group_plus _ _ _ _ afi _ _ _ _ hafi (text.notSpace_of_token afi hafis)
    (regexp.takeWhile_stop _ " ".data _ (by decide) (by decide)) ?_
  rw [regexp.run_str " "]
  refine regexp.run_group_plus _ _ _ _ safi _ _ _ _ hsafi (text.notSpace_of_token safi hsafis)
    (regexp.takeWhile_stop _ " ".data _ (by decide) (by decide)) ?_
  rw [regexp.run_str " "]
  refine regexp.run_group_star _ _ _ _ d _ _ _ _ (text.dot_of_newlineFree d hd) rfl ?_
  simp only [regexp.run_eol_nil, List.length_append, List.length_nil, Option.some.injEq,
    regexp.MState.mk.injEq, and_true]
  omega

theorem text.data_ne_nil (s : String) (h : s ≠ "") : s.data ≠ [] := by
  intro hd
  apply h
  cases s
  simp only at hd
  rw [hd]

theorem text.mk_take_data (s : String) : String.mk (List.take s.length s.data) = s := by
  cases s
  simp [String.length]

theorem text.headerLine_data (p l la pa r afi safi d : String) :
    (text.headerLine p l la pa r afi safi d).data
      = "neighbor ".data ++ (p.data ++ (" local-ip ".data ++ (l.data ++ (" local-as ".data ++
          (la.data ++ (" peer-as ".data ++ (pa.data ++ (" router-id ".data ++ (r.data ++
          (" family-allowed in-open ".data ++ (afi.data ++ (" ".data ++ (safi.data ++
          (" ".data ++ (d.data ++ []))))))))))))))) := by
  simp only [text.headerLine, String.data_append, List.append_assoc, List.append_nil]

theorem text.rxParseRIBLine_names :
    regexp.groupNames text.rxParseRIBLine
      = ["neighbor", "local_ip", "local_as", "peer_as", "router_id", "afi", "safi", "details"] := by
  rfl

theorem text.find_header (p l la pa r afi safi d : String)
    (hp : text.isToken p) (hl : text.isToken l) (hla : text.isDigits la)
    (hpa : text.isDigits pa) (hr : text.isToken r) (hafi : text.isToken afi)
    (hsafi : text.isToken safi) (hd : text.isNewlineFree d) :
    regexp.FindStringSubmatch text.rxParseRIBLine (text.headerLine p l la pa r afi safi d)
      = some [text.headerLine p l la pa r afi safi d, p, l, la, pa, r, afi, safi, d] := by
  have hrun := text.rxParseRIBLine_run p.data l.data la.data pa.data r.data afi.data safi.data
    d.data (text.data_ne_nil p hp.1) hp.2 (text.data_ne_nil l hl.1) hl.2
    (text.data_ne_nil la hla.1) hla.2 (text.data_ne_nil pa hpa.1) hpa.2
    (text.data_ne_nil r hr.1) hr.2 (text.data_ne_nil afi hafi.1) hafi.2
    (text.data_ne_nil safi hsafi.1) hsafi.2 hd
  rw [← text.headerLine_data] at hrun
  unfold regexp.FindStringSubmatch
  rw [regexp.searchFrom_first _ _ _ _ hrun, text.rxParseRIBLine_names]
  simp [regexp.capture, List.range, List.range.loop]
  exact text.mk_take_data _

/-- Claim C20: for all non-empty whitespace-free tokens `p`, `l`, `r`, `afi`,
`safi`, all non-empty decimal digit strings `la`, `pa` and every newline-free
detail string `d`, `RibEntryFromString` of the line "neighbor p local-ip l
local-as la peer-as pa router-id r family-allowed in-open afi safi d" succeeds
(a message, no error, no panic) with `PeerIP = p`, `LocalIP = l`,
`LocalAS = la`, `PeerAS = pa`, `RouterID = r`, `AFI = afi`, `SAFI = safi`,
`Details = d`, and `Family()` is `afi`, a space, `safi`. -/
theorem text.RibEntryFromString_of_header (p l la pa r afi safi d : String)
    (hp : text.isToken p) (hl : text.isToken l) (hla : text.isDigits la)
    (hpa : text.isDigits pa) (hr : text.isToken r) (hafi : text.isToken afi)
    (hsafi : text.isToken safi) (hd : text.isNewlineFree d) :
    ∃ m : text.RIBMessage,
      text.RibEntryFromString (text.headerLine p l la pa r afi safi d) = some (some m, none)
      ∧ m.PeerIP = p ∧ m.LocalIP = l ∧ m.LocalAS = la ∧ m.PeerAS = pa ∧ m.RouterID = r
      ∧ m.AFI = afi ∧ m.SAFI = safi ∧ m.Details = d
      ∧ m.Family = afi ++ " " ++ safi := by
  refine ⟨{ PeerIP := p, LocalIP := l, LocalAS := la, PeerAS := pa, RouterID := r, AFI := afi,
            SAFI := safi, Details := d }, ?_, rfl, rfl, rfl, rfl, rfl, rfl, rfl, rfl, rfl⟩
  simp [text.RibEntryFromString, text.parseRIBLine,
    text.find_header p l la pa r afi safi d hp hl hla hpa hr hafi hsafi hd,
    regexp.SubexpNames, text.rxParseRIBLine_names, text.fillNames, text.index, mapSet, mapGet]

theorem text.RibEntryFromString_of_header_witness :
    text.isToken "127.0.0.1" ∧ text.isDigits "64496" ∧ text.isToken "1.1.1.1"
    ∧ text.isToken "ipv4" ∧ text.isToken "unicast"
    ∧ text.isNewlineFree "192.168.88.248/29 next-hop self med 100"
    ∧ ∃ m : text.RIBMessage,
      text.RibEntryFromString (text.headerLine "127.0.0.1" "127.0.0.1" "64496" "64496" "1.1.1.1"
        "ipv4" "unicast" "192.168.88.248/29 next-hop self med 100") = some (some m, none)
      ∧ m.PeerIP = "127.0.0.1" ∧ m.LocalIP = "127.0.0.1" ∧ m.LocalAS = "64496"
      ∧ m.PeerAS = "64496" ∧ m.RouterID = "1.1.1.1"
      ∧ m.AFI = "ipv4" ∧ m.SAFI = "unicast"
      ∧ m.Details = "192.168.88.248/29 next-hop self med 100"
      ∧ m.Family = "ipv4" ++ " " ++ "unicast" :=
  ⟨by decide, by decide, by decide, by decide, by decide, by decide,
    text.RibEntryFromString_of_header "127.0.0.1" "127.0.0.1" "64496" "64496" "1.1.1.1"
      "ipv4" "unicast" "192.168.88.248/29 next-hop self med 100"
      (by decide) (by decide) (by decide) (by decide) (by decide) (by decide) (by decide)
      (by decide)⟩

/-! ## Package `text`: the projections of a RIB message -/

/-- Claim C24: for every RIBMessage whose `Family()` is not "ipv4 unicast",
`IPv4Unicast()` returns a nil entry and a non-nil error, and for every
RIBMessage whose `Family()` is not "ipv6 unicast", `IPv6Unicast()` returns a nil
entry and a non-nil error, whatever the detail string is. -/
theorem text.unicast_of_wrong_family (m : text.RIBMessage) :
    (m.Family ≠ "ipv4 unicast" →
      m.IPv4Unicast = some (none, some (.wrongEntryFamily m.Family)))
    ∧ (m.Family ≠ "ipv6 unicast" →
      m.IPv6Unicast = some (none, some (.wrongEntryFamily m.Family))) := by
  constructor
  · intro h
    simp [text.RIBMessage.IPv4Unicast, h]
  · intro h
    simp [text.RIBMessage.IPv6Unicast, h]

/-- Claim C30: for every RIBMessage, whatever its family and detail string,
`IPv4Flow()` and `IPv6Flow()` return a nil entry and a nil error. -/
theorem text.flow_projections_return_nothing (m : text.RIBMessage) :
    m.IPv4Flow = (none, none) ∧ m.IPv6Flow = (none, none) :=
  ⟨rfl, rfl⟩

/-! ## Package `text`: no index expression panics -/

theorem regexp.FindStringSubmatch_length (re : regexp.Regexp) (s : String) (sub : List String)
    (h : regexp.FindStringSubmatch re s = some sub) :
    sub.length = 1 + (regexp.groupNames re).length := by
  unfold regexp.FindStringSubmatch at h
  cases hs : regexp.searchFrom re 0 s.data with
  | none => simp [hs] at h
  | some p =>
    obtain ⟨i, m⟩ := p
    simp only [hs, Option.some.injEq] at h
    rw [← h]
    simp
    omega

theorem text.withSubmatch_total {α : Type} (re : regexp.Regexp) (a : String) (old : α)
    (f : String → α) (hgroups : 1 ≤ (regexp.groupNames re).length) :
    ∃ x, text.withSubmatch re a old f = some x := by
  unfold text.withSubmatch
  cases hs : regexp.FindStringSubmatch re a with
  | none => exact ⟨old, rfl⟩
  | some sub =>
    have hlen := regexp.FindStringSubmatch_length re a sub hs
    cases hv : sub[1]? with
    | none =>
      rw [List.getElem?_eq_none_iff] at hv
      omega
    | some v => exact ⟨f v, by simp [hv]⟩

theorem text.parseCommunity_total (rxList rxOne : regexp.Regexp) (a : String)
    (hlist : 1 ≤ (regexp.groupNames rxList).length)
    (hone : 1 ≤ (regexp.groupNames rxOne).length) :
    ∃ x, text.parseCommunity rxList rxOne a = some x := by
  unfold text.parseCommunity
  cases hs : regexp.FindStringSubmatch rxList a with
  | none => exact text.withSubmatch_total rxOne a [] _ hone
  | some sub =>
    have hlen := regexp.FindStringSubmatch_length rxList a sub hs
    cases hv : sub[1]? with
    | none =>
      rw [List.getElem?_eq_none_iff] at hv
      omega
    | some v => exact ⟨strings.Split v, by simp [hv]⟩

theorem text.groupNames_rxValue (kw name : String) (c : regexp.Class) :
    regexp.groupNames (text.rxValue kw name c) = [name] := rfl

theorem text.groupNames_rxBracketed (kw name : String) :
    regexp.groupNames (text.rxBracketed kw name) = [name] := rfl

/-- The function `parseAttributes` returns for every fragment: each pattern
has one group, so `match[1]` exists whenever there is a match. -/
theorem text.parseAttributes_total (a : String) :
    ∃ attributes, text.parseAttributes a = some attributes := by
  obtain ⟨med, h1⟩ := text.withSubmatch_total text.rxParseAttributeMed a (0 : Int)
    (fun v => match strconv.ParseInt v with
      | some x => x
      | none => 0) (by decide)
  obtain ⟨origin, h2⟩ := text.withSubmatch_total text.rxParseAttributeOrigin a ""
    (fun v => v) (by decide)
  obtain ⟨aspath, h3⟩ := text.withSubmatch_total text.rxParseAttributeASPath a []
    text.parseASPath (by decide)
  obtain ⟨clusterList, h4⟩ := text.withSubmatch_total text.rxParseAttributeClusterList a []
    strings.Split (by decide)
  obtain ⟨community, h5⟩ := text.parseCommunity_total text.rxParseAttributeCommunities
    text.rxParseAttributeCommunity a (by decide) (by decide)
  obtain ⟨extendedCommunity, h6⟩ := text.parseCommunity_total
    text.rxParseAttributeExtendedCommunities text.rxParseAttributeExtendedCommunity a
    (by decide) (by decide)
  obtain ⟨originatorID, h7⟩ := text.withSubmatch_total text.rxParseAttributeOriginatorID a ""
    (fun v => v) (by decide)
  obtain ⟨localPreference, h8⟩ := text.withSubmatch_total text.rxParseAttributeLocalPref a
    (0 : Int) (fun v => match strconv.ParseInt v with
      | some x => x
      | none => 0) (by decide)
  refine ⟨{ Med := med, Origin := origin, ASPath := aspath, ClusterList := clusterList,
            Community := community, ExtendedCommunity := extendedCommunity,
            OriginatorID := originatorID, LocalPreference := localPreference }, ?_⟩
  unfold text.parseAttributes
  simp only [h1, h2, h3, h4, h5, h6, h7, h8]

/-! ## Package `text`: the detail string of a unicast entry -/

theorem regexp.run_group (g : Nat) (name : String) (r : regexp.Regexp) (s : regexp.MState)
    (k : regexp.MState → Option regexp.MState) :
    (regexp.Regexp.group g name r).run s k
      = r.run s (fun s1 =>
          k { s1 with caps := (g, String.mk (s.rest.take (s1.pos - s.pos))) :: s1.caps }) := rfl

theorem regexp.run_alt_second (a b : regexp.Regexp) (s : regexp.MState)
    (k : regexp.MState → Option regexp.MState) (h : a.run s k = none) :
    (regexp.Regexp.alt a b).run s k = b.run s k := by
  simp [regexp.Regexp.run, h]

theorem regexp.run_alt_first (a b : regexp.Regexp) (s m : regexp.MState)
    (k : regexp.MState → Option regexp.MState) (h : a.run s k = some m) :
    (regexp.Regexp.alt a b).run s k = some m := by
  simp [regexp.Regexp.run, h]

theorem text.rxParseUnicast_run_plain (n h : List Char)
    (hn : n ≠ []) (hns : ∀ c ∈ n, regexp.isSpace c = false)
    (hh : h ≠ []) (hhs : ∀ c ∈ h, regexp.isSpace c = false) :
    text.rxParseUnicast.run
      { pos := 0, rest := n ++ (" next-hop ".data ++ (h ++ [])), caps := [] } some
      = some
        { pos := (n ++ (" next-hop ".data ++ (h ++ []))).length
          rest := []
          caps := [(3, ""), (2, String.mk h), (1, String.mk n)] } := by
  simp only [text.rxParseUnicast, regexp.seq, List.foldr, regexp.run_cat, regexp.run_empty]
  rw [regexp.run_bol_zero]
  refine regexp.run_group_plus _ _ _ _ n _ _ _ _ hn (text.notSpace_of_token n hns)
    (regexp.takeWhile_stop _ " next-hop ".data _ (by decide) (by decide)) ?_
  rw [regexp.run_str " next-hop "]
  refine regexp.run_group_plus _ _ _ _ h _ _ _ _ hh (text.notSpace_of_token h hhs) rfl ?_
  simp only [regexp.run_group, regexp.Regexp.run, List.isEmpty_nil, if_true, List.take_nil,
    Option.some.injEq, regexp.MState.mk.injEq, List.length_append, List.length_nil, and_true]
  omega

theorem text.rxParseUnicast_run_attributes (n h a : List Char)
    (hn : n ≠ []) (hns : ∀ c ∈ n, regexp.isSpace c = false)
    (hh : h ≠ []) (hhs : ∀ c ∈ h, regexp.isSpace c = false)
    (ha : ∀ c ∈ a, ¬ c.toNat = 10) :
    text.rxParseUnicast.run
      { pos := 0, rest := n ++ (" next-hop ".data ++ (h ++ (" ".data ++ (a ++ [])))), caps := [] }
      some
      = some
        { pos := (n ++ (" next-hop ".data ++ (h ++ (" ".data ++ (a ++ []))))).length
          rest := []
          caps := [(3, String.mk (" ".data ++ a)), (4, String.mk a), (2, String.mk h),
            (1, String.mk n)] } := by
  simp only [text.rxParseUnicast, regexp.seq, List.foldr, regexp.run_cat, regexp.run_empty]
  rw [regexp.run_bol_zero]
  refine regexp.run_group_plus _ _ _ _ n _ _ _ _ hn (text.notSpace_of_token n hns)
    (regexp.takeWhile_stop _ " next-hop ".data _ (by decide) (by decide)) ?_
  rw [regexp.run_str " next-hop "]
  refine regexp.run_group_plus _ _ _ _ h _ _ _ _ hh (text.notSpace_of_token h hhs)
    (regexp.takeWhile_stop _ " ".data _ (by decide) (by decide)) ?_
  rw [regexp.run_group, regexp.run_alt_second _ _ _ _ (by simp [regexp.Regexp.run]),
    regexp.run_cat, regexp.run_str " "]
  refine regexp.run_group_star _ _ _ _ a _ _ _ _ (text.dot_of_newlineFree a ha) rfl ?_
  have htake : List.take (0 + n.length + " next-hop ".data.length + h.length + " ".data.length
      + a.length - (0 + n.length + " next-hop ".data.length + h.length))
      (" ".data ++ (a ++ [])) = " ".data ++ a := by
    rw [List.take_of_length_le]
    · simp
    · simp only [List.length_append, List.length_nil]
      omega
  simp only [regexp.Regexp.run, List.isEmpty_nil, if_true, htake,
    Option.some.injEq, regexp.MState.mk.injEq, List.length_append, List.length_nil, and_true]
  omega

theorem regexp.FindStringSubmatch_of_run (re : regexp.Regexp) (s : String)
    (m : regexp.MState)
    (hrun : re.run { pos := 0, rest := s.data, caps := [] } some = some m)
    (hpos : m.pos = s.data.length) :
    regexp.FindStringSubmatch re s
      = some (s :: (List.range (regexp.groupNames re).length).map
          (fun g => regexp.capture m.caps (g + 1))) := by
  unfold regexp.FindStringSubmatch
  rw [regexp.searchFrom_first _ _ _ _ hrun]
  simp only [hpos, List.drop_zero, Nat.sub_zero, List.take_length]

theorem text.rxParseUnicast_names :
    regexp.groupNames text.rxParseUnicast = ["nlri", "next_hop", "", "attributes"] := rfl

theorem text.find_unicast_plain (n h : String) (hn : text.isToken n) (hh : text.isToken h) :
    regexp.FindStringSubmatch text.rxParseUnicast (n ++ " next-hop " ++ h)
      = some [n ++ " next-hop " ++ h, n, h, "", ""] := by
  have hrun := text.rxParseUnicast_run_plain n.data h.data (text.data_ne_nil n hn.1) hn.2
    (text.data_ne_nil h hh.1) hh.2
  have hdata : (n ++ " next-hop " ++ h).data = n.data ++ (" next-hop ".data ++ (h.data ++ [])) := by
    simp only [String.data_append, List.append_assoc, List.append_nil]
  rw [← hdata] at hrun
  rw [regexp.FindStringSubmatch_of_run _ _ _ hrun rfl, text.rxParseUnicast_names]
  simp [regexp.capture, List.range, List.range.loop]

theorem text.find_unicast_attributes (n h a : String) (hn : text.isToken n)
    (hh : text.isToken h) (ha : text.isNewlineFree a) :
    regexp.FindStringSubmatch text.rxParseUnicast (n ++ " next-hop " ++ h ++ " " ++ a)
      = some [n ++ " next-hop " ++ h ++ " " ++ a, n, h, " " ++ a, a] := by
  have hrun := text.rxParseUnicast_run_attributes n.data h.data a.data
    (text.data_ne_nil n hn.1) hn.2 (text.data_ne_nil h hh.1) hh.2 ha
  have hdata : (n ++ " next-hop " ++ h ++ " " ++ a).data
      = n.data ++ (" next-hop ".data ++ (h.data ++ (" ".data ++ (a.data ++ [])))) := by
    simp only [String.data_append, List.append_assoc, List.append_nil]
  rw [← hdata] at hrun
  rw [regexp.FindStringSubmatch_of_run _ _ _ hrun rfl, text.rxParseUnicast_names]
  simp [regexp.capture, List.range, List.range.loop]
  apply String.ext
  simp

theorem text.parseUnicastLine_plain (n h : String) (hn : text.isToken n) (hh : text.isToken h) :
    ∃ res, text.parseUnicastLine (n ++ " next-hop " ++ h) = some (res, none)
      ∧ text.index res "nlri" = n ∧ text.index res "next_hop" = h
      ∧ text.index res "attributes" = "" := by
  simp [text.parseUnicastLine, text.find_unicast_plain n h hn hh, regexp.SubexpNames,
    text.rxParseUnicast_names, text.fillNames, text.index, mapSet, mapGet]

theorem text.parseUnicastLine_attributes (n h a : String) (hn : text.isToken n)
    (hh : text.isToken h) (ha : text.isNewlineFree a) :
    ∃ res, text.parseUnicastLine (n ++ " next-hop " ++ h ++ " " ++ a) = some (res, none)
      ∧ text.index res "nlri" = n ∧ text.index res "next_hop" = h
      ∧ text.index res "attributes" = a := by
  simp [text.parseUnicastLine, text.find_unicast_attributes n h a hn hh ha, regexp.SubexpNames,
    text.rxParseUnicast_names, text.fillNames, text.index, mapSet, mapGet]

/-- Claim C25: for every RIBMessage of family "ipv4 unicast" (resp. "ipv6
unicast") whose detail string is "n next-hop h" or "n next-hop h a" with `n`
and `h` non-empty whitespace-free tokens and `a` any newline-free fragment,
`IPv4Unicast()` (resp. `IPv6Unicast()`) succeeds (an entry, no error, no panic)
with `NLRI = n`, `NextHop = h` and `Attributes = parseAttributes(a)`
(`parseAttributes("")` when the fragment is absent). -/
theorem text.unicast_of_details (m : text.RIBMessage) (n h a : String)
    (hn : text.isToken n) (hh : text.isToken h) (ha : text.isNewlineFree a) :
    (m.Family = "ipv4 unicast" → m.Details = n ++ " next-hop " ++ h →
      ∃ attributes, text.parseAttributes "" = some attributes
        ∧ m.IPv4Unicast
          = some (some { NLRI := n, NextHop := h, Attributes := attributes }, none))
    ∧ (m.Family = "ipv4 unicast" → m.Details = n ++ " next-hop " ++ h ++ " " ++ a →
      ∃ attributes, text.parseAttributes a = some attributes
        ∧ m.IPv4Unicast
          = some (some { NLRI := n, NextHop := h, Attributes := attributes }, none))
    ∧ (m.Family = "ipv6 unicast" → m.Details = n ++ " next-hop " ++ h →
      ∃ attributes, text.parseAttributes "" = some attributes
        ∧ m.IPv6Unicast
          = some (some { NLRI := n, NextHop := h, Attributes := attributes }, none))
    ∧ (m.Family = "ipv6 unicast" → m.Details = n ++ " next-hop " ++ h ++ " " ++ a →
      ∃ attributes, text.parseAttributes a = some attributes
        ∧ m.IPv6Unicast
          = some (some { NLRI := n, NextHop := h, Attributes := attributes }, none)) := by
  obtain ⟨res, hres, r1, r2, r3⟩ := text.parseUnicastLine_plain n h hn hh
  obtain ⟨res1, hres1, q1, q2, q3⟩ := text.parseUnicastLine_attributes n h a hn hh ha
  obtain ⟨zero, hzero⟩ := text.parseAttributes_total ""
  obtain ⟨attrs, hattrs⟩ := text.parseAttributes_total a
  refine ⟨?_, ?_, ?_, ?_⟩
  · intro hfam hdet
    refine ⟨zero, hzero, ?_⟩
    simp [text.RIBMessage.IPv4Unicast, hfam, hdet, hres, r1, r2, r3, hzero]
  · intro hfam hdet
    refine ⟨attrs, hattrs, ?_⟩
    simp [text.RIBMessage.IPv4Unicast, hfam, hdet, hres1, q1, q2, q3, hattrs]
  · intro hfam hdet
    refine ⟨zero, hzero, ?_⟩
    simp [text.RIBMessage.IPv6Unicast, hfam, hdet, hres, r1, r2, r3, hzero]
  · intro hfam hdet
    refine ⟨attrs, hattrs, ?_⟩
    simp [text.RIBMessage.IPv6Unicast, hfam, hdet, hres1, q1, q2, q3, hattrs]

theorem text.unicast_of_details_witness :
    text.isToken "192.168.88.248/29" ∧ text.isToken "self" ∧ text.isNewlineFree "med 100"
    ∧ (({ AFI := "ipv4", SAFI := "unicast",
          Details := "192.168.88.248/29 next-hop self med 100" } : text.RIBMessage).Family
        = "ipv4 unicast")
    ∧ (({ AFI := "ipv4", SAFI := "unicast",
          Details := "192.168.88.248/29 next-hop self med 100" } : text.RIBMessage).Details
        = "192.168.88.248/29" ++ " next-hop " ++ "self" ++ " " ++ "med 100")
    ∧ ∃ attributes, text.parseAttributes "med 100" = some attributes
        ∧ ({ AFI := "ipv4", SAFI := "unicast",
             Details := "192.168.88.248/29 next-hop self med 100" } : text.RIBMessage).IPv4Unicast
          = some (some { NLRI := "192.168.88.248/29", NextHop := "self",
                         Attributes := attributes }, none) :=
  ⟨by decide, by decide, by decide, by decide, by decide,
    (text.unicast_of_details
      { AFI := "ipv4", SAFI := "unicast", Details := "192.168.88.248/29 next-hop self med 100" }
      "192.168.88.248/29" "self" "med 100" (by decide) (by decide) (by decide)).2.1
      (by decide) (by decide)⟩

/-! ## Package `regexp`: a match found by the search is a match -/

theorem regexp.tryLen_sound (min : Nat) (s : regexp.MState)
    (k : regexp.MState → Option regexp.MState) :
    ∀ (n : Nat) (m : regexp.MState), regexp.tryLen min s k n = some m →
      ∃ j, min ≤ j ∧ j ≤ n ∧ k (s.advance j) = some m := by
  intro n
  induction n with
  | zero =>
    intro m h
    by_cases h0 : min = 0
    · simp only [regexp.tryLen, h0, if_true] at h
      exact ⟨0, by omega, le_refl _, h⟩
    · simp [regexp.tryLen, h0] at h
  | succ n ih =>
    intro m h
    by_cases h1 : n + 1 < min
    · simp [regexp.tryLen, h1] at h
    · simp only [regexp.tryLen, h1, if_false] at h
      cases hk : k (s.advance (n + 1)) with
      | some m1 =>
        simp only [hk, Option.some.injEq] at h
        exact ⟨n + 1, by omega, le_refl _, by rw [hk, h]⟩
      | none =>
        simp only [hk] at h
        obtain ⟨j, hj1, hj2, hj3⟩ := ih m h
        exact ⟨j, hj1, by omega, hj3⟩

theorem regexp.mem_take_of_le_takeWhile (p : Char → Bool) (l : List Char) :
    ∀ j, j ≤ (l.takeWhile p).length → ∀ x ∈ l.take j, p x = true := by
  induction l with
  | nil => intro j _ x hx; simp at hx
  | cons a l ih =>
    intro j hj x hx
    cases j with
    | zero => simp at hx
    | succ j =>
      by_cases ha : p a = true
      · simp only [List.takeWhile_cons, ha, if_true, List.length_cons] at hj
        simp only [List.take_succ_cons, List.mem_cons] at hx
        rcases hx with hx | hx
        · rw [hx]; exact ha
        · exact ih j (by omega) x hx
      · simp [List.takeWhile_cons, ha] at hj

theorem regexp.takeWhile_length_le (p : Char → Bool) (l : List Char) :
    (l.takeWhile p).length ≤ l.length := by
  induction l with
  | nil => simp
  | cons a l ih =>
    by_cases ha : p a = true
    · simp [List.takeWhile_cons, ha, ih]
    · simp [List.takeWhile_cons, ha]

/-- A repetition of a class that the search accepts took characters of the
class, at least `min` of them. -/
theorem regexp.rep_sound (min : Nat) (c : regexp.Class) (s m : regexp.MState)
    (k : regexp.MState → Option regexp.MState)
    (h : regexp.tryLen min s k (s.rest.takeWhile c.mem).length = some m) :
    ∃ w after, s.rest = w ++ after ∧ min ≤ w.length ∧ (∀ x ∈ w, c.mem x = true)
      ∧ k { pos := s.pos + w.length, rest := after, caps := s.caps } = some m := by
  obtain ⟨j, hj1, hj2, hj3⟩ := regexp.tryLen_sound min s k _ m h
  have hlen : j ≤ s.rest.length := le_trans hj2 (regexp.takeWhile_length_le _ _)
  refine ⟨s.rest.take j, s.rest.drop j, (List.take_append_drop j s.rest).symm, ?_,
    regexp.mem_take_of_le_takeWhile c.mem s.rest j hj2, ?_⟩
  · rw [List.length_take]
    omega
  · rw [List.length_take, Nat.min_eq_left hlen]
    exact hj3

theorem regexp.run_sound (re : regexp.Regexp) :
    ∀ (s : regexp.MState) (k : regexp.MState → Option regexp.MState) (m : regexp.MState),
      re.run s k = some m →
      ∃ w after caps, s.rest = w ++ after ∧ re.Matches s.pos w after
        ∧ k { pos := s.pos + w.length, rest := after, caps := caps } = some m := by
  induction re with
  | empty =>
    intro s k m h
    exact ⟨[], s.rest, s.caps, rfl, rfl, h⟩
  | str w =>
    intro s k m h
    by_cases hp : w.data.isPrefixOf s.rest = true
    · simp only [regexp.Regexp.run, hp, if_true] at h
      obtain ⟨t, ht⟩ := List.isPrefixOf_iff_prefix.mp hp
      refine ⟨w.data, t, s.caps, ht.symm, rfl, ?_⟩
      rw [← h]
      simp [regexp.MState.advance, ← ht]
    · simp [regexp.Regexp.run, hp] at h
  | cls c =>
    intro s k m h
    cases hr : s.rest with
    | nil => simp [regexp.Regexp.run, hr] at h
    | cons x xs =>
      by_cases hx : c.mem x = true
      · simp only [regexp.Regexp.run, hr, hx, if_true] at h
        refine ⟨[x], xs, s.caps, rfl, ⟨x, rfl, hx⟩, ?_⟩
        rw [← h]
        simp [regexp.MState.advance, hr]
      · simp [regexp.Regexp.run, hr, hx] at h
  | plus c =>
    intro s k m h
    obtain ⟨w, after, h1, h2, h3, h4⟩ := regexp.rep_sound 1 c s m k h
    refine ⟨w, after, s.caps, h1, ⟨?_, h3⟩, h4⟩
    intro hw
    rw [hw] at h2
    simp at h2
  | star c =>
    intro s k m h
    obtain ⟨w, after, h1, _, h3, h4⟩ := regexp.rep_sound 0 c s m k h
    exact ⟨w, after, s.caps, h1, h3, h4⟩
  | bol =>
    intro s k m h
    by_cases hp : s.pos = 0
    · simp only [regexp.Regexp.run, hp, if_true] at h
      exact ⟨[], s.rest, s.caps, rfl, ⟨rfl, hp⟩, by simpa using h⟩
    · simp [regexp.Regexp.run, hp] at h
  | eol =>
    intro s k m h
    by_cases hp : s.rest.isEmpty = true
    · simp only [regexp.Regexp.run, hp, if_true] at h
      have hnil : s.rest = [] := List.isEmpty_iff.mp hp
      exact ⟨[], s.rest, s.caps, rfl, ⟨rfl, hnil⟩, by simpa using h⟩
    · simp [regexp.Regexp.run, hp] at h
  | cat a b iha ihb =>
    intro s k m h
    obtain ⟨w1, after1, caps1, h1, h2, h3⟩ := iha s (fun s1 => b.run s1 k) m h
    obtain ⟨w2, after2, caps2, g1, g2, g3⟩ := ihb _ k m h3
    simp only at g1 g2 g3
    refine ⟨w1 ++ w2, after2, caps2, ?_, ⟨w1, w2, rfl, ?_, g2⟩, ?_⟩
    · rw [h1, g1, List.append_assoc]
    · rw [← g1]
      exact h2
    · rw [List.length_append, ← Nat.add_assoc]
      exact g3
  | alt a b iha ihb =>
    intro s k m h
    cases ha : a.run s k with
    | some m1 =>
      simp only [regexp.Regexp.run, ha, Option.some.injEq] at h
      rw [h] at ha
      obtain ⟨w, after, caps, h1, h2, h3⟩ := iha s k m ha
      exact ⟨w, after, caps, h1, Or.inl h2, h3⟩
    | none =>
      simp only [regexp.Regexp.run, ha] at h
      obtain ⟨w, after, caps, h1, h2, h3⟩ := ihb s k m h
      exact ⟨w, after, caps, h1, Or.inr h2, h3⟩
  | group g name r ih =>
    intro s k m h
    obtain ⟨w, after, caps, h1, h2, h3⟩ := ih s _ m h
    exact ⟨w, after, _, h1, h2, h3⟩

theorem regexp.searchFrom_sound (re : regexp.Regexp) (text : List Char) :
    ∀ (i j : Nat) (m : regexp.MState), regexp.searchFrom re i text = some (j, m) →
      ∃ pre rest, text = pre ++ rest ∧ j = i + pre.length
        ∧ re.run { pos := j, rest := rest, caps := [] } some = some m := by
  induction text with
  | nil =>
    intro i j m h
    cases hr : re.run { pos := i, rest := [], caps := [] } some with
    | none => simp [regexp.searchFrom, hr] at h
    | some m1 =>
      simp only [regexp.searchFrom, hr, Option.some.injEq, Prod.mk.injEq] at h
      obtain ⟨hi, hm⟩ := h
      subst hi hm
      exact ⟨[], [], rfl, rfl, hr⟩
  | cons c cs ih =>
    intro i j m h
    cases hr : re.run { pos := i, rest := c :: cs, caps := [] } some with
    | some m1 =>
      simp only [regexp.searchFrom, hr, Option.some.injEq, Prod.mk.injEq] at h
      obtain ⟨hi, hm⟩ := h
      subst hi hm
      exact ⟨[], c :: cs, rfl, rfl, hr⟩
    | none =>
      simp only [regexp.searchFrom, hr] at h
      obtain ⟨pre, rest, h1, h2, h3⟩ := ih (i + 1) j m h
      refine ⟨c :: pre, rest, by rw [h1]; rfl, ?_, h3⟩
      rw [h2, List.length_cons]
      omega

/-- A text in which `FindStringSubmatch` finds a match holds a part that the
pattern matches. -/
theorem regexp.FindStringSubmatch_sound (re : regexp.Regexp) (s : String) (sub : List String)
    (h : regexp.FindStringSubmatch re s = some sub) :
    ∃ pre w after, s.data = pre ++ (w ++ after) ∧ re.Matches pre.length w after := by
  unfold regexp.FindStringSubmatch at h
  cases hs : regexp.searchFrom re 0 s.data with
  | none => simp [hs] at h
  | some p =>
    obtain ⟨j, m⟩ := p
    obtain ⟨pre, rest, h1, h2, h3⟩ := regexp.searchFrom_sound re s.data 0 j m hs
    obtain ⟨w, after, caps, g1, g2, _⟩ := regexp.run_sound re _ some m h3
    simp only at g1 g2
    refine ⟨pre, w, after, by rw [h1, g1], ?_⟩
    rw [h2, Nat.zero_add] at g2
    exact g2

/-! ## Package `text`: a line the header pattern rejects -/

theorem text.token_of_notSpace (tok : List Char) (hne : tok ≠ [])
    (h : ∀ x ∈ tok, regexp.Class.notSpace.mem x = true) : text.isToken (String.mk tok) := by
  refine ⟨?_, ?_⟩
  · intro he
    apply hne
    exact congrArg String.data he
  · intro c hc
    have := h c hc
    simpa [regexp.Class.mem] using this

theorem text.digits_of_digit (tok : List Char) (hne : tok ≠ [])
    (h : ∀ x ∈ tok, regexp.Class.digit.mem x = true) : text.isDigits (String.mk tok) := by
  refine ⟨?_, ?_⟩
  · intro he
    apply hne
    exact congrArg String.data he
  · intro c hc
    exact h c hc

theorem text.newlineFree_of_dot (tok : List Char)
    (h : ∀ x ∈ tok, regexp.Class.dot.mem x = true) : text.isNewlineFree (String.mk tok) := by
  intro c hc
  have := h c hc
  simpa [regexp.Class.mem] using this

/-- A line in which the header pattern finds a match is a header line. -/
theorem text.header_of_find (line : String) (sub : List String)
    (h : regexp.FindStringSubmatch text.rxParseRIBLine line = some sub) :
    text.isHeaderLine line := by
  obtain ⟨pre, w, after, hline, hm⟩ := regexp.FindStringSubmatch_sound _ _ _ h
  simp only [text.rxParseRIBLine, regexp.seq, List.foldr, regexp.Regexp.Matches] at hm
  obtain ⟨b0, r0, e0, ⟨hb0, hpre⟩, s1, r1, e1, hs1, p, r2, e2, ⟨hp1, hp2⟩, s2, r3, e3, hs2,
    l, r4, e4, ⟨hl1, hl2⟩, s3, r5, e5, hs3, la, r6, e6, ⟨hla1, hla2⟩, s4, r7, e7, hs4,
    pa, r8, e8, ⟨hpa1, hpa2⟩, s5, r9, e9, hs5, r, r10, e10, ⟨hr1, hr2⟩, s6, r11, e11, hs6,
    afi, r12, e12, ⟨hafi1, hafi2⟩, s7, r13, e13, hs7, safi, r14, e14, ⟨hsafi1, hsafi2⟩,
    s8, r15, e15, hs8, d, r16, e16, hd, eo, r17, e17, ⟨heo, hafter⟩, hempty⟩ := hm
  refine ⟨String.mk p, String.mk l, String.mk la, String.mk pa, String.mk r, String.mk afi,
    String.mk safi, String.mk d, text.token_of_notSpace p hp1 hp2,
    text.token_of_notSpace l hl1 hl2, text.digits_of_digit la hla1 hla2,
    text.digits_of_digit pa hpa1 hpa2, text.token_of_notSpace r hr1 hr2,
    text.token_of_notSpace afi hafi1 hafi2, text.token_of_notSpace safi hsafi1 hsafi2,
    text.newlineFree_of_dot d hd, ?_⟩
  apply String.ext
  rw [text.headerLine_data, hline]
  subst hempty
  have hafter1 : after = [] := by simpa using hafter
  have hpre1 : pre = [] := List.length_eq_zero.mp hpre
  subst hafter1 hpre1 heo e17 e16 e15 e14 e13 e12 e11 e10 e9 e8 e7 e6 e5 e4 e3 e2 e1 e0 hb0
  subst hs1 hs2 hs3 hs4 hs5 hs6 hs7 hs8
  simp

/-- A line in which the header pattern finds no match is not a header line. -/
theorem text.not_header_of_find_none (line : String)
    (h : regexp.FindStringSubmatch text.rxParseRIBLine line = none) :
    ¬ text.isHeaderLine line := by
  rintro ⟨p, l, la, pa, r, afi, safi, d, hp, hl, hla, hpa, hr, hafi, hsafi, hd, rfl⟩
  rw [text.find_header p l la pa r afi safi d hp hl hla hpa hr hafi hsafi hd] at h
  exact Option.noConfusion h

/-- Claim C21: for every line that does not match the header grammar over its
whole length (a non-numeric local-as, a missing keyword, an empty line, a line
that ends right after the safi token), `RibEntryFromString` returns a nil
message and a non-nil error, the error "unable to parse line". -/
theorem text.RibEntryFromString_rejects_non_header (line : String)
    (h : ¬ text.isHeaderLine line) :
    text.RibEntryFromString line = some (none, some .unableToParseLine) := by
  cases hf : regexp.FindStringSubmatch text.rxParseRIBLine line with
  | some sub => exact absurd (text.header_of_find line sub hf) h
  | none => simp [text.RibEntryFromString, text.parseRIBLine, hf]

set_option maxRecDepth 100000 in
theorem text.RibEntryFromString_rejects_non_header_witness :
    (¬ text.isHeaderLine "neighbor 127.0.0.1 local-ip 127.0.0.1 local-as abc peer-as 64496 router-id 1.1.1.1 family-allowed in-open ipv4 unicast x")
    ∧ text.RibEntryFromString "neighbor 127.0.0.1 local-ip 127.0.0.1 local-as abc peer-as 64496 router-id 1.1.1.1 family-allowed in-open ipv4 unicast x"
        = some (none, some .unableToParseLine)
    ∧ (¬ text.isHeaderLine "neighbor 127.0.0.1 local-as 64496 peer-as 64496 router-id 1.1.1.1 family-allowed in-open ipv4 unicast x")
    ∧ text.RibEntryFromString "neighbor 127.0.0.1 local-as 64496 peer-as 64496 router-id 1.1.1.1 family-allowed in-open ipv4 unicast x"
        = some (none, some .unableToParseLine)
    ∧ (¬ text.isHeaderLine "")
    ∧ text.RibEntryFromString "" = some (none, some .unableToParseLine)
    ∧ (¬ text.isHeaderLine "neighbor 127.0.0.1 local-ip 127.0.0.1 local-as 64496 peer-as 64496 router-id 1.1.1.1 family-allowed in-open ipv4 unicast")
    ∧ text.RibEntryFromString "neighbor 127.0.0.1 local-ip 127.0.0.1 local-as 64496 peer-as 64496 router-id 1.1.1.1 family-allowed in-open ipv4 unicast"
        = some (none, some .unableToParseLine) :=
  ⟨text.not_header_of_find_none _ (by decide),
    text.RibEntryFromString_rejects_non_header _ (text.not_header_of_find_none _ (by decide)),
    text.not_header_of_find_none _ (by decide),
    text.RibEntryFromString_rejects_non_header _ (text.not_header_of_find_none _ (by decide)),
    text.not_header_of_find_none _ (by decide),
    text.RibEntryFromString_rejects_non_header _ (text.not_header_of_find_none _ (by decide)),
    text.not_header_of_find_none _ (by decide),
    text.RibEntryFromString_rejects_non_header _ (text.not_header_of_find_none _ (by decide))⟩

/-- Claim C24, at two messages: an "ipv6 unicast" message is refused by
`IPv4Unicast()` and an "ipv4 flow" message by `IPv6Unicast()`. -/
theorem text.unicast_of_wrong_family_witness :
    (({ AFI := "ipv6", SAFI := "unicast", Details := "x" } : text.RIBMessage).Family
        ≠ "ipv4 unicast")
    ∧ ({ AFI := "ipv6", SAFI := "unicast", Details := "x" } : text.RIBMessage).IPv4Unicast
        = some (none, some (.wrongEntryFamily "ipv6 unicast"))
    ∧ (({ AFI := "ipv4", SAFI := "flow", Details := "x" } : text.RIBMessage).Family
        ≠ "ipv6 unicast")
    ∧ ({ AFI := "ipv4", SAFI := "flow", Details := "x" } : text.RIBMessage).IPv6Unicast
        = some (none, some (.wrongEntryFamily "ipv4 flow")) :=
  ⟨by decide,
    (text.unicast_of_wrong_family { AFI := "ipv6", SAFI := "unicast", Details := "x" }).1
      (by decide),
    by decide,
    (text.unicast_of_wrong_family { AFI := "ipv4", SAFI := "flow", Details := "x" }).2
      (by decide)⟩

/-! ## Package `bufio`: the lines of a buffer -/

theorem bufio.readLines_line (size : Nat) (l : List Char) :
    ∀ (cur rest : List Char) (nl : Char), nl.toNat = 10 → (∀ c ∈ l, ¬ c.toNat = 10) →
      cur.length + l.length < size →
      bufio.readLines size (l ++ nl :: rest) cur
        = (if (cur ++ l).getLast?.map Char.toNat = some 13 then (cur ++ l).dropLast
            else cur ++ l) :: bufio.readLines size rest [] := by
  induction l with
  | nil =>
    intro cur rest nl hnl _ _
    simp [bufio.readLines, hnl]
  | cons c l ih =>
    intro cur rest nl hnl hl hlen
    have hc : ¬ c.toNat = 10 := hl c (List.mem_cons_self _ _)
    have hsize : ¬ cur.length + 1 = size := by
      simp only [List.length_cons] at hlen
      omega
    have hstep : bufio.readLines size (c :: l ++ nl :: rest) cur
        = bufio.readLines size (l ++ nl :: rest) (cur ++ [c]) := by
      simp [bufio.readLines, hc, hsize]
    rw [hstep, ih (cur ++ [c]) rest nl hnl (fun x hx => hl x (List.mem_cons_of_mem _ hx))
      (by simp only [List.length_append, List.length_cons, List.length_nil] at hlen ⊢; omega)]
    simp

theorem bufio.readLines_last (size : Nat) (l : List Char) :
    ∀ (cur : List Char), (∀ c ∈ l, ¬ c.toNat = 10) → cur.length + l.length < size →
      bufio.readLines size l cur = if (cur ++ l).isEmpty then [] else [cur ++ l] := by
  induction l with
  | nil =>
    intro cur _ _
    simp [bufio.readLines]
  | cons c l ih =>
    intro cur hl hlen
    have hc : ¬ c.toNat = 10 := hl c (List.mem_cons_self _ _)
    have hsize : ¬ cur.length + 1 = size := by
      simp only [List.length_cons] at hlen
      omega
    have hstep : bufio.readLines size (c :: l) cur = bufio.readLines size l (cur ++ [c]) := by
      simp [bufio.readLines, hc, hsize]
    rw [hstep, ih (cur ++ [c]) (fun x hx => hl x (List.mem_cons_of_mem _ hx))
      (by simp only [List.length_append, List.length_cons, List.length_nil] at hlen ⊢; omega)]
    simp

/-- The reader returns the lines of a buffer made of non-empty newline-free
lines shorter than its buffer, none ending in a carriage return. -/
theorem bufio.readLines_bufferOf (size : Nat) :
    ∀ lines : List String,
      (∀ l ∈ lines, l.data ≠ [] ∧ (∀ c ∈ l.data, ¬ c.toNat = 10) ∧ l.data.length < size
        ∧ ¬ text.endsInCR l) →
      bufio.readLines size (text.bufferOf lines).data [] = lines.map String.data := by
  intro lines
  induction lines with
  | nil => intro _; rfl
  | cons l ls ih =>
    intro h
    obtain ⟨hne, hnl, hlen, hcr⟩ := h l (List.mem_cons_self _ _)
    cases ls with
    | nil =>
      rw [text.bufferOf, bufio.readLines_last size l.data [] hnl (by simpa using hlen)]
      simp [hne]
    | cons l1 ls1 =>
      have hdata : (text.bufferOf (l :: l1 :: ls1)).data
          = l.data ++ (Char.ofNat 10) :: (text.bufferOf (l1 :: ls1)).data := by
        rw [text.bufferOf]
        · simp only [String.data_append, List.append_assoc]
          rfl
        · simp
      rw [hdata, bufio.readLines_line size l.data [] _ (Char.ofNat 10) (by decide) hnl
        (by simpa using hlen), ih (fun x hx => h x (List.mem_cons_of_mem _ hx))]
      have hcr1 : ¬ (l.data.getLast?.map Char.toNat = some 13) := hcr
      simp [hcr1]

theorem text.length_le_utf8ByteSize (s : String) : s.data.length ≤ s.utf8ByteSize := by
  cases s with
  | mk data =>
    simp only [String.utf8ByteSize]
    induction data with
    | nil => simp [String.utf8ByteSize.go]
    | cons c cs ih =>
      have hpos : 0 < c.utf8Size := Char.utf8Size_pos c
      simp only [String.utf8ByteSize.go, List.length_cons]
      omega

/-! ## Package `text`: the loop of `RibFromBytes` -/

theorem text.fillNames_total (subs : List String) :
    ∀ (keys : List String) (i : Nat) (md : GoMap String), keys.length + i ≤ subs.length →
      ∃ md1, text.fillNames subs keys i md = some md1 := by
  intro keys
  induction keys with
  | nil => intro i md _; exact ⟨md, rfl⟩
  | cons name keys ih =>
    intro i md hlen
    simp only [List.length_cons] at hlen
    by_cases hi : i = 0
    · simp only [text.fillNames, hi, ne_eq, not_true_eq_false, if_false]
      exact ih _ md (by omega)
    · have hlt : i < subs.length := by omega
      simp only [text.fillNames, ne_eq, hi, not_false_eq_true, if_true,
        List.getElem?_eq_getElem hlt]
      exact ih _ _ (by omega)

/-- The function `RibEntryFromString` returns for every line: a message and no
error when the header pattern matches, and no message and the error "unable to
parse line" when it does not. -/
theorem text.RibEntryFromString_cases (s : String) :
    (regexp.FindStringSubmatch text.rxParseRIBLine s ≠ none ∧ text.accepted s)
    ∨ (regexp.FindStringSubmatch text.rxParseRIBLine s = none
        ∧ text.RibEntryFromString s = some (none, some .unableToParseLine)) := by
  cases hf : regexp.FindStringSubmatch text.rxParseRIBLine s with
  | none =>
    right
    simp [text.RibEntryFromString, text.parseRIBLine, hf]
  | some sub =>
    left
    have hlen := regexp.FindStringSubmatch_length _ _ _ hf
    obtain ⟨md, hmd⟩ := text.fillNames_total sub (regexp.SubexpNames text.rxParseRIBLine) 0 []
      (by rw [hlen]; simp [regexp.SubexpNames]; omega)
    refine ⟨by simp, ?_⟩
    simp [text.accepted, text.RibEntryFromString, text.parseRIBLine, hf, hmd]

theorem text.header_of_accepted (s : String) (h : text.accepted s) : text.isHeaderLine s := by
  rcases text.RibEntryFromString_cases s with ⟨hf, _⟩ | ⟨_, hr⟩
  · cases hs : regexp.FindStringSubmatch text.rxParseRIBLine s with
    | none => exact absurd hs hf
    | some sub => exact text.header_of_find s sub hs
  · obtain ⟨m, hm⟩ := h
    rw [hm] at hr
    simp at hr

theorem text.notNewline_of_notSpace (c : Char) (h : regexp.isSpace c = false) :
    ¬ c.toNat = 10 := by
  intro hc
  simp [regexp.isSpace, hc] at h

theorem text.notNewline_of_digit (c : Char) (h : regexp.isDigit c = true) :
    ¬ c.toNat = 10 := by
  intro hc
  simp [regexp.isDigit, hc] at h

/-- A header line is not empty and holds no newline. -/
theorem text.headerLine_shape (s : String) (h : text.isHeaderLine s) :
    s.data ≠ [] ∧ ∀ c ∈ s.data, ¬ c.toNat = 10 := by
  obtain ⟨p, l, la, pa, r, afi, safi, d, hp, hl, hla, hpa, hr, hafi, hsafi, hd, rfl⟩ := h
  rw [text.headerLine_data]
  refine ⟨by simp, ?_⟩
  intro c hc
  simp only [List.mem_append, List.not_mem_nil, or_false] at hc
  rcases hc with hc | hc | hc | hc | hc | hc | hc | hc | hc | hc | hc | hc | hc | hc | hc | hc
  · revert c; decide
  · exact text.notNewline_of_notSpace c (hp.2 c hc)
  · revert c; decide
  · exact text.notNewline_of_notSpace c (hl.2 c hc)
  · revert c; decide
  · exact text.notNewline_of_digit c (hla.2 c hc)
  · revert c; decide
  · exact text.notNewline_of_digit c (hpa.2 c hc)
  · revert c; decide
  · exact text.notNewline_of_notSpace c (hr.2 c hc)
  · revert c; decide
  · exact text.notNewline_of_notSpace c (hafi.2 c hc)
  · revert c; decide
  · exact text.notNewline_of_notSpace c (hsafi.2 c hc)
  · revert c; decide
  · exact hd c hc

theorem text.ribLoop_accepted :
    ∀ (lines : List String) (ribs : List (Option text.RIBMessage)),
      (∀ l ∈ lines, text.accepted l) →
      ∃ msgs : List text.RIBMessage,
        text.ribLoop (lines.map String.data) ribs = some (ribs ++ msgs.map some, none)
        ∧ List.Forall₂ (fun l m => text.RibEntryFromString l = some (some m, none)) lines msgs := by
  intro lines
  induction lines with
  | nil =>
    intro ribs _
    exact ⟨[], by simp [text.ribLoop], List.Forall₂.nil⟩
  | cons l ls ih =>
    intro ribs h
    obtain ⟨m, hm⟩ := h l (List.mem_cons_self _ _)
    obtain ⟨msgs, h1, h2⟩ := ih (ribs ++ [some m]) (fun x hx => h x (List.mem_cons_of_mem _ hx))
    refine ⟨m :: msgs, ?_, List.Forall₂.cons hm h2⟩
    have hl : String.mk l.data = l := rfl
    simp only [List.map_cons, text.ribLoop, hl, hm, h1]
    simp

theorem text.ribLoop_first_failure :
    ∀ (lines : List (List Char)) (ribs : List (Option text.RIBMessage)),
      (∃ l ∈ lines, ¬ text.accepted (String.mk l)) →
      ∃ (pre : List (List Char)) (bad : List Char) (post : List (List Char))
        (msgs : List text.RIBMessage),
        lines = pre ++ bad :: post
        ∧ List.Forall₂
            (fun l m => text.RibEntryFromString (String.mk l) = some (some m, none)) pre msgs
        ∧ text.RibEntryFromString (String.mk bad) = some (none, some .unableToParseLine)
        ∧ text.ribLoop lines ribs = some (ribs ++ msgs.map some, some .unableToParseLine) := by
  intro lines
  induction lines with
  | nil =>
    intro ribs h
    obtain ⟨l, hl, _⟩ := h
    simp at hl
  | cons l ls ih =>
    intro ribs h
    rcases text.RibEntryFromString_cases (String.mk l) with ⟨_, hacc⟩ | ⟨_, hrej⟩
    · obtain ⟨m, hm⟩ := hacc
      have hrest : ∃ x ∈ ls, ¬ text.accepted (String.mk x) := by
        obtain ⟨x, hx, hxn⟩ := h
        rcases List.mem_cons.mp hx with hx | hx
        · exact absurd ⟨m, hx ▸ hm⟩ hxn
        · exact ⟨x, hx, hxn⟩
      obtain ⟨pre, bad, post, msgs, h1, h2, h3, h4⟩ := ih (ribs ++ [some m]) hrest
      refine ⟨l :: pre, bad, post, m :: msgs, by rw [h1]; rfl, List.Forall₂.cons hm h2, h3, ?_⟩
      simp only [text.ribLoop, hm, h4]
      simp
    · refine ⟨[], l, ls, [], rfl, List.Forall₂.nil, hrej, ?_⟩
      simp [text.ribLoop, hrej]

/-! ## Package `text`: the buffer decoder `RibFromBytes` -/

set_option maxRecDepth 100000 in
/-- Claim C22, refuted as stated: in the buffer made of an accepted line and
the line "bad", the second line fails to decode, and `RibFromBytes` returns the
error together with the message of the first line; the returned collection is
not empty. -/
theorem text.RibFromBytes_partial_result_counterexample :
    text.RibEntryFromString "bad" = some (none, some .unableToParseLine)
    ∧ text.RibFromBytes (text.bufferOf [text.sampleLine "x", "bad"])
        = some ([some (text.sampleMessage "x")], some .unableToParseLine)
    ∧ ¬ (∃ err, text.RibFromBytes (text.bufferOf [text.sampleLine "x", "bad"])
          = some ([], some err)) := by
  have h : text.RibFromBytes (text.bufferOf [text.sampleLine "x", "bad"])
      = some ([some (text.sampleMessage "x")], some .unableToParseLine) := by decide
  refine ⟨by decide, h, ?_⟩
  rintro ⟨err, herr⟩
  rw [h] at herr
  simp at herr

/-- Claim C22, as amended: for every buffer in which some line (as `ReadLine`
returns the lines) fails to decode, `RibFromBytes` returns an error, the error
"unable to parse line" of the first failing line, together with the messages
of the lines before that line, in order; the lines after it are not read. -/
theorem text.RibFromBytes_returns_messages_before_failure (b : String)
    (h : ∃ l ∈ bufio.readLines 4096 b.data [],
      ∃ err, text.RibEntryFromString (String.mk l) = some (none, some err)) :
    ∃ (pre : List (List Char)) (bad : List Char) (post : List (List Char))
      (msgs : List text.RIBMessage),
      bufio.readLines 4096 b.data [] = pre ++ bad :: post
      ∧ List.Forall₂
          (fun l m => text.RibEntryFromString (String.mk l) = some (some m, none)) pre msgs
      ∧ text.RibEntryFromString (String.mk bad) = some (none, some .unableToParseLine)
      ∧ text.RibFromBytes b = some (msgs.map some, some .unableToParseLine) := by
  have h1 : ∃ l ∈ bufio.readLines 4096 b.data [], ¬ text.accepted (String.mk l) := by
    obtain ⟨l, hl, err, herr⟩ := h
    refine ⟨l, hl, ?_⟩
    rintro ⟨m, hm⟩
    rw [hm] at herr
    simp at herr
  obtain ⟨pre, bad, post, msgs, g1, g2, g3, g4⟩ := text.ribLoop_first_failure _ [] h1
  exact ⟨pre, bad, post, msgs, g1, g2, g3, by simpa [text.RibFromBytes] using g4⟩

set_option maxRecDepth 100000 in
theorem text.RibFromBytes_returns_messages_before_failure_witness :
    (∃ l ∈ bufio.readLines 4096 (text.bufferOf [text.sampleLine "x", "bad", "worse"]).data [],
      ∃ err, text.RibEntryFromString (String.mk l) = some (none, some err))
    ∧ ∃ (pre : List (List Char)) (bad : List Char) (post : List (List Char))
      (msgs : List text.RIBMessage),
      bufio.readLines 4096 (text.bufferOf [text.sampleLine "x", "bad", "worse"]).data []
        = pre ++ bad :: post
      ∧ List.Forall₂
          (fun l m => text.RibEntryFromString (String.mk l) = some (some m, none)) pre msgs
      ∧ text.RibEntryFromString (String.mk bad) = some (none, some .unableToParseLine)
      ∧ text.RibFromBytes (text.bufferOf [text.sampleLine "x", "bad", "worse"])
          = some (msgs.map some, some .unableToParseLine) :=
  ⟨⟨"bad".data, by decide, .unableToParseLine, by decide⟩,
    text.RibFromBytes_returns_messages_before_failure
      (text.bufferOf [text.sampleLine "x", "bad", "worse"])
      ⟨"bad".data, by decide, .unableToParseLine, by decide⟩⟩

set_option maxRecDepth 100000 in
/-- Claim C23, refuted as stated: the two lines below are accepted by
`RibEntryFromString` and shorter than 4096 bytes, the first ends in a carriage
return; in the buffer made of them `ReadLine` drops the carriage return before
the newline, so the first message of `RibFromBytes` has the details "x" while
`RibEntryFromString` of the first line has the details "x\r". -/
theorem text.RibFromBytes_carriage_return_counterexample :
    text.RibEntryFromString (text.sampleLine "x\r")
      = some (some (text.sampleMessage "x\r"), none)
    ∧ text.RibEntryFromString (text.sampleLine "y") = some (some (text.sampleMessage "y"), none)
    ∧ (text.sampleLine "x\r").utf8ByteSize < 4096 ∧ (text.sampleLine "y").utf8ByteSize < 4096
    ∧ text.RibFromBytes (text.bufferOf [text.sampleLine "x\r", text.sampleLine "y"])
        = some ([some (text.sampleMessage "x"), some (text.sampleMessage "y")], none)
    ∧ text.sampleMessage "x" ≠ text.sampleMessage "x\r" := by
  refine ⟨by decide, by decide, by decide, by decide, by decide, by decide⟩

/-- Claim C23, as amended: for every buffer made of n >= 0 newline-separated
lines, each shorter than the 4096-byte buffer of the reader, each accepted by
`RibEntryFromString` and none ending in a carriage return, `RibFromBytes`
returns no error and exactly n messages, the i-th being the message of
`RibEntryFromString` of the i-th line. -/
theorem text.RibFromBytes_of_accepted_lines (lines : List String)
    (hshort : ∀ l ∈ lines, l.utf8ByteSize < 4096)
    (hacc : ∀ l ∈ lines, text.accepted l)
    (hcr : ∀ l ∈ lines, ¬ text.endsInCR l) :
    ∃ msgs : List text.RIBMessage,
      text.RibFromBytes (text.bufferOf lines) = some (msgs.map some, none)
      ∧ msgs.length = lines.length
      ∧ List.Forall₂ (fun l m => text.RibEntryFromString l = some (some m, none)) lines msgs := by
  have hlines : bufio.readLines 4096 (text.bufferOf lines).data [] = lines.map String.data := by
    apply bufio.readLines_bufferOf
    intro l hl
    obtain ⟨h1, h2⟩ := text.headerLine_shape l (text.header_of_accepted l (hacc l hl))
    exact ⟨h1, h2, lt_of_le_of_lt (text.length_le_utf8ByteSize l) (hshort l hl), hcr l hl⟩
  obtain ⟨msgs, h1, h2⟩ := text.ribLoop_accepted lines [] hacc
  refine ⟨msgs, ?_, h2.length_eq.symm, h2⟩
  rw [text.RibFromBytes, hlines, h1]
  simp

set_option maxRecDepth 100000 in
theorem text.RibFromBytes_of_accepted_lines_witness :
    (∀ l ∈ [text.sampleLine "x", text.sampleLine "y"], l.utf8ByteSize < 4096)
    ∧ (∀ l ∈ [text.sampleLine "x", text.sampleLine "y"], text.accepted l)
    ∧ (∀ l ∈ [text.sampleLine "x", text.sampleLine "y"], ¬ text.endsInCR l)
    ∧ ∃ msgs : List text.RIBMessage,
      text.RibFromBytes (text.bufferOf [text.sampleLine "x", text.sampleLine "y"])
        = some (msgs.map some, none)
      ∧ msgs.length = [text.sampleLine "x", text.sampleLine "y"].length
      ∧ List.Forall₂ (fun l m => text.RibEntryFromString l = some (some m, none))
          [text.sampleLine "x", text.sampleLine "y"] msgs :=
  have hacc : ∀ l ∈ [text.sampleLine "x", text.sampleLine "y"], text.accepted l := by
    intro l hl
    simp only [List.mem_cons, List.mem_singleton, List.not_mem_nil, or_false] at hl
    rcases hl with rfl | rfl
    · exact ⟨text.sampleMessage "x", by decide⟩
    · exact ⟨text.sampleMessage "y", by decide⟩
  ⟨by decide, hacc, by decide,
    text.RibFromBytes_of_accepted_lines [text.sampleLine "x", text.sampleLine "y"]
      (by decide) hacc (by decide)⟩

/-! ## Package `regexp`: a search that has a match finds one -/

theorem regexp.tryLen_isSome (min : Nat) (s : regexp.MState)
    (k : regexp.MState → Option regexp.MState) (j : Nat) (hmin : min ≤ j)
    (hk : (k (s.advance j)).isSome = true) :
    ∀ n, j ≤ n → (regexp.tryLen min s k n).isSome = true := by
  intro n
  induction n with
  | zero =>
    intro hj
    have hj0 : j = 0 := by omega
    have hmin0 : min = 0 := by omega
    subst hj0
    have hs : s.advance 0 = s := rfl
    rw [hs] at hk
    simp [regexp.tryLen, hmin0, hk]
  | succ n ih =>
    intro hj
    have h1 : ¬ n + 1 < min := by omega
    simp only [regexp.tryLen, h1, if_false]
    cases hn : k (s.advance (n + 1)) with
    | some m => rfl
    | none =>
      have hne : j ≠ n + 1 := by
        intro he
        rw [he, hn] at hk
        simp at hk
      exact ih (by omega)

theorem regexp.length_le_takeWhile (p : Char → Bool) (w after : List Char)
    (h : ∀ x ∈ w, p x = true) : w.length ≤ ((w ++ after).takeWhile p).length := by
  induction w with
  | nil => simp
  | cons x xs ih =>
    have hx : p x = true := h x (List.mem_cons_self _ _)
    simp only [List.cons_append, List.takeWhile_cons, hx, if_true, List.length_cons]
    have := ih (fun y hy => h y (List.mem_cons_of_mem _ hy))
    omega

/-- The leftmost search succeeds, at the latest at a position where the
pattern has a match. -/
theorem regexp.searchFrom_le (re : regexp.Regexp) (rest : List Char) :
    ∀ (pre : List Char) (j : Nat),
      (re.run { pos := j + pre.length, rest := rest, caps := [] } some).isSome = true →
      ∃ (pre1 rest1 : List Char) (m : regexp.MState),
        pre ++ rest = pre1 ++ rest1 ∧ pre1.length ≤ pre.length
        ∧ regexp.searchFrom re j (pre ++ rest) = some (j + pre1.length, m)
        ∧ re.run { pos := j + pre1.length, rest := rest1, caps := [] } some = some m := by
  intro pre
  induction pre with
  | nil =>
    intro j h
    obtain ⟨m, hm⟩ := Option.isSome_iff_exists.mp h
    exact ⟨[], rest, m, rfl, le_refl _, regexp.searchFrom_first re j rest m hm, hm⟩
  | cons c pre ih =>
    intro j h
    cases hr : re.run { pos := j, rest := c :: (pre ++ rest), caps := [] } some with
    | some m =>
      exact ⟨[], c :: (pre ++ rest), m, rfl, Nat.zero_le _,
        regexp.searchFrom_first re j _ m hr, hr⟩
    | none =>
      have h1 : (re.run { pos := j + 1 + pre.length, rest := rest, caps := [] } some).isSome
          = true := by
        have he : j + 1 + pre.length = j + (c :: pre).length := by
          simp only [List.length_cons]
          omega
        rw [he]
        exact h
      obtain ⟨pre1, rest1, m, g1, g2, g3, g4⟩ := ih (j + 1) h1
      refine ⟨c :: pre1, rest1, m, by simp [g1], by simp only [List.length_cons]; omega, ?_, ?_⟩
      · have he : j + (c :: pre1).length = j + 1 + pre1.length := by
          simp only [List.length_cons]
          omega
        rw [he]
        show regexp.searchFrom re j (c :: (pre ++ rest)) = some (j + 1 + pre1.length, m)
        simp only [regexp.searchFrom, hr]
        exact g3
      · have he : j + (c :: pre1).length = j + 1 + pre1.length := by
          simp only [List.length_cons]
          omega
        rw [he]
        exact g4

/-! ## Package `text`: the start `(?:^|\s+)` of the attribute patterns -/

theorem text.boundary_run_sound (s m : regexp.MState)
    (k : regexp.MState → Option regexp.MState) (h : text.boundary.run s k = some m) :
    ∃ w0 after, s.rest = w0 ++ after
      ∧ ((w0 = [] ∧ s.pos = 0) ∨ (w0 ≠ [] ∧ ∀ x ∈ w0, regexp.isSpace x = true))
      ∧ k { pos := s.pos + w0.length, rest := after, caps := s.caps } = some m := by
  unfold text.boundary at h
  cases hb : regexp.Regexp.bol.run s k with
  | some m1 =>
    rw [regexp.run_alt_first _ _ _ _ _ hb] at h
    by_cases hp : s.pos = 0
    · simp only [regexp.Regexp.run, hp, if_true] at hb
      refine ⟨[], s.rest, rfl, Or.inl ⟨rfl, hp⟩, ?_⟩
      rw [← h, ← hb]
      rfl
    · simp [regexp.Regexp.run, hp] at hb
  | none =>
    rw [regexp.run_alt_second _ _ _ _ hb] at h
    obtain ⟨w, after, h1, h2, h3, h4⟩ := regexp.rep_sound 1 .space s m k h
    refine ⟨w, after, h1, Or.inr ⟨?_, h3⟩, h4⟩
    intro hw
    rw [hw] at h2
    simp at h2

theorem text.boundary_run_start (rest : List Char) (caps : List (Nat × String))
    (k : regexp.MState → Option regexp.MState)
    (h : (k { pos := 0, rest := rest, caps := caps }).isSome = true) :
    (text.boundary.run { pos := 0, rest := rest, caps := caps } k).isSome = true := by
  obtain ⟨m, hm⟩ := Option.isSome_iff_exists.mp h
  have hb : regexp.Regexp.bol.run { pos := 0, rest := rest, caps := caps } k = some m := by
    rw [regexp.run_bol_zero]
    exact hm
  unfold text.boundary
  rw [regexp.run_alt_first _ _ _ _ _ hb]
  rfl

theorem text.boundary_run_space (i : Nat) (w0 after : List Char) (caps : List (Nat × String))
    (k : regexp.MState → Option regexp.MState)
    (hne : w0 ≠ []) (hsp : ∀ x ∈ w0, regexp.isSpace x = true)
    (h : (k { pos := i + w0.length, rest := after, caps := caps }).isSome = true) :
    (text.boundary.run { pos := i, rest := w0 ++ after, caps := caps } k).isSome = true := by
  unfold text.boundary
  cases hb : regexp.Regexp.bol.run { pos := i, rest := w0 ++ after, caps := caps } k with
  | some m1 =>
    rw [regexp.run_alt_first _ _ _ _ _ hb]
    rfl
  | none =>
    rw [regexp.run_alt_second _ _ _ _ hb]
    have hlen := regexp.length_le_takeWhile regexp.Class.space.mem w0 after hsp
    refine regexp.tryLen_isSome 1 _ k w0.length (List.length_pos.mpr hne) ?_ _ hlen
    simpa [regexp.MState.advance] using h

/-! ## Package `text`: the value part of the attribute patterns -/

theorem regexp.take_takeWhile_length (p : Char → Bool) (l : List Char) :
    l.take (l.takeWhile p).length = l.takeWhile p := by
  induction l with
  | nil => rfl
  | cons x xs ih =>
    by_cases hx : p x = true
    · simp [List.takeWhile_cons, hx, ih]
    · simp [List.takeWhile_cons, hx]

/-- The search for `kw (c+)` at a state: the keyword must stand there, and the
group takes the longest run of characters of the class after it. -/
theorem text.valueTail_run (kwd name : String) (c : regexp.Class) (s : regexp.MState) :
    (regexp.seq [.str kwd, .group 1 name (.plus c)]).run s some
      = if kwd.data.isPrefixOf s.rest = true
            ∧ (s.rest.drop kwd.data.length).takeWhile c.mem ≠ [] then
          some
            { pos := s.pos + kwd.data.length
                + ((s.rest.drop kwd.data.length).takeWhile c.mem).length
              rest := (s.rest.drop kwd.data.length).drop
                ((s.rest.drop kwd.data.length).takeWhile c.mem).length
              caps := (1, String.mk ((s.rest.drop kwd.data.length).takeWhile c.mem)) :: s.caps }
        else none := by
  simp only [regexp.seq, List.foldr, regexp.run_cat, regexp.run_empty]
  by_cases hp : kwd.data.isPrefixOf s.rest = true
  · by_cases htw : (s.rest.drop kwd.data.length).takeWhile c.mem ≠ []
    · rw [if_pos ⟨hp, htw⟩]
      simp only [regexp.Regexp.run, hp, if_true]
      apply regexp.tryLen_longest
      · exact List.length_pos.mpr htw
      · simp [regexp.MState.advance, regexp.take_takeWhile_length]
    · have hnil : (s.rest.drop kwd.data.length).takeWhile c.mem = [] := by
        simpa using htw
      rw [if_neg (fun hh => htw hh.2)]
      simp only [regexp.Regexp.run, hp, if_true, regexp.MState.advance, hnil, List.length_nil]
      simp [regexp.tryLen]
  · rw [if_neg (fun hh => hp hh.1)]
    simp [regexp.Regexp.run, hp]

/-- A match of `kw \[ ([^\]]+) \]` at a state: the keyword stands there, then a
non-empty body without a closing bracket, which the group takes, then " ]". -/
theorem text.listTail_sound (kwd name : String) (s m : regexp.MState)
    (h : (regexp.seq [.str kwd, .group 1 name (.plus .notRBracket), .str " ]"]).run s some
      = some m) :
    ∃ body rest, s.rest = kwd.data ++ (body ++ (" ]".data ++ rest)) ∧ body ≠ []
      ∧ (∀ x ∈ body, regexp.Class.notRBracket.mem x = true)
      ∧ m.caps = (1, String.mk body) :: s.caps := by
  simp only [regexp.seq, List.foldr, regexp.run_cat, regexp.run_empty] at h
  by_cases hp : kwd.data.isPrefixOf s.rest = true
  · obtain ⟨t, ht⟩ := List.isPrefixOf_iff_prefix.mp hp
    simp only [regexp.Regexp.run, hp, if_true] at h
    obtain ⟨w, after, h1, h2, h3, h4⟩ := regexp.rep_sound 1 .notRBracket _ m _ h
    simp only [regexp.MState.advance] at h1 h4
    by_cases hq : " ]".data.isPrefixOf after = true
    · obtain ⟨r, hr⟩ := List.isPrefixOf_iff_prefix.mp hq
      simp only [hq, if_true, Option.some.injEq] at h4
      refine ⟨w, r, ?_, ?_, h3, ?_⟩
      · rw [← ht, List.drop_left] at h1
        rw [← ht, h1, hr]
      · intro hw
        rw [hw] at h2
        simp at h2
      · rw [← h4, h1]
        simp
    · simp [hq] at h4
  · simp [regexp.Regexp.run, hp] at h

theorem text.listTail_isSome (kwd name : String) (i : Nat) (body rest : List Char)
    (caps : List (Nat × String)) (hne : body ≠ [])
    (hall : ∀ x ∈ body, regexp.Class.notRBracket.mem x = true) :
    ((regexp.seq [.str kwd, .group 1 name (.plus .notRBracket), .str " ]"]).run
      { pos := i, rest := kwd.data ++ (body ++ (" ]".data ++ rest)), caps := caps } some).isSome
      = true := by
  simp only [regexp.seq, List.foldr, regexp.run_cat, regexp.run_empty]
  rw [regexp.run_str kwd]
  simp only [regexp.Regexp.run]
  have hlen := regexp.length_le_takeWhile regexp.Class.notRBracket.mem body
    (" ]".data ++ rest) hall
  refine regexp.tryLen_isSome 1 _ _ body.length (List.length_pos.mpr hne) ?_ _ hlen
  have hq : " ]".data.isPrefixOf (" ]".data ++ rest) = true :=
    List.isPrefixOf_iff_prefix.mpr (List.prefix_append _ _)
  simp [regexp.MState.advance, hq]

/-! ## Package `text`: the scalar attribute patterns `(?:^|\s+)kw (c+)` -/

theorem text.rxValue_run (kw name : String) (c : regexp.Class) (s : regexp.MState) :
    (text.rxValue kw name c).run s some
      = text.boundary.run s
          (fun s1 => (regexp.seq [.str (kw ++ " "), .group 1 name (.plus c)]).run s1 some) :=
  rfl

/-- A match of a scalar attribute pattern at a position: optional whitespace
(none only at the start of the text), the keyword and a space, and the group
holds the longest run of the class after them. -/
theorem text.rxValue_run_sound (kw name : String) (c : regexp.Class) (i : Nat)
    (rest : List Char) (m : regexp.MState)
    (h : (text.rxValue kw name c).run { pos := i, rest := rest, caps := [] } some = some m) :
    ∃ w0 rest1, rest = w0 ++ ((kw ++ " ").data ++ rest1)
      ∧ ((w0 = [] ∧ i = 0) ∨ (w0 ≠ [] ∧ ∀ x ∈ w0, regexp.isSpace x = true))
      ∧ rest1.takeWhile c.mem ≠ []
      ∧ m.caps = [(1, String.mk (rest1.takeWhile c.mem))] := by
  rw [text.rxValue_run] at h
  obtain ⟨w0, after, h1, h2, h3⟩ := text.boundary_run_sound _ m _ h
  simp only at h1 h2 h3
  rw [text.valueTail_run] at h3
  by_cases hc : (kw ++ " ").data.isPrefixOf after = true
      ∧ (after.drop (kw ++ " ").data.length).takeWhile c.mem ≠ []
  · rw [if_pos hc] at h3
    obtain ⟨t, ht⟩ := List.isPrefixOf_iff_prefix.mp hc.1
    have hdrop : after.drop (kw ++ " ").data.length = t := by
      rw [← ht, List.drop_left]
    rw [hdrop] at hc h3
    refine ⟨w0, t, by rw [h1, ht], h2, hc.2, ?_⟩
    simp only [Option.some.injEq] at h3
    rw [← h3]
  · rw [if_neg hc] at h3
    exact Option.noConfusion h3

theorem text.rxValue_run_isSome (kw name : String) (c : regexp.Class) (i : Nat)
    (w0 rest1 : List Char)
    (hw0 : (w0 = [] ∧ i = 0) ∨ (w0 ≠ [] ∧ ∀ x ∈ w0, regexp.isSpace x = true))
    (hv : rest1.takeWhile c.mem ≠ []) :
    ((text.rxValue kw name c).run
      { pos := i, rest := w0 ++ ((kw ++ " ").data ++ rest1), caps := [] } some).isSome
      = true := by
  rw [text.rxValue_run]
  have htail : ∀ j, ((regexp.seq [.str (kw ++ " "), .group 1 name (.plus c)]).run
      { pos := j, rest := (kw ++ " ").data ++ rest1, caps := [] } some).isSome = true := by
    intro j
    rw [text.valueTail_run]
    have hp : (kw ++ " ").data.isPrefixOf ((kw ++ " ").data ++ rest1) = true :=
      List.isPrefixOf_iff_prefix.mpr (List.prefix_append _ _)
    have hd : ((kw ++ " ").data ++ rest1).drop (kw ++ " ").data.length = rest1 :=
      List.drop_left _ _
    simp only [hd]
    rw [if_pos ⟨hp, hv⟩]
    rfl
  rcases hw0 with ⟨h0, hi⟩ | ⟨hne, hsp⟩
  · subst h0 hi
    exact text.boundary_run_start _ _ _ (htail 0)
  · exact text.boundary_run_space i w0 _ [] _ hne hsp (htail _)

theorem text.atBoundary_nil : text.atBoundary [] = true := rfl

theorem text.atBoundary_append (pre w0 : List Char) (hne : w0 ≠ [])
    (hsp : ∀ x ∈ w0, regexp.isSpace x = true) : text.atBoundary (pre ++ w0) = true := by
  obtain ⟨init, last, hw⟩ : ∃ init last, w0 = init ++ [last] := by
    rcases List.eq_nil_or_concat w0 with h | ⟨init, last, h⟩
    · exact absurd h hne
    · exact ⟨init, last, by simpa using h⟩
  have hlast : regexp.isSpace last = true := hsp last (by rw [hw]; simp)
  rw [hw, ← List.append_assoc]
  simp [text.atBoundary, hlast]

theorem text.atBoundary_cases (pre : List Char) (h : text.atBoundary pre = true) :
    pre = [] ∨ ∃ init last, pre = init ++ [last] ∧ regexp.isSpace last = true := by
  rcases List.eq_nil_or_concat pre with hnil | ⟨init, last, hp⟩
  · exact Or.inl hnil
  · right
    have hp1 : pre = init ++ [last] := by simpa using hp
    refine ⟨init, last, hp1, ?_⟩
    rw [hp1] at h
    simpa [text.atBoundary] using h

theorem text.head_of_takeWhile_ne_nil (p : Char → Bool) (l : List Char)
    (h : l.takeWhile p ≠ []) : l.head?.map p = some true := by
  cases l with
  | nil => simp at h
  | cons x xs =>
    by_cases hx : p x = true
    · simp [hx]
    · simp [List.takeWhile_cons, hx] at h

theorem text.takeWhile_ne_nil_of_head (p : Char → Bool) (l : List Char)
    (h : l.head?.map p = some true) : l.takeWhile p ≠ [] := by
  cases l with
  | nil => simp at h
  | cons x xs =>
    have hx : p x = true := by simpa using h
    simp [List.takeWhile_cons, hx]

/-- An occurrence given by a split of the text is an occurrence at the index
where the keyword starts. -/
theorem text.valueAt_of_split (kw : String) (c : regexp.Class) (pre rest1 : List Char)
    (hb : text.atBoundary pre = true) (hv : rest1.takeWhile c.mem ≠ []) :
    text.valueAt kw c (pre ++ ((kw ++ " ").data ++ rest1)) pre.length := by
  refine ⟨?_, ?_, ?_⟩
  · rw [List.take_left]
    exact hb
  · rw [List.drop_left]
    exact List.isPrefixOf_iff_prefix.mpr (List.prefix_append _ _)
  · have hd : (pre ++ ((kw ++ " ").data ++ rest1)).drop (pre.length + (kw ++ " ").data.length)
        = rest1 := by
      rw [← List.append_assoc, ← List.length_append, List.drop_left]
    rw [hd]
    exact text.head_of_takeWhile_ne_nil _ _ hv

theorem text.split_of_valueAt (kw : String) (c : regexp.Class) (t : List Char) (i : Nat)
    (h : text.valueAt kw c t i) :
    ∃ rest1, t = t.take i ++ ((kw ++ " ").data ++ rest1) ∧ (t.take i).length = i
      ∧ i < t.length ∧ text.atBoundary (t.take i) = true ∧ rest1.takeWhile c.mem ≠ [] := by
  obtain ⟨h1, h2, h3⟩ := h
  obtain ⟨r, hr⟩ := List.isPrefixOf_iff_prefix.mp h2
  have hlt : i < t.length := by
    by_contra hge
    have hnil : t.drop i = [] := List.drop_of_length_le (by omega)
    rw [hnil] at hr
    have hlen := congrArg List.length hr
    simp at hlen
  have hd : t.drop (i + (kw ++ " ").data.length) = r := by
    rw [← List.drop_drop, ← hr, List.drop_left]
  rw [hd] at h3
  refine ⟨r, ?_, ?_, hlt, h1, text.takeWhile_ne_nil_of_head _ _ h3⟩
  · rw [hr, List.take_append_drop]
  · rw [List.length_take]
    omega

/-! ## Package `text`: the first value of a keyword -/

/-- Two occurrences of a keyword, the one found by a search that started at
or before the other and skipped whitespace only, the other not after the one
found: they are the same occurrence. -/
theorem text.occurrence_unique (kwd pre1 w0 rest1 pre rest2 : List Char) (x : Char)
    (xs : List Char) (hk : kwd = x :: xs) (hx : regexp.isSpace x = false)
    (h : pre1 ++ (w0 ++ (kwd ++ rest1)) = pre ++ (kwd ++ rest2))
    (hw0 : ∀ y ∈ w0, regexp.isSpace y = true)
    (hle : pre1.length ≤ pre.length)
    (hge : pre.length ≤ (pre1 ++ w0).length) :
    pre1 ++ w0 = pre ∧ rest1 = rest2 := by
  have hlen : (pre1 ++ w0).length = pre.length := by
    by_contra hne
    have hlt : pre.length - pre1.length < w0.length := by
      simp only [List.length_append] at hge hne
      omega
    have h1 : (pre1 ++ (w0 ++ (kwd ++ rest1)))[pre.length]?
        = some (w0.get ⟨pre.length - pre1.length, hlt⟩) := by
      rw [List.getElem?_append_right hle, List.getElem?_append_left hlt,
        List.getElem?_eq_getElem hlt]
      rfl
    have h2 : (pre ++ (kwd ++ rest2))[pre.length]? = some x := by
      rw [List.getElem?_append_right (le_refl _), hk]
      simp
    rw [h, h2] at h1
    have hmem : w0.get ⟨pre.length - pre1.length, hlt⟩ ∈ w0 := List.get_mem _ _ _
    have hsp := hw0 _ hmem
    simp only [Option.some.injEq] at h1
    rw [← h1, hx] at hsp
    exact Bool.noConfusion hsp
  have h3 : (pre1 ++ w0) ++ (kwd ++ rest1) = pre ++ (kwd ++ rest2) := by
    rw [List.append_assoc]
    exact h
  obtain ⟨g1, g2⟩ := List.append_inj h3 hlen
  exact ⟨g1, List.append_cancel_left g2⟩

theorem text.keyword_head (kw : String) (hkw : text.isToken kw) :
    ∃ x xs, (kw ++ " ").data = x :: xs ∧ regexp.isSpace x = false := by
  have hne := text.data_ne_nil kw hkw.1
  cases hd : kw.data with
  | nil => exact absurd hd hne
  | cons x xs =>
    refine ⟨x, xs ++ " ".data, by simp [String.data_append, hd], ?_⟩
    exact hkw.2 x (by rw [hd]; exact List.mem_cons_self _ _)

/-- A fragment without a value of the keyword has no match of the scalar
pattern of the keyword. -/
theorem text.find_rxValue_none (kw name : String) (c : regexp.Class) (a : String)
    (h : text.noValue kw c a) :
    regexp.FindStringSubmatch (text.rxValue kw name c) a = none := by
  cases hf : regexp.FindStringSubmatch (text.rxValue kw name c) a with
  | none => rfl
  | some sub =>
    exfalso
    unfold regexp.FindStringSubmatch at hf
    cases hs : regexp.searchFrom (text.rxValue kw name c) 0 a.data with
    | none => simp [hs] at hf
    | some p =>
      obtain ⟨j, m⟩ := p
      obtain ⟨pre, rest, h1, h2, h3⟩ := regexp.searchFrom_sound _ a.data 0 j m hs
      obtain ⟨w0, rest1, g1, g2, g3, _⟩ := text.rxValue_run_sound kw name c j rest m h3
      have hb : text.atBoundary (pre ++ w0) = true := by
        rcases g2 with ⟨hw, hj⟩ | ⟨hne, hsp⟩
        · have hpre : pre = [] := by
            apply List.length_eq_zero.mp
            omega
          rw [hw, hpre]
          rfl
        · exact text.atBoundary_append pre w0 hne hsp
      have hocc := text.valueAt_of_split kw c (pre ++ w0) rest1 hb g3
      have hdata : a.data = (pre ++ w0) ++ ((kw ++ " ").data ++ rest1) := by
        rw [h1, g1, List.append_assoc]
      rw [← hdata] at hocc
      refine h (pre ++ w0).length ?_ hocc
      have hlen : a.data.length
          = (pre ++ w0).length + ((kw ++ " ").data ++ rest1).length := by
        rw [hdata, List.length_append]
      have hpos : 0 < ((kw ++ " ").data ++ rest1).length := by
        simp [String.data_append]
      omega

/-- The scalar pattern of a keyword finds the first value of the keyword: the
group holds the characters of the class that follow the first occurrence of
the keyword and a space. -/
theorem text.find_rxValue_first (kw name : String) (c : regexp.Class) (a : String)
    (pre tok post : List Char) (hkw : text.isToken kw)
    (ha : a.data = pre ++ ((kw ++ " ").data ++ (tok ++ post)))
    (hb : text.atBoundary pre = true) (hne : tok ≠ [])
    (hall : ∀ x ∈ tok, c.mem x = true) (hstop : post.takeWhile c.mem = [])
    (hfirst : ∀ j, j < pre.length → ¬ text.valueAt kw c a.data j) :
    ∃ whole, regexp.FindStringSubmatch (text.rxValue kw name c) a
      = some [whole, String.mk tok] := by
  have htw : (tok ++ post).takeWhile c.mem = tok := regexp.takeWhile_token _ _ _ hall hstop
  have hv : (tok ++ post).takeWhile c.mem ≠ [] := by rw [htw]; exact hne
  obtain ⟨x, xs, hk, hx⟩ := text.keyword_head kw hkw
  -- the pattern has a match that starts at the keyword or at the whitespace before it
  have hstart : ∃ (p0 rest0 : List Char), a.data = p0 ++ rest0 ∧ p0.length ≤ pre.length
      ∧ ((text.rxValue kw name c).run { pos := 0 + p0.length, rest := rest0, caps := [] }
          some).isSome = true := by
    rcases text.atBoundary_cases pre hb with hnil | ⟨init, last, hp, hlast⟩
    · refine ⟨[], a.data, rfl, Nat.zero_le _, ?_⟩
      rw [ha, hnil]
      exact text.rxValue_run_isSome kw name c 0 [] _ (Or.inl ⟨rfl, rfl⟩) hv
    · refine ⟨init, [last] ++ ((kw ++ " ").data ++ (tok ++ post)), ?_, ?_, ?_⟩
      · rw [ha, hp, List.append_assoc]
      · rw [hp]
        simp
      · refine text.rxValue_run_isSome kw name c _ [last] _ (Or.inr ⟨by simp, ?_⟩) hv
        intro y hy
        rw [List.mem_singleton.mp hy]
        exact hlast
  obtain ⟨p0, rest0, hsplit, hp0, hsome⟩ := hstart
  obtain ⟨pre1, rest1, m, g1, g2, g3, g4⟩ := regexp.searchFrom_le _ rest0 p0 0 hsome
  obtain ⟨w0, rest2, k1, k2, k3, k4⟩ := text.rxValue_run_sound kw name c _ rest1 m g4
  have hdata : a.data = pre1 ++ (w0 ++ ((kw ++ " ").data ++ rest2)) := by
    rw [hsplit, g1, k1]
  have hb1 : text.atBoundary (pre1 ++ w0) = true := by
    rcases k2 with ⟨hw, hj⟩ | ⟨hne1, hsp⟩
    · have hpre : pre1 = [] := by
        apply List.length_eq_zero.mp
        omega
      rw [hw, hpre]
      rfl
    · exact text.atBoundary_append pre1 w0 hne1 hsp
  have hw0 : ∀ y ∈ w0, regexp.isSpace y = true := by
    rcases k2 with ⟨hw, _⟩ | ⟨_, hsp⟩
    · intro y hy
      rw [hw] at hy
      simp at hy
    · exact hsp
  have hge : pre.length ≤ (pre1 ++ w0).length := by
    by_contra hlt
    have hocc := text.valueAt_of_split kw c (pre1 ++ w0) rest2 hb1 k3
    rw [List.append_assoc, ← hdata] at hocc
    exact hfirst _ (by omega) hocc
  have heq : pre1 ++ (w0 ++ ((kw ++ " ").data ++ rest2))
      = pre ++ ((kw ++ " ").data ++ (tok ++ post)) := by
    rw [← hdata, ha]
  obtain ⟨_, hrest⟩ := text.occurrence_unique (kw ++ " ").data pre1 w0 rest2 pre (tok ++ post)
    x xs hk hx heq hw0 (by omega) hge
  rw [hrest, htw] at k4
  unfold regexp.FindStringSubmatch
  rw [hsplit, g3]
  exact ⟨String.mk (List.take (m.pos - (0 + pre1.length))
      (List.drop (0 + pre1.length) (p0 ++ rest0))),
    by simp [text.groupNames_rxValue, regexp.groupNames, regexp.capture, k4, List.range,
      List.range.loop]⟩

/-! ## Package `text`: the list attribute patterns `(?:^|\s+)kw \[ ([^\]]+) \]` -/

theorem text.rxBracketed_run (kw name : String) (s : regexp.MState) :
    (text.rxBracketed kw name).run s some
      = text.boundary.run s
          (fun s1 => (regexp.seq [.str (kw ++ " [ "), .group 1 name (.plus .notRBracket),
            .str " ]"]).run s1 some) :=
  rfl

/-- A match of a list attribute pattern at a position: optional whitespace
(none only at the start of the text), the keyword and " [ ", a non-empty body
without a closing bracket, which the group holds, and " ]". -/
theorem text.rxBracketed_run_sound (kw name : String) (i : Nat) (rest : List Char)
    (m : regexp.MState)
    (h : (text.rxBracketed kw name).run { pos := i, rest := rest, caps := [] } some = some m) :
    ∃ w0 body rest1, rest = w0 ++ ((kw ++ " [ ").data ++ (body ++ (" ]".data ++ rest1)))
      ∧ ((w0 = [] ∧ i = 0) ∨ (w0 ≠ [] ∧ ∀ x ∈ w0, regexp.isSpace x = true))
      ∧ body ≠ [] ∧ (∀ x ∈ body, regexp.Class.notRBracket.mem x = true)
      ∧ m.caps = [(1, String.mk body)] := by
  rw [text.rxBracketed_run] at h
  obtain ⟨w0, after, h1, h2, h3⟩ := text.boundary_run_sound _ m _ h
  simp only at h1 h2 h3
  obtain ⟨body, rest1, g1, g2, g3, g4⟩ := text.listTail_sound _ _ _ m h3
  simp only at g1 g4
  exact ⟨w0, body, rest1, by rw [h1, g1], h2, g2, g3, g4⟩

theorem text.rxBracketed_run_isSome (kw name : String) (i : Nat) (w0 body rest1 : List Char)
    (hw0 : (w0 = [] ∧ i = 0) ∨ (w0 ≠ [] ∧ ∀ x ∈ w0, regexp.isSpace x = true))
    (hne : body ≠ []) (hall : ∀ x ∈ body, regexp.Class.notRBracket.mem x = true) :
    ((text.rxBracketed kw name).run
      { pos := i, rest := w0 ++ ((kw ++ " [ ").data ++ (body ++ (" ]".data ++ rest1))),
        caps := [] } some).isSome = true := by
  rw [text.rxBracketed_run]
  rcases hw0 with ⟨h0, hi⟩ | ⟨hne0, hsp⟩
  · subst h0 hi
    exact text.boundary_run_start _ _ _ (text.listTail_isSome _ name 0 body rest1 [] hne hall)
  · exact text.boundary_run_space i w0 _ [] _ hne0 hsp
      (text.listTail_isSome _ name _ body rest1 [] hne hall)

/-- A bracketed list given by a split of the text is a list at the index
where the keyword starts. -/
theorem text.listAt_of_split (kw : String) (pre body rest1 : List Char)
    (hb : text.atBoundary pre = true) (hne : body ≠ [])
    (hall : ∀ x ∈ body, regexp.Class.notRBracket.mem x = true) :
    text.listAt kw (pre ++ ((kw ++ " [ ").data ++ (body ++ (" ]".data ++ rest1)))) pre.length := by
  have hd : (pre ++ ((kw ++ " [ ").data ++ (body ++ (" ]".data ++ rest1)))).drop
      (pre.length + (kw ++ " [ ").data.length) = body ++ (" ]".data ++ rest1) := by
    rw [← List.append_assoc, ← List.length_append, List.drop_left]
  refine ⟨?_, ?_, body.length, ?_, List.length_pos.mpr hne, ?_, ?_⟩
  · rw [List.take_left]
    exact hb
  · rw [List.drop_left]
    exact List.isPrefixOf_iff_prefix.mpr (List.prefix_append _ _)
  · simp only [List.length_append, String.data_append, List.length_cons, List.length_nil]
    omega
  · rw [hd, List.take_left]
    exact hall
  · rw [hd, List.drop_left]
    exact List.isPrefixOf_iff_prefix.mpr (List.prefix_append _ _)

theorem text.body_unique (body1 body2 r1 r2 : List Char)
    (h1 : ∀ x ∈ body1, regexp.Class.notRBracket.mem x = true)
    (h2 : ∀ x ∈ body2, regexp.Class.notRBracket.mem x = true)
    (h : body1 ++ (" ]".data ++ r1) = body2 ++ (" ]".data ++ r2)) :
    body1 = body2 := by
  have key : ∀ (body r : List Char), (∀ x ∈ body, regexp.Class.notRBracket.mem x = true) →
      (body ++ (" ]".data ++ r)).takeWhile regexp.Class.notRBracket.mem
        = body ++ [Char.ofNat 32] := by
    intro body r hb
    have hsplit : body ++ (" ]".data ++ r)
        = (body ++ [Char.ofNat 32]) ++ (Char.ofNat 93 :: r) := by
      simp only [List.append_assoc]
      rfl
    rw [hsplit]
    apply regexp.takeWhile_token
    · intro x hx
      rcases List.mem_append.mp hx with hx | hx
      · exact hb x hx
      · rw [List.mem_singleton.mp hx]
        decide
    · have hc : regexp.Class.notRBracket.mem (Char.ofNat 93) = false := by decide
      simp [List.takeWhile_cons, hc]
  have e1 := key body1 r1 h1
  have e2 := key body2 r2 h2
  rw [h, e2] at e1
  exact (List.append_cancel_right e1).symm

/-- A fragment without a bracketed list of the keyword has no match of the
list pattern of the keyword. -/
theorem text.find_rxBracketed_none (kw name : String) (a : String) (h : text.noList kw a) :
    regexp.FindStringSubmatch (text.rxBracketed kw name) a = none := by
  cases hf : regexp.FindStringSubmatch (text.rxBracketed kw name) a with
  | none => rfl
  | some sub =>
    exfalso
    unfold regexp.FindStringSubmatch at hf
    cases hs : regexp.searchFrom (text.rxBracketed kw name) 0 a.data with
    | none => simp [hs] at hf
    | some p =>
      obtain ⟨j, m⟩ := p
      obtain ⟨pre, rest, h1, h2, h3⟩ := regexp.searchFrom_sound _ a.data 0 j m hs
      obtain ⟨w0, body, rest1, g1, g2, g3, g4, _⟩ :=
        text.rxBracketed_run_sound kw name j rest m h3
      have hb : text.atBoundary (pre ++ w0) = true := by
        rcases g2 with ⟨hw, hj⟩ | ⟨hne, hsp⟩
        · have hpre : pre = [] := by
            apply List.length_eq_zero.mp
            omega
          rw [hw, hpre]
          rfl
        · exact text.atBoundary_append pre w0 hne hsp
      have hocc := text.listAt_of_split kw (pre ++ w0) body rest1 hb g3 g4
      have hdata : a.data
          = (pre ++ w0) ++ ((kw ++ " [ ").data ++ (body ++ (" ]".data ++ rest1))) := by
        rw [h1, g1, List.append_assoc]
      rw [← hdata] at hocc
      refine h (pre ++ w0).length ?_ hocc
      have hlen : a.data.length = (pre ++ w0).length
          + ((kw ++ " [ ").data ++ (body ++ (" ]".data ++ rest1))).length := by
        rw [hdata, List.length_append]
      have hpos : 0 < ((kw ++ " [ ").data ++ (body ++ (" ]".data ++ rest1))).length := by
        simp [String.data_append]
      omega

/-- The list pattern of a keyword finds the first bracketed list of the
keyword: the group holds the text between "[ " and " ]". -/
theorem text.find_rxBracketed_first (kw name : String) (a : String)
    (pre body post : List Char) (hkw : text.isToken kw)
    (ha : a.data = pre ++ ((kw ++ " [ ").data ++ (body ++ (" ]".data ++ post))))
    (hb : text.atBoundary pre = true) (hne : body ≠ [])
    (hall : ∀ x ∈ body, regexp.Class.notRBracket.mem x = true)
    (hfirst : ∀ j, j < pre.length → ¬ text.listAt kw a.data j) :
    ∃ whole, regexp.FindStringSubmatch (text.rxBracketed kw name) a
      = some [whole, String.mk body] := by
  obtain ⟨x, xs0, hk0, hx⟩ := text.keyword_head kw hkw
  have hk : ∃ xs, (kw ++ " [ ").data = x :: xs := by
    refine ⟨xs0 ++ "[ ".data, ?_⟩
    have e : (kw ++ " [ ").data = (kw ++ " ").data ++ "[ ".data := by
      simp [String.data_append]
    rw [e, hk0]
    rfl
  obtain ⟨xs, hk⟩ := hk
  have hstart : ∃ (p0 rest0 : List Char), a.data = p0 ++ rest0 ∧ p0.length ≤ pre.length
      ∧ ((text.rxBracketed kw name).run { pos := 0 + p0.length, rest := rest0, caps := [] }
          some).isSome = true := by
    rcases text.atBoundary_cases pre hb with hnil | ⟨init, last, hp, hlast⟩
    · refine ⟨[], a.data, rfl, Nat.zero_le _, ?_⟩
      rw [ha, hnil]
      exact text.rxBracketed_run_isSome kw name 0 [] body post (Or.inl ⟨rfl, rfl⟩) hne hall
    · refine ⟨init, [last] ++ ((kw ++ " [ ").data ++ (body ++ (" ]".data ++ post))), ?_, ?_, ?_⟩
      · rw [ha, hp, List.append_assoc]
      · rw [hp]
        simp
      · refine text.rxBracketed_run_isSome kw name _ [last] body post
          (Or.inr ⟨by simp, ?_⟩) hne hall
        intro y hy
        rw [List.mem_singleton.mp hy]
        exact hlast
  obtain ⟨p0, rest0, hsplit, hp0, hsome⟩ := hstart
  obtain ⟨pre1, rest1, m, g1, g2, g3, g4⟩ := regexp.searchFrom_le _ rest0 p0 0 hsome
  obtain ⟨w0, body1, rest2, k1, k2, k3, k4, k5⟩ :=
    text.rxBracketed_run_sound kw name _ rest1 m g4
  have hdata : a.data
      = pre1 ++ (w0 ++ ((kw ++ " [ ").data ++ (body1 ++ (" ]".data ++ rest2)))) := by
    rw [hsplit, g1, k1]
  have hb1 : text.atBoundary (pre1 ++ w0) = true := by
    rcases k2 with ⟨hw, hj⟩ | ⟨hne1, hsp⟩
    · have hpre : pre1 = [] := by
        apply List.length_eq_zero.mp
        omega
      rw [hw, hpre]
      rfl
    · exact text.atBoundary_append pre1 w0 hne1 hsp
  have hw0 : ∀ y ∈ w0, regexp.isSpace y = true := by
    rcases k2 with ⟨hw, _⟩ | ⟨_, hsp⟩
    · intro y hy
      rw [hw] at hy
      simp at hy
    · exact hsp
  have hge : pre.length ≤ (pre1 ++ w0).length := by
    by_contra hlt
    have hocc := text.listAt_of_split kw (pre1 ++ w0) body1 rest2 hb1 k3 k4
    rw [List.append_assoc, ← hdata] at hocc
    exact hfirst _ (by omega) hocc
  have heq : pre1 ++ (w0 ++ ((kw ++ " [ ").data ++ (body1 ++ (" ]".data ++ rest2))))
      = pre ++ ((kw ++ " [ ").data ++ (body ++ (" ]".data ++ post))) := by
    rw [← hdata, ha]
  obtain ⟨_, hrest⟩ := text.occurrence_unique (kw ++ " [ ").data pre1 w0 _ pre _
    x xs hk hx heq hw0 (by omega) hge
  have hbody := text.body_unique body1 body rest2 post k4 hall hrest
  rw [hbody] at k5
  unfold regexp.FindStringSubmatch
  rw [hsplit, g3]
  exact ⟨String.mk (List.take (m.pos - (0 + pre1.length))
      (List.drop (0 + pre1.length) (p0 ++ rest0))),
    by simp [text.groupNames_rxBracketed, regexp.groupNames, regexp.capture, k5, List.range,
      List.range.loop]⟩

/-! ## Package `text`: the fields of `parseAttributes` -/

theorem text.withSubmatch_of_none {α : Type} (re : regexp.Regexp) (a : String) (old : α)
    (f : String → α) (h : regexp.FindStringSubmatch re a = none) :
    text.withSubmatch re a old f = some old := by
  simp [text.withSubmatch, h]

theorem text.withSubmatch_of_find {α : Type} (re : regexp.Regexp) (a : String) (old : α)
    (f : String → α) (whole v : String)
    (h : regexp.FindStringSubmatch re a = some [whole, v]) :
    text.withSubmatch re a old f = some (f v) := by
  simp [text.withSubmatch, h]

theorem text.parseCommunity_of_list (rxList rxOne : regexp.Regexp) (a whole v : String)
    (h : regexp.FindStringSubmatch rxList a = some [whole, v]) :
    text.parseCommunity rxList rxOne a = some (strings.Split v) := by
  simp [text.parseCommunity, h]

theorem text.parseCommunity_of_no_list (rxList rxOne : regexp.Regexp) (a : String)
    (h : regexp.FindStringSubmatch rxList a = none) :
    text.parseCommunity rxList rxOne a = text.withSubmatch rxOne a [] (fun v => [v]) := by
  simp [text.parseCommunity, h]

/-- The result of `parseAttributes` field by field: each field is the result
of its own block, whatever the other blocks find. -/
theorem text.parseAttributes_fields (a : String) :
    ∃ attrs, text.parseAttributes a = some attrs
      ∧ text.withSubmatch text.rxParseAttributeMed a (0 : Int)
          (fun v => match strconv.ParseInt v with
            | some x => x
            | none => 0) = some attrs.Med
      ∧ text.withSubmatch text.rxParseAttributeOrigin a "" (fun v => v) = some attrs.Origin
      ∧ text.withSubmatch text.rxParseAttributeASPath a [] text.parseASPath = some attrs.ASPath
      ∧ text.withSubmatch text.rxParseAttributeClusterList a [] strings.Split
          = some attrs.ClusterList
      ∧ text.parseCommunity text.rxParseAttributeCommunities text.rxParseAttributeCommunity a
          = some attrs.Community
      ∧ text.parseCommunity text.rxParseAttributeExtendedCommunities
          text.rxParseAttributeExtendedCommunity a = some attrs.ExtendedCommunity
      ∧ text.withSubmatch text.rxParseAttributeOriginatorID a "" (fun v => v)
          = some attrs.OriginatorID
      ∧ text.withSubmatch text.rxParseAttributeLocalPref a (0 : Int)
          (fun v => match strconv.ParseInt v with
            | some x => x
            | none => 0) = some attrs.LocalPreference := by
  obtain ⟨med, h1⟩ := text.withSubmatch_total text.rxParseAttributeMed a (0 : Int)
    (fun v => match strconv.ParseInt v with
      | some x => x
      | none => 0) (by decide)
  obtain ⟨origin, h2⟩ := text.withSubmatch_total text.rxParseAttributeOrigin a ""
    (fun v => v) (by decide)
  obtain ⟨aspath, h3⟩ := text.withSubmatch_total text.rxParseAttributeASPath a []
    text.parseASPath (by decide)
  obtain ⟨clusterList, h4⟩ := text.withSubmatch_total text.rxParseAttributeClusterList a []
    strings.Split (by decide)
  obtain ⟨community, h5⟩ := text.parseCommunity_total text.rxParseAttributeCommunities
    text.rxParseAttributeCommunity a (by decide) (by decide)
  obtain ⟨extendedCommunity, h6⟩ := text.parseCommunity_total
    text.rxParseAttributeExtendedCommunities text.rxParseAttributeExtendedCommunity a
    (by decide) (by decide)
  obtain ⟨originatorID, h7⟩ := text.withSubmatch_total text.rxParseAttributeOriginatorID a ""
    (fun v => v) (by decide)
  obtain ⟨localPreference, h8⟩ := text.withSubmatch_total text.rxParseAttributeLocalPref a
    (0 : Int) (fun v => match strconv.ParseInt v with
      | some x => x
      | none => 0) (by decide)
  refine ⟨{ Med := med, Origin := origin, ASPath := aspath, ClusterList := clusterList,
            Community := community, ExtendedCommunity := extendedCommunity,
            OriginatorID := originatorID, LocalPreference := localPreference },
    ?_, h1, h2, h3, h4, h5, h6, h7, h8⟩
  unfold text.parseAttributes
  simp only [h1, h2, h3, h4, h5, h6, h7, h8]

/-- A bracketed list of a keyword starts with a value of the keyword, the
opening bracket. -/
theorem text.valueAt_of_listAt (kw : String) (t : List Char) (i : Nat)
    (h : text.listAt kw t i) : text.valueAt kw .notSpace t i := by
  obtain ⟨h1, h2, _⟩ := h
  obtain ⟨r, hr⟩ := List.isPrefixOf_iff_prefix.mp h2
  have hk : (kw ++ " [ ").data = (kw ++ " ").data ++ "[ ".data := by
    simp [String.data_append]
  have hdrop : t.drop i = (kw ++ " ").data ++ ("[ ".data ++ r) := by
    rw [← hr, hk, List.append_assoc]
  refine ⟨h1, ?_, ?_⟩
  · rw [hdrop]
    exact List.isPrefixOf_iff_prefix.mpr (List.prefix_append _ _)
  · rw [← List.drop_drop, hdrop, List.drop_left]
    rfl

theorem text.noList_of_noValue (kw : String) (a : String)
    (h : text.noValue kw .notSpace a) : text.noList kw a :=
  fun i hi hl => h i hi (text.valueAt_of_listAt kw a.data i hl)

/-! ## Package `text`: absent attributes -/

/-- Claim C26: for every attribute fragment, `parseAttributes` returns (no
error, no panic), and every field whose keyword does not occur in the fragment
(at the start or after whitespace) followed by a value is the zero value of
the field: 0 for `med` and `local-preference` (a value starts with a digit),
the empty string for `origin` and `originator-id` and the empty list for
`community` and `extended-community` (a value starts with a character that is
not whitespace), the empty list for `as-path` and `cluster-list` (a value is a
bracketed list).  In particular the empty fragment, and a detail string
"n next-hop h" without a fragment, yield the all-zero Attribute. -/
theorem text.absent_field_is_zero (a : String) :
    (∃ attrs, text.parseAttributes a = some attrs
      ∧ (text.noValue "med" .digit a → attrs.Med = 0)
      ∧ (text.noValue "origin" .notSpace a → attrs.Origin = "")
      ∧ (text.noList "as-path" a → attrs.ASPath = [])
      ∧ (text.noList "cluster-list" a → attrs.ClusterList = [])
      ∧ (text.noValue "community" .notSpace a → attrs.Community = [])
      ∧ (text.noValue "extended-community" .notSpace a → attrs.ExtendedCommunity = [])
      ∧ (text.noValue "originator-id" .notSpace a → attrs.OriginatorID = "")
      ∧ (text.noValue "local-preference" .digit a → attrs.LocalPreference = 0))
    ∧ text.parseAttributes "" = some {}
    ∧ (∀ (m : text.RIBMessage) (n h : String), text.isToken n → text.isToken h →
        m.Details = n ++ " next-hop " ++ h →
        (m.Family = "ipv4 unicast" →
          m.IPv4Unicast = some (some { NLRI := n, NextHop := h, Attributes := {} }, none))
        ∧ (m.Family = "ipv6 unicast" →
          m.IPv6Unicast = some (some { NLRI := n, NextHop := h, Attributes := {} }, none))) := by
  have hzero : text.parseAttributes "" = some {} := by decide
  refine ⟨?_, hzero, ?_⟩
  · obtain ⟨attrs, h0, h1, h2, h3, h4, h5, h6, h7, h8⟩ := text.parseAttributes_fields a
    refine ⟨attrs, h0, ?_, ?_, ?_, ?_, ?_, ?_, ?_, ?_⟩
    · intro hno
      have hf : regexp.FindStringSubmatch text.rxParseAttributeMed a = none :=
        text.find_rxValue_none "med" "med" .digit a hno
      rw [text.withSubmatch_of_none _ _ _ _ hf] at h1
      exact (Option.some.inj h1).symm
    · intro hno
      have hf : regexp.FindStringSubmatch text.rxParseAttributeOrigin a = none :=
        text.find_rxValue_none "origin" "origin" .notSpace a hno
      rw [text.withSubmatch_of_none _ _ _ _ hf] at h2
      exact (Option.some.inj h2).symm
    · intro hno
      have hf : regexp.FindStringSubmatch text.rxParseAttributeASPath a = none :=
        text.find_rxBracketed_none "as-path" "aspath" a hno
      rw [text.withSubmatch_of_none _ _ _ _ hf] at h3
      exact (Option.some.inj h3).symm
    · intro hno
      have hf : regexp.FindStringSubmatch text.rxParseAttributeClusterList a = none :=
        text.find_rxBracketed_none "cluster-list" "clusterlist" a hno
      rw [text.withSubmatch_of_none _ _ _ _ hf] at h4
      exact (Option.some.inj h4).symm
    · intro hno
      have hl : regexp.FindStringSubmatch text.rxParseAttributeCommunities a = none :=
        text.find_rxBracketed_none "community" "communities" a
          (text.noList_of_noValue _ a hno)
      have hf : regexp.FindStringSubmatch text.rxParseAttributeCommunity a = none :=
        text.find_rxValue_none "community" "community" .notSpace a hno
      rw [text.parseCommunity_of_no_list _ _ _ hl, text.withSubmatch_of_none _ _ _ _ hf] at h5
      exact (Option.some.inj h5).symm
    · intro hno
      have hl : regexp.FindStringSubmatch text.rxParseAttributeExtendedCommunities a = none :=
        text.find_rxBracketed_none "extended-community" "extendedcommunities" a
          (text.noList_of_noValue _ a hno)
      have hf : regexp.FindStringSubmatch text.rxParseAttributeExtendedCommunity a = none :=
        text.find_rxValue_none "extended-community" "extendedcommunity" .notSpace a hno
      rw [text.parseCommunity_of_no_list _ _ _ hl, text.withSubmatch_of_none _ _ _ _ hf] at h6
      exact (Option.some.inj h6).symm
    · intro hno
      have hf : regexp.FindStringSubmatch text.rxParseAttributeOriginatorID a = none :=
        text.find_rxValue_none "originator-id" "originatorid" .notSpace a hno
      rw [text.withSubmatch_of_none _ _ _ _ hf] at h7
      exact (Option.some.inj h7).symm
    · intro hno
      have hf : regexp.FindStringSubmatch text.rxParseAttributeLocalPref a = none :=
        text.find_rxValue_none "local-preference" "localpreference" .digit a hno
      rw [text.withSubmatch_of_none _ _ _ _ hf] at h8
      exact (Option.some.inj h8).symm
  · intro m n h hn hh hdet
    obtain ⟨res, hres, r1, r2, r3⟩ := text.parseUnicastLine_plain n h hn hh
    constructor
    · intro hfam
      simp [text.RIBMessage.IPv4Unicast, hfam, hdet, hres, r1, r2, r3, hzero]
    · intro hfam
      simp [text.RIBMessage.IPv6Unicast, hfam, hdet, hres, r1, r2, r3, hzero]

set_option maxRecDepth 100000 in
theorem text.absent_field_is_zero_witness :
    text.noValue "med" .digit "origin igp local-preference 100"
    ∧ text.noList "as-path" "origin igp local-preference 100"
    ∧ text.noValue "community" .notSpace "origin igp local-preference 100"
    ∧ ∃ attrs, text.parseAttributes "origin igp local-preference 100" = some attrs
        ∧ attrs.Med = 0 ∧ attrs.ASPath = [] ∧ attrs.Community = [] :=
  ⟨by decide, by decide, by decide,
    match (text.absent_field_is_zero "origin igp local-preference 100").1 with
    | ⟨attrs, h0, h1, _, h3, _, h5, _⟩ =>
      ⟨attrs, h0, h1 (by decide), h3 (by decide), h5 (by decide)⟩⟩

/-! ## Package `text`: numeric attributes -/

theorem strconv.ParseInt_digits (ds : List Char) (hne : ds ≠ [])
    (hall : ∀ x ∈ ds, regexp.isDigit x = true) :
    strconv.ParseInt (String.mk ds)
      = if strconv.digitsValue ds < 2 ^ 63 then some (strconv.digitsValue ds : Int) else none := by
  cases ds with
  | nil => exact absurd rfl hne
  | cons c cs =>
    have hc : regexp.isDigit c = true := hall c (List.mem_cons_self _ _)
    have hc1 : 48 ≤ c.toNat ∧ c.toNat ≤ 57 := by
      simpa [regexp.isDigit] using hc
    have h43 : ¬ c.toNat = 43 := by omega
    have h45 : ¬ c.toNat = 45 := by omega
    have hall1 : (c :: cs).all regexp.isDigit = true := by
      rw [List.all_eq_true]
      exact hall
    simp only [strconv.ParseInt, h43, h45, or_self, if_false, decide_False, List.isEmpty_cons,
      hall1, if_true, Bool.false_eq_true]

/-- The numeric block of `med` or `local-preference` on a fragment whose first
value of the keyword has the digits `ds`: the field is the value of the digits
when it fits in 64 bits, and stays 0 when it does not. -/
theorem text.numeric_of_first (kw name : String) (a : String) (pre ds post : List Char)
    (hkw : text.isToken kw)
    (ha : a.data = pre ++ ((kw ++ " ").data ++ (ds ++ post)))
    (hb : text.atBoundary pre = true) (hne : ds ≠ [])
    (hall : ∀ x ∈ ds, regexp.isDigit x = true) (hstop : post.takeWhile regexp.isDigit = [])
    (hfirst : ∀ j, j < pre.length → ¬ text.valueAt kw .digit a.data j) :
    text.withSubmatch (text.rxValue kw name .digit) a (0 : Int)
        (fun v => match strconv.ParseInt v with
          | some x => x
          | none => 0)
      = some (if strconv.digitsValue ds < 2 ^ 63 then (strconv.digitsValue ds : Int) else 0) := by
  obtain ⟨whole, hf⟩ := text.find_rxValue_first kw name .digit a pre ds post hkw ha hb hne
    hall hstop hfirst
  rw [text.withSubmatch_of_find _ _ _ _ whole _ hf, strconv.ParseInt_digits ds hne hall]
  by_cases hr : strconv.digitsValue ds < 2 ^ 63
  · rw [if_pos hr, if_pos hr]
  · rw [if_neg hr, if_neg hr]

/-- Claim C29, refuted as stated: in the fragment "med 12abc" the token after
`med` is partly numeric, and `Med` is 12, the value of its leading digits, not
0; the same holds for `local-preference`. -/
theorem text.partly_numeric_counterexample :
    text.parseAttributes "med 12abc" = some { Med := 12 }
    ∧ text.parseAttributes "local-preference 12abc" = some { LocalPreference := 12 }
    ∧ ¬ (∃ attrs, text.parseAttributes "med 12abc" = some attrs ∧ attrs.Med = 0) := by
  have h : text.parseAttributes "med 12abc" = some { Med := 12 } := by decide
  refine ⟨h, by decide, ?_⟩
  rintro ⟨attrs, hattrs, hmed⟩
  rw [h] at hattrs
  rw [← Option.some.inj hattrs] at hmed
  exact absurd hmed (by decide)

/-- Claim C29, as amended: for every attribute fragment `parseAttributes`
raises no error, and `Med` (resp. `LocalPreference`) is left at 0 when no
occurrence of the keyword `med` (resp. `local-preference`) is followed by a
digit (a non-numeric token), and when the digits that follow the first
occurrence of the keyword with a digit after it are out of the 64-bit range; a
partly numeric token such as "12abc" is not rejected: the field is the value
of its leading digits. -/
theorem text.unparsable_number_leaves_zero (a : String) :
    ∃ attrs, text.parseAttributes a = some attrs
      ∧ (text.noValue "med" .digit a → attrs.Med = 0)
      ∧ (text.noValue "local-preference" .digit a → attrs.LocalPreference = 0)
      ∧ (∀ pre ds post : List Char,
          a.data = pre ++ ("med ".data ++ (ds ++ post)) → text.atBoundary pre = true →
          ds ≠ [] → (∀ x ∈ ds, regexp.isDigit x = true) → post.takeWhile regexp.isDigit = [] →
          (∀ j, j < pre.length → ¬ text.valueAt "med" .digit a.data j) →
          (2 ^ 63 ≤ strconv.digitsValue ds → attrs.Med = 0)
          ∧ (strconv.digitsValue ds < 2 ^ 63 → attrs.Med = (strconv.digitsValue ds : Int)))
      ∧ (∀ pre ds post : List Char,
          a.data = pre ++ ("local-preference ".data ++ (ds ++ post)) →
          text.atBoundary pre = true →
          ds ≠ [] → (∀ x ∈ ds, regexp.isDigit x = true) → post.takeWhile regexp.isDigit = [] →
          (∀ j, j < pre.length → ¬ text.valueAt "local-preference" .digit a.data j) →
          (2 ^ 63 ≤ strconv.digitsValue ds → attrs.LocalPreference = 0)
          ∧ (strconv.digitsValue ds < 2 ^ 63 →
              attrs.LocalPreference = (strconv.digitsValue ds : Int))) := by
  obtain ⟨attrs, h0, h1, _, _, _, _, _, _, h8⟩ := text.parseAttributes_fields a
  refine ⟨attrs, h0, ?_, ?_, ?_, ?_⟩
  · intro hno
    have hf : regexp.FindStringSubmatch text.rxParseAttributeMed a = none :=
      text.find_rxValue_none "med" "med" .digit a hno
    rw [text.withSubmatch_of_none _ _ _ _ hf] at h1
    exact (Option.some.inj h1).symm
  · intro hno
    have hf : regexp.FindStringSubmatch text.rxParseAttributeLocalPref a = none :=
      text.find_rxValue_none "local-preference" "localpreference" .digit a hno
    rw [text.withSubmatch_of_none _ _ _ _ hf] at h8
    exact (Option.some.inj h8).symm
  · intro pre ds post ha hb hne hall hstop hfirst
    have hnum := text.numeric_of_first "med" "med" a pre ds post (by decide) ha hb hne hall
      hstop hfirst
    have hnum1 : text.withSubmatch text.rxParseAttributeMed a (0 : Int)
        (fun v => match strconv.ParseInt v with
          | some x => x
          | none => 0)
        = some (if strconv.digitsValue ds < 2 ^ 63 then (strconv.digitsValue ds : Int) else 0) :=
      hnum
    rw [hnum1] at h1
    have hmed := (Option.some.inj h1).symm
    constructor
    · intro hr
      rw [hmed, if_neg (by omega)]
    · intro hr
      rw [hmed, if_pos hr]
  · intro pre ds post ha hb hne hall hstop hfirst
    have hnum := text.numeric_of_first "local-preference" "localpreference" a pre ds post
      (by decide) ha hb hne hall hstop hfirst
    have hnum1 : text.withSubmatch text.rxParseAttributeLocalPref a (0 : Int)
        (fun v => match strconv.ParseInt v with
          | some x => x
          | none => 0)
        = some (if strconv.digitsValue ds < 2 ^ 63 then (strconv.digitsValue ds : Int) else 0) :=
      hnum
    rw [hnum1] at h8
    have hlp := (Option.some.inj h8).symm
    constructor
    · intro hr
      rw [hlp, if_neg (by omega)]
    · intro hr
      rw [hlp, if_pos hr]

set_option maxRecDepth 100000 in
theorem text.unparsable_number_leaves_zero_witness :
    text.noValue "local-preference" .digit "med 99999999999999999999 origin igp"
    ∧ "med 99999999999999999999 origin igp".data
        = [] ++ ("med ".data ++ ("99999999999999999999".data ++ " origin igp".data))
    ∧ 2 ^ 63 ≤ strconv.digitsValue "99999999999999999999".data
    ∧ ∃ attrs, text.parseAttributes "med 99999999999999999999 origin igp" = some attrs
        ∧ attrs.LocalPreference = 0 ∧ attrs.Med = 0 :=
  ⟨by decide, by decide, by decide,
    match text.unparsable_number_leaves_zero "med 99999999999999999999 origin igp" with
    | ⟨attrs, h0, _, h2, h3, _⟩ =>
      ⟨attrs, h0, h2 (by decide),
        (h3 [] "99999999999999999999".data " origin igp".data (by decide) (by decide)
          (by decide) (by decide) (by decide) (by decide)).1 (by decide)⟩⟩

/-! ## Package `strings`: splitting joined tokens -/

theorem strings.splitSpace_ne_nil (l : List Char) : strings.splitSpace l ≠ [] := by
  induction l with
  | nil => simp [strings.splitSpace]
  | cons c cs ih =>
    by_cases hc : c.toNat = 32
    · simp [strings.splitSpace, hc]
    · cases hs : strings.splitSpace cs with
      | nil => exact absurd hs ih
      | cons p ps => simp [strings.splitSpace, hc, hs]

theorem strings.splitSpace_token (t : List Char) (ht : ∀ c ∈ t, ¬ c.toNat = 32) :
    strings.splitSpace t = [t] := by
  induction t with
  | nil => rfl
  | cons c cs ih =>
    have hc : ¬ c.toNat = 32 := ht c (List.mem_cons_self _ _)
    have hcs := ih (fun x hx => ht x (List.mem_cons_of_mem _ hx))
    simp [strings.splitSpace, hc, hcs]

theorem strings.splitSpace_token_space (t rest : List Char) (sp : Char) (hsp : sp.toNat = 32)
    (ht : ∀ c ∈ t, ¬ c.toNat = 32) :
    strings.splitSpace (t ++ sp :: rest) = t :: strings.splitSpace rest := by
  induction t with
  | nil => simp [strings.splitSpace, hsp]
  | cons c cs ih =>
    have hc : ¬ c.toNat = 32 := ht c (List.mem_cons_self _ _)
    have hcs := ih (fun x hx => ht x (List.mem_cons_of_mem _ hx))
    simp [strings.splitSpace, hc, hcs]

theorem text.joinTokens_cons (t t1 : String) (ts : List String) :
    (text.joinTokens (t :: t1 :: ts)).data
      = t.data ++ (Char.ofNat 32 :: (text.joinTokens (t1 :: ts)).data) := by
  rw [text.joinTokens]
  · simp only [String.data_append, List.append_assoc]
    rfl
  · simp

theorem text.notSpace32 (c : Char) (h : regexp.isSpace c = false) : ¬ c.toNat = 32 := by
  intro hc
  simp [regexp.isSpace, hc] at h

/-- The call `strings.Split(s, " ")` on tokens joined by single spaces gives
the tokens back. -/
theorem strings.Split_joinTokens :
    ∀ ts : List String, ts ≠ [] → (∀ t ∈ ts, ∀ c ∈ t.data, regexp.isSpace c = false) →
      strings.Split (text.joinTokens ts) = ts := by
  intro ts
  induction ts with
  | nil => intro h; exact absurd rfl h
  | cons t ts ih =>
    intro _ hall
    have ht : ∀ c ∈ t.data, ¬ c.toNat = 32 :=
      fun c hc => text.notSpace32 c (hall t (List.mem_cons_self _ _) c hc)
    cases ts with
    | nil =>
      simp only [strings.Split, text.joinTokens, strings.splitSpace_token t.data ht,
        List.map_cons, List.map_nil]
    | cons t1 ts1 =>
      have hrec := ih (by simp) (fun x hx => hall x (List.mem_cons_of_mem _ hx))
      unfold strings.Split at hrec ⊢
      rw [text.joinTokens_cons, strings.splitSpace_token_space _ _ _ (by decide) ht,
        List.map_cons, hrec]

theorem text.joinTokens_mem :
    ∀ (ts : List String) (x : Char), x ∈ (text.joinTokens ts).data →
      x.toNat = 32 ∨ ∃ t ∈ ts, x ∈ t.data := by
  intro ts
  induction ts with
  | nil => intro x hx; simp [text.joinTokens] at hx
  | cons t ts ih =>
    intro x hx
    cases ts with
    | nil =>
      right
      exact ⟨t, List.mem_cons_self _ _, by simpa [text.joinTokens] using hx⟩
    | cons t1 ts1 =>
      rw [text.joinTokens_cons] at hx
      rcases List.mem_append.mp hx with hx | hx
      · right
        exact ⟨t, List.mem_cons_self _ _, hx⟩
      · rcases List.mem_cons.mp hx with hx | hx
        · left
          rw [hx]
          rfl
        · rcases ih x hx with h32 | ⟨u, hu, hxu⟩
          · exact Or.inl h32
          · exact Or.inr ⟨u, List.mem_cons_of_mem _ hu, hxu⟩

theorem text.joinTokens_ne_nil (ts : List String) (hne : ts ≠ [])
    (hall : ∀ t ∈ ts, t ≠ "") : (text.joinTokens ts).data ≠ [] := by
  cases ts with
  | nil => exact absurd rfl hne
  | cons t ts =>
    have ht := text.data_ne_nil t (hall t (List.mem_cons_self _ _))
    cases ts with
    | nil => simpa [text.joinTokens] using ht
    | cons t1 ts1 =>
      rw [text.joinTokens_cons]
      simp [ht]

/-- The text of a list of list tokens is a body for the list patterns: not
empty and without a closing bracket. -/
theorem text.joinTokens_body (ts : List String) (hne : ts ≠ [])
    (hall : ∀ t ∈ ts, text.isListToken t) :
    (text.joinTokens ts).data ≠ []
    ∧ (∀ x ∈ (text.joinTokens ts).data, regexp.Class.notRBracket.mem x = true)
    ∧ strings.Split (text.joinTokens ts) = ts := by
  refine ⟨text.joinTokens_ne_nil ts hne (fun t ht => (hall t ht).1), ?_,
    strings.Split_joinTokens ts hne (fun t ht c hc => ((hall t ht).2 c hc).1)⟩
  intro x hx
  rcases text.joinTokens_mem ts x hx with h32 | ⟨t, ht, hxt⟩
  · simp [regexp.Class.mem, h32]
  · have := ((hall t ht).2 x hxt).2
    simp [regexp.Class.mem, this]

theorem text.takeWhile_of_endsToken (post : List Char) (h : text.endsToken post = true) :
    post.takeWhile regexp.Class.notSpace.mem = [] := by
  cases post with
  | nil => rfl
  | cons x xs =>
    have hx : regexp.isSpace x = true := h
    simp [List.takeWhile_cons, regexp.Class.mem, hx]

/-! ## Package `text`: the community blocks -/

/-- The community block on a fragment without a bracketed list of the keyword
whose first value of the keyword is the bare token `t`: the list `[t]`. -/
theorem text.parseCommunity_bare (kw nameL nameO : String) (a : String) (pre : List Char)
    (t : String) (post : List Char) (hkw : text.isToken kw)
    (ha : a.data = pre ++ ((kw ++ " ").data ++ (t.data ++ post)))
    (hb : text.atBoundary pre = true) (ht : text.isToken t)
    (hpost : text.endsToken post = true) (hnolist : text.noList kw a)
    (hfirst : ∀ j, j < pre.length → ¬ text.valueAt kw .notSpace a.data j) :
    text.parseCommunity (text.rxBracketed kw nameL) (text.rxValue kw nameO .notSpace) a
      = some [t] := by
  obtain ⟨whole, hf⟩ := text.find_rxValue_first kw nameO .notSpace a pre t.data post hkw ha hb
    (text.data_ne_nil t ht.1) (text.notSpace_of_token t.data ht.2)
    (text.takeWhile_of_endsToken post hpost) hfirst
  rw [text.parseCommunity_of_no_list _ _ _ (text.find_rxBracketed_none kw nameL a hnolist),
    text.withSubmatch_of_find _ _ _ _ whole _ hf]

/-- The community block on a fragment whose first bracketed list of the
keyword holds the tokens `ts`: the list `ts`, whatever bare values of the
keyword the fragment holds. -/
theorem text.parseCommunity_tokens (kw nameL nameO : String) (a : String) (pre : List Char)
    (ts : List String) (post : List Char) (hkw : text.isToken kw)
    (ha : a.data
      = pre ++ ((kw ++ " [ ").data ++ ((text.joinTokens ts).data ++ (" ]".data ++ post))))
    (hb : text.atBoundary pre = true) (hne : ts ≠ []) (hall : ∀ t ∈ ts, text.isListToken t)
    (hfirst : ∀ j, j < pre.length → ¬ text.listAt kw a.data j) :
    text.parseCommunity (text.rxBracketed kw nameL) (text.rxValue kw nameO .notSpace) a
      = some ts := by
  obtain ⟨h1, h2, h3⟩ := text.joinTokens_body ts hne hall
  obtain ⟨whole, hf⟩ := text.find_rxBracketed_first kw nameL a pre _ post hkw ha hb h1 h2 hfirst
  rw [text.parseCommunity_of_list _ _ _ whole _ hf]
  have he : String.mk (text.joinTokens ts).data = text.joinTokens ts := rfl
  rw [he, h3]

set_option maxRecDepth 100000 in
/-- Claim C27, refuted as stated: the fragment "community a community b" holds
"community b" with the bare token b and no bracketed list, and `Community` is
the list of a, the token after the first occurrence of the keyword, not the
list of b; likewise "community [ a ] community [ b c ]" holds the list of b
and c, and `Community` is the list of a. -/
theorem text.community_first_occurrence_counterexample :
    text.parseAttributes "community a community b" = some { Community := ["a"] }
    ∧ text.noList "community" "community a community b"
    ∧ "community a community b".data = "community a ".data ++ ("community ".data ++ "b".data)
    ∧ text.atBoundary "community a ".data = true
    ∧ ¬ (∃ attrs, text.parseAttributes "community a community b" = some attrs
          ∧ attrs.Community = ["b"])
    ∧ text.parseAttributes "community [ a ] community [ b c ]" = some { Community := ["a"] } := by
  have h : text.parseAttributes "community a community b" = some { Community := ["a"] } := by
    decide
  refine ⟨h, by decide, by decide, by decide, ?_, by decide⟩
  rintro ⟨attrs, hattrs, hc⟩
  rw [h] at hattrs
  rw [← Option.some.inj hattrs] at hc
  exact absurd hc (by decide)

/-- Claim C27, as amended: for every attribute fragment without a bracketed
community list whose first occurrence of the keyword `community` (at the start
or after whitespace) followed by a value is "community t" with `t` a single
bare token, `Community` is the one-element list of `t`; for every fragment
whose first bracketed community list is "community [ t1 ... tk ]" (k >= 1,
tokens without whitespace and without a closing bracket, separated by single
spaces), `Community` is the list of `t1`, ..., `tk` in order, whatever bare
form the fragment holds; the same holds for `extended-community` and
`ExtendedCommunity`. -/
theorem text.community_of_first_occurrence (a : String) :
    ∃ attrs, text.parseAttributes a = some attrs
      ∧ (∀ (pre : List Char) (t : String) (post : List Char),
          a.data = pre ++ ("community ".data ++ (t.data ++ post)) →
          text.atBoundary pre = true → text.isToken t → text.endsToken post = true →
          text.noList "community" a →
          (∀ j, j < pre.length → ¬ text.valueAt "community" .notSpace a.data j) →
          attrs.Community = [t])
      ∧ (∀ (pre : List Char) (ts : List String) (post : List Char),
          a.data = pre ++ ("community [ ".data
            ++ ((text.joinTokens ts).data ++ (" ]".data ++ post))) →
          text.atBoundary pre = true → ts ≠ [] → (∀ t ∈ ts, text.isListToken t) →
          (∀ j, j < pre.length → ¬ text.listAt "community" a.data j) →
          attrs.Community = ts)
      ∧ (∀ (pre : List Char) (t : String) (post : List Char),
          a.data = pre ++ ("extended-community ".data ++ (t.data ++ post)) →
          text.atBoundary pre = true → text.isToken t → text.endsToken post = true →
          text.noList "extended-community" a →
          (∀ j, j < pre.length → ¬ text.valueAt "extended-community" .notSpace a.data j) →
          attrs.ExtendedCommunity = [t])
      ∧ (∀ (pre : List Char) (ts : List String) (post : List Char),
          a.data = pre ++ ("extended-community [ ".data
            ++ ((text.joinTokens ts).data ++ (" ]".data ++ post))) →
          text.atBoundary pre = true → ts ≠ [] → (∀ t ∈ ts, text.isListToken t) →
          (∀ j, j < pre.length → ¬ text.listAt "extended-community" a.data j) →
          attrs.ExtendedCommunity = ts) := by
  obtain ⟨attrs, h0, _, _, _, _, h5, h6, _, _⟩ := text.parseAttributes_fields a
  refine ⟨attrs, h0, ?_, ?_, ?_, ?_⟩
  · intro pre t post ha hb ht hpost hnolist hfirst
    have hc : text.parseCommunity text.rxParseAttributeCommunities
        text.rxParseAttributeCommunity a = some [t] :=
      text.parseCommunity_bare "community" "communities" "community" a pre t post (by decide)
        ha hb ht hpost hnolist hfirst
    rw [hc] at h5
    exact (Option.some.inj h5).symm
  · intro pre ts post ha hb hne hall hfirst
    have hc : text.parseCommunity text.rxParseAttributeCommunities
        text.rxParseAttributeCommunity a = some ts :=
      text.parseCommunity_tokens "community" "communities" "community" a pre ts post
        (by decide) ha hb hne hall hfirst
    rw [hc] at h5
    exact (Option.some.inj h5).symm
  · intro pre t post ha hb ht hpost hnolist hfirst
    have hc : text.parseCommunity text.rxParseAttributeExtendedCommunities
        text.rxParseAttributeExtendedCommunity a = some [t] :=
      text.parseCommunity_bare "extended-community" "extendedcommunities" "extendedcommunity"
        a pre t post (by decide) ha hb ht hpost hnolist hfirst
    rw [hc] at h6
    exact (Option.some.inj h6).symm
  · intro pre ts post ha hb hne hall hfirst
    have hc : text.parseCommunity text.rxParseAttributeExtendedCommunities
        text.rxParseAttributeExtendedCommunity a = some ts :=
      text.parseCommunity_tokens "extended-community" "extendedcommunities"
        "extendedcommunity" a pre ts post (by decide) ha hb hne hall hfirst
    rw [hc] at h6
    exact (Option.some.inj h6).symm

set_option maxRecDepth 100000 in
theorem text.community_of_first_occurrence_witness :
    "med 5 community 54591:123".data
        = "med 5 ".data ++ ("community ".data ++ ("54591:123".data ++ []))
    ∧ text.isToken "54591:123" ∧ text.noList "community" "med 5 community 54591:123"
    ∧ (∀ j, j < "med 5 ".data.length →
        ¬ text.valueAt "community" .notSpace "med 5 community 54591:123".data j)
    ∧ (∃ attrs, text.parseAttributes "med 5 community 54591:123" = some attrs
        ∧ attrs.Community = ["54591:123"])
    ∧ "community x community [ 54591:123 64512:1 ]".data
        = "community x ".data ++ ("community [ ".data
            ++ ((text.joinTokens ["54591:123", "64512:1"]).data ++ (" ]".data ++ [])))
    ∧ (∀ t ∈ ["54591:123", "64512:1"], text.isListToken t)
    ∧ (∀ j, j < "community x ".data.length →
        ¬ text.listAt "community" "community x community [ 54591:123 64512:1 ]".data j)
    ∧ (∃ attrs, text.parseAttributes "community x community [ 54591:123 64512:1 ]" = some attrs
        ∧ attrs.Community = ["54591:123", "64512:1"]) :=
  ⟨by decide, by decide, by decide, by decide,
    (match text.community_of_first_occurrence "med 5 community 54591:123" with
    | ⟨attrs, h0, h1, _⟩ =>
      ⟨attrs, h0, h1 "med 5 ".data "54591:123" [] (by decide) (by decide) (by decide)
        (by decide) (by decide) (by decide)⟩),
    by decide, by decide, by decide,
    (match text.community_of_first_occurrence "community x community [ 54591:123 64512:1 ]" with
    | ⟨attrs, h0, _, h2, _⟩ =>
      ⟨attrs, h0, h2 "community x ".data ["54591:123", "64512:1"] [] (by decide) (by decide)
        (by decide) (by decide) (by decide)⟩)⟩

/-! ## Package `text`: keywords in a fragment of tokens -/

theorem text.joinTokens_cons_after (t : String) (r : List String) :
    (text.joinTokens (t :: r)).data = t.data ++ text.afterToken r := by
  cases r with
  | nil => simp [text.joinTokens, text.afterToken]
  | cons t1 r1 => rw [text.joinTokens_cons, text.afterToken]

theorem text.endsToken_afterToken (r : List String) :
    text.endsToken (text.afterToken r) = true := by
  cases r with
  | nil => rfl
  | cons t1 r1 => rfl

theorem text.joinTokens_append (l r : List String) (hr : r ≠ []) :
    (text.joinTokens (l ++ r)).data = text.spaced l ++ (text.joinTokens r).data := by
  induction l with
  | nil => rfl
  | cons t l ih =>
    cases hlr : l ++ r with
    | nil =>
      have := List.append_eq_nil.mp hlr
      exact absurd this.2 hr
    | cons x xs =>
      rw [List.cons_append, hlr, text.joinTokens_cons, ← hlr, ih, text.spaced]
      simp

theorem text.atBoundary_spaced (l : List String) : text.atBoundary (text.spaced l) = true := by
  induction l with
  | nil => rfl
  | cons t l ih =>
    cases l with
    | nil =>
      have h : text.spaced [t] = t.data ++ [Char.ofNat 32] := rfl
      rw [h]
      exact text.atBoundary_append _ _ (by simp) (by
        intro y hy
        rw [List.mem_singleton.mp hy]
        rfl)
    | cons t1 l1 =>
      have h : text.spaced (t :: t1 :: l1)
          = (t.data ++ [Char.ofNat 32]) ++ text.spaced (t1 :: l1) := by
        rw [text.spaced]
        simp
      have hne : text.spaced (t1 :: l1) ≠ [] := by
        rw [text.spaced]
        simp
      rw [h]
      unfold text.atBoundary at ih ⊢
      rw [List.getLast?_append_of_ne_nil _ hne]
      exact ih

theorem text.spaced_eq (ts : List String) (hne : ts ≠ []) :
    text.spaced ts = (text.joinTokens ts).data ++ [Char.ofNat 32] := by
  induction ts with
  | nil => exact absurd rfl hne
  | cons t ts ih =>
    cases ts with
    | nil => simp [text.spaced, text.joinTokens]
    | cons t1 ts1 =>
      rw [text.spaced, ih (by simp), text.joinTokens_cons]
      simp

/-- A text that starts with a token starts with that token only: two splits
of a text into a whitespace-free part and a rest that is empty or starts with
whitespace are equal. -/
theorem text.token_split_unique (t1 t2 x y : List Char)
    (h1 : ∀ c ∈ t1, regexp.isSpace c = false) (h2 : ∀ c ∈ t2, regexp.isSpace c = false)
    (hx : text.endsToken x = true) (hy : text.endsToken y = true)
    (h : t1 ++ x = t2 ++ y) : t1 = t2 ∧ x = y := by
  have e1 := regexp.takeWhile_token regexp.Class.notSpace.mem t1 x
    (text.notSpace_of_token t1 h1) (text.takeWhile_of_endsToken x hx)
  have e2 := regexp.takeWhile_token regexp.Class.notSpace.mem t2 y
    (text.notSpace_of_token t2 h2) (text.takeWhile_of_endsToken y hy)
  rw [h, e2] at e1
  subst e1
  exact ⟨rfl, List.append_cancel_left h⟩

/-- An occurrence of a keyword and a space, at the start or after whitespace,
in the text of tokens joined by single spaces is a token of the list that is
the keyword, with tokens after it. -/
theorem text.token_occurrence (kw : String) (hkw : text.isToken kw) :
    ∀ (toks : List String), (∀ t ∈ toks, text.isToken t) →
      ∀ (pre rest : List Char),
        (text.joinTokens toks).data = pre ++ ((kw ++ " ").data ++ rest) →
        text.atBoundary pre = true →
        ∃ l r, toks = l ++ kw :: r ∧ r ≠ [] ∧ pre = text.spaced l
          ∧ rest = (text.joinTokens r).data := by
  have hkd : ∀ rest : List Char,
      (kw ++ " ").data ++ rest = kw.data ++ (Char.ofNat 32 :: rest) := by
    intro rest
    simp only [String.data_append, List.append_assoc]
    rfl
  intro toks
  induction toks with
  | nil =>
    intro _ pre rest h _
    exfalso
    have hlen := congrArg List.length h
    simp [text.joinTokens] at hlen
    omega
  | cons t ts ih =>
    intro htok pre rest h hb
    have ht := htok t (List.mem_cons_self _ _)
    rw [text.joinTokens_cons_after, hkd] at h
    rcases text.atBoundary_cases pre hb with hnil | ⟨init, last, hp, hlast⟩
    · subst hnil
      rw [List.nil_append] at h
      obtain ⟨e1, e2⟩ := text.token_split_unique t.data kw.data (text.afterToken ts)
        (Char.ofNat 32 :: rest) ht.2 hkw.2 (text.endsToken_afterToken ts) rfl h
      have hts : ts ≠ [] := by
        intro hnil
        rw [hnil] at e2
        simp [text.afterToken] at e2
      have htk : t = kw := String.ext e1
      refine ⟨[], ts, by rw [htk]; rfl, hts, rfl, ?_⟩
      cases ts with
      | nil => exact absurd rfl hts
      | cons t1 ts1 =>
        simp only [text.afterToken, List.cons.injEq, true_and] at e2
        exact e2.symm
    · rcases List.append_eq_append_iff.mp h with ⟨a1, ha1, ha2⟩ | ⟨c1, hc1, _⟩
      · -- the text before the keyword goes beyond the first token
        have ha1ne : a1 ≠ [] := by
          intro hnil
          rw [hnil, List.append_nil] at ha1
          have hmem : last ∈ t.data := by
            rw [← ha1, hp]
            simp
          have := ht.2 last hmem
          rw [hlast] at this
          exact Bool.noConfusion this
        cases ts with
        | nil =>
          simp only [text.afterToken] at ha2
          have := List.append_eq_nil.mp ha2.symm
          exact absurd this.1 ha1ne
        | cons t1 ts1 =>
          cases a1 with
          | nil => exact absurd rfl ha1ne
          | cons s pre1 =>
            simp only [text.afterToken, List.cons_append, List.cons.injEq] at ha2
            obtain ⟨hs, hrest⟩ := ha2
            have hb1 : text.atBoundary pre1 = true := by
              by_cases hpre1 : pre1 = []
              · rw [hpre1]
                rfl
              · have hsplit : pre = (t.data ++ [s]) ++ pre1 := by
                  rw [ha1]
                  simp
                unfold text.atBoundary at hb ⊢
                rw [hsplit, List.getLast?_append_of_ne_nil _ hpre1] at hb
                exact hb
            have hrest1 : (text.joinTokens (t1 :: ts1)).data
                = pre1 ++ ((kw ++ " ").data ++ rest) := by
              rw [hrest, hkd]
            obtain ⟨l, r, g1, g2, g3, g4⟩ := ih (fun x hx => htok x (List.mem_cons_of_mem _ hx))
              pre1 rest hrest1 hb1
            refine ⟨t :: l, r, by rw [g1]; rfl, g2, ?_, g4⟩
            rw [ha1, text.spaced, ← g3, ← hs]
      · -- the first token would hold the whitespace before the keyword
        exfalso
        have hmem : last ∈ t.data := by
          rw [hc1, hp]
          simp
        have := ht.2 last hmem
        rw [hlast] at this
        exact Bool.noConfusion this

/-! ## Package `text`: the tokens of well-formed pairs -/

theorem text.tokensOf_append (ps qs : List text.Pair) :
    text.tokensOf (ps ++ qs) = text.tokensOf ps ++ text.tokensOf qs := by
  induction ps with
  | nil => rfl
  | cons p ps ih => simp [text.tokensOf, ih]

theorem text.keyword_mem (p : text.Pair) : p.keyword ∈ text.keywords := by
  cases p <;> simp [text.Pair.keyword, text.keywords]

theorem text.isToken_of_keyword (kw : String) (h : kw ∈ text.keywords) : text.isToken kw := by
  simp only [text.keywords, List.mem_cons, List.mem_singleton, List.not_mem_nil, or_false] at h
  rcases h with rfl | rfl | rfl | rfl | rfl | rfl | rfl | rfl <;> decide

theorem text.isToken_of_isDigits (t : String) (h : text.isDigits t) : text.isToken t := by
  refine ⟨h.1, ?_⟩
  intro c hc
  have hd := h.2 c hc
  have hd1 : 48 ≤ c.toNat ∧ c.toNat ≤ 57 := by
    simpa [regexp.isDigit] using hd
  have h9 : ¬ c.toNat = 9 := by omega
  have h10 : ¬ c.toNat = 10 := by omega
  have h12 : ¬ c.toNat = 12 := by omega
  have h13 : ¬ c.toNat = 13 := by omega
  have h32 : ¬ c.toNat = 32 := by omega
  simp [regexp.isSpace, h9, h10, h12, h13, h32]

theorem text.not_keyword_of_isDigits (t : String) (h : text.isDigits t) :
    t ∉ text.keywords := by
  intro hmem
  simp only [text.keywords, List.mem_cons, List.mem_singleton, List.not_mem_nil, or_false]
    at hmem
  rcases hmem with rfl | rfl | rfl | rfl | rfl | rfl | rfl | rfl <;> exact absurd h (by decide)

theorem text.listToken_digits (t : String) (h : text.isDigits t) : text.isListToken t := by
  refine ⟨h.1, ?_⟩
  intro c hc
  refine ⟨(text.isToken_of_isDigits t h).2 c hc, ?_⟩
  have hd := h.2 c hc
  have hd1 : 48 ≤ c.toNat ∧ c.toNat ≤ 57 := by
    simpa [regexp.isDigit] using hd
  omega

theorem text.isToken_of_isListToken (t : String) (h : text.isListToken t) : text.isToken t :=
  ⟨h.1, fun c hc => (h.2 c hc).1⟩

/-- The tokens of the list of a well-formed list pair. -/
theorem text.bracketed_mem (ts : List String) (t : String)
    (h : t ∈ "[" :: (ts ++ ["]"])) : t = "[" ∨ t = "]" ∨ t ∈ ts := by
  simp only [List.mem_cons, List.mem_append, List.mem_singleton, List.not_mem_nil, or_false]
    at h
  rcases h with h | h | h
  · exact Or.inl h
  · exact Or.inr (Or.inr h)
  · exact Or.inr (Or.inl h)

theorem text.value_token (p : text.Pair) (hp : p.wellFormed) :
    ∀ t ∈ p.value, text.isToken t ∧ t ∉ text.keywords := by
  intro t ht
  cases p with
  | origin v =>
    simp only [text.Pair.value, List.mem_singleton] at ht
    subst ht
    exact hp
  | med v =>
    simp only [text.Pair.value, List.mem_singleton] at ht
    subst ht
    exact ⟨text.isToken_of_isDigits _ hp.1, text.not_keyword_of_isDigits _ hp.1⟩
  | localPreference v =>
    simp only [text.Pair.value, List.mem_singleton] at ht
    subst ht
    exact ⟨text.isToken_of_isDigits _ hp.1, text.not_keyword_of_isDigits _ hp.1⟩
  | asPath ns =>
    rcases text.bracketed_mem ns t ht with h | h | h
    · subst h; exact ⟨by decide, by decide⟩
    · subst h; exact ⟨by decide, by decide⟩
    · exact ⟨text.isToken_of_isDigits _ (hp.2 t h).1, text.not_keyword_of_isDigits _ (hp.2 t h).1⟩
  | community v =>
    simp only [text.Pair.value, List.mem_singleton] at ht
    subst ht
    exact ⟨hp.1, hp.2.1⟩
  | communities ts =>
    rcases text.bracketed_mem ts t ht with h | h | h
    · subst h; exact ⟨by decide, by decide⟩
    · subst h; exact ⟨by decide, by decide⟩
    · exact ⟨text.isToken_of_isListToken _ (hp.2 t h).1, (hp.2 t h).2⟩
  | extendedCommunity v =>
    simp only [text.Pair.value, List.mem_singleton] at ht
    subst ht
    exact ⟨hp.1, hp.2.1⟩
  | extendedCommunities ts =>
    rcases text.bracketed_mem ts t ht with h | h | h
    · subst h; exact ⟨by decide, by decide⟩
    · subst h; exact ⟨by decide, by decide⟩
    · exact ⟨text.isToken_of_isListToken _ (hp.2 t h).1, (hp.2 t h).2⟩
  | clusterList ts =>
    rcases text.bracketed_mem ts t ht with h | h | h
    · subst h; exact ⟨by decide, by decide⟩
    · subst h; exact ⟨by decide, by decide⟩
    · exact ⟨text.isToken_of_isListToken _ (hp.2 t h).1, (hp.2 t h).2⟩
  | originatorID v =>
    simp only [text.Pair.value, List.mem_singleton] at ht
    subst ht
    exact hp

theorem text.value_ne_nil (p : text.Pair) : p.value ≠ [] := by
  cases p <;> simp [text.Pair.value]

theorem text.tokensOf_isToken (pairs : List text.Pair) (h : ∀ p ∈ pairs, p.wellFormed) :
    ∀ t ∈ text.tokensOf pairs, text.isToken t := by
  induction pairs with
  | nil => intro t ht; simp [text.tokensOf] at ht
  | cons p ps ih =>
    intro t ht
    simp only [text.tokensOf, text.Pair.tokens, List.cons_append, List.mem_cons,
      List.mem_append] at ht
    rcases ht with ht | ht | ht
    · rw [ht]
      exact text.isToken_of_keyword _ (text.keyword_mem p)
    · exact (text.value_token p (h p (List.mem_cons_self _ _)) t ht).1
    · exact ih (fun q hq => h q (List.mem_cons_of_mem _ hq)) t ht

/-- A token of the fragment that is a keyword is the keyword of a pair. -/
theorem text.keyword_token_split (kw : String) (hkw : kw ∈ text.keywords) :
    ∀ (pairs : List text.Pair), (∀ p ∈ pairs, p.wellFormed) →
      ∀ (l r : List String), text.tokensOf pairs = l ++ kw :: r →
      ∃ ps1 p ps2, pairs = ps1 ++ p :: ps2 ∧ p.keyword = kw ∧ l = text.tokensOf ps1
        ∧ r = p.value ++ text.tokensOf ps2 := by
  intro pairs
  induction pairs with
  | nil =>
    intro _ l r h
    simp [text.tokensOf] at h
  | cons p ps ih =>
    intro hwf l r h
    have hps : ∀ q ∈ ps, q.wellFormed := fun q hq => hwf q (List.mem_cons_of_mem _ hq)
    simp only [text.tokensOf, text.Pair.tokens, List.cons_append] at h
    cases l with
    | nil =>
      simp only [List.nil_append, List.cons.injEq] at h
      exact ⟨[], p, ps, rfl, h.1, rfl, h.2.symm⟩
    | cons x l1 =>
      simp only [List.cons_append, List.cons.injEq] at h
      obtain ⟨hx, hrest⟩ := h
      rcases List.append_eq_append_iff.mp hrest with ⟨a1, ha1, ha2⟩ | ⟨c1, hc1, hc2⟩
      · obtain ⟨ps1, q, ps2, g1, g2, g3, g4⟩ := ih hps a1 r ha2
        refine ⟨p :: ps1, q, ps2, by rw [g1]; rfl, g2, ?_, g4⟩
        rw [ha1, g3, ← hx]
        rfl
      · cases c1 with
        | nil =>
          simp only [List.nil_append] at hc2
          simp only [List.append_nil] at hc1
          obtain ⟨ps1, q, ps2, g1, g2, g3, g4⟩ := ih hps [] r hc2.symm
          refine ⟨p :: ps1, q, ps2, by rw [g1]; rfl, g2, ?_, g4⟩
          rw [← hx, ← hc1]
          simp [text.tokensOf, text.Pair.tokens, ← g3]
        | cons y c2 =>
          exfalso
          simp only [List.cons_append, List.cons.injEq] at hc2
          have hmem : kw ∈ p.value := by
            rw [hc1, hc2.1]
            simp
          exact (text.value_token p (hwf p (List.mem_cons_self _ _)) kw hmem).2 hkw

/-- With each keyword at most once, the pair of a keyword stands at one place
only. -/
theorem text.split_unique_of_nodup :
    ∀ (ps1 qs1 : List text.Pair) (p q : text.Pair) (ps2 qs2 : List text.Pair),
      ((ps1 ++ p :: ps2).map text.Pair.keyword).Nodup →
      ps1 ++ p :: ps2 = qs1 ++ q :: qs2 → p.keyword = q.keyword →
      ps1 = qs1 ∧ p = q ∧ ps2 = qs2 := by
  intro ps1
  induction ps1 with
  | nil =>
    intro qs1 p q ps2 qs2 hnd h hk
    cases qs1 with
    | nil =>
      simp only [List.nil_append, List.cons.injEq] at h
      exact ⟨rfl, h.1, h.2⟩
    | cons x qs =>
      exfalso
      simp only [List.nil_append, List.cons_append, List.cons.injEq] at h
      obtain ⟨hpx, hps2⟩ := h
      simp only [List.nil_append, List.map_cons, List.nodup_cons] at hnd
      apply hnd.1
      rw [hps2, hk]
      simp
  | cons x ps ih =>
    intro qs1 p q ps2 qs2 hnd h hk
    cases qs1 with
    | nil =>
      exfalso
      simp only [List.nil_append, List.cons_append, List.cons.injEq] at h
      obtain ⟨hxq, hrest⟩ := h
      simp only [List.cons_append, List.map_cons, List.nodup_cons] at hnd
      apply hnd.1
      rw [hxq, ← hk]
      simp
    | cons y qs =>
      simp only [List.cons_append, List.cons.injEq] at h
      obtain ⟨hxy, hrest⟩ := h
      simp only [List.cons_append, List.map_cons, List.nodup_cons] at hnd
      obtain ⟨g1, g2, g3⟩ := ih qs p q ps2 qs2 hnd.2 hrest hk
      exact ⟨by rw [hxy, g1], g2, g3⟩

/-! ## Package `text`: the place of a pair in a well-formed fragment -/

theorem text.keyword_space (kw : String) (rest : List Char) :
    (kw ++ " ").data ++ rest = kw.data ++ (Char.ofNat 32 :: rest) := by
  simp only [String.data_append, List.append_assoc]
  rfl

theorem text.fragment_split (qs1 : List text.Pair) (p0 : text.Pair) (qs2 : List text.Pair) :
    (text.fragmentOf (qs1 ++ p0 :: qs2)).data
      = text.spaced (text.tokensOf qs1)
        ++ ((p0.keyword ++ " ").data
          ++ (text.joinTokens (p0.value ++ text.tokensOf qs2)).data) := by
  have htok : text.tokensOf (qs1 ++ p0 :: qs2)
      = text.tokensOf qs1 ++ (p0.keyword :: (p0.value ++ text.tokensOf qs2)) := by
    rw [text.tokensOf_append]
    rfl
  have hne : p0.value ++ text.tokensOf qs2 ≠ [] := by
    intro h
    exact text.value_ne_nil p0 (List.append_eq_nil.mp h).1
  rw [text.fragmentOf, htok, text.joinTokens_append _ _ (by simp), text.joinTokens_cons_after,
    text.keyword_space]
  cases hv : p0.value ++ text.tokensOf qs2 with
  | nil => exact absurd hv hne
  | cons x xs => rfl

/-- In a well-formed fragment with each keyword at most once, the keyword of a
pair occurs at one place only: after the tokens of the pairs before it, and
with the value of the pair and the tokens of the pairs after it behind it. -/
theorem text.pair_occurrence (qs1 : List text.Pair) (p0 : text.Pair) (qs2 : List text.Pair)
    (hwf : ∀ p ∈ qs1 ++ p0 :: qs2, p.wellFormed)
    (hnd : ((qs1 ++ p0 :: qs2).map text.Pair.keyword).Nodup)
    (pre rest : List Char)
    (h : (text.fragmentOf (qs1 ++ p0 :: qs2)).data = pre ++ ((p0.keyword ++ " ").data ++ rest))
    (hb : text.atBoundary pre = true) :
    pre = text.spaced (text.tokensOf qs1)
    ∧ rest = (text.joinTokens (p0.value ++ text.tokensOf qs2)).data := by
  have hkw := text.keyword_mem p0
  obtain ⟨l, r, g1, _, g3, g4⟩ := text.token_occurrence p0.keyword
    (text.isToken_of_keyword _ hkw) (text.tokensOf (qs1 ++ p0 :: qs2))
    (text.tokensOf_isToken _ hwf) pre rest h hb
  obtain ⟨ps1, p, ps2, k1, k2, k3, k4⟩ := text.keyword_token_split p0.keyword hkw _ hwf l r g1
  rw [k1] at hnd
  obtain ⟨e1, e2, e3⟩ := text.split_unique_of_nodup ps1 qs1 p p0 ps2 qs2 hnd k1.symm k2
  rw [g3, g4, k3, k4, e1, e2, e3]
  exact ⟨rfl, rfl⟩

/-- A value of the keyword of a pair of a well-formed fragment starts at the
place of the pair. -/
theorem text.pair_first (qs1 : List text.Pair) (p0 : text.Pair) (qs2 : List text.Pair)
    (hwf : ∀ p ∈ qs1 ++ p0 :: qs2, p.wellFormed)
    (hnd : ((qs1 ++ p0 :: qs2).map text.Pair.keyword).Nodup)
    (c : regexp.Class) (j : Nat)
    (h : text.valueAt p0.keyword c (text.fragmentOf (qs1 ++ p0 :: qs2)).data j) :
    j = (text.spaced (text.tokensOf qs1)).length
    ∧ (text.fragmentOf (qs1 ++ p0 :: qs2)).data.drop j
      = (p0.keyword ++ " ").data ++ (text.joinTokens (p0.value ++ text.tokensOf qs2)).data := by
  obtain ⟨rest1, h1, h2, _, h4, _⟩ := text.split_of_valueAt _ _ _ _ h
  obtain ⟨e1, e2⟩ := text.pair_occurrence qs1 p0 qs2 hwf hnd _ rest1 h1 h4
  constructor
  · rw [← e1, h2]
  · have hd : (text.fragmentOf (qs1 ++ p0 :: qs2)).data.drop j
        = (p0.keyword ++ " ").data ++ rest1 :=
      List.append_cancel_left ((List.take_append_drop j _).trans h1)
    rw [hd, e2]

/-- A well-formed fragment holds no value of a keyword that none of its pairs
has. -/
theorem text.absent_keyword (pairs : List text.Pair) (hwf : ∀ p ∈ pairs, p.wellFormed)
    (kw : String) (hkw : kw ∈ text.keywords) (habs : kw ∉ pairs.map text.Pair.keyword)
    (c : regexp.Class) : text.noValue kw c (text.fragmentOf pairs) := by
  intro j _ hocc
  obtain ⟨rest1, h1, _, _, h4, _⟩ := text.split_of_valueAt _ _ _ _ hocc
  obtain ⟨l, r, g1, _, _, _⟩ := text.token_occurrence kw (text.isToken_of_keyword _ hkw)
    (text.tokensOf pairs) (text.tokensOf_isToken _ hwf) _ rest1 h1 h4
  obtain ⟨ps1, p, ps2, k1, k2, _, _⟩ := text.keyword_token_split kw hkw _ hwf l r g1
  apply habs
  rw [k1, ← k2]
  simp

/-! ## Package `text`: what the patterns find in a well-formed fragment -/

theorem text.takeWhile_digit_of_endsToken (post : List Char) (h : text.endsToken post = true) :
    post.takeWhile regexp.Class.digit.mem = [] := by
  cases post with
  | nil => rfl
  | cons x xs =>
    have hx : regexp.isSpace x = true := h
    have hd : regexp.Class.digit.mem x = false := by
      cases hdig : regexp.Class.digit.mem x with
      | false => rfl
      | true =>
        have hd1 : 48 ≤ x.toNat ∧ x.toNat ≤ 57 := by
          simpa [regexp.Class.mem, regexp.isDigit] using hdig
        have h9 : ¬ x.toNat = 9 := by omega
        have h10 : ¬ x.toNat = 10 := by omega
        have h12 : ¬ x.toNat = 12 := by omega
        have h13 : ¬ x.toNat = 13 := by omega
        have h32 : ¬ x.toNat = 32 := by omega
        simp [regexp.isSpace, h9, h10, h12, h13, h32] at hx
    simp [List.takeWhile_cons, hd]

/-- The scalar pattern of the keyword of a pair with a one-token value finds
the token. -/
theorem text.find_pair_value (qs1 : List text.Pair) (p0 : text.Pair) (qs2 : List text.Pair)
    (hwf : ∀ p ∈ qs1 ++ p0 :: qs2, p.wellFormed)
    (hnd : ((qs1 ++ p0 :: qs2).map text.Pair.keyword).Nodup)
    (kw name : String) (hk : p0.keyword = kw) (c : regexp.Class) (t : String)
    (hval : p0.value = [t]) (hne : t.data ≠ []) (hall : ∀ x ∈ t.data, c.mem x = true)
    (hstop : ∀ post, text.endsToken post = true → post.takeWhile c.mem = []) :
    ∃ whole, regexp.FindStringSubmatch (text.rxValue kw name c)
      (text.fragmentOf (qs1 ++ p0 :: qs2)) = some [whole, t] := by
  subst hk
  have hdata := text.fragment_split qs1 p0 qs2
  rw [hval, List.singleton_append, text.joinTokens_cons_after] at hdata
  exact text.find_rxValue_first p0.keyword name c _ _ t.data _
    (text.isToken_of_keyword _ (text.keyword_mem p0)) hdata (text.atBoundary_spaced _) hne hall
    (hstop _ (text.endsToken_afterToken _))
    (fun j hj hocc => by
      have := (text.pair_first qs1 p0 qs2 hwf hnd c j hocc).1
      omega)

theorem text.list_text (kw : String) (ts r : List String) (hne : ts ≠ []) :
    (kw ++ " ").data ++ (text.joinTokens (("[" :: (ts ++ ["]"])) ++ r)).data
      = (kw ++ " [ ").data
        ++ ((text.joinTokens ts).data ++ (" ]".data ++ text.afterToken r)) := by
  have h1 : ("[" :: (ts ++ ["]"])) ++ r = "[" :: (ts ++ ("]" :: r)) := by simp
  have h2 : ts ++ ("]" :: r) ≠ [] := by simp
  rw [h1, text.joinTokens_cons_after]
  cases hts : ts ++ ("]" :: r) with
  | nil => exact absurd hts h2
  | cons x xs =>
    rw [text.afterToken, ← hts, text.joinTokens_append _ _ (by simp), text.spaced_eq ts hne,
      text.joinTokens_cons_after]
    simp only [String.data_append, List.append_assoc]
    rfl

/-- The list pattern of the keyword of a pair with a bracketed value finds the
text of the tokens of the list. -/
theorem text.find_pair_list (qs1 : List text.Pair) (p0 : text.Pair) (qs2 : List text.Pair)
    (hwf : ∀ p ∈ qs1 ++ p0 :: qs2, p.wellFormed)
    (hnd : ((qs1 ++ p0 :: qs2).map text.Pair.keyword).Nodup)
    (kw name : String) (hk : p0.keyword = kw) (ts : List String)
    (hval : p0.value = "[" :: (ts ++ ["]"])) (hne : ts ≠ [])
    (hall : ∀ t ∈ ts, text.isListToken t) :
    ∃ whole, regexp.FindStringSubmatch (text.rxBracketed kw name)
      (text.fragmentOf (qs1 ++ p0 :: qs2)) = some [whole, text.joinTokens ts] := by
  subst hk
  have hdata := text.fragment_split qs1 p0 qs2
  rw [hval, text.list_text _ _ _ hne] at hdata
  obtain ⟨h1, h2, _⟩ := text.joinTokens_body ts hne hall
  exact text.find_rxBracketed_first p0.keyword name _ _ (text.joinTokens ts).data _
    (text.isToken_of_keyword _ (text.keyword_mem p0)) hdata (text.atBoundary_spaced _) h1 h2
    (fun j hj hocc => by
      have := (text.pair_first qs1 p0 qs2 hwf hnd .notSpace j
        (text.valueAt_of_listAt _ _ _ hocc)).1
      omega)

/-- A fragment whose pair of a keyword has a one-token value other than the
opening bracket holds no bracketed list of the keyword. -/
theorem text.noList_of_bare (qs1 : List text.Pair) (p0 : text.Pair) (qs2 : List text.Pair)
    (hwf : ∀ p ∈ qs1 ++ p0 :: qs2, p.wellFormed)
    (hnd : ((qs1 ++ p0 :: qs2).map text.Pair.keyword).Nodup)
    (t : String) (hval : p0.value = [t]) (ht : text.isToken t) (hbr : t ≠ "[") :
    text.noList p0.keyword (text.fragmentOf (qs1 ++ p0 :: qs2)) := by
  intro j _ hocc
  obtain ⟨_, hdrop⟩ := text.pair_first qs1 p0 qs2 hwf hnd .notSpace j
    (text.valueAt_of_listAt _ _ _ hocc)
  obtain ⟨_, hpre, _⟩ := hocc
  obtain ⟨r, hr⟩ := List.isPrefixOf_iff_prefix.mp hpre
  rw [hdrop, hval, List.singleton_append, text.joinTokens_cons_after] at hr
  have hk : (p0.keyword ++ " [ ").data = (p0.keyword ++ " ").data ++ "[ ".data := by
    simp [String.data_append]
  rw [hk, List.append_assoc] at hr
  have hr1 : "[".data ++ (Char.ofNat 32 :: r) = t.data ++ text.afterToken (text.tokensOf qs2) := by
    exact List.append_cancel_left hr
  have hsp : text.endsToken (Char.ofNat 32 :: r) = true := rfl
  exact hbr (String.ext (text.token_split_unique "[".data t.data (Char.ofNat 32 :: r)
    (text.afterToken (text.tokensOf qs2)) (by decide) ht.2 hsp
    (text.endsToken_afterToken _) hr1).1.symm)

/-! ## Package `text`: the attributes of a well-formed fragment -/

theorem strconv.ParseInt_number (n : String) (h : text.isNumber n) :
    strconv.ParseInt n = some (strconv.digitsValue n.data : Int) := by
  have hp := strconv.ParseInt_digits n.data (text.data_ne_nil n h.1.1) h.1.2
  rw [if_pos h.2] at hp
  exact hp

theorem text.parseASPath_numbers (ns : List String) (hne : ns ≠ [])
    (hall : ∀ n ∈ ns, text.isNumber n) :
    text.parseASPath (text.joinTokens ns)
      = ns.map (fun n => (strconv.digitsValue n.data : Int)) := by
  have hsplit : strings.Split (text.joinTokens ns) = ns :=
    strings.Split_joinTokens ns hne
      (fun t ht => (text.isToken_of_isDigits t (hall t ht).1).2)
  have hfold : ∀ (f : List Int → String → List Int),
      (∀ acc n, text.isNumber n → f acc n = acc ++ [(strconv.digitsValue n.data : Int)]) →
      ∀ (l : List String) (acc : List Int), (∀ n ∈ l, text.isNumber n) →
        l.foldl f acc = acc ++ l.map (fun n => (strconv.digitsValue n.data : Int)) := by
    intro f hf l
    induction l with
    | nil => intro acc _; simp
    | cons n l ih =>
      intro acc hl
      rw [List.foldl_cons, hf acc n (hl n (List.mem_cons_self _ _)),
        ih _ (fun x hx => hl x (List.mem_cons_of_mem _ hx))]
      simp
  unfold text.parseASPath
  rw [hsplit, hfold _ _ ns [] hall]
  · simp
  · intro acc n hn
    simp only [strconv.ParseInt_number n hn]

/-- In the result of `parseAttributes` on a well-formed fragment, the field of
each pair holds the value of the pair. -/
theorem text.pair_sets (qs1 : List text.Pair) (p0 : text.Pair) (qs2 : List text.Pair)
    (hwf : ∀ p ∈ qs1 ++ p0 :: qs2, p.wellFormed)
    (hnd : ((qs1 ++ p0 :: qs2).map text.Pair.keyword).Nodup)
    (attrs : text.Attribute)
    (h1 : text.withSubmatch text.rxParseAttributeMed (text.fragmentOf (qs1 ++ p0 :: qs2))
        (0 : Int) (fun v => match strconv.ParseInt v with
          | some x => x
          | none => 0) = some attrs.Med)
    (h2 : text.withSubmatch text.rxParseAttributeOrigin (text.fragmentOf (qs1 ++ p0 :: qs2)) ""
        (fun v => v) = some attrs.Origin)
    (h3 : text.withSubmatch text.rxParseAttributeASPath (text.fragmentOf (qs1 ++ p0 :: qs2)) []
        text.parseASPath = some attrs.ASPath)
    (h4 : text.withSubmatch text.rxParseAttributeClusterList
        (text.fragmentOf (qs1 ++ p0 :: qs2)) [] strings.Split = some attrs.ClusterList)
    (h5 : text.parseCommunity text.rxParseAttributeCommunities text.rxParseAttributeCommunity
        (text.fragmentOf (qs1 ++ p0 :: qs2)) = some attrs.Community)
    (h6 : text.parseCommunity text.rxParseAttributeExtendedCommunities
        text.rxParseAttributeExtendedCommunity (text.fragmentOf (qs1 ++ p0 :: qs2))
        = some attrs.ExtendedCommunity)
    (h7 : text.withSubmatch text.rxParseAttributeOriginatorID
        (text.fragmentOf (qs1 ++ p0 :: qs2)) "" (fun v => v) = some attrs.OriginatorID)
    (h8 : text.withSubmatch text.rxParseAttributeLocalPref (text.fragmentOf (qs1 ++ p0 :: qs2))
        (0 : Int) (fun v => match strconv.ParseInt v with
          | some x => x
          | none => 0) = some attrs.LocalPreference) :
    p0.sets attrs := by
  have hp0 : p0.wellFormed := hwf p0 (by simp)
  cases p0 with
  | origin t =>
    obtain ⟨whole, hf⟩ := text.find_pair_value qs1 _ qs2 hwf hnd "origin" "origin" rfl
      .notSpace t rfl (text.data_ne_nil t hp0.1.1) (text.notSpace_of_token _ hp0.1.2)
      text.takeWhile_of_endsToken
    have hf1 : regexp.FindStringSubmatch text.rxParseAttributeOrigin
        (text.fragmentOf (qs1 ++ text.Pair.origin t :: qs2)) = some [whole, t] := hf
    rw [text.withSubmatch_of_find _ _ _ _ whole t hf1] at h2
    exact (Option.some.inj h2).symm
  | med ds =>
    obtain ⟨whole, hf⟩ := text.find_pair_value qs1 _ qs2 hwf hnd "med" "med" rfl
      .digit ds rfl (text.data_ne_nil ds hp0.1.1) hp0.1.2 text.takeWhile_digit_of_endsToken
    have hf1 : regexp.FindStringSubmatch text.rxParseAttributeMed
        (text.fragmentOf (qs1 ++ text.Pair.med ds :: qs2)) = some [whole, ds] := hf
    rw [text.withSubmatch_of_find _ _ _ _ whole ds hf1, strconv.ParseInt_number ds hp0] at h1
    exact (Option.some.inj h1).symm
  | localPreference ds =>
    obtain ⟨whole, hf⟩ := text.find_pair_value qs1 _ qs2 hwf hnd "local-preference"
      "localpreference" rfl .digit ds rfl (text.data_ne_nil ds hp0.1.1) hp0.1.2
      text.takeWhile_digit_of_endsToken
    have hf1 : regexp.FindStringSubmatch text.rxParseAttributeLocalPref
        (text.fragmentOf (qs1 ++ text.Pair.localPreference ds :: qs2)) = some [whole, ds] := hf
    rw [text.withSubmatch_of_find _ _ _ _ whole ds hf1, strconv.ParseInt_number ds hp0] at h8
    exact (Option.some.inj h8).symm
  | asPath ns =>
    obtain ⟨whole, hf⟩ := text.find_pair_list qs1 _ qs2 hwf hnd "as-path" "aspath" rfl ns rfl
      hp0.1 (fun t ht => text.listToken_digits t (hp0.2 t ht).1)
    have hf1 : regexp.FindStringSubmatch text.rxParseAttributeASPath
        (text.fragmentOf (qs1 ++ text.Pair.asPath ns :: qs2))
        = some [whole, text.joinTokens ns] := hf
    rw [text.withSubmatch_of_find _ _ _ _ whole _ hf1,
      text.parseASPath_numbers ns hp0.1 hp0.2] at h3
    exact (Option.some.inj h3).symm
  | community t =>
    obtain ⟨whole, hf⟩ := text.find_pair_value qs1 _ qs2 hwf hnd "community" "community" rfl
      .notSpace t rfl (text.data_ne_nil t hp0.1.1) (text.notSpace_of_token _ hp0.1.2)
      text.takeWhile_of_endsToken
    have hf1 : regexp.FindStringSubmatch text.rxParseAttributeCommunity
        (text.fragmentOf (qs1 ++ text.Pair.community t :: qs2)) = some [whole, t] := hf
    have hno := text.noList_of_bare qs1 _ qs2 hwf hnd t rfl hp0.1 hp0.2.2
    have hl : regexp.FindStringSubmatch text.rxParseAttributeCommunities
        (text.fragmentOf (qs1 ++ text.Pair.community t :: qs2)) = none :=
      text.find_rxBracketed_none "community" "communities" _ hno
    rw [text.parseCommunity_of_no_list _ _ _ hl,
      text.withSubmatch_of_find _ _ _ _ whole t hf1] at h5
    exact (Option.some.inj h5).symm
  | communities ts =>
    obtain ⟨whole, hf⟩ := text.find_pair_list qs1 _ qs2 hwf hnd "community" "communities" rfl
      ts rfl hp0.1 (fun t ht => (hp0.2 t ht).1)
    have hf1 : regexp.FindStringSubmatch text.rxParseAttributeCommunities
        (text.fragmentOf (qs1 ++ text.Pair.communities ts :: qs2))
        = some [whole, text.joinTokens ts] := hf
    rw [text.parseCommunity_of_list _ _ _ whole _ hf1,
      (text.joinTokens_body ts hp0.1 (fun t ht => (hp0.2 t ht).1)).2.2] at h5
    exact (Option.some.inj h5).symm
  | extendedCommunity t =>
    obtain ⟨whole, hf⟩ := text.find_pair_value qs1 _ qs2 hwf hnd "extended-community"
      "extendedcommunity" rfl .notSpace t rfl (text.data_ne_nil t hp0.1.1)
      (text.notSpace_of_token _ hp0.1.2) text.takeWhile_of_endsToken
    have hf1 : regexp.FindStringSubmatch text.rxParseAttributeExtendedCommunity
        (text.fragmentOf (qs1 ++ text.Pair.extendedCommunity t :: qs2)) = some [whole, t] := hf
    have hno := text.noList_of_bare qs1 _ qs2 hwf hnd t rfl hp0.1 hp0.2.2
    have hl : regexp.FindStringSubmatch text.rxParseAttributeExtendedCommunities
        (text.fragmentOf (qs1 ++ text.Pair.extendedCommunity t :: qs2)) = none :=
      text.find_rxBracketed_none "extended-community" "extendedcommunities" _ hno
    rw [text.parseCommunity_of_no_list _ _ _ hl,
      text.withSubmatch_of_find _ _ _ _ whole t hf1] at h6
    exact (Option.some.inj h6).symm
  | extendedCommunities ts =>
    obtain ⟨whole, hf⟩ := text.find_pair_list qs1 _ qs2 hwf hnd "extended-community"
      "extendedcommunities" rfl ts rfl hp0.1 (fun t ht => (hp0.2 t ht).1)
    have hf1 : regexp.FindStringSubmatch text.rxParseAttributeExtendedCommunities
        (text.fragmentOf (qs1 ++ text.Pair.extendedCommunities ts :: qs2))
        = some [whole, text.joinTokens ts] := hf
    rw [text.parseCommunity_of_list _ _ _ whole _ hf1,
      (text.joinTokens_body ts hp0.1 (fun t ht => (hp0.2 t ht).1)).2.2] at h6
    exact (Option.some.inj h6).symm
  | clusterList ts =>
    obtain ⟨whole, hf⟩ := text.find_pair_list qs1 _ qs2 hwf hnd "cluster-list" "clusterlist"
      rfl ts rfl hp0.1 (fun t ht => (hp0.2 t ht).1)
    have hf1 : regexp.FindStringSubmatch text.rxParseAttributeClusterList
        (text.fragmentOf (qs1 ++ text.Pair.clusterList ts :: qs2))
        = some [whole, text.joinTokens ts] := hf
    rw [text.withSubmatch_of_find _ _ _ _ whole _ hf1,
      (text.joinTokens_body ts hp0.1 (fun t ht => (hp0.2 t ht).1)).2.2] at h4
    exact (Option.some.inj h4).symm
  | originatorID t =>
    obtain ⟨whole, hf⟩ := text.find_pair_value qs1 _ qs2 hwf hnd "originator-id"
      "originatorid" rfl .notSpace t rfl (text.data_ne_nil t hp0.1.1)
      (text.notSpace_of_token _ hp0.1.2) text.takeWhile_of_endsToken
    have hf1 : regexp.FindStringSubmatch text.rxParseAttributeOriginatorID
        (text.fragmentOf (qs1 ++ text.Pair.originatorID t :: qs2)) = some [whole, t] := hf
    rw [text.withSubmatch_of_find _ _ _ _ whole t hf1] at h7
    exact (Option.some.inj h7).symm



/-- The result of `parseAttributes` on a well-formed fragment: the field of
each pair holds the value of the pair, the other fields are zero. -/
theorem text.pairs_result (pairs : List text.Pair) (hwf : ∀ p ∈ pairs, p.wellFormed)
    (hnd : (pairs.map text.Pair.keyword).Nodup) :
    ∃ attrs, text.parseAttributes (text.fragmentOf pairs) = some attrs
      ∧ (∀ p ∈ pairs, p.sets attrs)
      ∧ text.zeroOutside (pairs.map text.Pair.keyword) attrs := by
  obtain ⟨attrs, h0, h1, h2, h3, h4, h5, h6, h7, h8⟩ :=
    text.parseAttributes_fields (text.fragmentOf pairs)
  refine ⟨attrs, h0, ?_, ?_, ?_, ?_, ?_, ?_, ?_, ?_, ?_⟩
  · intro p hp
    obtain ⟨qs1, qs2, hsplit⟩ := List.append_of_mem hp
    subst hsplit
    exact text.pair_sets qs1 p qs2 hwf hnd attrs h1 h2 h3 h4 h5 h6 h7 h8
  · intro habs
    have hf : regexp.FindStringSubmatch text.rxParseAttributeOrigin (text.fragmentOf pairs)
        = none :=
      text.find_rxValue_none "origin" "origin" .notSpace _
        (text.absent_keyword pairs hwf _ (by decide) habs _)
    rw [text.withSubmatch_of_none _ _ _ _ hf] at h2
    exact (Option.some.inj h2).symm
  · intro habs
    have hf : regexp.FindStringSubmatch text.rxParseAttributeMed (text.fragmentOf pairs)
        = none :=
      text.find_rxValue_none "med" "med" .digit _
        (text.absent_keyword pairs hwf _ (by decide) habs _)
    rw [text.withSubmatch_of_none _ _ _ _ hf] at h1
    exact (Option.some.inj h1).symm
  · intro habs
    have hf : regexp.FindStringSubmatch text.rxParseAttributeLocalPref (text.fragmentOf pairs)
        = none :=
      text.find_rxValue_none "local-preference" "localpreference" .digit _
        (text.absent_keyword pairs hwf _ (by decide) habs _)
    rw [text.withSubmatch_of_none _ _ _ _ hf] at h8
    exact (Option.some.inj h8).symm
  · intro habs
    have hf : regexp.FindStringSubmatch text.rxParseAttributeASPath (text.fragmentOf pairs)
        = none :=
      text.find_rxBracketed_none "as-path" "aspath" _
        (text.noList_of_noValue _ _ (text.absent_keyword pairs hwf _ (by decide) habs _))
    rw [text.withSubmatch_of_none _ _ _ _ hf] at h3
    exact (Option.some.inj h3).symm
  · intro habs
    have hno := text.absent_keyword pairs hwf "community" (by decide) habs .notSpace
    have hl : regexp.FindStringSubmatch text.rxParseAttributeCommunities
        (text.fragmentOf pairs) = none :=
      text.find_rxBracketed_none "community" "communities" _ (text.noList_of_noValue _ _ hno)
    have hf : regexp.FindStringSubmatch text.rxParseAttributeCommunity (text.fragmentOf pairs)
        = none :=
      text.find_rxValue_none "community" "community" .notSpace _ hno
    rw [text.parseCommunity_of_no_list _ _ _ hl, text.withSubmatch_of_none _ _ _ _ hf] at h5
    exact (Option.some.inj h5).symm
  · intro habs
    have hno := text.absent_keyword pairs hwf "extended-community" (by decide) habs .notSpace
    have hl : regexp.FindStringSubmatch text.rxParseAttributeExtendedCommunities
        (text.fragmentOf pairs) = none :=
      text.find_rxBracketed_none "extended-community" "extendedcommunities" _
        (text.noList_of_noValue _ _ hno)
    have hf : regexp.FindStringSubmatch text.rxParseAttributeExtendedCommunity
        (text.fragmentOf pairs) = none :=
      text.find_rxValue_none "extended-community" "extendedcommunity" .notSpace _ hno
    rw [text.parseCommunity_of_no_list _ _ _ hl, text.withSubmatch_of_none _ _ _ _ hf] at h6
    exact (Option.some.inj h6).symm
  · intro habs
    have hf : regexp.FindStringSubmatch text.rxParseAttributeClusterList
        (text.fragmentOf pairs) = none :=
      text.find_rxBracketed_none "cluster-list" "clusterlist" _
        (text.noList_of_noValue _ _ (text.absent_keyword pairs hwf _ (by decide) habs _))
    rw [text.withSubmatch_of_none _ _ _ _ hf] at h4
    exact (Option.some.inj h4).symm
  · intro habs
    have hf : regexp.FindStringSubmatch text.rxParseAttributeOriginatorID
        (text.fragmentOf pairs) = none :=
      text.find_rxValue_none "originator-id" "originatorid" .notSpace _
        (text.absent_keyword pairs hwf _ (by decide) habs _)
    rw [text.withSubmatch_of_none _ _ _ _ hf] at h7
    exact (Option.some.inj h7).symm

/-- The pairs and the keywords that are absent determine the Attribute. -/
theorem text.attrs_determined (pairs : List text.Pair) (x y : text.Attribute)
    (hx : ∀ p ∈ pairs, p.sets x) (hy : ∀ p ∈ pairs, p.sets y)
    (zx : text.zeroOutside (pairs.map text.Pair.keyword) x)
    (zy : text.zeroOutside (pairs.map text.Pair.keyword) y) : x = y := by
  obtain ⟨x1, x2, x3, x4, x5, x6, x7, x8⟩ := zx
  obtain ⟨y1, y2, y3, y4, y5, y6, y7, y8⟩ := zy
  have key : ∀ kw : String, kw ∈ pairs.map text.Pair.keyword →
      ∃ p ∈ pairs, p.keyword = kw := by
    intro kw hkw
    obtain ⟨p, hp, hk⟩ := List.mem_map.mp hkw
    exact ⟨p, hp, hk⟩
  have e1 : x.Origin = y.Origin := by
    by_cases h : "origin" ∈ pairs.map text.Pair.keyword
    · obtain ⟨p, hp, hk⟩ := key _ h
      have sx := hx p hp
      have sy := hy p hp
      cases p <;> simp [text.Pair.keyword] at hk
      simp only [text.Pair.sets] at sx sy
      rw [sx, sy]
    · rw [x1 h, y1 h]
  have e2 : x.Med = y.Med := by
    by_cases h : "med" ∈ pairs.map text.Pair.keyword
    · obtain ⟨p, hp, hk⟩ := key _ h
      have sx := hx p hp
      have sy := hy p hp
      cases p <;> simp [text.Pair.keyword] at hk
      simp only [text.Pair.sets] at sx sy
      rw [sx, sy]
    · rw [x2 h, y2 h]
  have e3 : x.LocalPreference = y.LocalPreference := by
    by_cases h : "local-preference" ∈ pairs.map text.Pair.keyword
    · obtain ⟨p, hp, hk⟩ := key _ h
      have sx := hx p hp
      have sy := hy p hp
      cases p <;> simp [text.Pair.keyword] at hk
      simp only [text.Pair.sets] at sx sy
      rw [sx, sy]
    · rw [x3 h, y3 h]
  have e4 : x.ASPath = y.ASPath := by
    by_cases h : "as-path" ∈ pairs.map text.Pair.keyword
    · obtain ⟨p, hp, hk⟩ := key _ h
      have sx := hx p hp
      have sy := hy p hp
      cases p <;> simp [text.Pair.keyword] at hk
      simp only [text.Pair.sets] at sx sy
      rw [sx, sy]
    · rw [x4 h, y4 h]
  have e5 : x.Community = y.Community := by
    by_cases h : "community" ∈ pairs.map text.Pair.keyword
    · obtain ⟨p, hp, hk⟩ := key _ h
      have sx := hx p hp
      have sy := hy p hp
      cases p <;> simp [text.Pair.keyword] at hk <;> simp only [text.Pair.sets] at sx sy <;>
        rw [sx, sy]
    · rw [x5 h, y5 h]
  have e6 : x.ExtendedCommunity = y.ExtendedCommunity := by
    by_cases h : "extended-community" ∈ pairs.map text.Pair.keyword
    · obtain ⟨p, hp, hk⟩ := key _ h
      have sx := hx p hp
      have sy := hy p hp
      cases p <;> simp [text.Pair.keyword] at hk <;> simp only [text.Pair.sets] at sx sy <;>
        rw [sx, sy]
    · rw [x6 h, y6 h]
  have e7 : x.ClusterList = y.ClusterList := by
    by_cases h : "cluster-list" ∈ pairs.map text.Pair.keyword
    · obtain ⟨p, hp, hk⟩ := key _ h
      have sx := hx p hp
      have sy := hy p hp
      cases p <;> simp [text.Pair.keyword] at hk
      simp only [text.Pair.sets] at sx sy
      rw [sx, sy]
    · rw [x7 h, y7 h]
  have e8 : x.OriginatorID = y.OriginatorID := by
    by_cases h : "originator-id" ∈ pairs.map text.Pair.keyword
    · obtain ⟨p, hp, hk⟩ := key _ h
      have sx := hx p hp
      have sy := hy p hp
      cases p <;> simp [text.Pair.keyword] at hk
      simp only [text.Pair.sets] at sx sy
      rw [sx, sy]
    · rw [x8 h, y8 h]
  cases x
  cases y
  simp only at e1 e2 e3 e4 e5 e6 e7 e8
  simp only [text.Attribute.mk.injEq]
  exact ⟨e2, e6, e5, e4, e8, e3, e1, e7⟩

/-- Claim C28: for every attribute fragment built from well-formed
keyword/value pairs (origin, med, local-preference, as-path [ ... ], community,
extended-community, cluster-list [ ... ], originator-id), each keyword at most
once, separated by single spaces, with no value token equal to a keyword,
`parseAttributes` returns the Attribute whose every field equals the value of
its pair (and is zero when no pair has its keyword), and this result is the
same for every ordering of the pairs. -/
theorem text.parseAttributes_of_pairs (pairs : List text.Pair)
    (hwf : ∀ p ∈ pairs, p.wellFormed) (hnd : (pairs.map text.Pair.keyword).Nodup) :
    ∃ attrs, text.parseAttributes (text.fragmentOf pairs) = some attrs
      ∧ (∀ p ∈ pairs, p.sets attrs)
      ∧ text.zeroOutside (pairs.map text.Pair.keyword) attrs
      ∧ ∀ pairs2 : List text.Pair, pairs2.Perm pairs →
          text.parseAttributes (text.fragmentOf pairs2) = some attrs := by
  obtain ⟨attrs, h0, h1, h2⟩ := text.pairs_result pairs hwf hnd
  refine ⟨attrs, h0, h1, h2, ?_⟩
  intro pairs2 hperm
  have hwf2 : ∀ p ∈ pairs2, p.wellFormed := fun p hp => hwf p (hperm.mem_iff.mp hp)
  have hkeys := hperm.map text.Pair.keyword
  have hnd2 : (pairs2.map text.Pair.keyword).Nodup := hkeys.nodup_iff.mpr hnd
  obtain ⟨attrs2, g0, g1, g2⟩ := text.pairs_result pairs2 hwf2 hnd2
  have g1a : ∀ p ∈ pairs, p.sets attrs2 := fun p hp => g1 p (hperm.mem_iff.mpr hp)
  have g2a : text.zeroOutside (pairs.map text.Pair.keyword) attrs2 := by
    unfold text.zeroOutside at g2 ⊢
    simp only [hkeys.mem_iff] at g2
    exact g2
  rw [g0, text.attrs_determined pairs attrs2 attrs g1a h1 g2a h2]

set_option maxRecDepth 100000 in
theorem text.parseAttributes_of_pairs_witness :
    (∀ p ∈ [text.Pair.origin "igp", .asPath ["64496", "64497"], .med "100",
        .localPreference "200", .communities ["54591:123", "64512:1"],
        .extendedCommunity "target:1:2", .originatorID "1.1.1.1",
        .clusterList ["2.2.2.2", "3.3.3.3"]], p.wellFormed)
    ∧ ([text.Pair.origin "igp", .asPath ["64496", "64497"], .med "100",
        .localPreference "200", .communities ["54591:123", "64512:1"],
        .extendedCommunity "target:1:2", .originatorID "1.1.1.1",
        .clusterList ["2.2.2.2", "3.3.3.3"]].map text.Pair.keyword).Nodup
    ∧ text.fragmentOf [text.Pair.origin "igp", .asPath ["64496", "64497"], .med "100",
        .localPreference "200", .communities ["54591:123", "64512:1"],
        .extendedCommunity "target:1:2", .originatorID "1.1.1.1",
        .clusterList ["2.2.2.2", "3.3.3.3"]]
      = "origin igp as-path [ 64496 64497 ] med 100 local-preference 200 community [ 54591:123 64512:1 ] extended-community target:1:2 originator-id 1.1.1.1 cluster-list [ 2.2.2.2 3.3.3.3 ]"
    ∧ ∃ attrs, text.parseAttributes (text.fragmentOf [text.Pair.origin "igp",
          .asPath ["64496", "64497"], .med "100",
          .localPreference "200", .communities ["54591:123", "64512:1"],
          .extendedCommunity "target:1:2", .originatorID "1.1.1.1",
          .clusterList ["2.2.2.2", "3.3.3.3"]]) = some attrs
      ∧ attrs.Origin = "igp" ∧ attrs.ASPath = [64496, 64497] ∧ attrs.Med = 100 :=
  ⟨by decide, by decide, by decide,
    match text.parseAttributes_of_pairs [text.Pair.origin "igp", .asPath ["64496", "64497"],
        .med "100", .localPreference "200", .communities ["54591:123", "64512:1"],
        .extendedCommunity "target:1:2", .originatorID "1.1.1.1",
        .clusterList ["2.2.2.2", "3.3.3.3"]] (by decide) (by decide) with
    | ⟨attrs, h0, h1, _⟩ =>
      ⟨attrs, h0, h1 (.origin "igp") (by decide), h1 (.asPath ["64496", "64497"]) (by decide),
        h1 (.med "100") (by decide)⟩⟩

/-! ## One unicast withdrawal block per family -/

/-- Claim C32: every update accepted by `parseUpdateMessage` yields exactly one
`IPv4Unicast` and exactly one `IPv6Unicast` withdrawal block, each with the
attributes of the update; when the payload has no withdraw entries for the
family (as in an announce-only update) the block is there all the same, with
an empty NLRI list. -/
theorem parseUpdateMessage_one_unicast_withdrawal_block (u : messages.UpdateMessageFull)
    (ra : Announcements) (rw : Withdrawals)
    (h : parseUpdateMessage u = (some ra, some rw, none)) :
    (∃ b, rw.IPv4Unicast = [b] ∧ b.Attributes = u.Attribute
        ∧ (u.Withdraw.IPv4Unicast = [] → b.NLRI = []))
    ∧ (∃ b, rw.IPv6Unicast = [b] ∧ b.Attributes = u.Attribute
        ∧ (u.Withdraw.IPv6Unicast = [] → b.NLRI = [])) := by
  obtain ⟨_, _, _, _, ⟨ws4, h4, hb4⟩, ⟨ws6, h6, hb6⟩, _, _⟩ :=
    parseUpdateMessage_accepted u ra rw h
  refine ⟨⟨_, hb4, rfl, ?_⟩, ⟨_, hb6, rfl, ?_⟩⟩
  · intro he
    rw [he] at h4
    exact (Except.ok.inj h4).symm
  · intro he
    rw [he] at h6
    exact (Except.ok.inj h6).symm

theorem parseUpdateMessage_one_unicast_withdrawal_block_witness :
    parseUpdateMessage announceOnlyUpdate
        = (some sampleAnnouncements, some announceOnlyWithdrawals, none)
    ∧ announceOnlyUpdate.Withdraw.IPv4Unicast = []
    ∧ announceOnlyUpdate.Withdraw.IPv6Unicast = []
    ∧ (∃ b, announceOnlyWithdrawals.IPv4Unicast = [b]
        ∧ b.Attributes = announceOnlyUpdate.Attribute ∧ b.NLRI = [])
    ∧ (∃ b, announceOnlyWithdrawals.IPv6Unicast = [b]
        ∧ b.Attributes = announceOnlyUpdate.Attribute ∧ b.NLRI = []) :=
  ⟨rfl, rfl, rfl,
    (match parseUpdateMessage_one_unicast_withdrawal_block announceOnlyUpdate
        sampleAnnouncements announceOnlyWithdrawals rfl with
    | ⟨⟨b, h1, h2, h3⟩, _⟩ => ⟨b, h1, h2, h3 rfl⟩),
    (match parseUpdateMessage_one_unicast_withdrawal_block announceOnlyUpdate
        sampleAnnouncements announceOnlyWithdrawals rfl with
    | ⟨_, ⟨b, h1, h2, h3⟩⟩ => ⟨b, h1, h2, h3 rfl⟩)⟩

/-! ## Package `text`: the parsers return -/

/-- Claim C33: `parseAttributes`, `parseUnicastLine` and `parseRIBLine` are
total: for every input string each returns a result, none of their index
expressions being out of range; the reason is that the submatch list of a
match has one entry for the whole match and one for every capture group of the
pattern, as many as `SubexpNames` has names. -/
theorem text.parsers_are_total (s : String) :
    (∃ attrs, text.parseAttributes s = some attrs)
    ∧ (∃ r, text.parseUnicastLine s = some r)
    ∧ (∃ r, text.parseRIBLine s = some r)
    ∧ (∀ re sub, regexp.FindStringSubmatch re s = some sub →
        sub.length = (regexp.SubexpNames re).length
        ∧ sub.length = 1 + (regexp.groupNames re).length) := by
  have hlen : ∀ re sub, regexp.FindStringSubmatch re s = some sub →
      sub.length = (regexp.SubexpNames re).length
      ∧ sub.length = 1 + (regexp.groupNames re).length := by
    intro re sub hf
    have h := regexp.FindStringSubmatch_length re s sub hf
    refine ⟨?_, h⟩
    rw [h, regexp.SubexpNames, List.length_cons]
    omega
  refine ⟨text.parseAttributes_total s, ?_, ?_, hlen⟩
  · cases hf : regexp.FindStringSubmatch text.rxParseUnicast s with
    | none => exact ⟨([], some .unableToParseLine), by simp [text.parseUnicastLine, hf]⟩
    | some sub =>
      obtain ⟨md, hmd⟩ := text.fillNames_total sub (regexp.SubexpNames text.rxParseUnicast) 0 []
        (by rw [(hlen _ _ hf).1]; omega)
      exact ⟨(md, none), by simp [text.parseUnicastLine, hf, hmd]⟩
  · cases hf : regexp.FindStringSubmatch text.rxParseRIBLine s with
    | none => exact ⟨([], some .unableToParseLine), by simp [text.parseRIBLine, hf]⟩
    | some sub =>
      obtain ⟨md, hmd⟩ := text.fillNames_total sub (regexp.SubexpNames text.rxParseRIBLine) 0 []
        (by rw [(hlen _ _ hf).1]; omega)
      exact ⟨(md, none), by simp [text.parseRIBLine, hf, hmd]⟩

set_option maxRecDepth 100000 in
theorem text.parsers_are_total_witness :
    regexp.FindStringSubmatch text.rxParseUnicast "10.0.0.0/8 next-hop 1.2.3.4 med 5"
        = some ["10.0.0.0/8 next-hop 1.2.3.4 med 5", "10.0.0.0/8", "1.2.3.4", " med 5", "med 5"]
    ∧ ["10.0.0.0/8 next-hop 1.2.3.4 med 5", "10.0.0.0/8", "1.2.3.4", " med 5", "med 5"].length
        = (regexp.SubexpNames text.rxParseUnicast).length :=
  ⟨by decide,
    ((text.parsers_are_total "10.0.0.0/8 next-hop 1.2.3.4 med 5").2.2.2 text.rxParseUnicast
      ["10.0.0.0/8 next-hop 1.2.3.4 med 5", "10.0.0.0/8", "1.2.3.4", " med 5", "med 5"]
      (by decide)).1⟩

/-! ## Package `text`: the community patterns do not cross-match -/

theorem text.parseCommunity_of_noValue (kw nameL nameO : String) (a : String)
    (h : text.noValue kw .notSpace a) :
    text.parseCommunity (text.rxBracketed kw nameL) (text.rxValue kw nameO .notSpace) a
      = some [] := by
  have hl : regexp.FindStringSubmatch (text.rxBracketed kw nameL) a = none :=
    text.find_rxBracketed_none kw nameL a (text.noList_of_noValue _ a h)
  have hf : regexp.FindStringSubmatch (text.rxValue kw nameO .notSpace) a = none :=
    text.find_rxValue_none kw nameO .notSpace a h
  rw [text.parseCommunity_of_no_list _ _ _ hl, text.withSubmatch_of_none _ _ _ _ hf]

/-- A fragment of tokens none of which is the keyword holds no value of the
keyword. -/
theorem text.noValue_of_not_mem (kw : String) (hkw : text.isToken kw) (toks : List String)
    (hall : ∀ t ∈ toks, text.isToken t) (h : kw ∉ toks) (c : regexp.Class) :
    text.noValue kw c (text.joinTokens toks) := by
  intro j _ hocc
  obtain ⟨rest1, h1, _, _, h4, _⟩ := text.split_of_valueAt _ _ _ _ hocc
  obtain ⟨l, r, g1, _, _, _⟩ := text.token_occurrence kw hkw toks hall _ rest1 h1 h4
  apply h
  rw [g1]
  simp

set_option maxRecDepth 100000 in
/-- Claim C35, refuted as stated: the fragment
"extended-community [ community b ]" is one pair, a bracketed
extended-community list, and `Community` is not empty: the bare community
pattern matches the token "community" of the list and takes the token after
it.  Likewise the one pair "community [ extended-community x ]" gives a
non-empty `ExtendedCommunity`. -/
theorem text.community_cross_match_counterexample :
    text.fragmentOf [.extendedCommunities ["community", "b"]]
        = "extended-community [ community b ]"
    ∧ text.parseAttributes "extended-community [ community b ]"
        = some { ExtendedCommunity := ["community", "b"], Community := ["b"] }
    ∧ ¬ (∃ attrs, text.parseAttributes "extended-community [ community b ]" = some attrs
          ∧ attrs.Community = [])
    ∧ text.fragmentOf [.communities ["extended-community", "x"]]
        = "community [ extended-community x ]"
    ∧ text.parseAttributes "community [ extended-community x ]"
        = some { Community := ["extended-community", "x"], ExtendedCommunity := ["x"] }
    ∧ ¬ (∃ attrs, text.parseAttributes "community [ extended-community x ]" = some attrs
          ∧ attrs.ExtendedCommunity = []) := by
  have h1 : text.parseAttributes "extended-community [ community b ]"
      = some { ExtendedCommunity := ["community", "b"], Community := ["b"] } := by decide
  have h2 : text.parseAttributes "community [ extended-community x ]"
      = some { Community := ["extended-community", "x"], ExtendedCommunity := ["x"] } := by
    decide
  refine ⟨by decide, h1, ?_, by decide, h2, ?_⟩
  · rintro ⟨attrs, hattrs, hc⟩
    rw [h1] at hattrs
    rw [← Option.some.inj hattrs] at hc
    exact absurd hc (by decide)
  · rintro ⟨attrs, hattrs, hc⟩
    rw [h2] at hattrs
    rw [← Option.some.inj hattrs] at hc
    exact absurd hc (by decide)

/-- Claim C35, as amended: the community and extended-community extractors
do not cross-match on the keywords.  For every fragment of whitespace-free
tokens separated by single spaces, `parseAttributes` returns, and `Community`
is empty when no token is the word `community` (so when the only
community-like pair of the fragment is "extended-community X", bare or
bracketed, and no token of X is the word `community`), and
`ExtendedCommunity` is empty when no token is the word `extended-community`
(so when the only such pair is "community X" and no token of X is the word
`extended-community`). -/
theorem text.community_extractors_do_not_cross_match (toks : List String)
    (hall : ∀ t ∈ toks, text.isToken t) :
    ∃ attrs, text.parseAttributes (text.joinTokens toks) = some attrs
      ∧ ("community" ∉ toks → attrs.Community = [])
      ∧ ("extended-community" ∉ toks → attrs.ExtendedCommunity = []) := by
  obtain ⟨attrs, h0, _, _, _, _, h5, h6, _, _⟩ :=
    text.parseAttributes_fields (text.joinTokens toks)
  refine ⟨attrs, h0, ?_, ?_⟩
  · intro hno
    have hc : text.parseCommunity text.rxParseAttributeCommunities
        text.rxParseAttributeCommunity (text.joinTokens toks) = some [] :=
      text.parseCommunity_of_noValue "community" "communities" "community" _
        (text.noValue_of_not_mem "community" (by decide) toks hall hno .notSpace)
    rw [hc] at h5
    exact (Option.some.inj h5).symm
  · intro hno
    have hc : text.parseCommunity text.rxParseAttributeExtendedCommunities
        text.rxParseAttributeExtendedCommunity (text.joinTokens toks) = some [] :=
      text.parseCommunity_of_noValue "extended-community" "extendedcommunities"
        "extendedcommunity" _
        (text.noValue_of_not_mem "extended-community" (by decide) toks hall hno .notSpace)
    rw [hc] at h6
    exact (Option.some.inj h6).symm

set_option maxRecDepth 100000 in
theorem text.community_extractors_do_not_cross_match_witness :
    text.joinTokens ["med", "5", "extended-community", "[", "target:1:2", "origin:3:4", "]"]
        = "med 5 extended-community [ target:1:2 origin:3:4 ]"
    ∧ text.parseAttributes "med 5 extended-community [ target:1:2 origin:3:4 ]"
        = some { Med := 5, ExtendedCommunity := ["target:1:2", "origin:3:4"] }
    ∧ (∃ attrs, text.parseAttributes (text.joinTokens
          ["med", "5", "extended-community", "[", "target:1:2", "origin:3:4", "]"]) = some attrs
        ∧ attrs.Community = [])
    ∧ (∃ attrs, text.parseAttributes (text.joinTokens ["extended-community", "target:1:2"])
          = some attrs ∧ attrs.Community = [])
    ∧ text.parseAttributes "community 1:2 origin igp"
        = some { Community := ["1:2"], Origin := "igp" }
    ∧ (∃ attrs, text.parseAttributes (text.joinTokens ["community", "1:2", "origin", "igp"])
          = some attrs ∧ attrs.ExtendedCommunity = []) :=
  ⟨by decide, by decide,
    (match text.community_extractors_do_not_cross_match
        ["med", "5", "extended-community", "[", "target:1:2", "origin:3:4", "]"]
        (by decide) with
    | ⟨attrs, h0, h1, _⟩ => ⟨attrs, h0, h1 (by decide)⟩),
    (match text.community_extractors_do_not_cross_match ["extended-community", "target:1:2"]
        (by decide) with
    | ⟨attrs, h0, h1, _⟩ => ⟨attrs, h0, h1 (by decide)⟩),
    by decide,
    (match text.community_extractors_do_not_cross_match ["community", "1:2", "origin", "igp"]
        (by decide) with
    | ⟨attrs, h0, _, h2⟩ => ⟨attrs, h0, h2 (by decide)⟩)⟩

/-! ## Package `text`: the numbers of an as-path list -/

theorem text.parseASPath_filterMap (v : String) :
    text.parseASPath v = (strings.Split v).filterMap strconv.ParseInt := by
  have hfold : ∀ (f : List Int → String → List Int),
      (∀ acc n, f acc n = acc ++ (strconv.ParseInt n).toList) →
      ∀ (l : List String) (acc : List Int),
        l.foldl f acc = acc ++ l.filterMap strconv.ParseInt := by
    intro f hf l
    induction l with
    | nil => intro acc; simp
    | cons n l ih =>
      intro acc
      rw [List.foldl_cons, hf acc n, ih]
      cases hp : strconv.ParseInt n with
      | none => simp [List.filterMap_cons, hp]
      | some x => simp [List.filterMap_cons, hp]
  unfold text.parseASPath
  rw [hfold _ _ (strings.Split v) []]
  · simp
  · intro acc n
    cases hp : strconv.ParseInt n with
    | none => simp
    | some x => simp

theorem text.filterMap_eq_nil_of_none {X Y : Type} (f : X → Option Y) (xs : List X)
    (h : ∀ x ∈ xs, f x = none) : xs.filterMap f = [] := by
  induction xs with
  | nil => rfl
  | cons x rest ih =>
    rw [List.filterMap_cons, h x (List.mem_cons_self _ _)]
    exact ih (fun y hy => h y (List.mem_cons_of_mem _ hy))

set_option maxRecDepth 100000 in
/-- Claim C31, refuted as stated: the fragment "as-path [ 1 ] as-path [ 2 3 ]"
contains "as-path [ 2 3 ]", whose tokens both parse, and `ASPath` is the list
of 1, the number of the first list, not the list of 2 and 3; and in
"as-path [ 1 2] 3 ]" the tokens 1 and 3 parse and the token "2]" does not, yet
`ASPath` is empty instead of the list of 1 and 3, because the group of the
pattern cannot hold a closing bracket; and "xas-path [ 2 3 ]" contains
"as-path [ 2 3 ]" after a letter, where the pattern does not match, and
`ASPath` is empty. -/
theorem text.asPath_contained_list_counterexample :
    text.parseAttributes "as-path [ 1 ] as-path [ 2 3 ]" = some { ASPath := [1] }
    ∧ "as-path [ 1 ] as-path [ 2 3 ]".data
        = "as-path [ 1 ] ".data
          ++ ("as-path [ ".data ++ ((text.joinTokens ["2", "3"]).data ++ " ]".data))
    ∧ text.atBoundary "as-path [ 1 ] ".data = true
    ∧ ["2", "3"].filterMap strconv.ParseInt = [2, 3]
    ∧ ¬ (∃ attrs, text.parseAttributes "as-path [ 1 ] as-path [ 2 3 ]" = some attrs
          ∧ attrs.ASPath = [2, 3])
    ∧ text.parseAttributes "as-path [ 1 2] 3 ]" = some { ASPath := [] }
    ∧ "as-path [ 1 2] 3 ]" = "as-path [ " ++ text.joinTokens ["1", "2]", "3"] ++ " ]"
    ∧ ["1", "2]", "3"].filterMap strconv.ParseInt = [1, 3]
    ∧ text.parseAttributes "xas-path [ 2 3 ]" = some { ASPath := [] } := by
  have h : text.parseAttributes "as-path [ 1 ] as-path [ 2 3 ]" = some { ASPath := [1] } := by
    decide
  refine ⟨h, by decide, by decide, by decide, ?_, by decide, by decide, by decide, by decide⟩
  rintro ⟨attrs, hattrs, hc⟩
  rw [h] at hattrs
  rw [← Option.some.inj hattrs] at hc
  exact absurd hc (by decide)

/-- Claim C31, as amended: for every attribute fragment whose first bracketed
as-path list (keyword at the start or after whitespace) is
"as-path [ t1 ... tk ]" (k >= 1, tokens without whitespace and without a
closing bracket, separated by single spaces), `ASPath` is the in-order list of
the values of exactly those tokens that parse as decimal 64-bit integers,
duplicates kept: a token that does not parse is dropped, the others are
retained, and if none parses `ASPath` is empty. -/
theorem text.asPath_of_first_list (a : String) :
    ∃ attrs, text.parseAttributes a = some attrs
      ∧ ∀ (pre : List Char) (ts : List String) (post : List Char),
          a.data = pre ++ ("as-path [ ".data
            ++ ((text.joinTokens ts).data ++ (" ]".data ++ post))) →
          text.atBoundary pre = true → ts ≠ [] → (∀ t ∈ ts, text.isListToken t) →
          (∀ j, j < pre.length → ¬ text.listAt "as-path" a.data j) →
          attrs.ASPath = ts.filterMap strconv.ParseInt
          ∧ ((∀ t ∈ ts, strconv.ParseInt t = none) → attrs.ASPath = []) := by
  obtain ⟨attrs, h0, _, _, h3, _, _, _, _, _⟩ := text.parseAttributes_fields a
  refine ⟨attrs, h0, ?_⟩
  intro pre ts post ha hb hne hall hfirst
  obtain ⟨g1, g2, g3⟩ := text.joinTokens_body ts hne hall
  obtain ⟨whole, hf⟩ := text.find_rxBracketed_first "as-path" "aspath" a pre _ post (by decide)
    ha hb g1 g2 hfirst
  have hf1 : regexp.FindStringSubmatch text.rxParseAttributeASPath a
      = some [whole, text.joinTokens ts] := hf
  rw [text.withSubmatch_of_find _ _ _ _ whole _ hf1, text.parseASPath_filterMap, g3] at h3
  have hval : attrs.ASPath = ts.filterMap strconv.ParseInt := (Option.some.inj h3).symm
  refine ⟨hval, ?_⟩
  intro hnone
  rw [hval]
  exact text.filterMap_eq_nil_of_none _ _ hnone

set_option maxRecDepth 100000 in
theorem text.asPath_of_first_list_witness :
    "origin igp as-path [ 64496 x 64496 99999999999999999999 -3 ] med 5".data
        = "origin igp ".data ++ ("as-path [ ".data
            ++ ((text.joinTokens ["64496", "x", "64496", "99999999999999999999", "-3"]).data
              ++ (" ]".data ++ " med 5".data)))
    ∧ (∀ t ∈ ["64496", "x", "64496", "99999999999999999999", "-3"], text.isListToken t)
    ∧ ["64496", "x", "64496", "99999999999999999999", "-3"].filterMap strconv.ParseInt
        = [64496, 64496, -3]
    ∧ (∃ attrs, text.parseAttributes
          "origin igp as-path [ 64496 x 64496 99999999999999999999 -3 ] med 5" = some attrs
        ∧ attrs.ASPath
          = ["64496", "x", "64496", "99999999999999999999", "-3"].filterMap strconv.ParseInt)
    ∧ (∀ t ∈ ["x", "1.5"], strconv.ParseInt t = none)
    ∧ (∃ attrs, text.parseAttributes "as-path [ x 1.5 ]" = some attrs ∧ attrs.ASPath = []) :=
  ⟨by decide, by decide, by decide,
    (match text.asPath_of_first_list
        "origin igp as-path [ 64496 x 64496 99999999999999999999 -3 ] med 5" with
    | ⟨attrs, h0, h1⟩ =>
      ⟨attrs, h0, (h1 "origin igp ".data ["64496", "x", "64496", "99999999999999999999", "-3"]
        " med 5".data (by decide) (by decide) (by decide) (by decide) (by decide)).1⟩),
    by decide,
    (match text.asPath_of_first_list "as-path [ x 1.5 ]" with
    | ⟨attrs, h0, h1⟩ =>
      ⟨attrs, h0, (h1 [] ["x", "1.5"] [] (by decide) (by decide) (by decide) (by decide)
        (by decide)).2 (by decide)⟩)⟩

/-! ## Package `exporter`: entries without a projection -/

set_option maxRecDepth 100000 in
/-- Claim C34, which the code does not meet: a line whose details lack the
" next-hop " part is accepted by `RibEntryFromString` (and by `RibFromBytes`)
with the family "ipv4 unicast", yet `IPv4Unicast()` returns a nil entry and the
error "unable to parse line"; the collector discards the error and
dereferences the nil entry, which panics.  The same holds for "ipv6 unicast"
and `IPv6Unicast()`.  For details with a next hop the collector sends the
metric. -/
theorem exporter.collect_dereferences_nil_entry :
    text.RibEntryFromString (text.sampleLine "192.168.88.248/29")
        = some (some (text.sampleMessage "192.168.88.248/29"), none)
    ∧ text.RibFromBytes (text.sampleLine "192.168.88.248/29" ++ "\n")
        = some ([some (text.sampleMessage "192.168.88.248/29")], none)
    ∧ (text.sampleMessage "192.168.88.248/29").Family = "ipv4 unicast"
    ∧ (text.sampleMessage "192.168.88.248/29").IPv4Unicast
        = some (none, some .unableToParseLine)
    ∧ exporter.collectRib (text.sampleMessage "192.168.88.248/29") = none
    ∧ text.RibEntryFromString (text.sampleLine6 "2001:db8::/32")
        = some (some (text.sampleMessage6 "2001:db8::/32"), none)
    ∧ (text.sampleMessage6 "2001:db8::/32").Family = "ipv6 unicast"
    ∧ (text.sampleMessage6 "2001:db8::/32").IPv6Unicast
        = some (none, some .unableToParseLine)
    ∧ exporter.collectRib (text.sampleMessage6 "2001:db8::/32") = none
    ∧ exporter.collectRib
        (text.sampleMessage "192.168.88.248/29 next-hop 10.0.0.1 med 5 as-path [ 64496 64497 ]")
        = some (some ["a", "2", "b", "1", "192.168.88.248/29", "ipv4 unicast", "5", "0",
            "64496 64497", ""]) := by
  refine ⟨by decide, by decide, by decide, by decide, by decide, by decide, by decide,
    by decide, by decide, by decide⟩

end exabgp
